import Mathlib

/-!
Synthetic trace events: schema definition and record layout.

A shallow embedding of `kernel/trace/trace_events_synth.c`, followed by the
address translation of `include/linux/dma-direct.h` and the size adjustment
of `drivers/spi/spi-mtk-nor.c`.

* C strings are lists of characters (the bytes before the terminating NUL).
* Pointers into a string are indices into that list.
* `int` results are `Int`; error returns are the negated errno values.
* Constants and type sizes that come from headers which are not part of the
  sources at hand are fields of `Config`.
* Allocation requests consume one entry of an outcome list, so that the
  `-ENOMEM` paths of the code are part of the model.
-/

namespace SynthEvents

/-! ## C strings and the library helpers the file calls -/

/-- A C string: the characters before the terminating NUL. -/
abbrev CStr := List Char

def EINVAL : Int := 22
def ENOMEM : Int := 12
def EEXIST : Int := 17
def ENOENT : Int := 2
def EBUSY : Int := 16
def ENODEV : Int := 19
def ERANGE : Int := 34

/-- Values taken from headers outside the sources at hand (`trace.h`,
`trace_synth.h`, the ABI): the string block size, the field limit,
`sizeof(long)`, `offsetof(struct synth_trace_event, fields)` and
`sizeof(struct synth_trace_event)`. -/
structure Config where
  STR_VAR_LEN_MAX : Nat
  SYNTH_FIELDS_MAX : Nat
  sizeof_long : Nat
  offsetof_fields : Nat
  sizeof_entry : Nat
  deriving Repr, DecidableEq

/-- The values of a 64-bit kernel build: 32-byte string blocks, 32 fields,
8-byte `long`, an 8-byte `struct trace_entry` header. -/
def linux64 : Config :=
  { STR_VAR_LEN_MAX := 32, SYNTH_FIELDS_MAX := 32, sizeof_long := 8,
    offsetof_fields := 8, sizeof_entry := 8 }

/-- Modelled from the spec: `strcmp` (lib/string.c) is not among the sources;
it has its C meaning, comparing byte by byte and returning 0, -1 or 1. -/
def strcmp : CStr → CStr → Int
  | [], [] => 0
  | [], _ :: _ => -1
  | _ :: _, [] => 1
  | a :: as, b :: bs =>
    if a = b then strcmp as bs else if a.toNat < b.toNat then -1 else 1

/-- Modelled from the spec: `strlen` with its C meaning. -/
def strlen (s : CStr) : Nat := s.length

/-- Modelled from the spec: `str_has_prefix` (include/linux/string.h) is not
among the sources; it returns `strlen(pre)` when `str` starts with `pre` and 0
otherwise. -/
def str_has_prefix (str pre : CStr) : Nat :=
  if pre.isPrefixOf str then strlen pre else 0

/-- Search for `needle` in `hay`, where `hay` starts at index `i` of the
original string. -/
def strstr_from (needle : CStr) : CStr → Nat → Option Nat
  | [], i => if needle.isEmpty then some i else none
  | c :: cs, i =>
    if needle.isPrefixOf (c :: cs) then some i else strstr_from needle cs (i + 1)

/-- Modelled from the spec: `strstr` (lib/string.c) is not among the sources;
it returns the position of the first occurrence of `needle` in `hay`, or
`none` for NULL. -/
def strstr (hay needle : CStr) : Option Nat := strstr_from needle hay 0

/-- Search for the character `ch` in `s`, where `s` starts at index `i` of
the original string. -/
def strchr_from (ch : Char) : CStr → Nat → Option Nat
  | [], _ => none
  | c :: cs, i => if c = ch then some i else strchr_from ch cs (i + 1)

/-- Modelled from the spec: `strchr` (lib/string.c) is not among the sources;
it returns the position of the first occurrence of `ch` (not NUL) in `s`, or
`none` for NULL. -/
def strchr (s : CStr) (ch : Char) : Option Nat := strchr_from ch s 0

/-- The character `s[i]` of a NUL-terminated string; the terminator is NUL. -/
def charAt (s : CStr) (i : Nat) : Char := s.getD i (Char.ofNat 0)

/-- The byte `s[i]` of a NUL-terminated string; the terminator is 0. -/
def byteAt (s : CStr) (i : Nat) : Nat := (charAt s i).toNat

/-- The kernel's `_tolower`: set bit 0x20. -/
def _tolower (c : Nat) : Nat := c ||| 0x20

/-- The C `isxdigit` on a byte. -/
def isxdigit (c : Nat) : Bool :=
  (48 ≤ c && c ≤ 57) || (97 ≤ c && c ≤ 102) || (65 ≤ c && c ≤ 70)

/-- Modelled from the spec: `_parse_integer_fixup_radix` (lib/kstrtox.c) is
not among the sources. With base 0 a leading "0x" followed by a hex digit
selects 16, another leading "0" selects 8, anything else 10; a "0x" is then
skipped for base 16. Returns the rest of the string and the base. -/
def _parse_integer_fixup_radix (s : CStr) (base : Nat) : CStr × Nat :=
  let base :=
    if base = 0 then
      if byteAt s 0 = 48 then
        if _tolower (byteAt s 1) = 120 && isxdigit (byteAt s 2) then 16 else 8
      else 10
    else base
  if base = 16 && byteAt s 0 = 48 && _tolower (byteAt s 1) = 120 then
    (s.drop 2, base)
  else (s, base)

/-- Modelled from the spec: `_parse_integer` (lib/kstrtox.c) is not among the
sources. It reads digits valid for `base`, accumulating modulo 2^64, and
returns the value, the number of characters read and whether the value
overflowed 64 bits. -/
def _parse_integer (base : Nat) : CStr → Nat → Nat → Bool → Nat × Nat × Bool
  | [], res, rv, ovf => (res, rv, ovf)
  | ch :: cs, res, rv, ovf =>
    let c := ch.toNat
    let lc := c ||| 0x20
    if 48 ≤ c ∧ c ≤ 57 then
      let val := c - 48
      if val ≥ base then (res, rv, ovf)
      else _parse_integer base cs ((res * base + val) % 2 ^ 64) (rv + 1)
        (ovf || decide (res * base + val ≥ 2 ^ 64))
    else if 97 ≤ lc ∧ lc ≤ 102 then
      let val := lc - 97 + 10
      if val ≥ base then (res, rv, ovf)
      else _parse_integer base cs ((res * base + val) % 2 ^ 64) (rv + 1)
        (ovf || decide (res * base + val ≥ 2 ^ 64))
    else (res, rv, ovf)

/-- Modelled from the spec: `kstrtouint` (lib/kstrtox.c) is not among the
sources. One leading '+' is allowed, the base is fixed up, at least one digit
must be read, one trailing newline is allowed and nothing else may follow;
the value must fit 32 bits. The result is the error code (negative) or the
value stored through the pointer. -/
def kstrtouint (s : CStr) (base : Nat) : Except Int Nat :=
  let s := if byteAt s 0 = 43 then s.drop 1 else s
  let (s, base) := _parse_integer_fixup_radix s base
  let (res, rv, ovf) := _parse_integer base s 0 0 false
  if ovf then .error (-ERANGE)
  else if rv = 0 then .error (-EINVAL)
  else
    let s := s.drop rv
    let s := if byteAt s 0 = 10 then s.drop 1 else s
    if byteAt s 0 ≠ 0 then .error (-EINVAL)
    else if res ≥ 2 ^ 32 then .error (-ERANGE)
    else .ok res

/-- An unsigned 32-bit value read back as an `int`. -/
def toInt32 (n : Nat) : Int :=
  if n % 2 ^ 32 < 2 ^ 31 then (n % 2 ^ 32 : Nat) else (n % 2 ^ 32 : Nat) - 2 ^ 32

/-! ## Type catalog -/

/-- The code of `synth_field_signed`. -/
def synth_field_signed (type : CStr) : Bool :=
  if str_has_prefix type "u".toList ≠ 0 then false
  else if strcmp type "gfp_t".toList = 0 then false
  else true

/-- The code of `synth_field_is_string`. -/
def synth_field_is_string (type : CStr) : Bool :=
  if (strstr type "char[".toList).isSome then true else false

/-- The code of `synth_field_string_size`: the capacity written between
"char[" and the first ']' of the type, or a negative error code. -/
def synth_field_string_size (cfg : Config) (type : CStr) : Int :=
  match strstr type "char[".toList with
  | none => -EINVAL
  | some s =>
    let start := s + 5
    match strchr type ']' with
    | none => -EINVAL
    | some e =>
      if e < start then -EINVAL
      else
        let len := e - start
        if len > 3 then -EINVAL
        else
          let buf := (type.drop start).take len
          match kstrtouint buf 0 with
          | .error err => err
          | .ok size =>
            if toInt32 size > cfg.STR_VAR_LEN_MAX then -EINVAL else toInt32 size

/-- Modelled from the spec: the typedefs `pid_t` and `gfp_t`
(include/linux/types.h) are not among the sources; both are 32-bit integer
types (`int`, `unsigned int`), the 4-byte process id and flags types of the
catalog. -/
def sizeof_pid_t : Nat := 4

/-- Modelled from the spec: see `sizeof_pid_t`. -/
def sizeof_gfp_t : Nat := 4

/-- The code of `synth_field_size`. -/
def synth_field_size (cfg : Config) (type : CStr) : Int :=
  if strcmp type "s64".toList = 0 then 8
  else if strcmp type "u64".toList = 0 then 8
  else if strcmp type "s32".toList = 0 then 4
  else if strcmp type "u32".toList = 0 then 4
  else if strcmp type "s16".toList = 0 then 2
  else if strcmp type "u16".toList = 0 then 2
  else if strcmp type "s8".toList = 0 then 1
  else if strcmp type "u8".toList = 0 then 1
  else if strcmp type "char".toList = 0 then 1
  else if strcmp type "unsigned char".toList = 0 then 1
  else if strcmp type "int".toList = 0 then 4
  else if strcmp type "unsigned int".toList = 0 then 4
  else if strcmp type "long".toList = 0 then cfg.sizeof_long
  else if strcmp type "unsigned long".toList = 0 then cfg.sizeof_long
  else if strcmp type "pid_t".toList = 0 then sizeof_pid_t
  else if strcmp type "gfp_t".toList = 0 then sizeof_gfp_t
  else if synth_field_is_string type then synth_field_string_size cfg type
  else 0

/-! ## Field schemas and the field parser -/

/-- The record `struct synth_field` (declared in trace_synth.h). `size` holds
the value returned by `synth_field_size`; the conversion to the field's
integer type keeps zero zero and non-zero non-zero. -/
structure synth_field where
  type : CStr
  name : CStr
  size : Int
  offset : Nat
  is_signed : Bool
  is_string : Bool
  deriving Repr, DecidableEq

/-- The result of a function returning a pointer or `ERR_PTR(err)`, or an
object or an error code. -/
inductive Res (α : Type) where
  | err (e : Int)
  | ok (v : α)
  deriving Repr, DecidableEq

/-- One allocation request (`kzalloc`, `kmalloc`, `kcalloc`, `kstrdup`,
`kmemdup_nul`): the head of the outcome list says whether it succeeds; when
the list is exhausted every request succeeds. -/
def kalloc : List Bool → Bool × List Bool
  | [] => (true, [])
  | b :: rest => (b, rest)

/-- The statement `if (field_type[0] == ';') field_type++;`. -/
def skip_semi (s : CStr) : CStr :=
  match s with
  | ';' :: rest => rest
  | _ => s

/-- What `parse_synth_field` hands back: the returned pointer (a field or an
error), the value of `*consumed` after the call, and the allocation outcomes
left. -/
structure ParseOut where
  ret : Res synth_field
  consumed : Nat
  mem : List Bool
  deriving Repr, DecidableEq

/-- The code of `parse_synth_field`. `argv` is the token array, of which the
caller guarantees at least two entries; `consumed` is the value `*consumed`
has before the call. The type buffer has `len` bytes, the type string and its
terminator, so `field->type[len - 1]` is read with `charAt`. -/
def parse_synth_field (cfg : Config) (argc : Nat) (argv : List CStr)
    (consumed : Nat) (mem : List Bool) : ParseOut :=
  let field_type := skip_semi (argv.getD 0 [])
  let is_unsigned : Bool := strcmp field_type "unsigned".toList = 0
  if is_unsigned && decide (argc < 3) then ⟨.err (-EINVAL), consumed, mem⟩
  else
    let pre : Option CStr := if is_unsigned then some "unsigned ".toList else none
    let field_type := if is_unsigned then argv.getD 1 [] else field_type
    let field_name := if is_unsigned then argv.getD 2 [] else argv.getD 1 []
    let consumed := if is_unsigned then 3 else 2
    match kalloc mem with
    | (false, mem) => ⟨.err (-ENOMEM), consumed, mem⟩
    | (true, mem) =>
      let len := strlen field_name
      let array : Option CStr := (strchr field_name '[').map (fun a => field_name.drop a)
      let len :=
        match array with
        | some a => len - strlen a
        | none => if charAt field_name (len - 1) = ';' then len - 1 else len
      match kalloc mem with
      | (false, mem) => ⟨.err (-ENOMEM), consumed, mem⟩
      | (true, mem) =>
        let name := field_name.take len
        let field_type := skip_semi field_type
        let len := strlen field_type + 1
        let len := match array with
          | some a => len + strlen a
          | none => len
        let len := match pre with
          | some p => len + strlen p
          | none => len
        match kalloc mem with
        | (false, mem) => ⟨.err (-ENOMEM), consumed, mem⟩
        | (true, mem) =>
          let type : CStr := (pre.getD []) ++ field_type
          let type : CStr :=
            match array with
            | some a =>
              let type := type ++ a
              if charAt type (len - 1) = ';' then type.take (len - 1) else type
            | none => type
          let size := synth_field_size cfg type
          if size = 0 then ⟨.err (-EINVAL), consumed, mem⟩
          else
            ⟨.ok { type := type, name := name, size := size, offset := 0,
                   is_signed := synth_field_signed type,
                   is_string := synth_field_is_string type },
             consumed, mem⟩

/-- The code of `synth_event_check_arg_fn`, for the left-hand side `lhs` of
the argument pair. -/
def synth_event_check_arg_fn (cfg : Config) (lhs : CStr) : Int :=
  let size := synth_field_size cfg lhs
  if size ≠ 0 then 0 else -EINVAL

/-- The part of a name token from its first '[' on; empty when the token has
no '['. Used to state what the parser does. -/
def array_suffix (field_name : CStr) : CStr := field_name.dropWhile (fun c => c != '[')

/-- The field name cut out of a name token: the part before the first '[' if
there is one, otherwise the token without one trailing ';'. Used to state
what the parser does. -/
def field_name_of (field_name : CStr) : CStr :=
  if '[' ∈ field_name then field_name.takeWhile (fun c => c != '[')
  else if field_name.getLast? = some ';' then field_name.dropLast else field_name

/-- The type token of a field descriptor as the parser uses it: with
"unsigned" as first token (after one leading ';'), "unsigned " followed by the
second token without a leading ';'; otherwise the first token without its
leading ';' (at most two). Used to state what the parser does. -/
def type_part (argv : List CStr) : CStr :=
  if skip_semi (argv.getD 0 []) = "unsigned".toList then
    "unsigned ".toList ++ skip_semi (argv.getD 1 [])
  else skip_semi (skip_semi (argv.getD 0 []))

/-- The name token of a field descriptor: the third token after "unsigned",
the second otherwise. -/
def name_token (argv : List CStr) : CStr :=
  if skip_semi (argv.getD 0 []) = "unsigned".toList then argv.getD 2 [] else argv.getD 1 []

/-- The type string of a field descriptor: the type token as the parser uses
it, followed by the array suffix of the name token. Used to state what the
parser does. -/
def assembled_type (argv : List CStr) : CStr :=
  type_part argv ++ array_suffix (name_token argv)

/-- The top of an iteration of the field loop of `__create_synth_event`, as
reached from the start of the loop (index 0, no field, `consumed` 0 and the
allocation outcomes `mem0`): the index, the fields parsed so far, `consumed`
and the allocation outcomes left. Used to state what the loop does at a
descriptor in the middle of the token stream. -/
inductive LoopAt (cfg : Config) (argc : Nat) (argv : List CStr) (mem0 : List Bool) :
    Nat → List synth_field → Nat → List Bool → Prop where
  | start : LoopAt cfg argc argv mem0 0 [] 0 mem0
  | sep {i : Nat} {fields : List synth_field} {consumed : Nat} {mem : List Bool} :
      LoopAt cfg argc argv mem0 i fields consumed mem → i + 1 < argc →
      strcmp (argv.getD i []) ";".toList = 0 →
      LoopAt cfg argc argv mem0 (i + 1) fields consumed mem
  | field {i : Nat} {fields : List synth_field} {consumed : Nat} {mem : List Bool}
      {f : synth_field} {c : Nat} {mem1 : List Bool} :
      LoopAt cfg argc argv mem0 i fields consumed mem → i + 1 < argc →
      strcmp (argv.getD i []) ";".toList ≠ 0 →
      fields.length ≠ cfg.SYNTH_FIELDS_MAX →
      parse_synth_field cfg (argc - i) (argv.drop i) consumed mem = ⟨.ok f, c, mem1⟩ →
      LoopAt cfg argc argv mem0 (i + (c - 1) + 1) (fields ++ [f]) c mem1

/-! ## Event schemas, the registry and the trace core -/

/-- The record `struct synth_event` (declared in trace_synth.h): the name,
the field array (`n_fields` is its length), the number of 64-bit words of a
record, the reference count, the owning module and the print format buffer
of the event call. -/
structure synth_event where
  name : CStr
  fields : List synth_field
  n_u64 : Nat
  ref : Nat
  mod : Option Nat
  print_fmt : Option (List Char)
  deriving Repr, DecidableEq

/-- An entry of the dynamic event list: a synthetic event (its `ops` is
`synth_event_ops`) or an event of another kind. -/
inductive dyn_event where
  | synth (ev : synth_event)
  | other (id : Nat)
  deriving Repr, DecidableEq

/-- The state the file works on: the dynamic event list, the event calls and
output events the trace core knows by name, and the number of ring buffer
resets requested. -/
structure World where
  dyn_event_list : List dyn_event
  ftrace_events : List CStr
  trace_events : List CStr
  resets : Nat
  deriving Repr, DecidableEq

/-- The arguments of one `trace_define_field` call. -/
structure DefineCall where
  type : CStr
  name : CStr
  offset : Int
  size : Int
  is_signed : Bool
  deriving Repr, DecidableEq

/-- What the surroundings decide during one call: the outcomes of the
allocation requests, the byte found in fresh `kmalloc` memory, and the
results of `register_trace_event` (0 is failure), `trace_add_event_call`,
`trace_remove_event_call` and of the i-th `trace_define_field` call. -/
structure Env where
  allocs : List Bool
  kmalloc_fill : Char
  register_trace_event : Int
  trace_add_event_call : Int
  trace_remove_event_call : Int
  trace_define_field : Nat → DefineCall → Int

/-- An environment in which nothing fails. -/
def Env.fine : Env :=
  { allocs := [], kmalloc_fill := 'x', register_trace_event := 1,
    trace_add_event_call := 0, trace_remove_event_call := 0,
    trace_define_field := fun _ _ => 0 }

/-- A value wrapped to a 32-bit `int`. -/
def wrap_int (x : Int) : Int := (x + 2 ^ 31) % 2 ^ 32 - 2 ^ 31

/-- What `synth_event_define_fields` leaves behind: its return value, the
fields with their word offsets, `n_u64`, and the `trace_define_field` calls
it made. -/
structure DefineOut where
  ret : Int
  fields : List synth_field
  n_u64 : Nat
  calls : List DefineCall
  deriving Repr, DecidableEq

/-- The loop of `synth_event_define_fields` from field `i` on, with the
current byte `offset` (an `int`) and word count `n_u64` (an
`unsigned int`). -/
def define_fields_loop (cfg : Config) (tdf : Nat → DefineCall → Int) :
    List synth_field → Nat → Int → Nat → DefineOut
  | [], _, _, n_u64 => ⟨0, [], n_u64, []⟩
  | f :: rest, i, offset, n_u64 =>
    let call : DefineCall := ⟨f.type, f.name, offset, f.size % 2 ^ 32, f.is_signed⟩
    let ret := tdf i call
    if ret ≠ 0 then ⟨ret, f :: rest, n_u64, [call]⟩
    else
      let f1 := { f with offset := n_u64 }
      let out :=
        if f.is_string then
          define_fields_loop cfg tdf rest (i + 1)
            (wrap_int (offset + cfg.STR_VAR_LEN_MAX))
            ((n_u64 + cfg.STR_VAR_LEN_MAX / 8) % 2 ^ 32)
        else
          define_fields_loop cfg tdf rest (i + 1) (wrap_int (offset + 8))
            ((n_u64 + 1) % 2 ^ 32)
      ⟨out.ret, f1 :: out.fields, out.n_u64, call :: out.calls⟩

/-- The code of `synth_event_define_fields`: the return value, the event with
offsets and `n_u64` set, and the calls of `trace_define_field`. -/
def synth_event_define_fields (cfg : Config) (tdf : Nat → DefineCall → Int)
    (event : synth_event) : Int × synth_event × List DefineCall :=
  let out := define_fields_loop cfg tdf event.fields 0 cfg.offsetof_fields 0
  (out.ret, { event with fields := out.fields, n_u64 := out.n_u64 }, out.calls)

/-- The code of `synth_field_fmt`. -/
def synth_field_fmt (type : CStr) : CStr :=
  if strcmp type "s64".toList = 0 then "%lld".toList
  else if strcmp type "u64".toList = 0 then "%llu".toList
  else if strcmp type "s32".toList = 0 then "%d".toList
  else if strcmp type "u32".toList = 0 then "%u".toList
  else if strcmp type "s16".toList = 0 then "%d".toList
  else if strcmp type "u16".toList = 0 then "%u".toList
  else if strcmp type "s8".toList = 0 then "%d".toList
  else if strcmp type "u8".toList = 0 then "%u".toList
  else if strcmp type "char".toList = 0 then "%d".toList
  else if strcmp type "unsigned char".toList = 0 then "%u".toList
  else if strcmp type "int".toList = 0 then "%d".toList
  else if strcmp type "unsigned int".toList = 0 then "%u".toList
  else if strcmp type "long".toList = 0 then "%ld".toList
  else if strcmp type "unsigned long".toList = 0 then "%lu".toList
  else if strcmp type "pid_t".toList = 0 then "%d".toList
  else if strcmp type "gfp_t".toList = 0 then "%x".toList
  else if synth_field_is_string type then "%s".toList
  else "%llu".toList

/-- Store `src` into the array `buf` from index `pos` on; bytes that would
fall outside the array are not stored. -/
def write_at : List Char → Nat → List Char → List Char
  | [], _, _ => []
  | b :: bs, 0, [] => b :: bs
  | _ :: bs, 0, c :: cs => c :: write_at bs 0 cs
  | b :: bs, pos + 1, src => b :: write_at bs pos src

/-- Modelled from the spec: `snprintf(buf + pos, size, ...)` (lib/vsprintf.c)
is not among the sources. `text` is the formatted output; at most `size - 1`
of its characters and a NUL are stored, nothing when `size` is 0, and the
length of `text` is returned. -/
def snprintf (buf : List Char) (pos size : Nat) (text : CStr) : List Char × Nat :=
  if size = 0 then (buf, text.length)
  else (write_at buf pos (text.take (size - 1) ++ [Char.ofNat 0]), text.length)

/-- The code of the macro `LEN_OR_ZERO`, converted to the `size_t` argument of
`snprintf`. -/
def LEN_OR_ZERO (len pos : Nat) : Nat :=
  if len ≠ 0 then (if pos ≤ len then len - pos else 2 ^ 64 - (pos - len)) else 0

/-- The first loop of `__set_synth_event_print_fmt`: one "name=fmt" item per
field, separated by ", ". -/
def print_fmt_items (len : Nat) : List synth_field → List Char → Nat → List Char × Nat
  | [], buf, pos => (buf, pos)
  | f :: rest, buf, pos =>
    let text := f.name ++ "=".toList ++ synth_field_fmt f.type ++
      (if rest.isEmpty then [] else ", ".toList)
    let (buf, n) := snprintf buf pos (LEN_OR_ZERO len pos) text
    print_fmt_items len rest buf (pos + n)

/-- The second loop of `__set_synth_event_print_fmt`: one ", REC->name" per
field. -/
def print_fmt_args (len : Nat) : List synth_field → List Char → Nat → List Char × Nat
  | [], buf, pos => (buf, pos)
  | f :: rest, buf, pos =>
    let (buf, n) := snprintf buf pos (LEN_OR_ZERO len pos) (", REC->".toList ++ f.name)
    print_fmt_args len rest buf (pos + n)

/-- The code of `__set_synth_event_print_fmt`: the buffer after the call and
the returned length. A NULL buffer is the empty array. -/
def __set_synth_event_print_fmt (event : synth_event) (buf : List Char) (len : Nat) :
    List Char × Nat :=
  let pos := 0
  let (buf, n) := snprintf buf pos (LEN_OR_ZERO len pos) [Char.ofNat 34]
  let pos := pos + n
  let (buf, pos) := print_fmt_items len event.fields buf pos
  let (buf, n) := snprintf buf pos (LEN_OR_ZERO len pos) [Char.ofNat 34]
  let pos := pos + n
  print_fmt_args len event.fields buf pos

/-- The code of `set_synth_event_print_fmt`. -/
def set_synth_event_print_fmt (env : Env) (event : synth_event) (mem : List Bool) :
    Int × synth_event × List Bool :=
  let len := (__set_synth_event_print_fmt event [] 0).2
  match kalloc mem with
  | (false, mem) => (-ENOMEM, event, mem)
  | (true, mem) =>
    let print_fmt := List.replicate (len + 1) env.kmalloc_fill
    let print_fmt := (__set_synth_event_print_fmt event print_fmt (len + 1)).1
    (0, { event with print_fmt := some print_fmt }, mem)

/-- The code of `find_synth_event`: the first synthetic event of that name in
the dynamic event list, with its position in the list (the pointer). -/
def find_synth_event_from : List dyn_event → Nat → CStr → Option (Nat × synth_event)
  | [], _, _ => none
  | .other _ :: rest, pos, name => find_synth_event_from rest (pos + 1) name
  | .synth event :: rest, pos, name =>
    if strcmp event.name name = 0 then some (pos, event)
    else find_synth_event_from rest (pos + 1) name

/-- The code of `find_synth_event`. -/
def find_synth_event (w : World) (name : CStr) : Option (Nat × synth_event) :=
  find_synth_event_from w.dyn_event_list 0 name

/-- Modelled from the spec: `register_trace_event` (kernel/trace/trace_output.c)
is not among the sources. It returns 0 on failure and the event type number
otherwise, and then the trace core knows the output event. -/
def register_trace_event (env : Env) (w : World) (event : synth_event) : Int × World :=
  if env.register_trace_event = 0 then (0, w)
  else (env.register_trace_event, { w with trace_events := w.trace_events ++ [event.name] })

/-- Modelled from the spec: `unregister_trace_event` (kernel/trace/trace_output.c)
is not among the sources. The trace core forgets the output event. -/
def unregister_trace_event (w : World) (event : synth_event) : World :=
  { w with trace_events := w.trace_events.erase event.name }

/-- Modelled from the spec: `trace_add_event_call` (kernel/trace/trace_events.c)
is not among the sources. On success the trace core knows the event call and
has run the class callback `define_fields`, `synth_event_define_fields`, so
the compiled layout is cached on the event at registration. -/
def trace_add_event_call (cfg : Config) (env : Env) (w : World) (event : synth_event) :
    Int × synth_event × World :=
  if env.trace_add_event_call ≠ 0 then (env.trace_add_event_call, event, w)
  else
    (0, (synth_event_define_fields cfg env.trace_define_field event).2.1,
      { w with ftrace_events := w.ftrace_events ++ [event.name] })

/-- Modelled from the spec: `trace_remove_event_call`
(kernel/trace/trace_events.c) is not among the sources. On success the trace
core forgets the event call and its output event. -/
def trace_remove_event_call (env : Env) (w : World) (event : synth_event) : Int × World :=
  if env.trace_remove_event_call ≠ 0 then (env.trace_remove_event_call, w)
  else
    (0, { w with ftrace_events := w.ftrace_events.erase event.name,
                 trace_events := w.trace_events.erase event.name })

/-- The code of `register_synth_event`: the return value, the event as set up
and the state of the trace core. -/
def register_synth_event (cfg : Config) (env : Env) (w : World) (event : synth_event)
    (mem : List Bool) : Int × synth_event × World × List Bool :=
  match kalloc mem with
  | (false, mem) => (-ENOMEM, event, w, mem)
  | (true, mem) =>
    match kalloc mem with
    | (false, mem) => (-ENOMEM, event, w, mem)
    | (true, mem) =>
      match kalloc mem with
      | (false, mem) => (-ENOMEM, event, w, mem)
      | (true, mem) =>
        let (ret, w) := register_trace_event env w event
        if ret = 0 then (-ENODEV, event, w, mem)
        else
          let (ret, event, w) := trace_add_event_call cfg env w event
          if ret ≠ 0 then (ret, event, unregister_trace_event w event, mem)
          else
            let (ret, event, mem) := set_synth_event_print_fmt env event mem
            if ret < 0 then
              let w := (trace_remove_event_call env w event).2
              (ret, event, unregister_trace_event w event, mem)
            else (ret, event, w, mem)

/-- The code of `unregister_synth_event`. -/
def unregister_synth_event (env : Env) (w : World) (event : synth_event) : Int × World :=
  trace_remove_event_call env w event

/-- The code of `alloc_synth_event`. -/
def alloc_synth_event (name : CStr) (fields : List synth_field) (mem : List Bool) :
    Res synth_event × List Bool :=
  match kalloc mem with
  | (false, mem) => (.err (-ENOMEM), mem)
  | (true, mem) =>
    match kalloc mem with
    | (false, mem) => (.err (-ENOMEM), mem)
    | (true, mem) =>
      match kalloc mem with
      | (false, mem) => (.err (-ENOMEM), mem)
      | (true, mem) =>
        (.ok { name := name, fields := fields, n_u64 := 0, ref := 0, mod := none,
               print_fmt := none }, mem)

/-- Modelled from the spec: `dyn_event_add` (kernel/trace/trace_dynevent.h) is
not among the sources; it appends the event to the dynamic event list. -/
def dyn_event_add (w : World) (event : synth_event) : World :=
  { w with dyn_event_list := w.dyn_event_list ++ [.synth event] }

/-- Modelled from the spec: `dyn_event_remove` (kernel/trace/trace_dynevent.h)
is not among the sources; it unlinks the entry at position `pos`. -/
def dyn_event_remove (w : World) (pos : Nat) : World :=
  { w with dyn_event_list := w.dyn_event_list.eraseIdx pos }

/-- The field loop of `__create_synth_event` from index `i` on: either
`goto err` with a return value, or the index and the fields after the loop.
`none` when `fuel` iterations were not enough. -/
def field_loop (cfg : Config) (argc : Nat) (argv : List CStr) :
    Nat → Nat → List synth_field → Nat → List Bool →
    Option (Res (Nat × List synth_field) × List Bool)
  | fuel, i, fields, consumed, mem =>
    if i + 1 < argc then
      match fuel with
      | 0 => none
      | fuel + 1 =>
        if strcmp (argv.getD i []) ";".toList = 0 then
          field_loop cfg argc argv fuel (i + 1) fields consumed mem
        else if fields.length = cfg.SYNTH_FIELDS_MAX then some (.err (-EINVAL), mem)
        else
          match parse_synth_field cfg (argc - i) (argv.drop i) consumed mem with
          | ⟨.err e, _, mem⟩ => some (.err e, mem)
          | ⟨.ok field, consumed, mem⟩ =>
            field_loop cfg argc argv fuel (i + (consumed - 1) + 1) (fields ++ [field])
              consumed mem
    else some (.ok (i, fields), mem)

/-- The code of `__create_synth_event`: the return value and the state after
the call. The loop advances `i` in each iteration, so `argc` iterations are
enough fuel. -/
def __create_synth_event (cfg : Config) (env : Env) (w : World) (argc : Nat)
    (name : CStr) (argv : List CStr) : Option (Int × World) :=
  if byteAt name 0 = 0 || decide (argc < 1) then some (-EINVAL, w)
  else
    match find_synth_event w name with
    | some _ => some (-EEXIST, w)
    | none =>
      match field_loop cfg argc argv argc 0 [] 0 env.allocs with
      | none => none
      | some (.err ret, _) => some (ret, w)
      | some (.ok (i, fields), mem) =>
        if i < argc ∧ strcmp (argv.getD i []) ";".toList ≠ 0 then some (-EINVAL, w)
        else
          match alloc_synth_event name fields mem with
          | (.err ret, _) => some (ret, w)
          | (.ok event, mem) =>
            let (ret, event, w, _) := register_synth_event cfg env w event mem
            if ret = 0 then some (ret, dyn_event_add w event)
            else some (ret, w)

/-- The code of `destroy_synth_event` for the event at position `pos` of the
dynamic event list. -/
def destroy_synth_event (env : Env) (w : World) (pos : Nat) (se : synth_event) :
    Int × World :=
  if se.ref ≠ 0 then (-EBUSY, w)
  else
    let (ret, w) := unregister_synth_event env w se
    if ret = 0 then (ret, dyn_event_remove w pos)
    else (ret, w)

/-- Modelled from the spec: `tracing_reset_all_online_cpus`
(kernel/trace/trace.c) is not among the sources; the reset is counted. -/
def tracing_reset_all_online_cpus (w : World) : World :=
  { w with resets := w.resets + 1 }

/-- The code of `synth_event_delete`. -/
def synth_event_delete (env : Env) (w : World) (event_name : CStr) : Int × World :=
  let (ret, mod, w) :=
    match find_synth_event w event_name with
    | some (pos, se) =>
      let (ret, w) := destroy_synth_event env w pos se
      (ret, se.mod, w)
    | none => (-ENOENT, none, w)
  match mod with
  | some _ => (ret, tracing_reset_all_online_cpus w)
  | none => (ret, w)

/-- The number of 64-bit words a field takes in a record: `STR_VAR_LEN_MAX / 8`
for a string field, 1 for any other. Used to state the record layout. -/
def word_width (cfg : Config) (f : synth_field) : Nat :=
  if f.is_string then cfg.STR_VAR_LEN_MAX / 8 else 1

/-! ## Opening a record in the log channel -/

/-- What the code reads of a `struct trace_event_file`: the ENABLED flag, the
answer of `trace_trigger_soft_disabled`, and the event behind
`file->event_call->data`. -/
structure trace_event_file where
  enabled : Bool
  soft_disabled : Bool
  event : synth_event
  deriving Repr, DecidableEq

/-- The log channel as the code uses it: the nesting marker, the sizes of the
entries reserved so far and the number of entries committed. -/
structure ring_buffer where
  nest : Int
  reserved : List Int
  committed : Nat
  deriving Repr, DecidableEq

/-- The record `struct synth_event_trace_state` (declared in
include/linux/trace_events.h); `entry` holds the bytes of the reserved
entry. -/
structure synth_event_trace_state where
  event : Option synth_event
  entry : Option (List Nat)
  has_buffer : Bool
  cur_field : Nat
  n_u64 : Nat
  disabled : Bool
  add_next : Bool
  add_name : Bool
  deriving Repr, DecidableEq

/-- The state after `memset(trace_state, 0, sizeof(*trace_state))`. -/
def synth_event_trace_state.zero : synth_event_trace_state :=
  { event := none, entry := none, has_buffer := false, cur_field := 0, n_u64 := 0,
    disabled := false, add_next := false, add_name := false }

/-- Modelled from the spec: `ring_buffer_nest_start`
(kernel/trace/ring_buffer.c) is not among the sources; it raises the nesting
marker of the channel. -/
def ring_buffer_nest_start (rb : ring_buffer) : ring_buffer :=
  { rb with nest := rb.nest + 1 }

/-- Modelled from the spec: `ring_buffer_nest_end` lowers the nesting
marker. -/
def ring_buffer_nest_end (rb : ring_buffer) : ring_buffer :=
  { rb with nest := rb.nest - 1 }

/-- Modelled from the spec: `trace_event_buffer_reserve`
(kernel/trace/trace_events.c) is not among the sources. `reserve len` is what
the channel answers to a request of `len` bytes: the bytes found in the
reserved entry, or `none` when nothing could be reserved. A reservation made
is recorded with its size. -/
def trace_event_buffer_reserve (reserve : Int → Option (List Nat)) (rb : ring_buffer)
    (len : Int) : Option (List Nat) × ring_buffer :=
  match reserve len with
  | none => (none, rb)
  | some entry => (some entry, { rb with reserved := rb.reserved ++ [len] })

/-- The code of `__synth_event_trace_start`: the return value, the trace
state and the channel after the call. -/
def __synth_event_trace_start (cfg : Config) (reserve : Int → Option (List Nat))
    (file : trace_event_file) (rb : ring_buffer) :
    Int × synth_event_trace_state × ring_buffer :=
  let trace_state := synth_event_trace_state.zero
  if !file.enabled || file.soft_disabled then
    (-ENOENT, { trace_state with disabled := true }, rb)
  else
    let trace_state := { trace_state with event := some file.event }
    let fields_size : Int := wrap_int (file.event.n_u64 * 8)
    let trace_state := { trace_state with has_buffer := true }
    let rb := ring_buffer_nest_start rb
    let entry_size : Int := wrap_int (cfg.sizeof_entry + fields_size)
    let (entry, rb) := trace_event_buffer_reserve reserve rb entry_size
    let trace_state := { trace_state with entry := entry }
    match entry with
    | none => (-EINVAL, trace_state, ring_buffer_nest_end rb)
    | some _ => (0, trace_state, rb)

/-! ## Releasing an event, the command front end -/

def ECANCELED : Int := 125
def E2BIG : Int := 7

/-- Modelled from the spec: the macro `SYNTH_SYSTEM` (trace_synth.h) is not
among the sources; it is the group name "synthetic". -/
def SYNTH_SYSTEM : CStr := "synthetic".toList

/-- The code of `synth_event_is_busy`. -/
def synth_event_is_busy (event : synth_event) : Bool :=
  decide (event.ref ≠ 0)

/-- The code of `synth_event_release` for the event at position `pos` of the
dynamic event list. -/
def synth_event_release (env : Env) (w : World) (pos : Nat) (event : synth_event) :
    Int × World :=
  if event.ref ≠ 0 then (-EBUSY, w)
  else
    let (ret, w) := unregister_synth_event env w event
    if ret ≠ 0 then (ret, w)
    else (0, dyn_event_remove w pos)

/-- The code of `create_synth_event`. -/
def create_synth_event (cfg : Config) (env : Env) (w : World) (argc : Nat)
    (argv : List CStr) : Option (Int × World) :=
  let name := argv.getD 0 []
  if charAt name 0 ≠ 's' ∨ charAt name 1 ≠ ':' then some (-ECANCELED, w)
  else
    let name := name.drop 2
    match strchr name '/' with
    | some _ =>
      let len := str_has_prefix name (SYNTH_SYSTEM ++ "/".toList)
      if len = 0 then some (-EINVAL, w)
      else __create_synth_event cfg env w (argc - 1) (name.drop len) (argv.drop 1)
    | none => __create_synth_event cfg env w (argc - 1) name (argv.drop 1)

/-- What the code uses of a `struct dynevent_cmd` (declared in
include/linux/trace_events.h): the text collected in the sequence buffer, its
capacity and overflow mark, the event name, the field count, whether the type
is `DYNEVENT_TYPE_SYNTH`, and the private data (the module). -/
structure dynevent_cmd where
  seq : List Char
  size : Nat
  overflowed : Bool
  event_name : CStr
  n_fields : Nat
  is_synth : Bool
  private_data : Option Nat
  deriving Repr, DecidableEq

/-- An entry of a `struct synth_field_desc` array; a NULL pointer is
`none`. -/
structure synth_field_desc where
  type : Option CStr
  name : Option CStr
  deriving Repr, DecidableEq

/-- Modelled from the spec: `seq_buf_printf` (lib/seq_buf.c) is not among the
sources. The text is appended when it fits the room left; otherwise the
buffer is marked as overflowed and -1 is returned. -/
def seq_buf_printf (cmd : dynevent_cmd) (text : List Char) : Int × dynevent_cmd :=
  if !cmd.overflowed && decide (cmd.seq.length + text.length < cmd.size) then
    (0, { cmd with seq := cmd.seq ++ text })
  else (-1, { cmd with overflowed := true })

/-- Modelled from the spec: `dynevent_arg_add` (kernel/trace/trace_dynevent.c)
is not among the sources. Called without a check function it appends
" str" and the separator to the command, or returns -E2BIG. -/
def dynevent_arg_add (cmd : dynevent_cmd) (str : CStr) (separator : Char) :
    Int × dynevent_cmd :=
  let (ret, cmd) := seq_buf_printf cmd (' ' :: str ++ [separator])
  if ret ≠ 0 then (-E2BIG, cmd) else (ret, cmd)

/-- Modelled from the spec: `dynevent_arg_pair_add`
(kernel/trace/trace_dynevent.c) is not among the sources. It runs the check
function on the pair and then appends " lhs", the operator, "rhs" and the
separator to the command, or returns -E2BIG. -/
def dynevent_arg_pair_add (cmd : dynevent_cmd) (lhs rhs : CStr) (operator separator : Char)
    (check_arg : CStr → Int) : Int × dynevent_cmd :=
  let ret := check_arg lhs
  if ret ≠ 0 then (ret, cmd)
  else
    let (ret, cmd) := seq_buf_printf cmd (' ' :: lhs ++ operator :: rhs ++ [separator])
    if ret ≠ 0 then (-E2BIG, cmd) else (ret, cmd)

/-- The code of `synth_event_add_field`. -/
def synth_event_add_field (cfg : Config) (cmd : dynevent_cmd) (type name : Option CStr) :
    Int × dynevent_cmd :=
  if !cmd.is_synth then (-EINVAL, cmd)
  else
    match type, name with
    | some type, some name =>
      let (ret, cmd) := dynevent_arg_pair_add cmd type name (Char.ofNat 0) ';'
        (synth_event_check_arg_fn cfg)
      if ret ≠ 0 then (ret, cmd)
      else
        let cmd := { cmd with n_fields := (cmd.n_fields + 1) % 2 ^ 32 }
        if cmd.n_fields > cfg.SYNTH_FIELDS_MAX then (-EINVAL, cmd) else (ret, cmd)
    | _, _ => (-EINVAL, cmd)

/-- The loop of `synth_event_gen_cmd_array_start` over the field
descriptions. -/
def gen_cmd_array_loop (cfg : Config) : List synth_field_desc → dynevent_cmd →
    Int × dynevent_cmd
  | [], cmd => (0, cmd)
  | d :: rest, cmd =>
    if d.type.isNone || d.name.isNone then (-EINVAL, cmd)
    else
      let (ret, cmd) := synth_event_add_field cfg cmd d.type d.name
      if ret ≠ 0 then (ret, cmd) else gen_cmd_array_loop cfg rest cmd

/-- The code of `synth_event_gen_cmd_array_start`; `n_fields` is the count the
caller passes, of which the array `fields` has at least that many entries. -/
def synth_event_gen_cmd_array_start (cfg : Config) (cmd : dynevent_cmd) (name : CStr)
    (mod : Option Nat) (fields : List synth_field_desc) (n_fields : Nat) :
    Int × dynevent_cmd :=
  let cmd := { cmd with event_name := name, private_data := mod }
  if !cmd.is_synth then (-EINVAL, cmd)
  else if n_fields > cfg.SYNTH_FIELDS_MAX then (-EINVAL, cmd)
  else
    let (ret, cmd) := dynevent_arg_add cmd name (Char.ofNat 0)
    if ret ≠ 0 then (ret, cmd)
    else gen_cmd_array_loop cfg (fields.take n_fields) cmd

/-! ## Encoding and decoding records -/

/-- Store the bytes `src` into the array `buf` from index `pos` on; bytes that
would fall outside the array are not stored. -/
def poke : List Nat → Nat → List Nat → List Nat
  | [], _, _ => []
  | b :: bs, 0, [] => b :: bs
  | _ :: bs, 0, c :: cs => c :: poke bs 0 cs
  | b :: bs, pos + 1, src => b :: poke bs pos src

/-- The `n` bytes of the unsigned value `v` in memory order, for a big-endian
(`be`) or little-endian machine. -/
def mem_bytes (be : Bool) (n : Nat) (v : Nat) : List Nat :=
  if be then ((List.range n).map (fun k => v / 256 ^ k % 256)).reverse
  else (List.range n).map (fun k => v / 256 ^ k % 256)

/-- The value of bytes given from the least significant one on. -/
def le_value : List Nat → Nat
  | [] => 0
  | b :: bs => b + 256 * le_value bs

/-- The load of the 64-bit word `entry->fields[n]` found at byte offset `off`
of the entry. -/
def load_u64 (be : Bool) (entry : List Nat) (off : Nat) : Nat :=
  if be then le_value (((List.range 8).map (fun k => entry.getD (off + k) 0)).reverse)
  else le_value ((List.range 8).map (fun k => entry.getD (off + k) 0))

/-- The switch on `field->size` with which every encoder stores a value in
the word at byte offset `off` of the entry: one, two or four bytes of the
truncated value at the address of the word, the whole word otherwise. -/
def write_scalar (be : Bool) (entry : List Nat) (off : Nat) (size : Int) (val : Nat) :
    List Nat :=
  if size = 1 then poke entry off (mem_bytes be 1 (val % 2 ^ 8))
  else if size = 2 then poke entry off (mem_bytes be 2 (val % 2 ^ 16))
  else if size = 4 then poke entry off (mem_bytes be 4 (val % 2 ^ 32))
  else poke entry off (mem_bytes be 8 (val % 2 ^ 64))

/-- Modelled from the spec: `strscpy` (lib/string.c) is not among the
sources. It copies the text, or as much of it as fits `count - 1` bytes, to
byte offset `off` of `dest`, always followed by a NUL, and returns the length
or -E2BIG when the text was cut; with `count` 0 nothing is written. -/
def strscpy (dest : List Nat) (off : Nat) (src : CStr) (count : Nat) : List Nat × Int :=
  if count = 0 ∨ count > 2 ^ 31 - 1 then (dest, -E2BIG)
  else if src.length < count then
    (poke dest off (src.map Char.toNat ++ [0]), src.length)
  else (poke dest off ((src.take (count - 1)).map Char.toNat ++ [0]), -E2BIG)

/-- The cast `(char *)(long)val` of a 64-bit value to a pointer. -/
def to_ptr (cfg : Config) (val : Nat) : Nat := val % 2 ^ (8 * cfg.sizeof_long)

/-- The byte offset of `entry->fields[n]` in an entry. -/
def field_addr (cfg : Config) (n : Nat) : Nat := cfg.offsetof_fields + 8 * n

/-- Modelled from the spec: `trace_event_buffer_commit`
(kernel/trace/trace_events.c) is not among the sources; it commits the
reserved entry as one record. Without a reserved entry there is nothing it
could commit and the call dereferences a NULL pointer (`none`). -/
def trace_event_buffer_commit (rb : ring_buffer) (entry : Option (List Nat)) :
    Option ring_buffer :=
  match entry with
  | none => none
  | some _ => some { rb with committed := rb.committed + 1 }

/-- The code of `__synth_event_trace_end`: the channel after the commit and
the end of the nesting; `none` when there is no reserved entry or no buffer
to work on. -/
def __synth_event_trace_end (trace_state : synth_event_trace_state) (rb : ring_buffer) :
    Option ring_buffer :=
  match trace_event_buffer_commit rb trace_state.entry with
  | none => none
  | some rb => if trace_state.has_buffer then some (ring_buffer_nest_end rb) else none

/-- The field loop of `synth_event_trace`: `args` is the variable argument
list, `str_at` tells the text found at an address (`none` when the address
cannot be read). The result is the entry after the loop, `none` when a string
pointer cannot be read. -/
def synth_event_trace_loop (cfg : Config) (be : Bool) (str_at : Nat → Option CStr)
    (args : List Nat) : List synth_field → Nat → Nat → List Nat → Option (List Nat)
  | [], _, _, entry => some entry
  | f :: rest, i, n_u64, entry =>
    let val := args.getD i 0
    if f.is_string then
      match str_at (to_ptr cfg val) with
      | none => none
      | some str_val =>
        synth_event_trace_loop cfg be str_at args rest (i + 1)
          ((n_u64 + cfg.STR_VAR_LEN_MAX / 8) % 2 ^ 32)
          (strscpy entry (field_addr cfg n_u64) str_val cfg.STR_VAR_LEN_MAX).1
    else
      synth_event_trace_loop cfg be str_at args rest (i + 1) ((n_u64 + 1) % 2 ^ 32)
        (write_scalar be entry (field_addr cfg n_u64) f.size val)

/-- The code of `synth_event_trace`: the return value, the content of the
entry that was reserved (if one was) and the channel after the call; `none`
when a pointer that cannot be read is dereferenced. -/
def synth_event_trace (cfg : Config) (be : Bool) (str_at : Nat → Option CStr)
    (reserve : Int → Option (List Nat)) (file : trace_event_file) (rb : ring_buffer)
    (n_vals : Nat) (args : List Nat) : Option (Int × Option (List Nat) × ring_buffer) :=
  let (ret, state, rb) := __synth_event_trace_start cfg reserve file rb
  if ret ≠ 0 then some (if ret = -ENOENT then 0 else ret, none, rb)
  else
    match state.event, state.entry with
    | some event, some entry =>
      if n_vals ≠ event.fields.length then
        (__synth_event_trace_end state rb).map (fun rb => (-EINVAL, some entry, rb))
      else
        match synth_event_trace_loop cfg be str_at args event.fields 0 0 entry with
        | none => none
        | some entry =>
          (__synth_event_trace_end { state with entry := some entry } rb).map
            (fun rb => (0, some entry, rb))
    | _, _ => none

/-- The field loop of `synth_event_trace_array` over the array `vals`. -/
def synth_event_trace_array_loop (cfg : Config) (be : Bool) (str_at : Nat → Option CStr)
    (vals : List Nat) : List synth_field → Nat → Nat → List Nat → Option (List Nat)
  | [], _, _, entry => some entry
  | f :: rest, i, n_u64, entry =>
    if f.is_string then
      match str_at (to_ptr cfg (vals.getD i 0)) with
      | none => none
      | some str_val =>
        synth_event_trace_array_loop cfg be str_at vals rest (i + 1)
          ((n_u64 + cfg.STR_VAR_LEN_MAX / 8) % 2 ^ 32)
          (strscpy entry (field_addr cfg n_u64) str_val cfg.STR_VAR_LEN_MAX).1
    else
      let val := vals.getD i 0
      synth_event_trace_array_loop cfg be str_at vals rest (i + 1) ((n_u64 + 1) % 2 ^ 32)
        (write_scalar be entry (field_addr cfg n_u64) f.size val)

/-- The code of `synth_event_trace_array`: the return value, the content of
the entry that was reserved (if one was) and the channel after the call;
`none` when a pointer that cannot be read is dereferenced. -/
def synth_event_trace_array (cfg : Config) (be : Bool) (str_at : Nat → Option CStr)
    (reserve : Int → Option (List Nat)) (file : trace_event_file) (rb : ring_buffer)
    (vals : List Nat) (n_vals : Nat) : Option (Int × Option (List Nat) × ring_buffer) :=
  let (ret, state, rb) := __synth_event_trace_start cfg reserve file rb
  if ret ≠ 0 then some (if ret = -ENOENT then 0 else ret, none, rb)
  else
    match state.event, state.entry with
    | some event, some entry =>
      if n_vals ≠ event.fields.length then
        (__synth_event_trace_end state rb).map (fun rb => (-EINVAL, some entry, rb))
      else
        match synth_event_trace_array_loop cfg be str_at vals event.fields 0 0 entry with
        | none => none
        | some entry =>
          (__synth_event_trace_end { state with entry := some entry } rb).map
            (fun rb => (0, some entry, rb))
    | _, _ => none

/-- The field loop of `trace_event_raw_event_synth`: the value of field `i` is
`var_ref_vals[var_ref_idx[i]]`. -/
def trace_event_raw_event_synth_loop (cfg : Config) (be : Bool)
    (str_at : Nat → Option CStr) (var_ref_vals : List Nat) (var_ref_idx : List Nat) :
    List synth_field → Nat → Nat → List Nat → Option (List Nat)
  | [], _, _, entry => some entry
  | f :: rest, i, n_u64, entry =>
    let val_idx := var_ref_idx.getD i 0
    if f.is_string then
      match str_at (to_ptr cfg (var_ref_vals.getD val_idx 0)) with
      | none => none
      | some str_val =>
        trace_event_raw_event_synth_loop cfg be str_at var_ref_vals var_ref_idx rest (i + 1)
          ((n_u64 + cfg.STR_VAR_LEN_MAX / 8) % 2 ^ 32)
          (strscpy entry (field_addr cfg n_u64) str_val cfg.STR_VAR_LEN_MAX).1
    else
      let val := var_ref_vals.getD val_idx 0
      trace_event_raw_event_synth_loop cfg be str_at var_ref_vals var_ref_idx rest (i + 1)
        ((n_u64 + 1) % 2 ^ 32) (write_scalar be entry (field_addr cfg n_u64) f.size val)

/-- The code of `trace_event_raw_event_synth`: the content of the entry that
was committed (if one was) and the channel after the call; `none` when a
pointer that cannot be read is dereferenced. -/
def trace_event_raw_event_synth (cfg : Config) (be : Bool) (str_at : Nat → Option CStr)
    (reserve : Int → Option (List Nat)) (trace_file : trace_event_file) (rb : ring_buffer)
    (var_ref_vals : List Nat) (var_ref_idx : List Nat) :
    Option (Option (List Nat) × ring_buffer) :=
  let event := trace_file.event
  if trace_file.soft_disabled then some (none, rb)
  else
    let fields_size : Int := wrap_int (event.n_u64 * 8)
    let rb := ring_buffer_nest_start rb
    let (entry, rb) :=
      trace_event_buffer_reserve reserve rb ((cfg.sizeof_entry + fields_size) % 2 ^ 64)
    match entry with
    | none => some (none, ring_buffer_nest_end rb)
    | some entry =>
      match trace_event_raw_event_synth_loop cfg be str_at var_ref_vals var_ref_idx
          event.fields 0 0 entry with
      | none => none
      | some entry =>
        (trace_event_buffer_commit rb (some entry)).map
          (fun rb => (some entry, ring_buffer_nest_end rb))

/-- The loop of `__synth_event_add_val` that looks a field up by name: the
value of `field` after the loop, which starts as `field` (NULL at first). -/
def add_val_find_field : List synth_field → CStr → Option synth_field → Option synth_field
  | [], _, field => field
  | f :: rest, field_name, _ =>
    if strcmp f.name field_name = 0 then some f
    else add_val_find_field rest field_name (some f)

/-- The code of `__synth_event_add_val`: the return value and the trace state
after the call (`trace_state` is `none` for a NULL pointer); the result is
`none` when a pointer that cannot be read is dereferenced. -/
def __synth_event_add_val (cfg : Config) (be : Bool) (str_at : Nat → Option CStr)
    (field_name : Option CStr) (val : Nat) (trace_state : Option synth_event_trace_state) :
    Option (Int × Option synth_event_trace_state) :=
  match trace_state with
  | none => some (-EINVAL, none)
  | some st =>
    if field_name.isSome && st.add_next then some (-EINVAL, some st)
    else if field_name.isNone && st.add_name then some (-EINVAL, some st)
    else
      let st := if field_name.isSome then { st with add_name := true }
        else { st with add_next := true }
      if st.disabled then some (0, some st)
      else
        match st.event with
        | none => none
        | some event =>
          let sel : Option (synth_field × synth_event_trace_state) :=
            if st.add_name then
              (add_val_find_field event.fields (field_name.getD []) none).map
                (fun field => (field, st))
            else if st.cur_field ≥ event.fields.length then none
            else
              (event.fields[st.cur_field]?).map
                (fun field => (field, { st with cur_field := (st.cur_field + 1) % 2 ^ 32 }))
          match sel with
          | none => some (-EINVAL, some st)
          | some (field, st) =>
            if field.is_string then
              if to_ptr cfg val = 0 then some (-EINVAL, some st)
              else
                match st.entry, str_at (to_ptr cfg val) with
                | some entry, some str_val =>
                  let entry := (strscpy entry (field_addr cfg field.offset) str_val
                    cfg.STR_VAR_LEN_MAX).1
                  some (0, some { st with entry := some entry })
                | _, _ => none
            else
              match st.entry with
              | none => none
              | some entry =>
                let entry := write_scalar be entry (field_addr cfg field.offset) field.size val
                some (0, some { st with entry := some entry })

/-- The code of `print_synth_event_num_val`: the number handed to
`trace_seq_printf` for a field of the given size whose word holds `val`. -/
def print_synth_event_num_val (size : Int) (val : Nat) : Nat :=
  if size = 1 then val % 2 ^ 8
  else if size = 2 then val % 2 ^ 16
  else if size = 4 then val % 2 ^ 32
  else val

/-- The text `printf` reads for "%s" at byte offset `off` of the entry: the
bytes up to the first NUL. -/
def read_cstr (entry : List Nat) (off : Nat) : List Nat :=
  (entry.drop off).takeWhile (fun b => b != 0)

/-- What `print_synth_event` prints for one field: a text or a number. -/
inductive PrintedVal where
  | str (bytes : List Nat)
  | num (v : Nat)
  deriving Repr, DecidableEq

/-- The field loop of `print_synth_event`: for each field its name and the
value handed to `trace_seq_printf`. The formatting of the text, the room in
the sequence buffer and the names of the gfp flags are not modelled. -/
def print_synth_event_loop (cfg : Config) (be : Bool) :
    List synth_field → Nat → List Nat → List (CStr × PrintedVal)
  | [], _, _ => []
  | f :: rest, n_u64, entry =>
    if f.is_string then
      (f.name, .str (read_cstr entry (field_addr cfg n_u64))) ::
        print_synth_event_loop cfg be rest ((n_u64 + cfg.STR_VAR_LEN_MAX / 8) % 2 ^ 32) entry
    else
      (f.name, .num (print_synth_event_num_val f.size
          (load_u64 be entry (field_addr cfg n_u64)))) ::
        print_synth_event_loop cfg be rest ((n_u64 + 1) % 2 ^ 32) entry

/-- The values `print_synth_event` reads from the entry of an event. -/
def print_synth_event (cfg : Config) (be : Bool) (event : synth_event) (entry : List Nat) :
    List (CStr × PrintedVal) :=
  print_synth_event_loop cfg be event.fields 0 entry

/-- The size `sizeof(*entry) + fields_size` that `__synth_event_trace_start`
asks the channel for, both of type `int`. -/
def trace_entry_size (cfg : Config) (event : synth_event) : Int :=
  wrap_int (cfg.sizeof_entry + wrap_int (event.n_u64 * 8))

/-! ## Piecewise tracing -/

/-- The code of `synth_event_trace_start`: the return value, the trace state
(`trace_state` is `none` for a NULL pointer) and the channel after the
call. -/
def synth_event_trace_start (cfg : Config) (reserve : Int → Option (List Nat))
    (file : trace_event_file) (rb : ring_buffer)
    (trace_state : Option synth_event_trace_state) :
    Int × Option synth_event_trace_state × ring_buffer :=
  match trace_state with
  | none => (-EINVAL, none, rb)
  | some _ =>
    let (ret, trace_state, rb) := __synth_event_trace_start cfg reserve file rb
    (if ret = -ENOENT then 0 else ret, some trace_state, rb)

/-- The code of `synth_event_add_next_val`. -/
def synth_event_add_next_val (cfg : Config) (be : Bool) (str_at : Nat → Option CStr)
    (val : Nat) (trace_state : Option synth_event_trace_state) :
    Option (Int × Option synth_event_trace_state) :=
  __synth_event_add_val cfg be str_at none val trace_state

/-- The code of `synth_event_add_val`; `field_name` is `none` for a NULL
pointer. -/
def synth_event_add_val (cfg : Config) (be : Bool) (str_at : Nat → Option CStr)
    (field_name : Option CStr) (val : Nat) (trace_state : Option synth_event_trace_state) :
    Option (Int × Option synth_event_trace_state) :=
  __synth_event_add_val cfg be str_at field_name val trace_state

/-- The code of `synth_event_trace_end`: the return value and the channel
after the call; `none` when `__synth_event_trace_end` works on a state without
a reserved entry or without a buffer. -/
def synth_event_trace_end (trace_state : Option synth_event_trace_state)
    (rb : ring_buffer) : Option (Int × ring_buffer) :=
  match trace_state with
  | none => some (-EINVAL, rb)
  | some st => (__synth_event_trace_end st rb).map (fun rb => (0, rb))

/-- A run of `synth_event_add_next_val` calls, one per value of the list: the
return values and the trace state after the last call. -/
def add_next_vals (cfg : Config) (be : Bool) (str_at : Nat → Option CStr) :
    List Nat → Option synth_event_trace_state →
    Option (List Int × Option synth_event_trace_state)
  | [], st => some ([], st)
  | v :: vs, st =>
    match synth_event_add_next_val cfg be str_at v st with
    | none => none
    | some (r, st1) => (add_next_vals cfg be str_at vs st1).map (fun p => (r :: p.1, p.2))

/-! ## Piecewise stores, command counting and the listing -/

/-- The trace state the examples of the cursor work on: an open record of
forty bytes for an event with the one string field `char s[8]`. -/
def cursor_state : synth_event_trace_state :=
  { event := some ⟨"e".toList, [⟨"char[8]".toList, "s".toList, 8, 0, true, true⟩], 4, 0,
      none, none⟩,
    entry := some (List.replicate 40 0), has_buffer := true, cur_field := 0, n_u64 := 0,
    disabled := false, add_next := false, add_name := false }

/-- What a piecewise call stores in the entry for the field `p.1` and the
value `p.2` once it has found the field: the switch at the end of
`__synth_event_add_val`, with the text at the address held in the value for a
string field. Used to state what a run of calls leaves in the entry. -/
def field_store (cfg : Config) (be : Bool) (str_at : Nat → Option CStr) (entry : List Nat)
    (p : synth_field × Nat) : List Nat :=
  if p.1.is_string then
    (strscpy entry (field_addr cfg p.1.offset) ((str_at (to_ptr cfg p.2)).getD [])
      cfg.STR_VAR_LEN_MAX).1
  else write_scalar be entry (field_addr cfg p.1.offset) p.1.size p.2

/-- A run of `synth_event_add_val` calls, one per pair of a field name and a
value: the return values and the trace state after the last call. -/
def add_vals (cfg : Config) (be : Bool) (str_at : Nat → Option CStr) :
    List (CStr × Nat) → Option synth_event_trace_state →
    Option (List Int × Option synth_event_trace_state)
  | [], st => some ([], st)
  | c :: cs, st =>
    match synth_event_add_val cfg be str_at (some c.1) c.2 st with
    | none => none
    | some (r, st1) => (add_vals cfg be str_at cs st1).map (fun p => (r :: p.1, p.2))

/-- The layout `synth_event_define_fields` gives a list of fields from the
word count `n` on: every field sits at the word count reached before it. -/
def word_layout (cfg : Config) : List synth_field → Nat → Prop
  | [], _ => True
  | f :: rest, n => f.offset = n ∧ word_layout cfg rest (n + word_width cfg f)

/-- An event with the fields `u64 a` and `char s[8]`, as the parser returns
them; the examples of the piecewise calls work on it. -/
def layout_event : synth_event :=
  ⟨"e".toList, [⟨"u64".toList, "a".toList, 8, 0, false, false⟩,
    ⟨"char[8]".toList, "s".toList, 8, 0, true, true⟩], 0, 0, none, none⟩

/-- An enabled file of `layout_event` after `synth_event_define_fields` has
set the offsets of its fields. -/
def layout_file : trace_event_file :=
  ⟨true, false, (synth_event_define_fields linux64 (fun _ _ => 0) layout_event).2.1⟩

/-- The loop of `synth_event_add_fields` over the field descriptions. -/
def add_fields_loop (cfg : Config) : List synth_field_desc → dynevent_cmd →
    Int × dynevent_cmd
  | [], cmd => (0, cmd)
  | d :: rest, cmd =>
    if d.type.isNone || d.name.isNone then (-EINVAL, cmd)
    else
      let (ret, cmd) := synth_event_add_field cfg cmd d.type d.name
      if ret ≠ 0 then (ret, cmd) else add_fields_loop cfg rest cmd

/-- The code of `synth_event_add_fields`; `n_fields` is the count the caller
passes, of which the array `fields` has at least that many entries. -/
def synth_event_add_fields (cfg : Config) (cmd : dynevent_cmd)
    (fields : List synth_field_desc) (n_fields : Nat) : Int × dynevent_cmd :=
  add_fields_loop cfg (fields.take n_fields) cmd

/-- The `for (;;)` loop of `__synth_event_gen_cmd_start` over the variable
arguments, a NULL pointer being `none`: the return value and the command
after the loop; `none` when `va_arg` reads past the last argument. The loop
is entered with `ret` 0 and leaves it 0 at a NULL argument. -/
def gen_cmd_start_loop (cfg : Config) : List (Option CStr) → dynevent_cmd →
    Option (Int × dynevent_cmd)
  | [], _ => none
  | none :: _, cmd => some (0, cmd)
  | [some _], _ => none
  | some _ :: none :: _, cmd => some (0, cmd)
  | some type :: some name :: rest, cmd =>
    let cmd := { cmd with n_fields := (cmd.n_fields + 1) % 2 ^ 32 }
    if cmd.n_fields > cfg.SYNTH_FIELDS_MAX then some (-EINVAL, cmd)
    else
      let (ret, cmd) := synth_event_add_field cfg cmd (some type) (some name)
      if ret ≠ 0 then some (ret, cmd) else gen_cmd_start_loop cfg rest cmd

/-- The code of `__synth_event_gen_cmd_start`; `args` are the variable
arguments after `mod`. -/
def __synth_event_gen_cmd_start (cfg : Config) (cmd : dynevent_cmd) (name : CStr)
    (mod : Option Nat) (args : List (Option CStr)) : Option (Int × dynevent_cmd) :=
  let cmd := { cmd with event_name := name, private_data := mod }
  if !cmd.is_synth then some (-EINVAL, cmd)
  else
    let (ret, cmd) := dynevent_arg_add cmd name (Char.ofNat 0)
    if ret ≠ 0 then some (ret, cmd)
    else gen_cmd_start_loop cfg args cmd

/-- The variable arguments that pass the given (type, name) pairs, closed by
the NULL that the wrapper `synth_event_gen_cmd_start` appends. -/
def pair_args (pairs : List (CStr × CStr)) : List (Option CStr) :=
  pairs.flatMap (fun p => [some p.1, some p.2]) ++ [none]

/-- A freshly initialised command for a synthetic event with a buffer of
`size` bytes (`synth_event_cmd_init`). -/
def fresh_cmd (size : Nat) : dynevent_cmd :=
  { seq := [], size := size, overflowed := false, event_name := [], n_fields := 0,
    is_synth := true, private_data := none }

/-- The loop of `__synth_event_show`: "type name" for every field, followed by
"; " for every field but the last. -/
def show_fields : List synth_field → List Char
  | [] => []
  | f :: rest =>
    f.type ++ " ".toList ++ f.name ++ (if rest.isEmpty then [] else "; ".toList) ++
      show_fields rest

/-- The code of `__synth_event_show`: the text printed to the sequence file
(whose room is not modelled) and the return value. -/
def __synth_event_show (event : synth_event) : List Char × Int :=
  (event.name ++ [Char.ofNat 9] ++ show_fields event.fields ++ [Char.ofNat 10], 0)

/-- The C `isspace` on a character: the space and the control characters from
the tab to the carriage return. -/
def isspace (c : Char) : Bool :=
  decide (c.toNat = 32) || (decide (9 ≤ c.toNat) && decide (c.toNat ≤ 13))

/-- The split of a text on white space from the word `cur` collected so far
on. -/
def split_ws_from : List Char → List Char → List CStr
  | [], cur => if cur.isEmpty then [] else [cur]
  | c :: cs, cur =>
    if isspace c then
      if cur.isEmpty then split_ws_from cs [] else cur :: split_ws_from cs []
    else split_ws_from cs (cur ++ [c])

/-- The split of a text on white space: its maximal runs of characters that
are not white space, as `argv_split` (lib/argv_split.c) hands them to
`__create_synth_event`. -/
def split_ws (s : List Char) : List CStr := split_ws_from s []

/-- The field text `__synth_event_show` prints after the event name and the
tab, split on white space. -/
def listing_tokens (event : synth_event) : List CStr :=
  split_ws ((__synth_event_show event).1.drop (event.name.length + 1))

/-- The tokens of the listing of one field: the type, in two tokens when it
starts with "unsigned ", and the name, followed by ';' unless the field is the
last. Used to state what the split of the listing is. -/
def field_tokens (f : synth_field) (last : Bool) : List CStr :=
  (if "unsigned ".toList.isPrefixOf f.type then ["unsigned".toList, f.type.drop 9]
    else [f.type]) ++
  [f.name ++ (if last then [] else ";".toList)]

/-- The tokens of the listing of the fields. -/
def fields_tokens : List synth_field → List CStr
  | [] => []
  | f :: rest => field_tokens f rest.isEmpty ++ fields_tokens rest

/-- The text of the print format of an event, without its terminator: the
quoted items and then the arguments. Used to state what the two passes of
`__set_synth_event_print_fmt` produce. -/
def print_fmt_text (event : synth_event) : List Char :=
  [Char.ofNat 34] ++ List.intercalate ", ".toList
      (event.fields.map (fun f => f.name ++ "=".toList ++ synth_field_fmt f.type)) ++
    [Char.ofNat 34] ++
    (event.fields.map (fun f => ", REC->".toList ++ f.name)).flatten

end SynthEvents

/-! ## DMA address translation (`include/linux/dma-direct.h`) -/

namespace DmaDirect

/-- What `include/linux/dma-direct.h` takes from the configuration and from
headers outside the sources at hand: the widths of `phys_addr_t` and
`dma_addr_t` in bits, the value of the macro `DMA_MAPPING_ERROR`, the macro
`__sme_set` as a function on addresses, whether
`CONFIG_ARCH_DMA_ADDR_T_64BIT` is enabled, and the value of
`PFN_PHYS(min_low_pfn)`. -/
structure Arch where
  phys_bits : Nat
  dma_bits : Nat
  DMA_MAPPING_ERROR : Nat
  __sme_set : Nat → Nat
  ARCH_DMA_ADDR_T_64BIT : Bool
  min_low_phys : Nat

/-- The values of a 64-bit build without memory encryption. -/
def arch64 : Arch :=
  { phys_bits := 64, dma_bits := 64, DMA_MAPPING_ERROR := 2 ^ 64 - 1,
    __sme_set := fun x => x, ARCH_DMA_ADDR_T_64BIT := true, min_low_phys := 0 }

/-- The record `struct bus_dma_region`: `cpu_start` is a `phys_addr_t`,
`dma_start` a `dma_addr_t`, `size` and `offset` are `u64`. -/
structure bus_dma_region where
  cpu_start : Nat
  dma_start : Nat
  size : Nat
  offset : Nat
  deriving Repr, DecidableEq

/-- What the header reads of a `struct device`: the range map (`none` for a
NULL pointer, otherwise the entries of the array as far as it is allocated),
the mask behind the pointer `dma_mask` (`none` for a NULL pointer) and
`bus_dma_limit`. -/
structure device where
  dma_range_map : Option (List bus_dma_region)
  dma_mask : Option Nat
  bus_dma_limit : Nat
  deriving Repr, DecidableEq

/-- The loop of `translate_phys_to_dma` over the entries from `m` on; `none`
when the loop runs past the entries without finding one of size 0. -/
def translate_phys_to_dma_loop (a : Arch) (paddr : Nat) : List bus_dma_region → Option Nat
  | [] => none
  | m :: rest =>
    if m.size = 0 then some a.DMA_MAPPING_ERROR
    else if paddr ≥ m.cpu_start ∧ paddr - m.cpu_start < m.size then
      some ((paddr % 2 ^ a.dma_bits + 2 ^ 64 - m.offset % 2 ^ 64) % 2 ^ 64 % 2 ^ a.dma_bits)
    else translate_phys_to_dma_loop a paddr rest

/-- The code of `translate_phys_to_dma`; `none` when a pointer that cannot be
read is dereferenced. -/
def translate_phys_to_dma (a : Arch) (dev : device) (paddr : Nat) : Option Nat :=
  match dev.dma_range_map with
  | none => none
  | some map => translate_phys_to_dma_loop a paddr map

/-- The loop of `translate_dma_to_phys` over the entries from `m` on. -/
def translate_dma_to_phys_loop (a : Arch) (dma_addr : Nat) : List bus_dma_region → Option Nat
  | [] => none
  | m :: rest =>
    if m.size = 0 then some (2 ^ a.phys_bits - 1)
    else if dma_addr ≥ m.dma_start ∧ dma_addr - m.dma_start < m.size then
      some ((dma_addr % 2 ^ a.phys_bits + m.offset % 2 ^ 64) % 2 ^ 64 % 2 ^ a.phys_bits)
    else translate_dma_to_phys_loop a dma_addr rest

/-- The code of `translate_dma_to_phys`. -/
def translate_dma_to_phys (a : Arch) (dev : device) (dma_addr : Nat) : Option Nat :=
  match dev.dma_range_map with
  | none => none
  | some map => translate_dma_to_phys_loop a dma_addr map

/-- The code of `phys_to_dma_unencrypted` (the variant without
`CONFIG_ARCH_HAS_PHYS_TO_DMA`). -/
def phys_to_dma_unencrypted (a : Arch) (dev : device) (paddr : Nat) : Option Nat :=
  if dev.dma_range_map.isSome then translate_phys_to_dma a dev paddr
  else some (paddr % 2 ^ a.dma_bits)

/-- The code of `phys_to_dma`. -/
def phys_to_dma (a : Arch) (dev : device) (paddr : Nat) : Option Nat :=
  (phys_to_dma_unencrypted a dev paddr).map a.__sme_set

/-- Modelled from the spec: the macro `min_not_zero` (include/linux/kernel.h)
is not among the sources; it is the smaller of two values, leaving out a
value that is 0. -/
def min_not_zero (x y : Nat) : Nat :=
  if x = 0 then y else if y = 0 then x else min x y

/-- The code of `dma_capable`; `size` is a `size_t`. The result is `none`
when a pointer that cannot be read is dereferenced. -/
def dma_capable (a : Arch) (dev : device) (addr size : Nat) (is_ram : Bool) : Option Bool :=
  let end_ := (addr + size + 2 ^ a.dma_bits - 1) % 2 ^ a.dma_bits
  if addr = a.DMA_MAPPING_ERROR then some false
  else
    let low : Option Bool :=
      if is_ram && !a.ARCH_DMA_ADDR_T_64BIT then
        (phys_to_dma a dev a.min_low_phys).map (fun lim => decide (min addr end_ < lim))
      else some false
    match low with
    | none => none
    | some true => some false
    | some false =>
      match dev.dma_mask with
      | none => none
      | some mask => some (decide (end_ ≤ min_not_zero mask dev.bus_dma_limit))

end DmaDirect

/-! ## The MediaTek SPI NOR controller (`drivers/spi/spi-mtk-nor.c`) -/

namespace MtkNor

def MTK_NOR_PRG_MAX_SIZE : Nat := 6
def MTK_NOR_DMA_ALIGN : Nat := 16
def MTK_NOR_DMA_ALIGN_MASK : Nat := MTK_NOR_DMA_ALIGN - 1
def MTK_NOR_PP_SIZE : Nat := 128

/-- What `drivers/spi/spi-mtk-nor.c` takes from headers outside the sources
at hand: `PAGE_SIZE`, which is the value of `MTK_NOR_BOUNCE_BUF_SIZE`, and
the width of `size_t` in bits. -/
structure Platform where
  PAGE_SIZE : Nat
  size_t_bits : Nat
  deriving Repr, DecidableEq

/-- A 64-bit build with pages of 4096 bytes. -/
def platform64 : Platform := { PAGE_SIZE := 4096, size_t_bits := 64 }

def MTK_NOR_BOUNCE_BUF_SIZE (p : Platform) : Nat := p.PAGE_SIZE

/-- The values of `enum spi_mem_data_dir` (include/linux/spi/spi-mem.h). -/
inductive spi_mem_data_dir where
  | SPI_MEM_NO_DATA
  | SPI_MEM_DATA_IN
  | SPI_MEM_DATA_OUT
  deriving Repr, DecidableEq

/-- The fields the driver reads of a `struct spi_mem_op`
(include/linux/spi/spi-mem.h): `cmd.nbytes`, `cmd.buswidth`, `cmd.opcode`,
`addr.nbytes`, `addr.buswidth`, `addr.val` (a `u64`), `dummy.nbytes`,
`dummy.buswidth`, `data.buswidth`, `data.dir`, `data.nbytes` (an
`unsigned int`) and the address held in `data.buf`. -/
structure spi_mem_op where
  cmd_nbytes : Nat
  cmd_buswidth : Nat
  cmd_opcode : Nat
  addr_nbytes : Nat
  addr_buswidth : Nat
  addr_val : Nat
  dummy_nbytes : Nat
  dummy_buswidth : Nat
  data_buswidth : Nat
  data_dir : spi_mem_data_dir
  data_nbytes : Nat
  data_buf : Nat
  deriving Repr, DecidableEq

/-- The code of `mtk_nor_match_read`. -/
def mtk_nor_match_read (op : spi_mem_op) : Bool :=
  let dummy : Nat :=
    if op.dummy_buswidth ≠ 0 then op.dummy_nbytes * 8 / op.dummy_buswidth else 0
  if op.data_buswidth = 2 ∨ op.data_buswidth = 4 then
    if op.addr_buswidth = 1 then decide (dummy = 8)
    else if op.addr_buswidth = 2 then decide (dummy = 4)
    else if op.addr_buswidth = 4 then decide (dummy = 6)
    else false
  else if op.addr_buswidth = 1 ∧ op.data_buswidth = 1 then
    if op.cmd_opcode = 0x03 then decide (dummy = 0)
    else if op.cmd_opcode = 0x0b then decide (dummy = 8)
    else false
  else false

/-- The code of `mtk_nor_adjust_op_size`: the return value and the op after
the call. The tests `x & MTK_NOR_DMA_ALIGN_MASK` are written `x % 16`, and
`nbytes &= ~MTK_NOR_DMA_ALIGN_MASK`, which clears the low four bits, is
written `nbytes - nbytes % 16`. The value `len` is a `size_t`. -/
def mtk_nor_adjust_op_size (p : Platform) (op : spi_mem_op) : Int × spi_mem_op :=
  if op.data_nbytes = 0 then (0, op)
  else if (op.addr_nbytes = 3 ∨ op.addr_nbytes = 4) ∧
      op.data_dir = .SPI_MEM_DATA_IN ∧ mtk_nor_match_read op = true then
    let op := if op.data_nbytes > 0x400000 then { op with data_nbytes := 0x400000 } else op
    if op.addr_val % MTK_NOR_DMA_ALIGN ≠ 0 ∨ op.data_nbytes < MTK_NOR_DMA_ALIGN then
      (0, { op with data_nbytes := 1 })
    else if op.data_buf % MTK_NOR_DMA_ALIGN = 0 then
      (0, { op with data_nbytes := op.data_nbytes - op.data_nbytes % MTK_NOR_DMA_ALIGN })
    else if op.data_nbytes > MTK_NOR_BOUNCE_BUF_SIZE p then
      (0, { op with data_nbytes := MTK_NOR_BOUNCE_BUF_SIZE p % 2 ^ 32 })
    else (0, op)
  else if (op.addr_nbytes = 3 ∨ op.addr_nbytes = 4) ∧
      op.data_dir = .SPI_MEM_DATA_OUT then
    if op.data_nbytes ≥ MTK_NOR_PP_SIZE then (0, { op with data_nbytes := MTK_NOR_PP_SIZE })
    else (0, { op with data_nbytes := 1 })
  else
    let len : Nat := Int.toNat
      (((MTK_NOR_PRG_MAX_SIZE : Int) - op.cmd_nbytes - op.addr_nbytes - op.dummy_nbytes) %
        2 ^ p.size_t_bits)
    if op.data_nbytes > len then (0, { op with data_nbytes := len % 2 ^ 32 })
    else (0, op)

/-- The length `rdlen` that `mtk_nor_read_bounce` passes to
`mtk_nor_read_dma` for the length it is given (both `unsigned int`). -/
def mtk_nor_read_bounce_rdlen (length : Nat) : Nat :=
  if length % MTK_NOR_DMA_ALIGN ≠ 0 then
    (length + MTK_NOR_DMA_ALIGN) % 2 ^ 32 -
      (length + MTK_NOR_DMA_ALIGN) % 2 ^ 32 % MTK_NOR_DMA_ALIGN
  else length

/-- What `mtk_nor_exec_op` does with an op: the error it returns at once, or
the routine it hands the op to, with the flash address (a `u32`) and the
length for the two DMA routines. -/
inductive ExecPath where
  | notsupp
  | pp_buffered
  | pp_unbuffered
  | wbuf_failed (ret : Int)
  | read_pio
  | read_bounce (src : Nat) (length : Nat)
  | read_dma (src : Nat) (length : Nat)
  deriving Repr, DecidableEq

/-- The code of `mtk_nor_exec_op` as far as it chooses the routine;
`wbuf_ret` is what `mtk_nor_write_buffer_disable` returns. -/
def mtk_nor_exec_op (wbuf_ret : Int) (op : spi_mem_op) : ExecPath :=
  if op.data_nbytes = 0 ∨ (op.addr_nbytes ≠ 3 ∧ op.addr_nbytes ≠ 4) then .notsupp
  else if op.data_dir = .SPI_MEM_DATA_OUT then
    if op.data_nbytes = MTK_NOR_PP_SIZE then .pp_buffered else .pp_unbuffered
  else if op.data_dir = .SPI_MEM_DATA_IN ∧ mtk_nor_match_read op = true then
    if wbuf_ret < 0 then .wbuf_failed wbuf_ret
    else if op.data_nbytes = 1 then .read_pio
    else if op.data_buf % MTK_NOR_DMA_ALIGN ≠ 0 then
      .read_bounce (op.addr_val % 2 ^ 32) op.data_nbytes
    else .read_dma (op.addr_val % 2 ^ 32) op.data_nbytes
  else .notsupp

/-- The length with which `mtk_nor_read_dma` is called on a path of
`mtk_nor_exec_op`, directly or by `mtk_nor_read_bounce`; `none` when it is
not called. -/
def ExecPath.dma_length : ExecPath → Option Nat
  | .read_bounce _ length => some (mtk_nor_read_bounce_rdlen length)
  | .read_dma _ length => some length
  | _ => none

/-- The code of `mtk_nor_supports_op`; `spi_mem_default_supports_op`
(drivers/spi/spi-mem.c) is not among the sources and is a parameter. The value
`len` is a `size_t`. -/
def mtk_nor_supports_op (spi_mem_default_supports_op : spi_mem_op → Bool) (p : Platform)
    (op : spi_mem_op) : Bool :=
  if op.cmd_buswidth ≠ 1 then false
  else if (op.addr_nbytes = 3 ∨ op.addr_nbytes = 4) ∧
      op.data_dir = .SPI_MEM_DATA_IN ∧ mtk_nor_match_read op = false then false
  else if (op.addr_nbytes = 3 ∨ op.addr_nbytes = 4) ∧
      op.data_dir = .SPI_MEM_DATA_OUT ∧
      (op.addr_buswidth ≠ 1 ∨ op.dummy_nbytes ≠ 0 ∨ op.data_buswidth ≠ 1) then false
  else
    let len : Nat := (op.cmd_nbytes + op.addr_nbytes + op.dummy_nbytes) % 2 ^ p.size_t_bits
    if len > MTK_NOR_PRG_MAX_SIZE ∨ (op.data_nbytes ≠ 0 ∧ len = MTK_NOR_PRG_MAX_SIZE) then false
    else spi_mem_default_supports_op op

end MtkNor

namespace SynthEvents

/-! ## Theorems: the type catalog -/

theorem strcmp_eq_zero_iff (a b : CStr) : strcmp a b = 0 ↔ a = b := by
  induction a generalizing b with
  | nil => cases b <;> simp [strcmp]
  | cons x xs ih =>
    cases b with
    | nil => simp [strcmp]
    | cons y ys =>
      by_cases hxy : x = y
      · simp [strcmp, hxy, ih]
      · by_cases hlt : x.toNat < y.toNat <;> simp [strcmp, hxy, hlt]

theorem strstr_from_eq_none_iff (needle hay : CStr) (i : Nat) :
    strstr_from needle hay i = none ↔ ¬ needle <:+: hay := by
  induction hay generalizing i with
  | nil => cases needle <;> simp [strstr_from]
  | cons c cs ih =>
    by_cases hp : needle <+: c :: cs
    · have : needle.isPrefixOf (c :: cs) = true := List.isPrefixOf_iff_prefix.mpr hp
      simp [strstr_from, this, List.infix_cons_iff, hp]
    · have : needle.isPrefixOf (c :: cs) = false := by
        rw [Bool.eq_false_iff]; intro h; exact hp (List.isPrefixOf_iff_prefix.mp h)
      simp [strstr_from, this, List.infix_cons_iff, hp, ih]

theorem synth_field_is_string_iff (type : CStr) :
    synth_field_is_string type = true ↔ "char[".toList <:+: type := by
  unfold synth_field_is_string strstr
  cases h : strstr_from "char[".toList type 0 with
  | none =>
    have := (strstr_from_eq_none_iff _ _ _).mp h
    simp only [Option.isSome_none]
    constructor
    · intro h; cases h
    · intro h; exact absurd h this
  | some s =>
    have h2 : ¬ strstr_from "char[".toList type 0 = none := by rw [h]; simp
    rw [strstr_from_eq_none_iff] at h2
    simp only [Option.isSome_some, if_true, true_iff]
    exact not_not.mp h2

theorem synth_field_size_scalars (cfg : Config) :
    synth_field_size cfg "s64".toList = 8 ∧ synth_field_size cfg "u64".toList = 8 ∧
    synth_field_size cfg "s32".toList = 4 ∧ synth_field_size cfg "u32".toList = 4 ∧
    synth_field_size cfg "int".toList = 4 ∧ synth_field_size cfg "unsigned int".toList = 4 ∧
    synth_field_size cfg "pid_t".toList = 4 ∧ synth_field_size cfg "gfp_t".toList = 4 ∧
    synth_field_size cfg "s16".toList = 2 ∧ synth_field_size cfg "u16".toList = 2 ∧
    synth_field_size cfg "s8".toList = 1 ∧ synth_field_size cfg "u8".toList = 1 ∧
    synth_field_size cfg "char".toList = 1 ∧ synth_field_size cfg "unsigned char".toList = 1 ∧
    synth_field_size cfg "long".toList = cfg.sizeof_long ∧
    synth_field_size cfg "unsigned long".toList = cfg.sizeof_long := by
  refine ⟨rfl, rfl, rfl, rfl, rfl, rfl, rfl, rfl, rfl, rfl, rfl, rfl, rfl, rfl, rfl, rfl⟩

theorem synth_field_size_other (cfg : Config) (type : CStr)
    (hcat : type ∉ ["s64".toList, "u64".toList, "s32".toList, "u32".toList, "s16".toList,
      "u16".toList, "s8".toList, "u8".toList, "char".toList, "unsigned char".toList,
      "int".toList, "unsigned int".toList, "long".toList, "unsigned long".toList,
      "pid_t".toList, "gfp_t".toList])
    (hns : ¬ "char[".toList <:+: type) : synth_field_size cfg type = 0 := by
  have hstr : synth_field_is_string type = false := by
    rw [Bool.eq_false_iff, Ne, synth_field_is_string_iff]; exact hns
  simp only [List.mem_cons, List.mem_singleton, not_or, List.not_mem_nil, not_false_eq_true,
    and_true] at hcat
  obtain ⟨h1, h2, h3, h4, h5, h6, h7, h8, h9, h10, h11, h12, h13, h14, h15, h16⟩ := hcat
  unfold synth_field_size
  simp only [strcmp_eq_zero_iff]
  rw [if_neg h1, if_neg h2, if_neg h3, if_neg h4, if_neg h5, if_neg h6, if_neg h7, if_neg h8,
    if_neg h9, if_neg h10, if_neg h11, if_neg h12, if_neg h13, if_neg h14, if_neg h15,
    if_neg h16, hstr]
  rfl

theorem synth_field_size_char_open (cfg : Config) (rest : CStr) :
    synth_field_size cfg ("char[".toList ++ rest) =
      synth_field_string_size cfg ("char[".toList ++ rest) := by
  have hstr : synth_field_is_string ("char[".toList ++ rest) = true := by
    rw [synth_field_is_string_iff]; exact ⟨[], rest, by simp⟩
  unfold synth_field_size
  simp only [strcmp_eq_zero_iff]
  rw [hstr]
  simp

theorem string_size_mono (c1 c2 : Config) (type : CStr) (n : Nat)
    (h1 : synth_field_string_size c1 type = n) (hpos : 1 ≤ n)
    (hle : n ≤ c2.STR_VAR_LEN_MAX) : synth_field_string_size c2 type = n := by
  unfold synth_field_string_size at h1 ⊢
  generalize strstr type "char[".toList = r at h1 ⊢
  cases r with
  | none => dsimp only at h1; unfold EINVAL at h1; omega
  | some s =>
    dsimp only at h1 ⊢
    generalize strchr type ']' = r2 at h1 ⊢
    cases r2 with
    | none => dsimp only at h1; unfold EINVAL at h1; omega
    | some e =>
      dsimp only at h1 ⊢
      split at h1
      · unfold EINVAL at h1; omega
      · split at h1
        · unfold EINVAL at h1; omega
        · rename_i h2 h3
          rw [if_neg h2, if_neg h3]
          generalize kstrtouint (List.take (e - (s + 5)) (List.drop (s + 5) type)) 0 = k at h1 ⊢
          cases k with
          | error err => exact h1
          | ok size =>
            dsimp only at h1 ⊢
            split at h1
            · unfold EINVAL at h1; omega
            · rw [h1]
              have : ¬ ((n : Int) > (c2.STR_VAR_LEN_MAX : Int)) := by omega
              rw [if_neg this]

set_option maxRecDepth 1000000 in
theorem string_size_decimal_aux : ∀ n : Fin 1000,
    synth_field_string_size ⟨999, 0, 0, 0, 0⟩
      ("char[".toList ++ Nat.toDigits 10 n.val ++ "]".toList) = (n.val : Int) := by
  decide

theorem synth_field_size_decimal (cfg : Config) (hmax : cfg.STR_VAR_LEN_MAX ≤ 999)
    (N : Nat) (h1 : 1 ≤ N) (h2 : N ≤ cfg.STR_VAR_LEN_MAX) :
    synth_field_size cfg ("char[".toList ++ (Nat.repr N).toList ++ "]".toList) = N := by
  have haux := string_size_decimal_aux ⟨N, by omega⟩
  have hrepr : (Nat.repr N).toList = Nat.toDigits 10 N := rfl
  rw [hrepr, List.append_assoc, synth_field_size_char_open, ← List.append_assoc]
  exact string_size_mono _ cfg _ N haux h1 h2

/-- C3: `synth_field_size` returns 8 for "s64" and "u64"; 4 for "s32", "u32",
"int", "unsigned int", "pid_t" and "gfp_t"; 2 for "s16" and "u16"; 1 for "s8",
"u8", "char" and "unsigned char"; `sizeof(long)` for "long" and
"unsigned long"; N for the type "char[N]" where N is the decimal numeral of a
number from 1 to `STR_VAR_LEN_MAX`; and 0 for every other token that does not
contain "char[". The string block size is a constant of a header outside the
sources; it is taken to be at most 999, so that its numeral has at most three
digits. -/
theorem synth_field_size_catalog (cfg : Config) (hmax : cfg.STR_VAR_LEN_MAX ≤ 999) :
    (synth_field_size cfg "s64".toList = 8 ∧ synth_field_size cfg "u64".toList = 8 ∧
     synth_field_size cfg "s32".toList = 4 ∧ synth_field_size cfg "u32".toList = 4 ∧
     synth_field_size cfg "int".toList = 4 ∧ synth_field_size cfg "unsigned int".toList = 4 ∧
     synth_field_size cfg "pid_t".toList = 4 ∧ synth_field_size cfg "gfp_t".toList = 4 ∧
     synth_field_size cfg "s16".toList = 2 ∧ synth_field_size cfg "u16".toList = 2 ∧
     synth_field_size cfg "s8".toList = 1 ∧ synth_field_size cfg "u8".toList = 1 ∧
     synth_field_size cfg "char".toList = 1 ∧
     synth_field_size cfg "unsigned char".toList = 1 ∧
     synth_field_size cfg "long".toList = cfg.sizeof_long ∧
     synth_field_size cfg "unsigned long".toList = cfg.sizeof_long) ∧
    (∀ N : Nat, 1 ≤ N → N ≤ cfg.STR_VAR_LEN_MAX →
      synth_field_size cfg ("char[".toList ++ (Nat.repr N).toList ++ "]".toList) = N) ∧
    (∀ type : CStr,
      type ∉ ["s64".toList, "u64".toList, "s32".toList, "u32".toList, "s16".toList,
        "u16".toList, "s8".toList, "u8".toList, "char".toList, "unsigned char".toList,
        "int".toList, "unsigned int".toList, "long".toList, "unsigned long".toList,
        "pid_t".toList, "gfp_t".toList] →
      ¬ "char[".toList <:+: type → synth_field_size cfg type = 0) :=
  ⟨synth_field_size_scalars cfg, synth_field_size_decimal cfg hmax,
    synth_field_size_other cfg⟩

/-- The catalog at the values of a 64-bit build: the scalar sizes,
"char[32]" has size 32 and the unknown token "frob" has size 0. -/
theorem synth_field_size_catalog_witness :
    linux64.STR_VAR_LEN_MAX ≤ 999 ∧
    synth_field_size linux64 "unsigned long".toList = 8 ∧
    synth_field_size linux64 "char[32]".toList = 32 ∧
    synth_field_size linux64 "frob".toList = 0 :=
  ⟨by decide,
   (synth_field_size_catalog linux64 (by decide)).1.2.2.2.2.2.2.2.2.2.2.2.2.2.2.2,
   (synth_field_size_catalog linux64 (by decide)).2.1 32 (by decide) (by decide),
   (synth_field_size_catalog linux64 (by decide)).2.2 "frob".toList (by decide) (by decide)⟩

theorem str_has_prefix_ne_zero_iff (str pre : CStr) (hpre : pre ≠ []) :
    str_has_prefix str pre ≠ 0 ↔ pre <+: str := by
  unfold str_has_prefix strlen
  by_cases h : pre.isPrefixOf str = true
  · rw [if_pos h]
    have : pre.length ≠ 0 := by
      intro h0; exact hpre (List.length_eq_zero.mp h0)
    exact ⟨fun _ => List.isPrefixOf_iff_prefix.mp h, fun _ => this⟩
  · rw [if_neg h]
    exact ⟨fun h0 => absurd rfl h0, fun hp => absurd (List.isPrefixOf_iff_prefix.mpr hp) h⟩

theorem synth_field_signed_eq_false_iff (type : CStr) :
    synth_field_signed type = false ↔ ("u".toList <+: type ∨ type = "gfp_t".toList) := by
  unfold synth_field_signed
  by_cases hu : str_has_prefix type "u".toList ≠ 0
  · rw [if_pos hu]
    have := (str_has_prefix_ne_zero_iff type "u".toList (by decide)).mp hu
    exact ⟨fun _ => Or.inl this, fun _ => rfl⟩
  · rw [if_neg hu]
    have hnp : ¬ "u".toList <+: type := fun hp =>
      hu ((str_has_prefix_ne_zero_iff type "u".toList (by decide)).mpr hp)
    by_cases hg : strcmp type "gfp_t".toList = 0
    · rw [if_pos hg]
      exact ⟨fun _ => Or.inr ((strcmp_eq_zero_iff _ _).mp hg), fun _ => rfl⟩
    · rw [if_neg hg]
      constructor
      · intro h; cases h
      · intro h
        rcases h with h | h
        · exact absurd h hnp
        · exact absurd ((strcmp_eq_zero_iff _ _).mpr h) hg

/-- C4: for every type string `synth_field_signed` returns false exactly when
the string begins with "u" or equals "gfp_t", and true otherwise; the catalog
types written with "unsigned " or as u8, u16, u32, u64 are unsigned, and s8,
s16, s32, s64, char, int, long and pid_t are signed. -/
theorem synth_field_signed_spec :
    (∀ type : CStr,
      (synth_field_signed type = false ↔ ("u".toList <+: type ∨ type = "gfp_t".toList)) ∧
      (synth_field_signed type = true ↔ ¬ ("u".toList <+: type ∨ type = "gfp_t".toList))) ∧
    (∀ type ∈ ["unsigned char".toList, "unsigned int".toList, "unsigned long".toList,
        "u8".toList, "u16".toList, "u32".toList, "u64".toList, "gfp_t".toList],
      synth_field_signed type = false) ∧
    (∀ type ∈ ["s8".toList, "s16".toList, "s32".toList, "s64".toList, "char".toList,
        "int".toList, "long".toList, "pid_t".toList],
      synth_field_signed type = true) := by
  refine ⟨fun type => ⟨synth_field_signed_eq_false_iff type, ?_⟩, by decide, by decide⟩
  rw [← synth_field_signed_eq_false_iff]
  cases synth_field_signed type <;> simp

/-! ## Theorems: the field parser -/

theorem strchr_from_eq (ch : Char) (s : CStr) (i : Nat) :
    strchr_from ch s i =
      if ch ∈ s then some (i + (s.takeWhile (fun c => c != ch)).length) else none := by
  induction s generalizing i with
  | nil => simp [strchr_from]
  | cons c cs ih =>
    by_cases h : c = ch
    · subst h; simp [strchr_from, List.takeWhile]
    · have h2 : (c != ch) = true := by simpa using h
      have h3 : ¬ ch = c := fun e => h e.symm
      simp only [strchr_from, if_neg h, ih, List.mem_cons, h3, false_or, List.takeWhile, h2,
        List.length_cons]
      split <;> simp; omega

theorem strchr_drop (s : CStr) (ch : Char) :
    (strchr s ch).map (fun a => s.drop a) =
      if ch ∈ s then some (s.dropWhile (fun c => c != ch)) else none := by
  unfold strchr
  rw [strchr_from_eq]
  split
  · simp only [Option.map_some', zero_add]
    congr 1
    have := List.takeWhile_append_dropWhile (fun c => c != ch) s
    calc List.drop (List.takeWhile (fun c => c != ch) s).length s
        = List.drop (List.takeWhile (fun c => c != ch) s).length
            (List.takeWhile (fun c => c != ch) s ++ List.dropWhile (fun c => c != ch) s) := by
          rw [this]
      _ = List.dropWhile (fun c => c != ch) s := List.drop_left _ _
  · rfl

theorem charAt_length (s : CStr) : charAt s s.length = Char.ofNat 0 := by
  unfold charAt
  exact List.getD_eq_default _ _ (le_refl _)

theorem take_sub_dropWhile (p : Char → Bool) (s : CStr) :
    s.take (s.length - (s.dropWhile p).length) = s.takeWhile p := by
  have h := List.takeWhile_append_dropWhile p s
  have hl : s.length - (s.dropWhile p).length = (s.takeWhile p).length := by
    have := congrArg List.length h
    rw [List.length_append] at this
    omega
  rw [hl]
  calc List.take (List.takeWhile p s).length s
      = List.take (List.takeWhile p s).length (List.takeWhile p s ++ List.dropWhile p s) := by
        rw [h]
    _ = List.takeWhile p s := List.take_left _ _

theorem dropWhile_of_not_mem (ch : Char) (s : CStr) (h : ch ∉ s) :
    s.dropWhile (fun c => c != ch) = [] := by
  rw [List.dropWhile_eq_nil_iff]
  intro x hx
  have : x ≠ ch := fun e => h (e ▸ hx)
  simpa using this

theorem take_last_semi (s : CStr) :
    s.take (if charAt s (s.length - 1) = ';' then s.length - 1 else s.length) =
      (if s.getLast? = some ';' then s.dropLast else s) := by
  rcases List.eq_nil_or_concat s with h | ⟨base, c, h⟩
  · subst h; simp [charAt]
  · rw [List.concat_eq_append] at h
    subst h
    have h1 : charAt (base ++ [c]) ((base ++ [c]).length - 1) = c := by
      unfold charAt
      simp [List.getD_eq_getElem?_getD]
    rw [h1]
    by_cases hc : c = ';'
    · subst hc; simp
    · simp [hc]


theorem fix_tail (X : CStr) (N : Nat) (h : N - 1 = X.length) :
    (if charAt X (N - 1) = ';' then List.take (N - 1) X else X) = X := by
  rw [h, charAt_length, if_neg (by decide)]

theorem parse_synth_field_eq (cfg : Config) (argc : Nat) (argv : List CStr)
    (consumed : Nat) (mem : List Bool) :
    parse_synth_field cfg argc argv consumed mem =
      if skip_semi (argv.getD 0 []) = "unsigned".toList ∧ argc < 3 then
        ⟨.err (-EINVAL), consumed, mem⟩
      else
        match kalloc mem with
        | (false, m1) =>
          ⟨.err (-ENOMEM), if skip_semi (argv.getD 0 []) = "unsigned".toList then 3 else 2, m1⟩
        | (true, m1) =>
          match kalloc m1 with
          | (false, m2) =>
            ⟨.err (-ENOMEM), if skip_semi (argv.getD 0 []) = "unsigned".toList then 3 else 2, m2⟩
          | (true, m2) =>
            match kalloc m2 with
            | (false, m3) =>
              ⟨.err (-ENOMEM), if skip_semi (argv.getD 0 []) = "unsigned".toList then 3 else 2,
                m3⟩
            | (true, m3) =>
              if synth_field_size cfg (assembled_type argv) = 0 then
                ⟨.err (-EINVAL),
                  if skip_semi (argv.getD 0 []) = "unsigned".toList then 3 else 2, m3⟩
              else
                ⟨.ok { type := assembled_type argv, name := field_name_of (name_token argv),
                       size := synth_field_size cfg (assembled_type argv), offset := 0,
                       is_signed := synth_field_signed (assembled_type argv),
                       is_string := synth_field_is_string (assembled_type argv) },
                  if skip_semi (argv.getD 0 []) = "unsigned".toList then 3 else 2, m3⟩ := by
  unfold parse_synth_field assembled_type name_token type_part
  have hb : decide (strcmp (skip_semi (argv.getD 0 [])) "unsigned".toList = 0) =
      decide (skip_semi (argv.getD 0 []) = "unsigned".toList) := by
    simp only [strcmp_eq_zero_iff]
  simp only [hb, strchr_drop]
  by_cases hu : skip_semi (argv.getD 0 []) = "unsigned".toList
  · simp only [hu, decide_True, Bool.true_and, decide_eq_true_eq, true_and, if_true]
    by_cases ha : argc < 3
    · rw [if_pos ha, if_pos ha]
    · rw [if_neg ha, if_neg ha]
      rcases h1 : kalloc mem with ⟨b1, m1⟩
      cases b1 with
      | false => rfl
      | true =>
        dsimp only
        rcases h2 : kalloc m1 with ⟨b2, m2⟩
        cases b2 with
        | false => rfl
        | true =>
          dsimp only
          rcases h3 : kalloc m2 with ⟨b3, m3⟩
          cases b3 with
          | false => rfl
          | true =>
            dsimp only
            unfold array_suffix field_name_of strlen
            by_cases hm : '[' ∈ argv.getD 2 []
            · simp only [if_pos hm]
              rw [fix_tail _ _ (by simp; omega), take_sub_dropWhile]
              rfl
            · simp only [if_neg hm]
              rw [dropWhile_of_not_mem _ _ hm, List.append_nil, take_last_semi]
              rfl
  · simp only [hu, decide_False, Bool.false_and, Bool.false_eq_true, if_false, false_and]
    rcases h1 : kalloc mem with ⟨b1, m1⟩
    cases b1 with
    | false => rfl
    | true =>
      dsimp only
      rcases h2 : kalloc m1 with ⟨b2, m2⟩
      cases b2 with
      | false => rfl
      | true =>
        dsimp only
        rcases h3 : kalloc m2 with ⟨b3, m3⟩
        cases b3 with
        | false => rfl
        | true =>
          dsimp only
          unfold array_suffix field_name_of strlen
          by_cases hm : '[' ∈ argv.getD 1 []
          · simp only [if_pos hm]
            rw [fix_tail _ _ (by simp), take_sub_dropWhile]
            rfl
          · simp only [if_neg hm]
            rw [dropWhile_of_not_mem _ _ hm, List.append_nil, take_last_semi]
            rfl


theorem kalloc_mem (mem m : List Bool) (b : Bool) (h : kalloc mem = (b, m)) :
    ∀ x ∈ m, x ∈ mem := by
  cases mem with
  | nil => simp [kalloc] at h; rcases h with ⟨_, rfl⟩; simp
  | cons y ys => simp [kalloc] at h; rcases h with ⟨_, rfl⟩; intro x hx; simp [hx]

theorem kalloc_fine (mem : List Bool) (h : ∀ b ∈ mem, b = true) :
    kalloc mem = (true, mem.tail) ∧ ∀ b ∈ mem.tail, b = true := by
  cases mem with
  | nil => simp [kalloc]
  | cons y ys =>
    have hy : y = true := h y (by simp)
    subst hy
    refine ⟨rfl, fun b hb => h b (by simp at hb; simp [hb])⟩

theorem parse_synth_field_fine (cfg : Config) (argc : Nat) (argv : List CStr)
    (consumed : Nat) (mem : List Bool) (hmem : ∀ b ∈ mem, b = true) :
    parse_synth_field cfg argc argv consumed mem =
      if skip_semi (argv.getD 0 []) = "unsigned".toList ∧ argc < 3 then
        ⟨.err (-EINVAL), consumed, mem⟩
      else if synth_field_size cfg (assembled_type argv) = 0 then
        ⟨.err (-EINVAL), if skip_semi (argv.getD 0 []) = "unsigned".toList then 3 else 2,
          mem.tail.tail.tail⟩
      else
        ⟨.ok { type := assembled_type argv, name := field_name_of (name_token argv),
               size := synth_field_size cfg (assembled_type argv), offset := 0,
               is_signed := synth_field_signed (assembled_type argv),
               is_string := synth_field_is_string (assembled_type argv) },
          if skip_semi (argv.getD 0 []) = "unsigned".toList then 3 else 2,
          mem.tail.tail.tail⟩ := by
  rw [parse_synth_field_eq]
  obtain ⟨h1, hm1⟩ := kalloc_fine mem hmem
  obtain ⟨h2, hm2⟩ := kalloc_fine _ hm1
  obtain ⟨h3, _⟩ := kalloc_fine _ hm2
  rw [h1]; dsimp only; rw [h2]; dsimp only; rw [h3]

theorem parse_synth_field_ok (cfg : Config) (argc : Nat) (argv : List CStr)
    (consumed : Nat) (mem : List Bool) (field : synth_field)
    (h : (parse_synth_field cfg argc argv consumed mem).ret = .ok field) :
    field = { type := assembled_type argv, name := field_name_of (name_token argv),
              size := synth_field_size cfg (assembled_type argv), offset := 0,
              is_signed := synth_field_signed (assembled_type argv),
              is_string := synth_field_is_string (assembled_type argv) } ∧
    synth_field_size cfg (assembled_type argv) ≠ 0 ∧
    ¬ (skip_semi (argv.getD 0 []) = "unsigned".toList ∧ argc < 3) ∧
    (parse_synth_field cfg argc argv consumed mem).consumed =
      (if skip_semi (argv.getD 0 []) = "unsigned".toList then 3 else 2) ∧
    ∀ b ∈ (parse_synth_field cfg argc argv consumed mem).mem, b ∈ mem := by
  rw [parse_synth_field_eq] at h ⊢
  split at h
  · cases h
  · rename_i hg
    rw [if_neg hg]
    rcases h1 : kalloc mem with ⟨b1, m1⟩
    rw [h1] at h
    cases b1 with
    | false => cases h
    | true =>
      dsimp only at h ⊢
      rcases h2 : kalloc m1 with ⟨b2, m2⟩
      rw [h2] at h
      cases b2 with
      | false => cases h
      | true =>
        dsimp only at h ⊢
        rcases h3 : kalloc m2 with ⟨b3, m3⟩
        rw [h3] at h
        cases b3 with
        | false => cases h
        | true =>
          dsimp only at h ⊢
          split at h
          · cases h
          · rename_i hs
            rw [if_neg hs]
            refine ⟨?_, hs, hg, rfl, ?_⟩
            · injection h with h; exact h.symm
            · intro b hb
              exact kalloc_mem _ _ _ h1 b (kalloc_mem _ _ _ h2 b (kalloc_mem _ _ _ h3 b hb))

theorem parse_synth_field_err (cfg : Config) (argc : Nat) (argv : List CStr)
    (consumed : Nat) (mem : List Bool) (e : Int)
    (h : (parse_synth_field cfg argc argv consumed mem).ret = .err e) :
    e = -EINVAL ∨ e = -ENOMEM := by
  rw [parse_synth_field_eq] at h
  split at h
  · injection h with h; exact Or.inl h.symm
  · rcases h1 : kalloc mem with ⟨b1, m1⟩
    rw [h1] at h
    cases b1 with
    | false => injection h with h; exact Or.inr h.symm
    | true =>
      dsimp only at h
      rcases h2 : kalloc m1 with ⟨b2, m2⟩
      rw [h2] at h
      cases b2 with
      | false => injection h with h; exact Or.inr h.symm
      | true =>
        dsimp only at h
        rcases h3 : kalloc m2 with ⟨b3, m3⟩
        rw [h3] at h
        cases b3 with
        | false => injection h with h; exact Or.inr h.symm
        | true =>
          dsimp only at h
          split at h
          · injection h with h; exact Or.inl h.symm
          · cases h

/-- C5: a string capacity outside 0 < N <= ceiling is meant to be a definition
error. The code at `char s[33]`, `char s[1234]`, `char s[abc]` and `char s[]`
(64-bit build, ceiling 32): `synth_field_string_size` answers -EINVAL, the
callers only test the size for zero, so the field is produced with size -22
and `synth_event_check_arg_fn` returns 0; only N = 0 is refused. -/
theorem parse_synth_field_bad_capacity :
    (parse_synth_field linux64 2 ["char".toList, "s[33]".toList] 0 []).ret =
      .ok ⟨"char[33]".toList, "s".toList, -22, 0, true, true⟩ ∧
    (parse_synth_field linux64 2 ["char".toList, "s[1234]".toList] 0 []).ret =
      .ok ⟨"char[1234]".toList, "s".toList, -22, 0, true, true⟩ ∧
    (parse_synth_field linux64 2 ["char".toList, "s[abc]".toList] 0 []).ret =
      .ok ⟨"char[abc]".toList, "s".toList, -22, 0, true, true⟩ ∧
    (parse_synth_field linux64 2 ["char".toList, "s[]".toList] 0 []).ret =
      .ok ⟨"char[]".toList, "s".toList, -22, 0, true, true⟩ ∧
    (parse_synth_field linux64 2 ["char".toList, "s[0]".toList] 0 []).ret = .err (-EINVAL) ∧
    synth_event_check_arg_fn linux64 "char[33]".toList = 0 ∧
    synth_event_check_arg_fn linux64 "char[abc]".toList = 0 ∧
    synth_event_check_arg_fn linux64 "char[0]".toList = -EINVAL := by
  decide

/-- C7, as stated, fails at `unsigned ;int x`: the parse succeeds with three
tokens consumed and the type is "unsigned int", which is not "unsigned "
followed by the second token ";int" and does not begin with it. -/
theorem parse_unsigned_counterexample :
    parse_synth_field linux64 3 ["unsigned".toList, ";int".toList, "x".toList] 0 [] =
      ⟨.ok ⟨"unsigned int".toList, "x".toList, 4, 0, false, false⟩, 3, []⟩ ∧
    "unsigned int".toList ≠ "unsigned ".toList ++ ";int".toList ∧
    ¬ ("unsigned ".toList ++ ";int".toList) <+: "unsigned int".toList := by
  decide

/-- C7, amended: `parse_synth_field` reports 3 tokens consumed when the first
token (after skipping one leading ';') is "unsigned" and at least 3 tokens
are available, and 2 when it is not "unsigned"; with "unsigned" and fewer
than 3 tokens it returns -EINVAL; on success with "unsigned" the type is
"unsigned " followed by the second token without one leading ';' and then by
the array suffix of the third token, and the name is cut out of the third
token. -/
theorem parse_synth_field_tokens (cfg : Config) (argc : Nat) (argv : List CStr)
    (consumed : Nat) (mem : List Bool) :
    (skip_semi (argv.getD 0 []) = "unsigned".toList → 3 ≤ argc →
      (parse_synth_field cfg argc argv consumed mem).consumed = 3) ∧
    (skip_semi (argv.getD 0 []) ≠ "unsigned".toList →
      (parse_synth_field cfg argc argv consumed mem).consumed = 2) ∧
    (skip_semi (argv.getD 0 []) = "unsigned".toList → argc < 3 →
      (parse_synth_field cfg argc argv consumed mem).ret = .err (-EINVAL)) ∧
    (∀ field : synth_field, skip_semi (argv.getD 0 []) = "unsigned".toList →
      (parse_synth_field cfg argc argv consumed mem).ret = .ok field →
      field.type = "unsigned ".toList ++ skip_semi (argv.getD 1 []) ++
        array_suffix (argv.getD 2 []) ∧
      field.name = field_name_of (argv.getD 2 [])) := by
  refine ⟨?_, ?_, ?_, ?_⟩
  · intro hu ha
    rw [parse_synth_field_eq, if_neg (by omega), if_pos hu]
    rcases kalloc mem with ⟨b1, m1⟩
    cases b1 with
    | false => rfl
    | true =>
      dsimp only
      rcases kalloc m1 with ⟨b2, m2⟩
      cases b2 with
      | false => rfl
      | true =>
        dsimp only
        rcases kalloc m2 with ⟨b3, m3⟩
        cases b3 with
        | false => rfl
        | true => dsimp only; split <;> rfl
  · intro hu
    rw [parse_synth_field_eq, if_neg (fun h => hu h.1), if_neg hu]
    rcases kalloc mem with ⟨b1, m1⟩
    cases b1 with
    | false => rfl
    | true =>
      dsimp only
      rcases kalloc m1 with ⟨b2, m2⟩
      cases b2 with
      | false => rfl
      | true =>
        dsimp only
        rcases kalloc m2 with ⟨b3, m3⟩
        cases b3 with
        | false => rfl
        | true => dsimp only; split <;> rfl
  · intro hu ha
    rw [parse_synth_field_eq, if_pos ⟨hu, ha⟩]
  · intro field hu h
    have h1 := (parse_synth_field_ok cfg argc argv consumed mem field h).1
    rw [h1]
    simp only [assembled_type, type_part, name_token, if_pos hu]
    exact ⟨trivial, trivial⟩

/-- The amended C7 at `unsigned long x;` and at `unsigned long` alone. -/
theorem parse_synth_field_tokens_witness :
    (parse_synth_field linux64 3 ["unsigned".toList, "long".toList, "x;".toList] 0 []).consumed
      = 3 ∧
    (parse_synth_field linux64 2 ["unsigned".toList, "long".toList] 0 []).ret
      = .err (-EINVAL) :=
  ⟨(parse_synth_field_tokens linux64 3 ["unsigned".toList, "long".toList, "x;".toList] 0 []).1
      (by decide) (by decide),
   (parse_synth_field_tokens linux64 2 ["unsigned".toList, "long".toList] 0 []).2.2.1
      (by decide) (by decide)⟩

theorem takeWhile_dropWhile_bracket (base rest : CStr) (h : '[' ∉ base) :
    (base ++ '[' :: rest).takeWhile (fun c => c != '[') = base ∧
    (base ++ '[' :: rest).dropWhile (fun c => c != '[') = '[' :: rest := by
  induction base with
  | nil => simp [List.takeWhile, List.dropWhile]
  | cons b bs ih =>
    have hb : b ≠ '[' := fun e => h (by simp [e])
    have hbs : '[' ∉ bs := fun e => h (by simp [e])
    have hb2 : (b != '[') = true := by simpa using hb
    obtain ⟨h1, h2⟩ := ih hbs
    simp only [List.cons_append, List.takeWhile, List.dropWhile, hb2, h1, h2, and_self,
      List.append_eq]

theorem field_name_of_bracket (base rest : CStr) (h : '[' ∉ base) :
    field_name_of (base ++ '[' :: rest) = base := by
  unfold field_name_of
  rw [if_pos (by simp), (takeWhile_dropWhile_bracket base rest h).1]

theorem field_name_of_semi (base : CStr) (h : '[' ∉ base ++ [';']) :
    field_name_of (base ++ [';']) = base := by
  unfold field_name_of
  rw [if_neg h, if_pos (by simp), List.dropLast_concat]

theorem synth_field_signed_char (rest : CStr) :
    synth_field_signed ("char".toList ++ rest) = true := by
  cases h : synth_field_signed ("char".toList ++ rest) with
  | true => rfl
  | false =>
    rw [synth_field_signed_eq_false_iff] at h
    rcases h with h | h
    · obtain ⟨t, ht⟩ := h
      simp at ht
    · simp at h

/-- C8: for every successfully parsed field, the name is the name token up to
but excluding its first '[' when it has one, and otherwise the name token
with a single trailing ';' removed; when the name token is a name followed by
an array suffix "[N]", the suffix is appended to the type token (as the parser
uses it, see `type_part`) to form the type string; and `char s[N]`, for N the
numeral of a capacity from 1 to the ceiling, yields the name "s" and a string
field of type "char[N]". The ceiling is a constant of a header outside the
sources and is taken to be at most 999. -/
theorem parse_synth_field_name_and_type (cfg : Config) (hmax : cfg.STR_VAR_LEN_MAX ≤ 999) :
    (∀ (argc : Nat) (argv : List CStr) (consumed : Nat) (mem : List Bool)
        (field : synth_field),
      (parse_synth_field cfg argc argv consumed mem).ret = .ok field →
      ('[' ∈ name_token argv →
        field.name = (name_token argv).takeWhile (fun c => c != '[')) ∧
      ('[' ∉ name_token argv → ∀ base : CStr, name_token argv = base ++ [';'] →
        field.name = base) ∧
      ('[' ∉ name_token argv → (name_token argv).getLast? ≠ some ';' →
        field.name = name_token argv) ∧
      (∀ base N : CStr, name_token argv = base ++ '[' :: N ++ [']'] → '[' ∉ base →
        field.name = base ∧ field.type = type_part argv ++ '[' :: N ++ [']'])) ∧
    (∀ (N : Nat) (consumed : Nat), 1 ≤ N → N ≤ cfg.STR_VAR_LEN_MAX →
      parse_synth_field cfg 2
          ["char".toList, "s[".toList ++ (Nat.repr N).toList ++ "]".toList] consumed [] =
        ⟨.ok { type := "char[".toList ++ (Nat.repr N).toList ++ "]".toList,
               name := "s".toList, size := N, offset := 0, is_signed := true,
               is_string := true }, 2, []⟩) := by
  constructor
  · intro argc argv consumed mem field h
    have h1 := (parse_synth_field_ok cfg argc argv consumed mem field h).1
    have hn : field.name = field_name_of (name_token argv) := by rw [h1]
    have ht : field.type = assembled_type argv := by rw [h1]
    refine ⟨?_, ?_, ?_, ?_⟩
    · intro hm
      rw [hn, field_name_of, if_pos hm]
    · intro hm base hb
      rw [hn, hb]
      exact field_name_of_semi base (hb ▸ hm)
    · intro hm hl
      rw [hn, field_name_of, if_neg hm, if_neg hl]
    · intro base N hb hm
      rw [hn, ht, assembled_type, array_suffix, hb]
      have := takeWhile_dropWhile_bracket base (N ++ [']']) hm
      refine ⟨?_, ?_⟩
      · have h2 := field_name_of_bracket base (N ++ [']']) hm
        simpa using h2
      · have h3 := this.2
        simp only [List.cons_append, List.append_assoc] at h3 ⊢
        rw [h3]
  · intro N consumed h1 h2
    have hnu : ∀ t : CStr, ¬ skip_semi (["char".toList, t].getD 0 []) = "unsigned".toList := by
      intro t
      show ¬ skip_semi "char".toList = "unsigned".toList
      decide
    have hsz := synth_field_size_decimal cfg hmax N h1 h2
    have hty : assembled_type ["char".toList, "s[".toList ++ (Nat.repr N).toList ++ "]".toList]
        = "char[".toList ++ (Nat.repr N).toList ++ "]".toList := by
      have := (takeWhile_dropWhile_bracket "s".toList ((Nat.repr N).toList ++ "]".toList)
        (by decide)).2
      simp only [assembled_type, type_part, name_token, array_suffix]
      rw [if_neg (hnu _), if_neg (hnu _)]
      simp only [List.getD_cons_succ, List.getD_cons_zero]
      have e : "s[".toList ++ (Nat.repr N).toList ++ "]".toList =
          "s".toList ++ '[' :: ((Nat.repr N).toList ++ "]".toList) := by simp
      rw [e, this]
      simp [skip_semi]
    have hnm : field_name_of (name_token
        ["char".toList, "s[".toList ++ (Nat.repr N).toList ++ "]".toList]) = "s".toList := by
      have := field_name_of_bracket "s".toList ((Nat.repr N).toList ++ "]".toList) (by decide)
      simp only [name_token]
      rw [if_neg (hnu _)]
      simp only [List.getD_cons_succ, List.getD_cons_zero]
      have e : "s[".toList ++ (Nat.repr N).toList ++ "]".toList =
          "s".toList ++ '[' :: ((Nat.repr N).toList ++ "]".toList) := by simp
      rw [e, this]
    rw [parse_synth_field_fine cfg 2 _ consumed [] (by simp)]
    rw [if_neg (fun h => hnu _ h.1), hty, hnm, hsz]
    have hN : ¬ ((N : Int) = 0) := by omega
    rw [if_neg hN, if_neg (hnu _)]
    have hs : synth_field_signed ("char[".toList ++ (Nat.repr N).toList ++ "]".toList) = true := by
      have := synth_field_signed_char ('[' :: ((Nat.repr N).toList ++ "]".toList))
      simpa using this
    have hi : synth_field_is_string ("char[".toList ++ (Nat.repr N).toList ++ "]".toList)
        = true := by
      rw [synth_field_is_string_iff]
      exact ⟨[], (Nat.repr N).toList ++ "]".toList, by simp⟩
    rw [hs, hi]
    rfl

/-- C8 at the values of a 64-bit build: `char s[8]` yields the name "s" and
a string field of type "char[8]". -/
theorem parse_synth_field_name_and_type_witness :
    linux64.STR_VAR_LEN_MAX ≤ 999 ∧
    parse_synth_field linux64 2
        ["char".toList, "s[".toList ++ (Nat.repr 8).toList ++ "]".toList] 0 [] =
      ⟨.ok { type := "char[".toList ++ (Nat.repr 8).toList ++ "]".toList,
             name := "s".toList, size := (8 : Nat), offset := 0, is_signed := true,
             is_string := true }, 2, []⟩ :=
  ⟨by decide,
   (parse_synth_field_name_and_type linux64 (by decide)).2 8 0 (by decide) (by decide)⟩

/-! ## Theorems: the field loop and the registry -/

theorem field_loop_done (cfg : Config) (argc : Nat) (argv : List CStr) (fuel i : Nat)
    (fields : List synth_field) (consumed : Nat) (mem : List Bool) (h : ¬ i + 1 < argc) :
    field_loop cfg argc argv fuel i fields consumed mem = some (.ok (i, fields), mem) := by
  unfold field_loop
  rw [if_neg h]

theorem field_loop_step (cfg : Config) (argc : Nat) (argv : List CStr) (fuel i : Nat)
    (fields : List synth_field) (consumed : Nat) (mem : List Bool) (h : i + 1 < argc) :
    field_loop cfg argc argv (fuel + 1) i fields consumed mem =
      if strcmp (argv.getD i []) ";".toList = 0 then
        field_loop cfg argc argv fuel (i + 1) fields consumed mem
      else if fields.length = cfg.SYNTH_FIELDS_MAX then some (.err (-EINVAL), mem)
      else
        match parse_synth_field cfg (argc - i) (argv.drop i) consumed mem with
        | ⟨.err e, _, mem⟩ => some (.err e, mem)
        | ⟨.ok field, consumed, mem⟩ =>
          field_loop cfg argc argv fuel (i + (consumed - 1) + 1) (fields ++ [field])
            consumed mem := by
  conv_lhs => unfold field_loop
  rw [if_pos h]

theorem field_loop_fuel (cfg : Config) (argc : Nat) (argv : List CStr) :
    ∀ (fuel1 fuel2 i : Nat) (fields : List synth_field) (consumed : Nat) (mem : List Bool),
      argc ≤ i + fuel1 → argc ≤ i + fuel2 →
      field_loop cfg argc argv fuel1 i fields consumed mem =
        field_loop cfg argc argv fuel2 i fields consumed mem := by
  intro fuel1
  induction fuel1 with
  | zero =>
    intro fuel2 i fields consumed mem h1 _
    rw [field_loop_done _ _ _ _ _ _ _ _ (by omega), field_loop_done _ _ _ _ _ _ _ _ (by omega)]
  | succ n ih =>
    intro fuel2 i fields consumed mem h1 h2
    by_cases hlt : i + 1 < argc
    · obtain ⟨f2, rfl⟩ : ∃ f2, fuel2 = f2 + 1 := ⟨fuel2 - 1, by omega⟩
      rw [field_loop_step _ _ _ _ _ _ _ _ hlt, field_loop_step _ _ _ _ _ _ _ _ hlt]
      split
      · exact ih _ _ _ _ _ (by omega) (by omega)
      · split
        · rfl
        · rcases parse_synth_field cfg (argc - i) (argv.drop i) consumed mem with ⟨ret, c, m⟩
          cases ret with
          | err e => rfl
          | ok f => exact ih _ _ _ _ _ (by omega) (by omega)
    · rw [field_loop_done _ _ _ _ _ _ _ _ hlt, field_loop_done _ _ _ _ _ _ _ _ hlt]

theorem field_loop_ne_none (cfg : Config) (argc : Nat) (argv : List CStr) :
    ∀ (fuel i : Nat) (fields : List synth_field) (consumed : Nat) (mem : List Bool),
      argc ≤ i + fuel → field_loop cfg argc argv fuel i fields consumed mem ≠ none := by
  intro fuel
  induction fuel with
  | zero =>
    intro i fields consumed mem h
    rw [field_loop_done _ _ _ _ _ _ _ _ (by omega)]
    simp
  | succ n ih =>
    intro i fields consumed mem h
    by_cases hlt : i + 1 < argc
    · rw [field_loop_step _ _ _ _ _ _ _ _ hlt]
      split
      · exact ih _ _ _ _ (by omega)
      · split
        · simp
        · rcases parse_synth_field cfg (argc - i) (argv.drop i) consumed mem with ⟨ret, c, m⟩
          cases ret with
          | err e => simp
          | ok f => exact ih _ _ _ _ (by omega)
    · rw [field_loop_done _ _ _ _ _ _ _ _ hlt]
      simp

theorem LoopAt.loop_eq {cfg : Config} {argc : Nat} {argv : List CStr} {mem0 : List Bool}
    {i : Nat} {fields : List synth_field} {consumed : Nat} {mem : List Bool}
    (h : LoopAt cfg argc argv mem0 i fields consumed mem) :
    field_loop cfg argc argv argc 0 [] 0 mem0 =
      field_loop cfg argc argv (argc - i) i fields consumed mem := by
  induction h with
  | start => rfl
  | sep hat hlt hsep ih =>
    rename_i i fields consumed mem
    rw [ih]
    obtain ⟨n, hn⟩ : ∃ n, argc - i = n + 1 := ⟨argc - i - 1, by omega⟩
    rw [hn, field_loop_step _ _ _ _ _ _ _ _ hlt, if_pos hsep]
    exact field_loop_fuel _ _ _ _ _ _ _ _ _ (by omega) (by omega)
  | field hat hlt hsep hmax hparse ih =>
    rename_i i fields consumed mem f c mem1
    rw [ih]
    obtain ⟨n, hn⟩ : ∃ n, argc - i = n + 1 := ⟨argc - i - 1, by omega⟩
    rw [hn, field_loop_step _ _ _ _ _ _ _ _ hlt, if_neg hsep, if_neg hmax, hparse]
    exact field_loop_fuel _ _ _ _ _ _ _ _ _ (by omega) (by omega)

theorem LoopAt.mem_sub {cfg : Config} {argc : Nat} {argv : List CStr} {mem0 : List Bool}
    {i : Nat} {fields : List synth_field} {consumed : Nat} {mem : List Bool}
    (h : LoopAt cfg argc argv mem0 i fields consumed mem) : ∀ b ∈ mem, b ∈ mem0 := by
  induction h with
  | start => exact fun b hb => hb
  | sep hat hlt hsep ih => exact ih
  | field hat hlt hsep hmax hparse ih =>
    rename_i i fields consumed mem f c mem1
    intro b hb
    have := (parse_synth_field_ok cfg _ _ _ _ f (by rw [hparse])).2.2.2.2 b (by rw [hparse]; exact hb)
    exact ih b this

theorem parse_unknown_type (cfg : Config) (argc : Nat) (argv : List CStr) (consumed : Nat)
    (mem : List Bool) (hmem : ∀ b ∈ mem, b = true)
    (hcat : assembled_type argv ∉ ["s64".toList, "u64".toList, "s32".toList, "u32".toList,
      "s16".toList, "u16".toList, "s8".toList, "u8".toList, "char".toList,
      "unsigned char".toList, "int".toList, "unsigned int".toList, "long".toList,
      "unsigned long".toList, "pid_t".toList, "gfp_t".toList])
    (hns : ¬ "char[".toList <:+: assembled_type argv) :
    (parse_synth_field cfg argc argv consumed mem).ret = .err (-EINVAL) := by
  rw [parse_synth_field_fine cfg argc argv consumed mem hmem,
    synth_field_size_other cfg _ hcat hns]
  split
  · rfl
  · rw [if_pos rfl]

/-- C6: for every field descriptor whose assembled type string is not one of
the catalog's scalar tokens and does not contain "char[", `parse_synth_field`
returns -EINVAL, and `__create_synth_event`, whose loop has arrived at that
descriptor (`LoopAt`), fails with -EINVAL and leaves the state as it was,
registering nothing. The surroundings of the descriptor are those of a
definition that gets as far as it: allocations succeed, the name is not empty
and not registered yet. -/
theorem create_unknown_type (cfg : Config) :
    (∀ (argc : Nat) (argv : List CStr) (consumed : Nat) (mem : List Bool),
      (∀ b ∈ mem, b = true) →
      assembled_type argv ∉ ["s64".toList, "u64".toList, "s32".toList, "u32".toList,
        "s16".toList, "u16".toList, "s8".toList, "u8".toList, "char".toList,
        "unsigned char".toList, "int".toList, "unsigned int".toList, "long".toList,
        "unsigned long".toList, "pid_t".toList, "gfp_t".toList] →
      ¬ "char[".toList <:+: assembled_type argv →
      (parse_synth_field cfg argc argv consumed mem).ret = .err (-EINVAL)) ∧
    (∀ (env : Env) (w : World) (argc : Nat) (name : CStr) (argv : List CStr) (i : Nat)
        (fields : List synth_field) (consumed : Nat) (mem : List Bool),
      (∀ b ∈ env.allocs, b = true) →
      byteAt name 0 ≠ 0 →
      find_synth_event w name = none →
      LoopAt cfg argc argv env.allocs i fields consumed mem →
      i + 1 < argc →
      argv.getD i [] ≠ ";".toList →
      assembled_type (argv.drop i) ∉ ["s64".toList, "u64".toList, "s32".toList,
        "u32".toList, "s16".toList, "u16".toList, "s8".toList, "u8".toList, "char".toList,
        "unsigned char".toList, "int".toList, "unsigned int".toList, "long".toList,
        "unsigned long".toList, "pid_t".toList, "gfp_t".toList] →
      ¬ "char[".toList <:+: assembled_type (argv.drop i) →
      __create_synth_event cfg env w argc name argv = some (-EINVAL, w)) := by
  refine ⟨fun argc argv consumed mem hmem hcat hns =>
    parse_unknown_type cfg argc argv consumed mem hmem hcat hns, ?_⟩
  intro env w argc name argv i fields consumed mem hmem hname hfind hat hlt hsep hcat hns
  have hmem2 : ∀ b ∈ mem, b = true := fun b hb => hmem b (hat.mem_sub b hb)
  have hp := parse_unknown_type cfg (argc - i) (argv.drop i) consumed mem hmem2 hcat hns
  have hsep2 : ¬ strcmp (argv.getD i []) ";".toList = 0 := by
    rw [strcmp_eq_zero_iff]; exact hsep
  unfold __create_synth_event
  have hg : (byteAt name 0 = 0 || decide (argc < 1)) = false := by
    have : ¬ argc < 1 := by omega
    simp [hname, this]
  rw [hg, hfind]
  dsimp only
  rw [hat.loop_eq]
  obtain ⟨n, hn⟩ : ∃ n, argc - i = n + 1 := ⟨argc - i - 1, by omega⟩
  rw [hn, field_loop_step _ _ _ _ _ _ _ _ hlt, if_neg hsep2]
  by_cases hmax : fields.length = cfg.SYNTH_FIELDS_MAX
  · rw [if_pos hmax]
    rfl
  · rw [if_neg hmax]
    rcases hq : parse_synth_field cfg (argc - i) (argv.drop i) consumed mem with ⟨ret, c, m⟩
    rw [hq] at hp
    dsimp only at hp
    subst hp
    rfl

theorem find_synth_event_from_eq_none (l : List dyn_event) (pos : Nat) (name : CStr) :
    find_synth_event_from l pos name = none ↔ ∀ ev, dyn_event.synth ev ∈ l → ev.name ≠ name := by
  induction l generalizing pos with
  | nil => simp [find_synth_event_from]
  | cons d ds ih =>
    cases d with
    | other id => simp [find_synth_event_from, ih]
    | synth e =>
      by_cases he : e.name = name
      · have : strcmp e.name name = 0 := (strcmp_eq_zero_iff _ _).mpr he
        simp only [find_synth_event_from, this, if_true, List.mem_cons]
        constructor
        · intro h; cases h
        · intro h; exact absurd he (h e (Or.inl rfl))
      · have : ¬ strcmp e.name name = 0 := fun h => he ((strcmp_eq_zero_iff _ _).mp h)
        simp only [find_synth_event_from, this, if_false, ih, List.mem_cons]
        constructor
        · intro h ev hev
          rcases hev with hev | hev
          · injection hev with hev; rw [hev]; exact he
          · exact h ev hev
        · intro h ev hev
          exact h ev (Or.inr hev)

/-- C10: for every name that no registered synthetic event has,
`synth_event_delete` returns -ENOENT and leaves the registry (and all the rest
of the state) unchanged. -/
theorem synth_event_delete_absent (env : Env) (w : World) (event_name : CStr)
    (h : ∀ ev, dyn_event.synth ev ∈ w.dyn_event_list → ev.name ≠ event_name) :
    synth_event_delete env w event_name = (-ENOENT, w) := by
  have hf : find_synth_event w event_name = none :=
    (find_synth_event_from_eq_none _ _ _).mpr h
  unfold synth_event_delete
  rw [hf]

/-- C9, amended: for every name already present in the registry,
`__create_synth_event` called with a non-empty name and at least one field
token (`argc >= 1`) returns -EEXIST whatever the tokens are, and with no token
at all it returns -EINVAL; in both cases the state is left unchanged. -/
theorem create_existing (cfg : Config) (env : Env) (w : World) (argc : Nat) (name : CStr)
    (argv : List CStr) (h : (find_synth_event w name).isSome) :
    (byteAt name 0 ≠ 0 → 1 ≤ argc →
      __create_synth_event cfg env w argc name argv = some (-EEXIST, w)) ∧
    (argc < 1 → __create_synth_event cfg env w argc name argv = some (-EINVAL, w)) := by
  constructor
  · intro hname hargc
    unfold __create_synth_event
    have hg : (byteAt name 0 = 0 || decide (argc < 1)) = false := by
      have : ¬ argc < 1 := by omega
      simp [hname, this]
    rw [hg]
    cases hf : find_synth_event w name with
    | none => rw [hf] at h; cases h
    | some p => rfl
  · intro hargc
    unfold __create_synth_event
    have hg : (byteAt name 0 = 0 || decide (argc < 1)) = true := by simp [hargc]
    rw [hg]
    rfl

/-- C9, as stated, fails when there is no field token: after "foo" has been
defined, `__create_synth_event` with `argc = 0` finds the name registered and
still returns -EINVAL, not -EEXIST. -/
theorem create_existing_counterexample :
    (__create_synth_event linux64 Env.fine ⟨[], [], [], 0⟩ 2 "foo".toList
        ["u64".toList, "a".toList]).map (fun r => r.1) = some 0 ∧
    (__create_synth_event linux64 Env.fine ⟨[], [], [], 0⟩ 2 "foo".toList
        ["u64".toList, "a".toList]).map
        (fun r => (find_synth_event r.2 "foo".toList).isSome) = some true ∧
    (__create_synth_event linux64 Env.fine ⟨[], [], [], 0⟩ 2 "foo".toList
        ["u64".toList, "a".toList]).bind
        (fun r => (__create_synth_event linux64 Env.fine r.2 0 "foo".toList []).map
          (fun q => (q.1, decide (q.2 = r.2)))) = some (-EINVAL, true) ∧
    -EINVAL ≠ -EEXIST := by
  decide

/-- C6 at `u64 a; frob b`: the loop arrives at index 2 with the field `a`
parsed, and the unknown type "frob" makes the definition fail. -/
theorem create_unknown_type_witness :
    (parse_synth_field linux64 2 ["frob".toList, "b".toList] 2 []).ret = .err (-EINVAL) ∧
    __create_synth_event linux64 Env.fine ⟨[], [], [], 0⟩ 4 "foo".toList
        ["u64".toList, "a;".toList, "frob".toList, "b".toList] =
      some (-EINVAL, ⟨[], [], [], 0⟩) :=
  ⟨(create_unknown_type linux64).1 2 ["frob".toList, "b".toList] 2 [] (by decide)
      (by decide) (by decide),
   (create_unknown_type linux64).2 Env.fine ⟨[], [], [], 0⟩ 4 "foo".toList
      ["u64".toList, "a;".toList, "frob".toList, "b".toList] 2
      [⟨"u64".toList, "a".toList, 8, 0, false, false⟩] 2 []
      (by decide) (by decide) (by decide)
      (@LoopAt.field linux64 4 ["u64".toList, "a;".toList, "frob".toList, "b".toList] []
        0 [] 0 [] ⟨"u64".toList, "a".toList, 8, 0, false, false⟩ 2 []
        LoopAt.start (by decide) (by decide) (by decide) (by decide))
      (by decide) (by decide) (by decide) (by decide)⟩

/-- C10 with "bar" deleted from a registry that holds only "foo". -/
theorem synth_event_delete_absent_witness :
    synth_event_delete Env.fine
        ⟨[.synth ⟨"foo".toList, [], 0, 0, none, none⟩], ["foo".toList], ["foo".toList], 0⟩
        "bar".toList =
      (-ENOENT,
        ⟨[.synth ⟨"foo".toList, [], 0, 0, none, none⟩], ["foo".toList], ["foo".toList], 0⟩) :=
  synth_event_delete_absent Env.fine _ "bar".toList (by
    intro ev hev
    rw [List.mem_singleton] at hev
    injection hev with hev
    subst hev
    decide)

/-- The amended C9 with "foo" registered and the tokens `u64 a`. -/
theorem create_existing_witness :
    __create_synth_event linux64 Env.fine
        ⟨[.synth ⟨"foo".toList, [], 0, 0, none, none⟩], ["foo".toList], ["foo".toList], 0⟩
        2 "foo".toList ["u64".toList, "a".toList] =
      some (-EEXIST,
        ⟨[.synth ⟨"foo".toList, [], 0, 0, none, none⟩], ["foo".toList], ["foo".toList], 0⟩) :=
  (create_existing linux64 Env.fine _ 2 "foo".toList ["u64".toList, "a".toList]
    (by decide)).1 (by decide) (by decide)

/-! ## Theorems: the record layout -/

theorem wrap_int_id (x : Int) (h0 : 0 ≤ x) (h1 : x < 2 ^ 31) : wrap_int x = x := by
  unfold wrap_int
  norm_num at h1 ⊢
  omega

theorem define_fields_loop_spec (cfg : Config) (tdf : Nat → DefineCall → Int) :
    ∀ (fields : List synth_field) (i0 : Nat) (off : Int) (n : Nat),
      (define_fields_loop cfg tdf fields i0 off n).ret = 0 →
      n + (fields.map (word_width cfg)).sum < 2 ^ 32 →
      (define_fields_loop cfg tdf fields i0 off n).n_u64 =
        n + (fields.map (word_width cfg)).sum ∧
      (define_fields_loop cfg tdf fields i0 off n).fields.length = fields.length ∧
      (∀ (k : Nat) (f : synth_field),
        (define_fields_loop cfg tdf fields i0 off n).fields[k]? = some f →
        ∃ f0, fields[k]? = some f0 ∧
          f = { f0 with offset := n + ((fields.take k).map (word_width cfg)).sum }) := by
  intro fields
  induction fields with
  | nil =>
    intro i0 off n _ _
    simp [define_fields_loop]
  | cons f rest ih =>
    intro i0 off n hok hsum
    simp only [List.map_cons, List.sum_cons] at hsum
    unfold define_fields_loop at hok ⊢
    dsimp only at hok ⊢
    by_cases hret : tdf i0 ⟨f.type, f.name, off, f.size % 2 ^ 32, f.is_signed⟩ ≠ 0
    · rw [if_pos hret] at hok
      exact absurd hok hret
    · rw [if_neg hret] at hok ⊢
      dsimp only at hok ⊢
      have hw : (if f.is_string = true then
            define_fields_loop cfg tdf rest (i0 + 1) (wrap_int (off + ↑cfg.STR_VAR_LEN_MAX))
              ((n + cfg.STR_VAR_LEN_MAX / 8) % 2 ^ 32)
          else define_fields_loop cfg tdf rest (i0 + 1) (wrap_int (off + 8))
              ((n + 1) % 2 ^ 32)) =
          define_fields_loop cfg tdf rest (i0 + 1)
            (if f.is_string = true then wrap_int (off + ↑cfg.STR_VAR_LEN_MAX)
              else wrap_int (off + 8)) (n + word_width cfg f) := by
        unfold word_width
        by_cases hs : f.is_string = true
        · simp only [if_pos hs] at hsum ⊢
          rw [Nat.mod_eq_of_lt]
          unfold word_width at hsum; simp only [if_pos hs] at hsum; omega
        · simp only [if_neg hs] at hsum ⊢
          rw [Nat.mod_eq_of_lt]
          unfold word_width at hsum; simp only [if_neg hs] at hsum; omega
      rw [hw] at hok ⊢
      obtain ⟨h1, h2, h3⟩ := ih (i0 + 1) _ (n + word_width cfg f) hok (by omega)
      refine ⟨?_, ?_, ?_⟩
      · rw [h1]; simp only [List.map_cons, List.sum_cons]; omega
      · simp only [List.length_cons, h2]
      · intro k g hg
        cases k with
        | zero =>
          simp only [List.getElem?_cons_zero, Option.some.injEq] at hg
          exact ⟨f, by simp, by rw [← hg]; simp⟩
        | succ k =>
          simp only [List.getElem?_cons_succ] at hg
          obtain ⟨f0, hf0, hg0⟩ := h3 k g hg
          refine ⟨f0, by simpa using hf0, ?_⟩
          rw [hg0]
          simp only [List.take_succ_cons, List.map_cons, List.sum_cons]
          congr 1
          omega


theorem step_off_string (off : Int) (S W : Nat) (h8 : 8 ∣ S) (h0 : 0 ≤ off)
    (hsum : off + 8 * ((S / 8 + W : Nat) : Int) < 2 ^ 31) :
    wrap_int (off + S) = off + 8 * ((S / 8 : Nat) : Int) := by
  have hS := Nat.mul_div_cancel' h8
  have e : (2 : Int) ^ 31 = 2147483648 := by norm_num
  rw [e] at hsum
  rw [wrap_int_id _ (by omega) (by rw [e]; omega)]
  omega

theorem step_off_scalar (off : Int) (W : Nat) (h0 : 0 ≤ off)
    (hsum : off + 8 * ((1 + W : Nat) : Int) < 2 ^ 31) :
    wrap_int (off + 8) = off + 8 * ((1 : Nat) : Int) := by
  have e : (2 : Int) ^ 31 = 2147483648 := by norm_num
  rw [e] at hsum
  rw [wrap_int_id _ (by omega) (by rw [e]; omega)]
  omega

theorem define_fields_loop_calls (cfg : Config) (tdf : Nat → DefineCall → Int)
    (h8 : 8 ∣ cfg.STR_VAR_LEN_MAX) :
    ∀ (fields : List synth_field) (i0 : Nat) (off : Int) (n : Nat),
      (define_fields_loop cfg tdf fields i0 off n).ret = 0 →
      0 ≤ off → off + 8 * ((fields.map (word_width cfg)).sum : Nat) < 2 ^ 31 →
      (define_fields_loop cfg tdf fields i0 off n).calls.length = fields.length ∧
      (∀ (k : Nat) (c : DefineCall),
        (define_fields_loop cfg tdf fields i0 off n).calls[k]? = some c →
        ∃ f0, fields[k]? = some f0 ∧
          c = ⟨f0.type, f0.name, off + 8 * (((fields.take k).map (word_width cfg)).sum : Nat),
            f0.size % 2 ^ 32, f0.is_signed⟩) := by
  intro fields
  induction fields with
  | nil =>
    intro i0 off n _ _ _
    simp [define_fields_loop]
  | cons f rest ih =>
    intro i0 off n hok h0 hsum
    simp only [List.map_cons, List.sum_cons] at hsum
    unfold define_fields_loop at hok ⊢
    dsimp only at hok ⊢
    by_cases hret : tdf i0 ⟨f.type, f.name, off, f.size % 2 ^ 32, f.is_signed⟩ ≠ 0
    · rw [if_pos hret] at hok
      exact absurd hok hret
    · rw [if_neg hret] at hok ⊢
      dsimp only at hok ⊢
      have hoff : ∀ m : Nat, (if f.is_string = true then
            define_fields_loop cfg tdf rest (i0 + 1) (wrap_int (off + ↑cfg.STR_VAR_LEN_MAX))
              ((n + cfg.STR_VAR_LEN_MAX / 8) % 2 ^ 32)
          else define_fields_loop cfg tdf rest (i0 + 1) (wrap_int (off + 8))
              ((n + 1) % 2 ^ 32)) =
          define_fields_loop cfg tdf rest (i0 + 1) (off + 8 * (word_width cfg f : Nat))
            (if f.is_string = true then (n + cfg.STR_VAR_LEN_MAX / 8) % 2 ^ 32
              else (n + 1) % 2 ^ 32) := by
        intro _
        unfold word_width at hsum ⊢
        by_cases hs : f.is_string = true
        · simp only [if_pos hs] at hsum ⊢
          rw [step_off_string off _ _ h8 h0 hsum]
        · simp only [if_neg hs] at hsum ⊢
          rw [step_off_scalar off _ h0 hsum]
      rw [hoff 0] at hok ⊢
      have e : (2 : Int) ^ 31 = 2147483648 := by norm_num
      rw [e] at hsum
      obtain ⟨h1, h2⟩ := ih (i0 + 1) _ _ hok (by omega) (by rw [e]; omega)
      refine ⟨?_, ?_⟩
      · simp only [List.length_cons, h1]
      · intro k c hc
        cases k with
        | zero =>
          simp only [List.getElem?_cons_zero, Option.some.injEq] at hc
          exact ⟨f, by simp, by rw [← hc]; simp⟩
        | succ k =>
          simp only [List.getElem?_cons_succ] at hc
          obtain ⟨f0, hf0, hc0⟩ := h2 k c hc
          refine ⟨f0, by simpa using hf0, ?_⟩
          rw [hc0]
          simp only [List.take_succ_cons, List.map_cons, List.sum_cons]
          congr 1
          push_cast
          ring

theorem pre_succ (cfg : Config) (l : List synth_field) (k : Nat) (x : synth_field)
    (h : l[k]? = some x) :
    ((l.take (k + 1)).map (word_width cfg)).sum =
      ((l.take k).map (word_width cfg)).sum + word_width cfg x := by
  rw [List.take_succ, h]
  simp

theorem pre_le_total (cfg : Config) (l : List synth_field) (k : Nat) :
    ((l.take k).map (word_width cfg)).sum ≤ (l.map (word_width cfg)).sum := by
  conv_rhs => rw [← List.take_append_drop k l]
  rw [List.map_append, List.sum_append]
  omega

theorem pre_mono (cfg : Config) (l : List synth_field) (k m : Nat) (h : k ≤ m) :
    ((l.take k).map (word_width cfg)).sum ≤ ((l.take m).map (word_width cfg)).sum := by
  have := pre_le_total cfg (l.take m) k
  rw [List.take_take, Nat.min_eq_left h] at this
  exact this

theorem word_width_pos (cfg : Config) (h : 8 ≤ cfg.STR_VAR_LEN_MAX) (f : synth_field) :
    1 ≤ word_width cfg f := by
  unfold word_width
  split
  · omega
  · exact le_refl 1

theorem define_fields_loop_widths (cfg : Config) (tdf : Nat → DefineCall → Int)
    (fields : List synth_field) (i0 : Nat) (off : Int) (n : Nat)
    (hok : (define_fields_loop cfg tdf fields i0 off n).ret = 0)
    (hfit : n + (fields.map (word_width cfg)).sum < 2 ^ 32) :
    (define_fields_loop cfg tdf fields i0 off n).fields.map (word_width cfg) =
      fields.map (word_width cfg) := by
  obtain ⟨_, h2, h3⟩ := define_fields_loop_spec cfg tdf fields i0 off n hok hfit
  apply List.ext_getElem?
  intro k
  rw [List.getElem?_map, List.getElem?_map]
  cases hk : (define_fields_loop cfg tdf fields i0 off n).fields[k]? with
  | none =>
    have : fields[k]? = none := by
      rw [List.getElem?_eq_none_iff] at hk ⊢
      omega
    rw [this]
  | some f =>
    obtain ⟨f0, hf0, hf⟩ := h3 k f hk
    rw [hf0, hf]
    rfl

theorem trace_start_size (cfg : Config) (reserve : Int → Option (List Nat))
    (file : trace_event_file) (rb : ring_buffer)
    (hen : file.enabled = true) (hsd : file.soft_disabled = false)
    (hfit : (cfg.sizeof_entry : Int) + 8 * (file.event.n_u64 : Int) < 2 ^ 31)
    (hres : (reserve ((cfg.sizeof_entry : Int) + 8 * (file.event.n_u64 : Int))).isSome) :
    (__synth_event_trace_start cfg reserve file rb).1 = 0 ∧
    (__synth_event_trace_start cfg reserve file rb).2.2.reserved =
      rb.reserved ++ [(cfg.sizeof_entry : Int) + 8 * (file.event.n_u64 : Int)] := by
  have e : (2 : Int) ^ 31 = 2147483648 := by norm_num
  rw [e] at hfit
  have h1 : wrap_int ((file.event.n_u64 : Int) * 8) = 8 * (file.event.n_u64 : Int) := by
    rw [wrap_int_id _ (by omega) (by rw [e]; omega)]; ring
  have h2 : wrap_int ((cfg.sizeof_entry : Int) + 8 * (file.event.n_u64 : Int)) =
      (cfg.sizeof_entry : Int) + 8 * (file.event.n_u64 : Int) :=
    wrap_int_id _ (by omega) (by rw [e]; omega)
  unfold __synth_event_trace_start trace_event_buffer_reserve ring_buffer_nest_start
  simp only [hen, hsd, Bool.not_true, Bool.or_self, Bool.false_eq_true, if_false, h1, h2]
  cases hr : reserve ((cfg.sizeof_entry : Int) + 8 * (file.event.n_u64 : Int)) with
  | none => rw [hr] at hres; cases hres
  | some entry => exact ⟨rfl, rfl⟩


/-- C1: for every event on which `synth_event_define_fields` succeeds, field
i's word offset equals the sum of the word widths of fields 0..i-1 (1 for a
scalar field, `STR_VAR_LEN_MAX / 8` for a string field), so offsets are
strictly increasing in declaration order, the word ranges of the fields are
pairwise disjoint and all lie below `n_u64`; `n_u64` equals the sum of all
widths, and the size reserved by `__synth_event_trace_start` is
`sizeof(header) + 8 * n_u64`. The string block holds at least one word, and
the sizes fit the `unsigned int` and `int` variables of the code. -/
theorem synth_event_define_fields_layout (cfg : Config) (tdf : Nat → DefineCall → Int)
    (event : synth_event)
    (hstr : 8 ≤ cfg.STR_VAR_LEN_MAX)
    (hfit : (event.fields.map (word_width cfg)).sum < 2 ^ 32)
    (hok : (synth_event_define_fields cfg tdf event).1 = 0) :
    (synth_event_define_fields cfg tdf event).2.1.fields.length = event.fields.length ∧
    (∀ (k : Nat) (f : synth_field),
      (synth_event_define_fields cfg tdf event).2.1.fields[k]? = some f →
      (∃ f0, event.fields[k]? = some f0 ∧ f = { f0 with offset := f.offset }) ∧
      f.offset = (((synth_event_define_fields cfg tdf event).2.1.fields.take k).map
        (word_width cfg)).sum) ∧
    (∀ (i j : Nat) (f g : synth_field), i < j →
      (synth_event_define_fields cfg tdf event).2.1.fields[i]? = some f →
      (synth_event_define_fields cfg tdf event).2.1.fields[j]? = some g →
      f.offset < g.offset ∧ f.offset + word_width cfg f ≤ g.offset) ∧
    (∀ (i : Nat) (f : synth_field),
      (synth_event_define_fields cfg tdf event).2.1.fields[i]? = some f →
      f.offset + word_width cfg f ≤ (synth_event_define_fields cfg tdf event).2.1.n_u64) ∧
    (synth_event_define_fields cfg tdf event).2.1.n_u64 =
      ((synth_event_define_fields cfg tdf event).2.1.fields.map (word_width cfg)).sum ∧
    (∀ (reserve : Int → Option (List Nat)) (file : trace_event_file) (rb : ring_buffer),
      file.event = (synth_event_define_fields cfg tdf event).2.1 →
      file.enabled = true → file.soft_disabled = false →
      (cfg.sizeof_entry : Int) + 8 * (file.event.n_u64 : Int) < 2 ^ 31 →
      (reserve ((cfg.sizeof_entry : Int) + 8 * (file.event.n_u64 : Int))).isSome →
      (__synth_event_trace_start cfg reserve file rb).1 = 0 ∧
      (__synth_event_trace_start cfg reserve file rb).2.2.reserved =
        rb.reserved ++ [(cfg.sizeof_entry : Int) + 8 * (file.event.n_u64 : Int)]) := by
  unfold synth_event_define_fields at hok ⊢
  dsimp only at hok ⊢
  have hfit0 : 0 + (event.fields.map (word_width cfg)).sum < 2 ^ 32 := by omega
  obtain ⟨h1, h2, h3⟩ :=
    define_fields_loop_spec cfg tdf event.fields 0 cfg.offsetof_fields 0 hok hfit0
  have hw := define_fields_loop_widths cfg tdf event.fields 0 cfg.offsetof_fields 0 hok hfit0
  have hpre : ∀ k, (((define_fields_loop cfg tdf event.fields 0 cfg.offsetof_fields 0).fields.take
      k).map (word_width cfg)).sum = ((event.fields.take k).map (word_width cfg)).sum := by
    intro k
    rw [List.map_take, hw, ← List.map_take]
  have hoff : ∀ (k : Nat) (f : synth_field),
      (define_fields_loop cfg tdf event.fields 0 cfg.offsetof_fields 0).fields[k]? = some f →
      f.offset = (((define_fields_loop cfg tdf event.fields 0
        cfg.offsetof_fields 0).fields.take k).map (word_width cfg)).sum := by
    intro k f hf
    obtain ⟨f0, _, hf0⟩ := h3 k f hf
    rw [hpre, hf0]
    simp
  refine ⟨h2, ?_, ?_, ?_, ?_, ?_⟩
  · intro k f hf
    refine ⟨?_, hoff k f hf⟩
    obtain ⟨f0, hf0, hff⟩ := h3 k f hf
    exact ⟨f0, hf0, by rw [hff]⟩
  · intro i j f g hij hf hg
    have hi := hoff i f hf
    have hj := hoff j g hg
    have hs := pre_succ cfg _ i f hf
    have hm := pre_mono cfg (define_fields_loop cfg tdf event.fields 0
      cfg.offsetof_fields 0).fields (i + 1) j (by omega)
    have hp := word_width_pos cfg hstr f
    omega
  · intro i f hf
    have hi := hoff i f hf
    have hs := pre_succ cfg _ i f hf
    have hm := pre_le_total cfg (define_fields_loop cfg tdf event.fields 0
      cfg.offsetof_fields 0).fields (i + 1)
    rw [h1, hw] at *
    omega
  · rw [h1, hw]; omega
  · intro reserve file rb _ hen hsd hfit2 hres
    exact trace_start_size cfg reserve file rb hen hsd hfit2 hres

/-- C2: in `synth_event_define_fields` every non-string field consumes exactly
one 8-byte word whatever its declared size, every string field consumes
`STR_VAR_LEN_MAX` bytes (a whole number of words, the constant being a
multiple of 8) whatever its declared capacity, one `trace_define_field` call
is made per field, and the byte offset passed to it equals
`offsetof(fields) + 8 * (the field's word offset)`. -/
theorem synth_event_define_fields_words (cfg : Config) (tdf : Nat → DefineCall → Int)
    (event : synth_event)
    (h8 : 8 ∣ cfg.STR_VAR_LEN_MAX)
    (hfit : (cfg.offsetof_fields : Int) +
      8 * ((event.fields.map (word_width cfg)).sum : Nat) < 2 ^ 31)
    (hok : (synth_event_define_fields cfg tdf event).1 = 0) :
    (∀ (k : Nat) (f : synth_field) (nxt : Nat),
      (synth_event_define_fields cfg tdf event).2.1.fields[k]? = some f →
      ((synth_event_define_fields cfg tdf event).2.1.fields.map (fun g => g.offset) ++
        [(synth_event_define_fields cfg tdf event).2.1.n_u64])[k + 1]? = some nxt →
      (f.is_string = false → nxt = f.offset + 1) ∧
      (f.is_string = true → 8 * nxt = 8 * f.offset + cfg.STR_VAR_LEN_MAX)) ∧
    (synth_event_define_fields cfg tdf event).2.2.length = event.fields.length ∧
    (∀ (k : Nat) (f : synth_field) (c : DefineCall),
      (synth_event_define_fields cfg tdf event).2.1.fields[k]? = some f →
      (synth_event_define_fields cfg tdf event).2.2[k]? = some c →
      c.offset = (cfg.offsetof_fields : Int) + 8 * (f.offset : Int) ∧
      c.type = f.type ∧ c.name = f.name) := by
  have e : (2 : Int) ^ 31 = 2147483648 := by norm_num
  have hfit0 : 0 + (event.fields.map (word_width cfg)).sum < 2 ^ 32 := by
    rw [e] at hfit
    have : (2 : Nat) ^ 32 = 4294967296 := by norm_num
    omega
  unfold synth_event_define_fields at hok ⊢
  dsimp only at hok ⊢
  obtain ⟨h1, h2, h3⟩ :=
    define_fields_loop_spec cfg tdf event.fields 0 cfg.offsetof_fields 0 hok hfit0
  obtain ⟨c1, c2⟩ := define_fields_loop_calls cfg tdf h8 event.fields 0 cfg.offsetof_fields 0
    hok (by omega) hfit
  have hw := define_fields_loop_widths cfg tdf event.fields 0 cfg.offsetof_fields 0 hok hfit0
  refine ⟨?_, c1, ?_⟩
  · intro k f nxt hf hn
    obtain ⟨f0, hf0, hff⟩ := h3 k f hf
    have hoffk : f.offset = ((event.fields.take k).map (word_width cfg)).sum := by
      rw [hff]; simp
    have hs := pre_succ cfg event.fields k f0 hf0
    have hwf : word_width cfg f = word_width cfg f0 := by rw [hff]; rfl
    have hnxt : nxt = ((event.fields.take (k + 1)).map (word_width cfg)).sum := by
      by_cases hlast : k + 1 < (define_fields_loop cfg tdf event.fields 0
          cfg.offsetof_fields 0).fields.length
      · rw [List.getElem?_append_left (by simpa using hlast), List.getElem?_map] at hn
        cases hg : (define_fields_loop cfg tdf event.fields 0
            cfg.offsetof_fields 0).fields[k + 1]? with
        | none => rw [hg] at hn; cases hn
        | some g =>
          rw [hg] at hn
          simp only [Option.map_some', Option.some.injEq] at hn
          obtain ⟨g0, _, hgg⟩ := h3 (k + 1) g hg
          rw [← hn, hgg]
          simp
      · have hk : k < (define_fields_loop cfg tdf event.fields 0
            cfg.offsetof_fields 0).fields.length := by
          by_contra hc
          have := List.getElem?_eq_none_iff.mpr (Nat.le_of_not_lt hc)
          rw [this] at hf
          cases hf
        have hk1 : k + 1 = (define_fields_loop cfg tdf event.fields 0
            cfg.offsetof_fields 0).fields.length := by omega
        rw [List.getElem?_append_right (by simp; omega)] at hn
        simp only [List.length_map, hk1, Nat.sub_self, List.getElem?_cons_zero,
          Option.some.injEq] at hn
        rw [← hn, h1, hk1, h2, List.take_length]
        omega
    have hwd : word_width cfg f0 = if f.is_string = true then cfg.STR_VAR_LEN_MAX / 8 else 1 := by
      rw [← hwf]; rfl
    have hS := Nat.mul_div_cancel' h8
    constructor
    · intro hfs
      rw [hfs] at hwd
      simp only [Bool.false_eq_true, if_false] at hwd
      omega
    · intro hfs
      rw [hfs] at hwd
      simp only [if_true] at hwd
      omega
  · intro k f c hf hc
    obtain ⟨f0, hf0, hff⟩ := h3 k f hf
    obtain ⟨f1, hf1, hcc⟩ := c2 k c hc
    rw [hf0] at hf1
    injection hf1 with hf1
    subst hf1
    rw [hcc, hff]
    simp

/-- C1 for the event `u64 a; char s[8]; int b` in a 64-bit build: the word
offsets are 0, 1 and 5, and `n_u64` is 6. -/
theorem synth_event_define_fields_layout_witness :
    8 ≤ linux64.STR_VAR_LEN_MAX ∧
    (([⟨"u64".toList, "a".toList, 8, 0, false, false⟩,
       ⟨"char[8]".toList, "s".toList, 8, 0, true, true⟩,
       ⟨"int".toList, "b".toList, 4, 0, true, false⟩] : List synth_field).map
        (word_width linux64)).sum < 2 ^ 32 ∧
    (synth_event_define_fields linux64 (fun _ _ => 0)
      ⟨"foo".toList, [⟨"u64".toList, "a".toList, 8, 0, false, false⟩,
       ⟨"char[8]".toList, "s".toList, 8, 0, true, true⟩,
       ⟨"int".toList, "b".toList, 4, 0, true, false⟩], 0, 0, none, none⟩).1 = 0 ∧
    (synth_event_define_fields linux64 (fun _ _ => 0)
      ⟨"foo".toList, [⟨"u64".toList, "a".toList, 8, 0, false, false⟩,
       ⟨"char[8]".toList, "s".toList, 8, 0, true, true⟩,
       ⟨"int".toList, "b".toList, 4, 0, true, false⟩], 0, 0, none, none⟩).2.1.n_u64 =
      ((synth_event_define_fields linux64 (fun _ _ => 0)
        ⟨"foo".toList, [⟨"u64".toList, "a".toList, 8, 0, false, false⟩,
         ⟨"char[8]".toList, "s".toList, 8, 0, true, true⟩,
         ⟨"int".toList, "b".toList, 4, 0, true, false⟩], 0, 0, none, none⟩).2.1.fields.map
        (word_width linux64)).sum :=
  ⟨by decide, by decide, by decide,
   (synth_event_define_fields_layout linux64 (fun _ _ => 0)
      ⟨"foo".toList, [⟨"u64".toList, "a".toList, 8, 0, false, false⟩,
       ⟨"char[8]".toList, "s".toList, 8, 0, true, true⟩,
       ⟨"int".toList, "b".toList, 4, 0, true, false⟩], 0, 0, none, none⟩
      (by decide) (by decide) (by decide)).2.2.2.2.1⟩

/-- C2 for the event `u64 a; char s[8]; int b` in a 64-bit build: three calls
of `trace_define_field` are made. -/
theorem synth_event_define_fields_words_witness :
    8 ∣ linux64.STR_VAR_LEN_MAX ∧
    (linux64.offsetof_fields : Int) +
      8 * ((([⟨"u64".toList, "a".toList, 8, 0, false, false⟩,
       ⟨"char[8]".toList, "s".toList, 8, 0, true, true⟩,
       ⟨"int".toList, "b".toList, 4, 0, true, false⟩] : List synth_field).map
        (word_width linux64)).sum : Nat) < 2 ^ 31 ∧
    (synth_event_define_fields linux64 (fun _ _ => 0)
      ⟨"foo".toList, [⟨"u64".toList, "a".toList, 8, 0, false, false⟩,
       ⟨"char[8]".toList, "s".toList, 8, 0, true, true⟩,
       ⟨"int".toList, "b".toList, 4, 0, true, false⟩], 0, 0, none, none⟩).1 = 0 ∧
    (synth_event_define_fields linux64 (fun _ _ => 0)
      ⟨"foo".toList, [⟨"u64".toList, "a".toList, 8, 0, false, false⟩,
       ⟨"char[8]".toList, "s".toList, 8, 0, true, true⟩,
       ⟨"int".toList, "b".toList, 4, 0, true, false⟩], 0, 0, none, none⟩).2.2.length =
      ([⟨"u64".toList, "a".toList, 8, 0, false, false⟩,
       ⟨"char[8]".toList, "s".toList, 8, 0, true, true⟩,
       ⟨"int".toList, "b".toList, 4, 0, true, false⟩] : List synth_field).length :=
  ⟨by decide, by decide, by decide,
   (synth_event_define_fields_words linux64 (fun _ _ => 0)
      ⟨"foo".toList, [⟨"u64".toList, "a".toList, 8, 0, false, false⟩,
       ⟨"char[8]".toList, "s".toList, 8, 0, true, true⟩,
       ⟨"int".toList, "b".toList, 4, 0, true, false⟩], 0, 0, none, none⟩
      (by decide) (by decide) (by decide)).2.1⟩

/-! ## Theorems: deleting and registering -/

theorem find_synth_event_from_some (l : List dyn_event) (pos0 : Nat) (name : CStr)
    (pos : Nat) (se : synth_event) (h : find_synth_event_from l pos0 name = some (pos, se)) :
    pos0 ≤ pos ∧ l[pos - pos0]? = some (.synth se) ∧ se.name = name := by
  induction l generalizing pos0 with
  | nil => simp [find_synth_event_from] at h
  | cons d ds ih =>
    cases d with
    | other id =>
      simp only [find_synth_event_from] at h
      obtain ⟨h1, h2, h3⟩ := ih (pos0 + 1) h
      refine ⟨by omega, ?_, h3⟩
      have : pos - pos0 = (pos - (pos0 + 1)) + 1 := by omega
      rw [this, List.getElem?_cons_succ]
      exact h2
    | synth e =>
      simp only [find_synth_event_from] at h
      by_cases he : strcmp e.name name = 0
      · rw [if_pos he] at h
        injection h with h
        injection h with h1 h2
        subst h1; subst h2
        exact ⟨le_refl _, by simp, (strcmp_eq_zero_iff _ _).mp he⟩
      · rw [if_neg he] at h
        obtain ⟨h1, h2, h3⟩ := ih (pos0 + 1) h
        refine ⟨by omega, ?_, h3⟩
        have : pos - pos0 = (pos - (pos0 + 1)) + 1 := by omega
        rw [this, List.getElem?_cons_succ]
        exact h2

/-- C11: for every registered event whose reference count is non-zero,
`synth_event_delete` (through `destroy_synth_event`) and `synth_event_release`
return -EBUSY, the event stays in the dynamic event list and in the trace
core, and a later `find_synth_event` of the same name still returns it; the
list changes only when the reference count is 0 and the unregistering
succeeded (and then the result is 0). -/
theorem busy_event_stays (env : Env) (w : World) (name : CStr) (pos : Nat)
    (se : synth_event) (hfind : find_synth_event w name = some (pos, se)) :
    (se.ref ≠ 0 →
      synth_event_is_busy se = true ∧
      destroy_synth_event env w pos se = (-EBUSY, w) ∧
      synth_event_release env w pos se = (-EBUSY, w) ∧
      (synth_event_delete env w name).1 = -EBUSY ∧
      (synth_event_delete env w name).2.dyn_event_list = w.dyn_event_list ∧
      (synth_event_delete env w name).2.ftrace_events = w.ftrace_events ∧
      (synth_event_delete env w name).2.trace_events = w.trace_events ∧
      find_synth_event (synth_event_delete env w name).2 name = some (pos, se)) ∧
    ((synth_event_delete env w name).2.dyn_event_list ≠ w.dyn_event_list →
      se.ref = 0 ∧ env.trace_remove_event_call = 0 ∧ (synth_event_delete env w name).1 = 0) ∧
    ((synth_event_release env w pos se).2.dyn_event_list ≠ w.dyn_event_list →
      se.ref = 0 ∧ env.trace_remove_event_call = 0 ∧ (synth_event_release env w pos se).1 = 0) := by
  have hdel : synth_event_delete env w name =
      (match se.mod with
        | some _ => ((destroy_synth_event env w pos se).1,
            tracing_reset_all_online_cpus (destroy_synth_event env w pos se).2)
        | none => destroy_synth_event env w pos se) := by
    unfold synth_event_delete
    rw [hfind]
  refine ⟨?_, ?_, ?_⟩
  · intro href
    have hd : destroy_synth_event env w pos se = (-EBUSY, w) := by
      unfold destroy_synth_event; rw [if_pos href]
    have hr : synth_event_release env w pos se = (-EBUSY, w) := by
      unfold synth_event_release; rw [if_pos href]
    have hb : synth_event_is_busy se = true := by
      unfold synth_event_is_busy; exact decide_eq_true href
    rw [hdel, hd]
    refine ⟨hb, rfl, hr, ?_⟩
    cases hm : se.mod with
    | none => exact ⟨rfl, rfl, rfl, rfl, hfind⟩
    | some m => exact ⟨rfl, rfl, rfl, rfl, hfind⟩
  · intro hne
    rw [hdel] at hne ⊢
    have key : (destroy_synth_event env w pos se).2.dyn_event_list ≠ w.dyn_event_list →
        se.ref = 0 ∧ env.trace_remove_event_call = 0 ∧
          (destroy_synth_event env w pos se).1 = 0 := by
      unfold destroy_synth_event unregister_synth_event trace_remove_event_call
      by_cases href : se.ref ≠ 0
      · rw [if_pos href]; intro h; exact absurd rfl h
      · rw [if_neg href]
        by_cases hrm : env.trace_remove_event_call ≠ 0
        · rw [if_pos hrm]; dsimp only; rw [if_neg hrm]; intro h; exact absurd rfl h
        · rw [if_neg hrm]; dsimp only
          intro _
          exact ⟨not_not.mp href, not_not.mp hrm, by simp⟩
    cases hm : se.mod with
    | none => rw [hm] at hne; exact key hne
    | some m => rw [hm] at hne; exact key hne
  · unfold synth_event_release unregister_synth_event trace_remove_event_call
    by_cases href : se.ref ≠ 0
    · rw [if_pos href]; intro h; exact absurd rfl h
    · rw [if_neg href]
      by_cases hrm : env.trace_remove_event_call ≠ 0
      · rw [if_pos hrm]; dsimp only; rw [if_pos hrm]; intro h; exact absurd rfl h
      · rw [if_neg hrm]; dsimp only
        intro _
        exact ⟨not_not.mp href, not_not.mp hrm, by simp⟩

theorem define_fields_loop_length (cfg : Config) (tdf : Nat → DefineCall → Int) :
    ∀ (fields : List synth_field) (i : Nat) (off : Int) (n : Nat),
      (define_fields_loop cfg tdf fields i off n).fields.length = fields.length := by
  intro fields
  induction fields with
  | nil => intro i off n; rfl
  | cons f rest ih =>
    intro i off n
    unfold define_fields_loop
    dsimp only
    split
    · rfl
    · split
      · simp only [List.length_cons, ih]
      · simp only [List.length_cons, ih]

theorem register_trace_event_frame (env : Env) (w : World) (event : synth_event) :
    (register_trace_event env w event).2.dyn_event_list = w.dyn_event_list := by
  unfold register_trace_event
  split <;> rfl

theorem unregister_trace_event_frame (w : World) (event : synth_event) :
    (unregister_trace_event w event).dyn_event_list = w.dyn_event_list := rfl

theorem trace_remove_event_call_frame (env : Env) (w : World) (event : synth_event) :
    (trace_remove_event_call env w event).2.dyn_event_list = w.dyn_event_list := by
  unfold trace_remove_event_call
  split <;> rfl

theorem trace_add_event_call_frame (cfg : Config) (env : Env) (w : World)
    (event : synth_event) :
    (trace_add_event_call cfg env w event).2.2.dyn_event_list = w.dyn_event_list ∧
    (trace_add_event_call cfg env w event).2.1.name = event.name ∧
    (trace_add_event_call cfg env w event).2.1.fields.length = event.fields.length := by
  unfold trace_add_event_call
  split
  · exact ⟨rfl, rfl, rfl⟩
  · refine ⟨rfl, rfl, ?_⟩
    unfold synth_event_define_fields
    exact define_fields_loop_length _ _ _ _ _ _

theorem set_synth_event_print_fmt_frame (env : Env) (event : synth_event) (mem : List Bool) :
    (set_synth_event_print_fmt env event mem).2.1.name = event.name ∧
    (set_synth_event_print_fmt env event mem).2.1.fields = event.fields := by
  unfold set_synth_event_print_fmt
  rcases kalloc mem with ⟨b, m⟩
  cases b <;> exact ⟨rfl, rfl⟩

theorem register_synth_event_frame (cfg : Config) (env : Env) (w : World)
    (event : synth_event) (mem : List Bool) :
    (register_synth_event cfg env w event mem).2.2.1.dyn_event_list = w.dyn_event_list ∧
    (register_synth_event cfg env w event mem).2.1.name = event.name ∧
    (register_synth_event cfg env w event mem).2.1.fields.length = event.fields.length := by
  have h1 := register_trace_event_frame env w event
  have h2 := trace_add_event_call_frame cfg env (register_trace_event env w event).2 event
  have h3 := set_synth_event_print_fmt_frame env
    (trace_add_event_call cfg env (register_trace_event env w event).2 event).2.1
  unfold register_synth_event
  rcases kalloc mem with ⟨b1, m1⟩
  cases b1 with
  | false => exact ⟨rfl, rfl, rfl⟩
  | true =>
    dsimp only
    rcases kalloc m1 with ⟨b2, m2⟩
    cases b2 with
    | false => exact ⟨rfl, rfl, rfl⟩
    | true =>
      dsimp only
      rcases kalloc m2 with ⟨b3, m3⟩
      cases b3 with
      | false => exact ⟨rfl, rfl, rfl⟩
      | true =>
        dsimp only
        have h3' := h3 m3
        split_ifs
        · exact ⟨h1, rfl, rfl⟩
        · refine ⟨?_, h2.2.1, h2.2.2⟩
          rw [unregister_trace_event_frame, h2.1, h1]
        · refine ⟨?_, ?_, ?_⟩
          · rw [unregister_trace_event_frame, trace_remove_event_call_frame, h2.1, h1]
          · rw [h3'.1, h2.2.1]
          · rw [h3'.2, h2.2.2]
        · refine ⟨?_, ?_, ?_⟩
          · rw [h2.1, h1]
          · rw [h3'.1, h2.2.1]
          · rw [h3'.2, h2.2.2]

theorem field_loop_len (cfg : Config) (argc : Nat) (argv : List CStr) :
    ∀ (fuel i : Nat) (fields : List synth_field) (consumed : Nat) (mem : List Bool)
      (i2 : Nat) (fs : List synth_field) (m : List Bool),
      fields.length ≤ cfg.SYNTH_FIELDS_MAX →
      field_loop cfg argc argv fuel i fields consumed mem = some (.ok (i2, fs), m) →
      fs.length ≤ cfg.SYNTH_FIELDS_MAX := by
  intro fuel
  induction fuel with
  | zero =>
    intro i fields consumed mem i2 fs m hl h
    by_cases hlt : i + 1 < argc
    · unfold field_loop at h
      rw [if_pos hlt] at h
      cases h
    · rw [field_loop_done _ _ _ _ _ _ _ _ hlt] at h
      injection h with h
      injection h with h1 h2
      injection h1 with h1
      injection h1 with h3 h4
      rw [← h4]; exact hl
  | succ n ih =>
    intro i fields consumed mem i2 fs m hl h
    by_cases hlt : i + 1 < argc
    · rw [field_loop_step _ _ _ _ _ _ _ _ hlt] at h
      split at h
      · exact ih _ _ _ _ _ _ _ hl h
      · split at h
        · cases h
        · rename_i hmax
          rcases hp : parse_synth_field cfg (argc - i) (argv.drop i) consumed mem with ⟨ret, c, m1⟩
          rw [hp] at h
          cases ret with
          | err e => cases h
          | ok f =>
            dsimp only at h
            refine ih _ _ _ _ _ _ _ ?_ h
            rw [List.length_append, List.length_singleton]
            omega
    · rw [field_loop_done _ _ _ _ _ _ _ _ hlt] at h
      injection h with h
      injection h with h1 h2
      injection h1 with h1
      injection h1 with h3 h4
      rw [← h4]; exact hl


theorem field_loop_err (cfg : Config) (argc : Nat) (argv : List CStr) :
    ∀ (fuel i : Nat) (fields : List synth_field) (consumed : Nat) (mem : List Bool)
      (e : Int) (m : List Bool),
      field_loop cfg argc argv fuel i fields consumed mem = some (.err e, m) →
      e = -EINVAL ∨ e = -ENOMEM := by
  intro fuel
  induction fuel with
  | zero =>
    intro i fields consumed mem e m h
    by_cases hlt : i + 1 < argc
    · unfold field_loop at h
      rw [if_pos hlt] at h
      cases h
    · rw [field_loop_done _ _ _ _ _ _ _ _ hlt] at h
      cases h
  | succ n ih =>
    intro i fields consumed mem e m h
    by_cases hlt : i + 1 < argc
    · rw [field_loop_step _ _ _ _ _ _ _ _ hlt] at h
      split at h
      · exact ih _ _ _ _ _ _ h
      · split at h
        · injection h with h
          injection h with h1 h2
          injection h1 with h1
          exact Or.inl h1.symm
        · rcases hp : parse_synth_field cfg (argc - i) (argv.drop i) consumed mem with ⟨ret, c, m1⟩
          rw [hp] at h
          cases ret with
          | err e1 =>
            dsimp only at h
            injection h with h
            injection h with h1 h2
            injection h1 with h1
            subst h1
            exact parse_synth_field_err cfg _ _ _ _ e1 (by rw [hp])
          | ok f =>
            dsimp only at h
            exact ih _ _ _ _ _ _ h
    · rw [field_loop_done _ _ _ _ _ _ _ _ hlt] at h
      cases h

theorem alloc_synth_event_cases (name : CStr) (fields : List synth_field) (mem : List Bool) :
    (∃ m, alloc_synth_event name fields mem = (.err (-ENOMEM), m)) ∨
    (∃ m, alloc_synth_event name fields mem =
      (.ok { name := name, fields := fields, n_u64 := 0, ref := 0, mod := none,
             print_fmt := none }, m)) := by
  unfold alloc_synth_event
  rcases kalloc mem with ⟨b1, m1⟩
  cases b1 with
  | false => exact Or.inl ⟨_, rfl⟩
  | true =>
    dsimp only
    rcases kalloc m1 with ⟨b2, m2⟩
    cases b2 with
    | false => exact Or.inl ⟨_, rfl⟩
    | true =>
      dsimp only
      rcases kalloc m2 with ⟨b3, m3⟩
      cases b3 with
      | false => exact Or.inl ⟨_, rfl⟩
      | true => exact Or.inr ⟨_, rfl⟩

theorem create_cases (cfg : Config) (env : Env) (w : World) (argc : Nat) (name : CStr)
    (argv : List CStr) :
    ∃ ret w1, __create_synth_event cfg env w argc name argv = some (ret, w1) ∧
      ((ret ≠ 0 ∧ w1.dyn_event_list = w.dyn_event_list) ∨
       (ret = 0 ∧ byteAt name 0 ≠ 0 ∧ 1 ≤ argc ∧ find_synth_event w name = none ∧
        ∃ ev : synth_event, w1.dyn_event_list = w.dyn_event_list ++ [.synth ev] ∧
          ev.name = name ∧ ev.fields.length ≤ cfg.SYNTH_FIELDS_MAX)) := by
  have hE : (-EINVAL : Int) ≠ 0 := by decide
  have hM : (-ENOMEM : Int) ≠ 0 := by decide
  have hX : (-EEXIST : Int) ≠ 0 := by decide
  unfold __create_synth_event
  by_cases hg : (byteAt name 0 = 0 || decide (argc < 1)) = true
  · rw [if_pos hg]
    exact ⟨_, _, rfl, Or.inl ⟨hE, rfl⟩⟩
  · rw [if_neg hg]
    have hname : byteAt name 0 ≠ 0 := by
      intro h; apply hg; simp [h]
    have hargc : 1 ≤ argc := by
      by_contra h; apply hg
      have : argc < 1 := by omega
      simp [this]
    cases hf : find_synth_event w name with
    | some p => exact ⟨_, _, rfl, Or.inl ⟨hX, rfl⟩⟩
    | none =>
      dsimp only
      cases hl : field_loop cfg argc argv argc 0 [] 0 env.allocs with
      | none => exact absurd hl (field_loop_ne_none cfg argc argv argc 0 [] 0 env.allocs (by omega))
      | some r =>
        rcases r with ⟨res, m⟩
        cases res with
        | err e =>
          have he := field_loop_err cfg argc argv _ _ _ _ _ e m hl
          refine ⟨_, _, rfl, Or.inl ⟨?_, rfl⟩⟩
          rcases he with he | he <;> rw [he] <;> assumption
        | ok p =>
          rcases p with ⟨i, fields⟩
          have hlen := field_loop_len cfg argc argv _ _ _ _ _ i fields m (Nat.zero_le _) hl
          dsimp only
          by_cases hs : i < argc ∧ strcmp (argv.getD i []) ";".toList ≠ 0
          · rw [if_pos hs]
            exact ⟨_, _, rfl, Or.inl ⟨hE, rfl⟩⟩
          · rw [if_neg hs]
            rcases alloc_synth_event_cases name fields m with ⟨m2, ha⟩ | ⟨m2, ha⟩
            · rw [ha]
              exact ⟨_, _, rfl, Or.inl ⟨hM, rfl⟩⟩
            · rw [ha]
              dsimp only
              have hfr := register_synth_event_frame cfg env w
                { name := name, fields := fields, n_u64 := 0, ref := 0, mod := none,
                  print_fmt := none } m2
              by_cases hr : (register_synth_event cfg env w
                { name := name, fields := fields, n_u64 := 0, ref := 0, mod := none,
                  print_fmt := none } m2).1 = 0
              · rw [if_pos hr]
                refine ⟨_, _, rfl, Or.inr ⟨hr, hname, hargc, rfl, _, ?_, hfr.2.1, ?_⟩⟩
                · unfold dyn_event_add
                  dsimp only
                  rw [hfr.1]
                · rw [hfr.2.2]; exact hlen
              · rw [if_neg hr]
                exact ⟨_, _, rfl, Or.inl ⟨hr, hfr.1⟩⟩

/-- C14: registration is all-or-nothing. `__create_synth_event` always
returns; whenever its result is not 0 the dynamic event list is what it was
before the call, the list changes only on the path that returns 0, and
there exactly the new event is appended to it. -/
theorem create_all_or_nothing (cfg : Config) (env : Env) (w : World) (argc : Nat)
    (name : CStr) (argv : List CStr) :
    ∃ ret w1, __create_synth_event cfg env w argc name argv = some (ret, w1) ∧
      (ret ≠ 0 → w1.dyn_event_list = w.dyn_event_list) ∧
      (w1.dyn_event_list ≠ w.dyn_event_list → ret = 0) ∧
      (ret = 0 → ∃ ev : synth_event,
        w1.dyn_event_list = w.dyn_event_list ++ [.synth ev] ∧ ev.name = name) := by
  obtain ⟨ret, w1, h, hc⟩ := create_cases cfg env w argc name argv
  refine ⟨ret, w1, h, ?_, ?_, ?_⟩
  · intro hr
    rcases hc with ⟨_, hl⟩ | ⟨h0, _⟩
    · exact hl
    · exact absurd h0 hr
  · intro hne
    rcases hc with ⟨_, hl⟩ | ⟨h0, _⟩
    · exact absurd hl hne
    · exact h0
  · intro hr
    rcases hc with ⟨hn, _⟩ | ⟨_, _, _, _, ev, hev, hnm, _⟩
    · exact absurd hr hn
    · exact ⟨ev, hev, hnm⟩

/-- C12: every event registered by `__create_synth_event` has at most
`SYNTH_FIELDS_MAX` fields; a token stream in which `SYNTH_FIELDS_MAX` field
descriptors have been parsed and one more descriptor follows fails with
-EINVAL and leaves the state unchanged; and
`synth_event_gen_cmd_array_start` returns -EINVAL when `n_fields` exceeds
`SYNTH_FIELDS_MAX`. -/
theorem create_field_limit (cfg : Config) :
    (∀ (env : Env) (w : World) (argc : Nat) (name : CStr) (argv : List CStr) (w1 : World),
      __create_synth_event cfg env w argc name argv = some (0, w1) →
      ∃ ev : synth_event, w1.dyn_event_list = w.dyn_event_list ++ [.synth ev] ∧
        ev.fields.length ≤ cfg.SYNTH_FIELDS_MAX) ∧
    (∀ (env : Env) (w : World) (argc : Nat) (name : CStr) (argv : List CStr) (i : Nat)
        (fields : List synth_field) (consumed : Nat) (mem : List Bool),
      byteAt name 0 ≠ 0 →
      find_synth_event w name = none →
      LoopAt cfg argc argv env.allocs i fields consumed mem →
      fields.length = cfg.SYNTH_FIELDS_MAX →
      i + 1 < argc →
      argv.getD i [] ≠ ";".toList →
      __create_synth_event cfg env w argc name argv = some (-EINVAL, w)) ∧
    (∀ (cmd : dynevent_cmd) (name : CStr) (mod : Option Nat)
        (fields : List synth_field_desc) (n_fields : Nat),
      n_fields > cfg.SYNTH_FIELDS_MAX →
      (synth_event_gen_cmd_array_start cfg cmd name mod fields n_fields).1 = -EINVAL) := by
  refine ⟨?_, ?_, ?_⟩
  · intro env w argc name argv w1 h
    obtain ⟨ret, w2, h2, hc⟩ := create_cases cfg env w argc name argv
    rw [h] at h2
    injection h2 with h2
    injection h2 with hr hw
    subst hr; subst hw
    rcases hc with ⟨hn, _⟩ | ⟨_, _, _, _, ev, hev, _, hlen⟩
    · exact absurd rfl hn
    · exact ⟨ev, hev, hlen⟩
  · intro env w argc name argv i fields consumed mem hname hfind hat hmax hlt hsep
    have hsep2 : ¬ strcmp (argv.getD i []) ";".toList = 0 := by
      rw [strcmp_eq_zero_iff]; exact hsep
    unfold __create_synth_event
    have hg : (byteAt name 0 = 0 || decide (argc < 1)) = false := by
      have : ¬ argc < 1 := by omega
      simp [hname, this]
    rw [hg, hfind]
    dsimp only
    rw [hat.loop_eq]
    obtain ⟨n, hn⟩ : ∃ n, argc - i = n + 1 := ⟨argc - i - 1, by omega⟩
    rw [hn, field_loop_step _ _ _ _ _ _ _ _ hlt, if_neg hsep2, if_pos hmax]
    rfl
  · intro cmd name mod fields n_fields h
    unfold synth_event_gen_cmd_array_start
    dsimp only
    split
    · rfl
    · rfl

/-- C12 with a limit of one field: `u64 a; u64 b` describes two fields. -/
theorem create_field_limit_witness :
    (synth_event_gen_cmd_array_start linux64 ⟨[], 2048, false, [], 0, true, none⟩
      "foo".toList none [] 33).1 = -EINVAL ∧
    __create_synth_event ⟨32, 1, 8, 8, 8⟩ Env.fine ⟨[], [], [], 0⟩ 4 "foo".toList
        ["u64".toList, "a;".toList, "u64".toList, "b".toList] =
      some (-EINVAL, ⟨[], [], [], 0⟩) :=
  ⟨(create_field_limit linux64).2.2 ⟨[], 2048, false, [], 0, true, none⟩
      "foo".toList none [] 33 (by decide),
   (create_field_limit ⟨32, 1, 8, 8, 8⟩).2.1 Env.fine ⟨[], [], [], 0⟩ 4 "foo".toList
      ["u64".toList, "a;".toList, "u64".toList, "b".toList] 2
      [⟨"u64".toList, "a".toList, 8, 0, false, false⟩] 2 []
      (by decide) (by decide)
      (@LoopAt.field ⟨32, 1, 8, 8, 8⟩ 4
        ["u64".toList, "a;".toList, "u64".toList, "b".toList] []
        0 [] 0 [] ⟨"u64".toList, "a".toList, 8, 0, false, false⟩ 2 []
        LoopAt.start (by decide) (by decide) (by decide) (by decide))
      (by decide) (by decide) (by decide)⟩

/-! ## Theorems: the command front end -/

theorem starts_s_colon (t : CStr) :
    (charAt t 0 ≠ 's' ∨ charAt t 1 ≠ ':') ↔ ¬ "s:".toList <+: t := by
  unfold charAt
  rcases t with _ | ⟨a, _ | ⟨b, r⟩⟩
  · simp
  · simp
  · simp [List.cons_prefix_cons]
    tauto

theorem create_synth_event_plain (cfg : Config) (env : Env) (w : World) (argc : Nat)
    (foo : CStr) (rest : List CStr) (h : '/' ∉ foo) :
    create_synth_event cfg env w argc (("s:".toList ++ foo) :: rest) =
      __create_synth_event cfg env w (argc - 1) foo rest := by
  unfold create_synth_event
  have h1 : ¬ (charAt (("s:".toList ++ foo) :: rest |>.getD 0 []) 0 ≠ 's' ∨
      charAt (("s:".toList ++ foo) :: rest |>.getD 0 []) 1 ≠ ':') := by
    rw [starts_s_colon]; simp
  dsimp only
  rw [if_neg h1]
  have h2 : (("s:".toList ++ foo) :: rest |>.getD 0 []).drop 2 = foo := rfl
  rw [h2]
  have h3 : strchr foo '/' = none := by
    unfold strchr; rw [strchr_from_eq, if_neg h]
  rw [h3]
  rfl

theorem create_synth_event_group (cfg : Config) (env : Env) (w : World) (argc : Nat)
    (foo : CStr) (rest : List CStr) :
    create_synth_event cfg env w argc (("s:synthetic/".toList ++ foo) :: rest) =
      __create_synth_event cfg env w (argc - 1) foo rest := by
  unfold create_synth_event
  have h1 : ¬ (charAt (("s:synthetic/".toList ++ foo) :: rest |>.getD 0 []) 0 ≠ 's' ∨
      charAt (("s:synthetic/".toList ++ foo) :: rest |>.getD 0 []) 1 ≠ ':') := by
    rw [starts_s_colon]; simp
  dsimp only
  rw [if_neg h1]
  have h2 : (("s:synthetic/".toList ++ foo) :: rest |>.getD 0 []).drop 2 =
      "synthetic/".toList ++ foo := rfl
  rw [h2]
  have h3 : ∃ p, strchr ("synthetic/".toList ++ foo) '/' = some p := by
    unfold strchr; rw [strchr_from_eq, if_pos (by simp)]; exact ⟨_, rfl⟩
  obtain ⟨p, hp⟩ := h3
  rw [hp]
  have h4 : str_has_prefix ("synthetic/".toList ++ foo) (SYNTH_SYSTEM ++ "/".toList) = 10 := by
    unfold str_has_prefix
    have : (SYNTH_SYSTEM ++ "/".toList) = "synthetic/".toList := by decide
    rw [this, if_pos (List.isPrefixOf_iff_prefix.mpr (List.prefix_append _ _))]
    rfl
  dsimp only
  rw [h4, if_neg (by decide)]
  rfl

theorem create_synth_event_other_group (cfg : Config) (env : Env) (w : World) (argc : Nat)
    (nm : CStr) (rest : List CStr) (h : '/' ∈ nm) (hp : ¬ "synthetic/".toList <+: nm) :
    create_synth_event cfg env w argc (("s:".toList ++ nm) :: rest) = some (-EINVAL, w) := by
  unfold create_synth_event
  have h1 : ¬ (charAt (("s:".toList ++ nm) :: rest |>.getD 0 []) 0 ≠ 's' ∨
      charAt (("s:".toList ++ nm) :: rest |>.getD 0 []) 1 ≠ ':') := by
    rw [starts_s_colon]; simp
  dsimp only
  rw [if_neg h1]
  have h2 : (("s:".toList ++ nm) :: rest |>.getD 0 []).drop 2 = nm := rfl
  rw [h2]
  have h3 : ∃ p, strchr nm '/' = some p := by
    unfold strchr; rw [strchr_from_eq, if_pos h]; exact ⟨_, rfl⟩
  obtain ⟨p, hp2⟩ := h3
  rw [hp2]
  have h4 : str_has_prefix nm (SYNTH_SYSTEM ++ "/".toList) = 0 := by
    by_contra hne
    have := (str_has_prefix_ne_zero_iff nm (SYNTH_SYSTEM ++ "/".toList) (by decide)).mp hne
    exact hp this
  dsimp only
  rw [h4, if_pos rfl]

theorem create_registered (cfg : Config) (env : Env) (w w1 : World) (argc : Nat)
    (name : CStr) (argv : List CStr)
    (h : __create_synth_event cfg env w argc name argv = some (0, w1)) :
    byteAt name 0 ≠ 0 ∧ (find_synth_event w1 name).isSome := by
  obtain ⟨ret, w2, h2, hc⟩ := create_cases cfg env w argc name argv
  rw [h] at h2
  injection h2 with h2
  injection h2 with hr hw
  subst hr; subst hw
  rcases hc with ⟨hn, _⟩ | ⟨_, hname, _, _, ev, hev, hnm, _⟩
  · exact absurd rfl hn
  · refine ⟨hname, ?_⟩
    cases hf : find_synth_event w1 name with
    | some p => rfl
    | none =>
      exfalso
      unfold find_synth_event at hf
      rw [find_synth_event_from_eq_none, hev] at hf
      exact hf ev (by simp) hnm

theorem create_again (cfg : Config) (env : Env) (w : World) (argc : Nat) (name : CStr)
    (argv : List CStr) (h : (find_synth_event w name).isSome) (hname : byteAt name 0 ≠ 0)
    (hargc : 1 ≤ argc) :
    __create_synth_event cfg env w argc name argv = some (-EEXIST, w) := by
  unfold __create_synth_event
  have hg : (byteAt name 0 = 0 || decide (argc < 1)) = false := by
    have : ¬ argc < 1 := by omega
    simp [hname, this]
  rw [hg]
  cases hf : find_synth_event w name with
  | none => rw [hf] at h; cases h
  | some p => rfl

/-- C13: `create_synth_event` strips the "s:" marker and an optional
"synthetic/" group before the name is looked up: "s:foo" and
"s:synthetic/foo" are both handed to `__create_synth_event` as "foo", and
when one of them has been defined, defining the other (with at least one
field token) fails with -EEXIST; a name with a '/' whose group is not
"synthetic" fails with -EINVAL and a first token that does not start with
"s:" fails with -ECANCELED, both leaving the state unchanged. -/
theorem create_synth_event_names (cfg : Config) (env : Env) (w : World) (argc : Nat) :
    (∀ (foo : CStr) (rest : List CStr), '/' ∉ foo →
      create_synth_event cfg env w argc (("s:".toList ++ foo) :: rest) =
        __create_synth_event cfg env w (argc - 1) foo rest ∧
      create_synth_event cfg env w argc (("s:synthetic/".toList ++ foo) :: rest) =
        __create_synth_event cfg env w (argc - 1) foo rest) ∧
    (∀ (foo : CStr) (rest rest2 : List CStr) (w1 : World) (env2 : Env) (argc2 : Nat),
      '/' ∉ foo → 2 ≤ argc2 →
      (create_synth_event cfg env w argc (("s:".toList ++ foo) :: rest) = some (0, w1) →
        create_synth_event cfg env2 w1 argc2 (("s:synthetic/".toList ++ foo) :: rest2) =
          some (-EEXIST, w1)) ∧
      (create_synth_event cfg env w argc (("s:synthetic/".toList ++ foo) :: rest) =
          some (0, w1) →
        create_synth_event cfg env2 w1 argc2 (("s:".toList ++ foo) :: rest2) =
          some (-EEXIST, w1))) ∧
    (∀ (nm : CStr) (rest : List CStr), '/' ∈ nm → ¬ "synthetic/".toList <+: nm →
      create_synth_event cfg env w argc (("s:".toList ++ nm) :: rest) = some (-EINVAL, w)) ∧
    (∀ (argv : List CStr), ¬ "s:".toList <+: argv.getD 0 [] →
      create_synth_event cfg env w argc argv = some (-ECANCELED, w)) := by
  refine ⟨?_, ?_, ?_, ?_⟩
  · intro foo rest h
    exact ⟨create_synth_event_plain cfg env w argc foo rest h,
      create_synth_event_group cfg env w argc foo rest⟩
  · intro foo rest rest2 w1 env2 argc2 h h2
    constructor
    · intro hc
      rw [create_synth_event_plain cfg env w argc foo rest h] at hc
      obtain ⟨hn, hf⟩ := create_registered cfg env w w1 _ foo rest hc
      rw [create_synth_event_group]
      exact create_again cfg env2 w1 _ foo rest2 hf hn (by omega)
    · intro hc
      rw [create_synth_event_group] at hc
      obtain ⟨hn, hf⟩ := create_registered cfg env w w1 _ foo rest hc
      rw [create_synth_event_plain cfg env2 w1 argc2 foo rest2 h]
      exact create_again cfg env2 w1 _ foo rest2 hf hn (by omega)
  · intro nm rest h hp
    exact create_synth_event_other_group cfg env w argc nm rest h hp
  · intro argv h
    unfold create_synth_event
    dsimp only
    rw [if_pos ((starts_s_colon _).mpr h)]

/-! ## Theorems: the bulk encoders and the channel -/

theorem trace_start_disabled (cfg : Config) (reserve : Int → Option (List Nat))
    (file : trace_event_file) (rb : ring_buffer)
    (h : file.enabled = false ∨ file.soft_disabled = true) :
    __synth_event_trace_start cfg reserve file rb =
      (-ENOENT, { synth_event_trace_state.zero with disabled := true }, rb) := by
  unfold __synth_event_trace_start
  have : (!file.enabled || file.soft_disabled) = true := by
    rcases h with h | h <;> simp [h]
  dsimp only
  rw [if_pos this]

theorem trace_start_reserved (cfg : Config) (reserve : Int → Option (List Nat))
    (file : trace_event_file) (rb : ring_buffer) (e : List Nat)
    (hen : file.enabled = true) (hsd : file.soft_disabled = false)
    (hres : reserve (trace_entry_size cfg file.event) = some e) :
    __synth_event_trace_start cfg reserve file rb =
      (0, { synth_event_trace_state.zero with
              event := some file.event, has_buffer := true, entry := some e },
        { nest := rb.nest + 1,
          reserved := rb.reserved ++ [trace_entry_size cfg file.event],
          committed := rb.committed }) := by
  unfold __synth_event_trace_start
  have : ¬ (!file.enabled || file.soft_disabled) = true := by simp [hen, hsd]
  dsimp only
  rw [if_neg this]
  unfold trace_entry_size at hres
  unfold trace_event_buffer_reserve
  rw [hres]
  rfl

theorem trace_start_refused (cfg : Config) (reserve : Int → Option (List Nat))
    (file : trace_event_file) (rb : ring_buffer)
    (hen : file.enabled = true) (hsd : file.soft_disabled = false)
    (hres : reserve (trace_entry_size cfg file.event) = none) :
    __synth_event_trace_start cfg reserve file rb =
      (-EINVAL, { synth_event_trace_state.zero with
              event := some file.event, has_buffer := true, entry := none },
        { nest := rb.nest + 1 - 1, reserved := rb.reserved, committed := rb.committed }) := by
  unfold __synth_event_trace_start
  have : ¬ (!file.enabled || file.soft_disabled) = true := by simp [hen, hsd]
  dsimp only
  rw [if_neg this]
  unfold trace_entry_size at hres
  unfold trace_event_buffer_reserve
  rw [hres]
  rfl

theorem rb_after_record (nest : Int) (k : Nat) (r : List Int) :
    ({ nest := nest + 1 - 1, reserved := r, committed := k } : ring_buffer) =
      { nest := nest, reserved := r, committed := k } := by
  congr 1; omega

theorem synth_event_trace_mismatch (cfg : Config) (be : Bool) (str_at : Nat → Option CStr)
    (reserve : Int → Option (List Nat)) (file : trace_event_file) (rb : ring_buffer)
    (n_vals : Nat) (args : List Nat) (e : List Nat)
    (hen : file.enabled = true) (hsd : file.soft_disabled = false)
    (hres : reserve (trace_entry_size cfg file.event) = some e)
    (hn : n_vals ≠ file.event.fields.length) :
    synth_event_trace cfg be str_at reserve file rb n_vals args =
      some (-EINVAL, some e,
        { nest := rb.nest + 1 - 1,
          reserved := rb.reserved ++ [trace_entry_size cfg file.event],
          committed := rb.committed + 1 }) := by
  unfold synth_event_trace
  rw [trace_start_reserved cfg reserve file rb e hen hsd hres]
  dsimp only
  rw [if_neg (by decide), if_pos hn]
  rfl

theorem synth_event_trace_array_mismatch (cfg : Config) (be : Bool)
    (str_at : Nat → Option CStr)
    (reserve : Int → Option (List Nat)) (file : trace_event_file) (rb : ring_buffer)
    (n_vals : Nat) (vals : List Nat) (e : List Nat)
    (hen : file.enabled = true) (hsd : file.soft_disabled = false)
    (hres : reserve (trace_entry_size cfg file.event) = some e)
    (hn : n_vals ≠ file.event.fields.length) :
    synth_event_trace_array cfg be str_at reserve file rb vals n_vals =
      some (-EINVAL, some e,
        { nest := rb.nest + 1 - 1,
          reserved := rb.reserved ++ [trace_entry_size cfg file.event],
          committed := rb.committed + 1 }) := by
  unfold synth_event_trace_array
  rw [trace_start_reserved cfg reserve file rb e hen hsd hres]
  dsimp only
  rw [if_neg (by decide), if_pos hn]
  rfl

theorem synth_event_trace_loop_some (cfg : Config) (be : Bool) (str_at : Nat → Option CStr)
    (args : List Nat) (fs : List synth_field) (i n_u64 : Nat) (entry : List Nat)
    (h : ∀ j (hj : j < fs.length), (fs.get ⟨j, hj⟩).is_string = true →
      (str_at (to_ptr cfg (args.getD (i + j) 0))).isSome) :
    ∃ e2, synth_event_trace_loop cfg be str_at args fs i n_u64 entry = some e2 := by
  induction fs generalizing i n_u64 entry with
  | nil => exact ⟨entry, rfl⟩
  | cons f rest ih =>
    have hrest : ∀ j (hj : j < rest.length), (rest.get ⟨j, hj⟩).is_string = true →
        (str_at (to_ptr cfg (args.getD (i + 1 + j) 0))).isSome := by
      intro j hj hs
      have := h (j + 1) (by simp; omega) hs
      rwa [show i + (j + 1) = i + 1 + j by omega] at this
    unfold synth_event_trace_loop
    dsimp only
    by_cases hs : f.is_string = true
    · rw [if_pos hs]
      have h0 := h 0 (by simp) hs
      rw [Nat.add_zero] at h0
      obtain ⟨t, ht⟩ := Option.isSome_iff_exists.mp h0
      rw [ht]
      exact ih _ _ _ hrest
    · rw [if_neg hs]
      exact ih _ _ _ hrest

theorem synth_event_trace_array_loop_some (cfg : Config) (be : Bool)
    (str_at : Nat → Option CStr)
    (vals : List Nat) (fs : List synth_field) (i n_u64 : Nat) (entry : List Nat)
    (h : ∀ j (hj : j < fs.length), (fs.get ⟨j, hj⟩).is_string = true →
      (str_at (to_ptr cfg (vals.getD (i + j) 0))).isSome) :
    ∃ e2, synth_event_trace_array_loop cfg be str_at vals fs i n_u64 entry = some e2 := by
  induction fs generalizing i n_u64 entry with
  | nil => exact ⟨entry, rfl⟩
  | cons f rest ih =>
    have hrest : ∀ j (hj : j < rest.length), (rest.get ⟨j, hj⟩).is_string = true →
        (str_at (to_ptr cfg (vals.getD (i + 1 + j) 0))).isSome := by
      intro j hj hs
      have := h (j + 1) (by simp; omega) hs
      rwa [show i + (j + 1) = i + 1 + j by omega] at this
    unfold synth_event_trace_array_loop
    dsimp only
    by_cases hs : f.is_string = true
    · rw [if_pos hs]
      have h0 := h 0 (by simp) hs
      rw [Nat.add_zero] at h0
      obtain ⟨t, ht⟩ := Option.isSome_iff_exists.mp h0
      rw [ht]
      exact ih _ _ _ hrest
    · rw [if_neg hs]
      exact ih _ _ _ hrest

theorem synth_event_trace_match (cfg : Config) (be : Bool) (str_at : Nat → Option CStr)
    (reserve : Int → Option (List Nat)) (file : trace_event_file) (rb : ring_buffer)
    (n_vals : Nat) (args : List Nat) (e : List Nat)
    (hen : file.enabled = true) (hsd : file.soft_disabled = false)
    (hres : reserve (trace_entry_size cfg file.event) = some e)
    (hn : n_vals = file.event.fields.length)
    (h : ∀ j (hj : j < file.event.fields.length),
      (file.event.fields.get ⟨j, hj⟩).is_string = true →
      (str_at (to_ptr cfg (args.getD j 0))).isSome) :
    ∃ e2, synth_event_trace cfg be str_at reserve file rb n_vals args =
      some (0, some e2,
        { nest := rb.nest + 1 - 1,
          reserved := rb.reserved ++ [trace_entry_size cfg file.event],
          committed := rb.committed + 1 }) := by
  have h2 : ∀ j (hj : j < file.event.fields.length),
      (file.event.fields.get ⟨j, hj⟩).is_string = true →
      (str_at (to_ptr cfg (args.getD (0 + j) 0))).isSome := by
    intro j hj hs; rw [Nat.zero_add]; exact h j hj hs
  obtain ⟨e2, he2⟩ := synth_event_trace_loop_some cfg be str_at args file.event.fields 0 0 e h2
  refine ⟨e2, ?_⟩
  unfold synth_event_trace
  rw [trace_start_reserved cfg reserve file rb e hen hsd hres]
  dsimp only
  rw [if_neg (by decide), if_neg (not_not.mpr hn), he2]
  rfl

theorem synth_event_trace_array_match (cfg : Config) (be : Bool)
    (str_at : Nat → Option CStr)
    (reserve : Int → Option (List Nat)) (file : trace_event_file) (rb : ring_buffer)
    (n_vals : Nat) (vals : List Nat) (e : List Nat)
    (hen : file.enabled = true) (hsd : file.soft_disabled = false)
    (hres : reserve (trace_entry_size cfg file.event) = some e)
    (hn : n_vals = file.event.fields.length)
    (h : ∀ j (hj : j < file.event.fields.length),
      (file.event.fields.get ⟨j, hj⟩).is_string = true →
      (str_at (to_ptr cfg (vals.getD j 0))).isSome) :
    ∃ e2, synth_event_trace_array cfg be str_at reserve file rb vals n_vals =
      some (0, some e2,
        { nest := rb.nest + 1 - 1,
          reserved := rb.reserved ++ [trace_entry_size cfg file.event],
          committed := rb.committed + 1 }) := by
  have h2 : ∀ j (hj : j < file.event.fields.length),
      (file.event.fields.get ⟨j, hj⟩).is_string = true →
      (str_at (to_ptr cfg (vals.getD (0 + j) 0))).isSome := by
    intro j hj hs; rw [Nat.zero_add]; exact h j hj hs
  obtain ⟨e2, he2⟩ :=
    synth_event_trace_array_loop_some cfg be str_at vals file.event.fields 0 0 e h2
  refine ⟨e2, ?_⟩
  unfold synth_event_trace_array
  rw [trace_start_reserved cfg reserve file rb e hen hsd hres]
  dsimp only
  rw [if_neg (by decide), if_neg (not_not.mpr hn), he2]
  rfl

theorem synth_event_trace_off (cfg : Config) (be : Bool) (str_at : Nat → Option CStr)
    (reserve : Int → Option (List Nat)) (file : trace_event_file) (rb : ring_buffer)
    (n_vals : Nat) (args : List Nat)
    (h : file.enabled = false ∨ file.soft_disabled = true) :
    synth_event_trace cfg be str_at reserve file rb n_vals args = some (0, none, rb) := by
  unfold synth_event_trace
  rw [trace_start_disabled cfg reserve file rb h]
  rfl

theorem synth_event_trace_array_off (cfg : Config) (be : Bool) (str_at : Nat → Option CStr)
    (reserve : Int → Option (List Nat)) (file : trace_event_file) (rb : ring_buffer)
    (n_vals : Nat) (vals : List Nat)
    (h : file.enabled = false ∨ file.soft_disabled = true) :
    synth_event_trace_array cfg be str_at reserve file rb vals n_vals =
      some (0, none, rb) := by
  unfold synth_event_trace_array
  rw [trace_start_disabled cfg reserve file rb h]
  rfl

theorem synth_event_trace_refused (cfg : Config) (be : Bool) (str_at : Nat → Option CStr)
    (reserve : Int → Option (List Nat)) (file : trace_event_file) (rb : ring_buffer)
    (n_vals : Nat) (args : List Nat)
    (hen : file.enabled = true) (hsd : file.soft_disabled = false)
    (hres : reserve (trace_entry_size cfg file.event) = none) :
    synth_event_trace cfg be str_at reserve file rb n_vals args =
      some (-EINVAL, none,
        { nest := rb.nest + 1 - 1, reserved := rb.reserved, committed := rb.committed }) := by
  unfold synth_event_trace
  rw [trace_start_refused cfg reserve file rb hen hsd hres]
  rfl

theorem synth_event_trace_array_refused (cfg : Config) (be : Bool)
    (str_at : Nat → Option CStr)
    (reserve : Int → Option (List Nat)) (file : trace_event_file) (rb : ring_buffer)
    (n_vals : Nat) (vals : List Nat)
    (hen : file.enabled = true) (hsd : file.soft_disabled = false)
    (hres : reserve (trace_entry_size cfg file.event) = none) :
    synth_event_trace_array cfg be str_at reserve file rb vals n_vals =
      some (-EINVAL, none,
        { nest := rb.nest + 1 - 1, reserved := rb.reserved, committed := rb.committed }) := by
  unfold synth_event_trace_array
  rw [trace_start_refused cfg reserve file rb hen hsd hres]
  rfl


/-- C15: for an enabled event that is not soft-disabled and whose reservation
succeeds, `synth_event_trace` and `synth_event_trace_array` return -EINVAL
when `n_vals` differs from the number of fields of the event, and return 0
when it is equal (the string pointers among the values being readable). -/
theorem trace_arity_result (cfg : Config) (be : Bool) (str_at : Nat → Option CStr)
    (reserve : Int → Option (List Nat)) (file : trace_event_file) (rb : ring_buffer)
    (n_vals : Nat) (vals : List Nat) (e : List Nat)
    (hen : file.enabled = true) (hsd : file.soft_disabled = false)
    (hres : reserve (trace_entry_size cfg file.event) = some e) :
    (n_vals ≠ file.event.fields.length →
      (synth_event_trace cfg be str_at reserve file rb n_vals vals).map (fun r => r.1) =
        some (-EINVAL) ∧
      (synth_event_trace_array cfg be str_at reserve file rb vals n_vals).map
        (fun r => r.1) = some (-EINVAL)) ∧
    (n_vals = file.event.fields.length →
      (∀ j (hj : j < file.event.fields.length),
        (file.event.fields.get ⟨j, hj⟩).is_string = true →
        (str_at (to_ptr cfg (vals.getD j 0))).isSome) →
      (synth_event_trace cfg be str_at reserve file rb n_vals vals).map (fun r => r.1) =
        some 0 ∧
      (synth_event_trace_array cfg be str_at reserve file rb vals n_vals).map
        (fun r => r.1) = some 0) := by
  constructor
  · intro hn
    rw [synth_event_trace_mismatch cfg be str_at reserve file rb n_vals vals e hen hsd hres hn,
      synth_event_trace_array_mismatch cfg be str_at reserve file rb n_vals vals e hen hsd
        hres hn]
    exact ⟨rfl, rfl⟩
  · intro hn hstr
    obtain ⟨e1, h1⟩ :=
      synth_event_trace_match cfg be str_at reserve file rb n_vals vals e hen hsd hres hn hstr
    obtain ⟨e2, h2⟩ :=
      synth_event_trace_array_match cfg be str_at reserve file rb n_vals vals e hen hsd hres
        hn hstr
    rw [h1, h2]
    exact ⟨rfl, rfl⟩

theorem trace_arity_result_witness :
    (synth_event_trace linux64 false (fun _ => none) (fun _ => some (List.replicate 16 0))
        ⟨true, false, ⟨"foo".toList, [⟨"u64".toList, "a".toList, 8, 0, false, false⟩],
          1, 0, none, none⟩⟩ ⟨0, [], 0⟩ 3 [1, 2, 3]).map (fun r => r.1) = some (-EINVAL) ∧
    (synth_event_trace_array linux64 false (fun _ => none)
        (fun _ => some (List.replicate 16 0))
        ⟨true, false, ⟨"foo".toList, [⟨"u64".toList, "a".toList, 8, 0, false, false⟩],
          1, 0, none, none⟩⟩ ⟨0, [], 0⟩ [7] 1).map (fun r => r.1) = some 0 :=
  ⟨((trace_arity_result linux64 false (fun _ => none) (fun _ => some (List.replicate 16 0))
      ⟨true, false, ⟨"foo".toList, [⟨"u64".toList, "a".toList, 8, 0, false, false⟩],
        1, 0, none, none⟩⟩ ⟨0, [], 0⟩ 3 [1, 2, 3] (List.replicate 16 0) rfl rfl rfl).1
      (by decide)).1,
   ((trace_arity_result linux64 false (fun _ => none) (fun _ => some (List.replicate 16 0))
      ⟨true, false, ⟨"foo".toList, [⟨"u64".toList, "a".toList, 8, 0, false, false⟩],
        1, 0, none, none⟩⟩ ⟨0, [], 0⟩ 1 [7] (List.replicate 16 0) rfl rfl rfl).2
      (by decide) (by decide)).2⟩

/-- C16, as stated, fails: on an enabled event with one field whose
reservation succeeds, `synth_event_trace` and `synth_event_trace_array` called
with no value return -EINVAL, and the channel has one more reservation and one
more committed record than before the call. -/
theorem trace_arity_mismatch_counterexample :
    (synth_event_trace linux64 false (fun _ => none) (fun _ => some (List.replicate 16 0))
        ⟨true, false, ⟨"foo".toList, [⟨"u64".toList, "a".toList, 8, 0, false, false⟩],
          1, 0, none, none⟩⟩ ⟨0, [], 0⟩ 0 []).map
      (fun r => (r.1, r.2.2.reserved.length, r.2.2.committed)) = some (-EINVAL, 1, 1) ∧
    (synth_event_trace_array linux64 false (fun _ => none)
        (fun _ => some (List.replicate 16 0))
        ⟨true, false, ⟨"foo".toList, [⟨"u64".toList, "a".toList, 8, 0, false, false⟩],
          1, 0, none, none⟩⟩ ⟨0, [], 0⟩ [] 0).map
      (fun r => (r.1, r.2.2.reserved.length, r.2.2.committed)) = some (-EINVAL, 1, 1) := by
  decide

/-- C16, amended: when `synth_event_trace` or `synth_event_trace_array` is
called on an enabled event with `n_vals` different from the number of fields,
the reservation made before the count is compared stands and the entry is
committed with the bytes it was reserved with: the call returns -EINVAL, the
channel has one more reservation and one more committed record, and the
nesting marker is back at its value. Only when the reservation itself fails
are the reservations and the committed records unchanged. -/
theorem trace_arity_mismatch_channel (cfg : Config) (be : Bool) (str_at : Nat → Option CStr)
    (reserve : Int → Option (List Nat)) (file : trace_event_file) (rb : ring_buffer)
    (n_vals : Nat) (vals : List Nat)
    (hen : file.enabled = true) (hsd : file.soft_disabled = false)
    (hn : n_vals ≠ file.event.fields.length) :
    (∀ e, reserve (trace_entry_size cfg file.event) = some e →
      synth_event_trace cfg be str_at reserve file rb n_vals vals =
        some (-EINVAL, some e,
          { nest := rb.nest,
            reserved := rb.reserved ++ [trace_entry_size cfg file.event],
            committed := rb.committed + 1 }) ∧
      synth_event_trace_array cfg be str_at reserve file rb vals n_vals =
        some (-EINVAL, some e,
          { nest := rb.nest,
            reserved := rb.reserved ++ [trace_entry_size cfg file.event],
            committed := rb.committed + 1 })) ∧
    (reserve (trace_entry_size cfg file.event) = none →
      synth_event_trace cfg be str_at reserve file rb n_vals vals =
        some (-EINVAL, none, rb) ∧
      synth_event_trace_array cfg be str_at reserve file rb vals n_vals =
        some (-EINVAL, none, rb)) := by
  constructor
  · intro e hres
    rw [synth_event_trace_mismatch cfg be str_at reserve file rb n_vals vals e hen hsd hres hn,
      synth_event_trace_array_mismatch cfg be str_at reserve file rb n_vals vals e hen hsd
        hres hn, rb_after_record]
    exact ⟨rfl, rfl⟩
  · intro hres
    rw [synth_event_trace_refused cfg be str_at reserve file rb n_vals vals hen hsd hres,
      synth_event_trace_array_refused cfg be str_at reserve file rb n_vals vals hen hsd hres,
      rb_after_record]
    exact ⟨rfl, rfl⟩

theorem trace_arity_mismatch_channel_witness :
    synth_event_trace linux64 false (fun _ => none) (fun _ => some (List.replicate 16 0))
        ⟨true, false, ⟨"foo".toList, [⟨"u64".toList, "a".toList, 8, 0, false, false⟩],
          1, 0, none, none⟩⟩ ⟨0, [], 0⟩ 3 [1, 2, 3] =
      some (-EINVAL, some (List.replicate 16 0), ⟨0, [] ++ [16], 0 + 1⟩) :=
  ((trace_arity_mismatch_channel linux64 false (fun _ => none)
      (fun _ => some (List.replicate 16 0))
      ⟨true, false, ⟨"foo".toList, [⟨"u64".toList, "a".toList, 8, 0, false, false⟩],
        1, 0, none, none⟩⟩ ⟨0, [], 0⟩ 3 [1, 2, 3] rfl rfl (by decide)).1
    (List.replicate 16 0) rfl).1

/-- C17: when the event file is not enabled or is soft-disabled,
`synth_event_trace` and `synth_event_trace_array` return 0 for every `n_vals`
and leave the channel as it was (no reservation, no commit, the nesting
marker unchanged); `trace_event_raw_event_synth` leaves the channel as it was
when the file is soft-disabled. -/
theorem trace_disabled_noop (cfg : Config) (be : Bool) (str_at : Nat → Option CStr)
    (reserve : Int → Option (List Nat)) (file : trace_event_file) (rb : ring_buffer)
    (n_vals : Nat) (vals : List Nat) (var_ref_idx : List Nat) :
    (file.enabled = false ∨ file.soft_disabled = true →
      synth_event_trace cfg be str_at reserve file rb n_vals vals = some (0, none, rb) ∧
      synth_event_trace_array cfg be str_at reserve file rb vals n_vals =
        some (0, none, rb)) ∧
    (file.soft_disabled = true →
      trace_event_raw_event_synth cfg be str_at reserve file rb vals var_ref_idx =
        some (none, rb)) := by
  constructor
  · intro h
    exact ⟨synth_event_trace_off cfg be str_at reserve file rb n_vals vals h,
      synth_event_trace_array_off cfg be str_at reserve file rb n_vals vals h⟩
  · intro h
    unfold trace_event_raw_event_synth
    dsimp only
    rw [if_pos h]

theorem trace_disabled_noop_witness :
    synth_event_trace linux64 false (fun _ => none) (fun _ => some (List.replicate 16 0))
        ⟨false, false, ⟨"foo".toList, [⟨"u64".toList, "a".toList, 8, 0, false, false⟩],
          1, 0, none, none⟩⟩ ⟨0, [], 0⟩ 3 [1, 2, 3] = some (0, none, ⟨0, [], 0⟩) ∧
    trace_event_raw_event_synth linux64 false (fun _ => none)
        (fun _ => some (List.replicate 16 0))
        ⟨true, true, ⟨"foo".toList, [⟨"u64".toList, "a".toList, 8, 0, false, false⟩],
          1, 0, none, none⟩⟩ ⟨0, [], 0⟩ [1] [0] = some (none, ⟨0, [], 0⟩) :=
  ⟨((trace_disabled_noop linux64 false (fun _ => none) (fun _ => some (List.replicate 16 0))
      ⟨false, false, ⟨"foo".toList, [⟨"u64".toList, "a".toList, 8, 0, false, false⟩],
        1, 0, none, none⟩⟩ ⟨0, [], 0⟩ 3 [1, 2, 3] []).1 (Or.inl rfl)).1,
   (trace_disabled_noop linux64 false (fun _ => none) (fun _ => some (List.replicate 16 0))
      ⟨true, true, ⟨"foo".toList, [⟨"u64".toList, "a".toList, 8, 0, false, false⟩],
        1, 0, none, none⟩⟩ ⟨0, [], 0⟩ 0 [1] [0]).2 rfl⟩

/-! ## Theorems: records written and read back -/

theorem poke_length (buf : List Nat) (pos : Nat) (src : List Nat) :
    (poke buf pos src).length = buf.length := by
  induction buf generalizing pos src with
  | nil => cases pos <;> cases src <;> rfl
  | cons b bs ih =>
    cases pos with
    | zero =>
      cases src with
      | nil => rfl
      | cons c cs => simp [poke, ih]
    | succ p => simp [poke, ih]

theorem poke_eq (buf : List Nat) (pos : Nat) (src : List Nat)
    (h : pos + src.length ≤ buf.length) :
    poke buf pos src = buf.take pos ++ src ++ buf.drop (pos + src.length) := by
  induction buf generalizing pos src with
  | nil =>
    have h1 : src = [] := by
      cases src with
      | nil => rfl
      | cons c cs => simp at h
    subst h1
    cases pos <;> rfl
  | cons b bs ih =>
    cases pos with
    | zero =>
      cases src with
      | nil => simp [poke]
      | cons c cs =>
        have h2 : 0 + cs.length ≤ bs.length := by simp at h; omega
        have := ih 0 cs h2
        simp [poke, this]
    | succ p =>
      have h2 : p + src.length ≤ bs.length := by simp at h; omega
      have := ih p src h2
      simp [poke, this, Nat.add_right_comm]

theorem poke_outside (buf : List Nat) (pos : Nat) (src : List Nat) (j : Nat)
    (h : j < pos ∨ pos + src.length ≤ j) :
    (poke buf pos src)[j]? = buf[j]? := by
  induction buf generalizing pos src j with
  | nil => cases pos <;> cases src <;> rfl
  | cons b bs ih =>
    cases pos with
    | zero =>
      cases src with
      | nil => rfl
      | cons c cs =>
        cases j with
        | zero => simp at h
        | succ j =>
          simp only [poke, List.getElem?_cons_succ]
          apply ih
          right
          simp at h
          omega
    | succ p =>
      cases j with
      | zero => simp [poke]
      | succ j =>
        simp only [poke, List.getElem?_cons_succ]
        apply ih
        omega

theorem poke_inside (buf : List Nat) (pos : Nat) (src : List Nat) (k : Nat)
    (h : pos + src.length ≤ buf.length) (hk : k < src.length) :
    (poke buf pos src)[pos + k]? = src[k]? := by
  rw [poke_eq buf pos src h, List.append_assoc]
  have h1 : (buf.take pos).length = pos := by
    rw [List.length_take]; omega
  rw [List.getElem?_append_right (by omega), h1, Nat.add_sub_cancel_left,
    List.getElem?_append_left hk]


theorem range_eight : List.range 8 = [0, 1, 2, 3, 4, 5, 6, 7] := by decide

theorem poke_getD (buf : List Nat) (pos : Nat) (src : List Nat) (k : Nat)
    (h : pos + src.length ≤ buf.length) :
    (poke buf pos src).getD (pos + k) 0 =
      if k < src.length then src.getD k 0 else buf.getD (pos + k) 0 := by
  rw [List.getD_eq_getElem?_getD, List.getD_eq_getElem?_getD, List.getD_eq_getElem?_getD]
  by_cases hk : k < src.length
  · rw [if_pos hk, poke_inside buf pos src k h hk]
  · rw [if_neg hk, poke_outside buf pos src (pos + k) (by omega)]

theorem mem_bytes_one (v : Nat) : mem_bytes false 1 v = [v / 256 ^ 0 % 256] := rfl

theorem mem_bytes_two (v : Nat) :
    mem_bytes false 2 v = [v / 256 ^ 0 % 256, v / 256 ^ 1 % 256] := rfl

theorem mem_bytes_four (v : Nat) :
    mem_bytes false 4 v =
      [v / 256 ^ 0 % 256, v / 256 ^ 1 % 256, v / 256 ^ 2 % 256, v / 256 ^ 3 % 256] := rfl

theorem mem_bytes_eight (v : Nat) :
    mem_bytes false 8 v =
      [v / 256 ^ 0 % 256, v / 256 ^ 1 % 256, v / 256 ^ 2 % 256, v / 256 ^ 3 % 256,
       v / 256 ^ 4 % 256, v / 256 ^ 5 % 256, v / 256 ^ 6 % 256, v / 256 ^ 7 % 256] := rfl

theorem load_u64_poke (entry : List Nat) (off : Nat) (src : List Nat)
    (hoff : off + 8 ≤ entry.length) (hsrc : src.length ≤ 8) :
    load_u64 false (poke entry off src) off =
      le_value ((List.range 8).map (fun k =>
        if k < src.length then src.getD k 0 else entry.getD (off + k) 0)) := by
  unfold load_u64
  rw [if_neg (by decide)]
  congr 1
  apply List.map_congr_left
  intro k _
  exact poke_getD entry off src k (by omega)

theorem load_after_write (entry : List Nat) (off : Nat) (size : Int) (val : Nat)
    (hoff : off + 8 ≤ entry.length) (hs : size = 1 ∨ size = 2 ∨ size = 4 ∨ size = 8) :
    print_synth_event_num_val size (load_u64 false (write_scalar false entry off size val) off)
      = val % 2 ^ (8 * size.toNat) := by
  unfold print_synth_event_num_val write_scalar
  rcases hs with hs | hs | hs | hs <;> subst hs
  · rw [if_pos rfl, if_pos rfl, mem_bytes_one,
      load_u64_poke entry off _ hoff (by simp), range_eight]
    simp [le_value]
  · rw [if_neg (by decide), if_pos rfl, if_neg (by decide), if_pos rfl, mem_bytes_two,
      load_u64_poke entry off _ hoff (by simp), range_eight]
    simp [le_value]
    omega
  · rw [if_neg (by decide), if_neg (by decide), if_pos rfl,
      if_neg (by decide), if_neg (by decide), if_pos rfl, mem_bytes_four,
      load_u64_poke entry off _ hoff (by simp), range_eight]
    simp [le_value]
    omega
  · rw [if_neg (by decide), if_neg (by decide), if_neg (by decide),
      if_neg (by decide), if_neg (by decide), if_neg (by decide), mem_bytes_eight,
      load_u64_poke entry off _ hoff (by simp), range_eight]
    simp [le_value]
    omega


theorem takeWhile_bytes (bs rest : List Nat) (h : ∀ b ∈ bs, b ≠ 0) :
    (bs ++ 0 :: rest).takeWhile (fun b => b != 0) = bs := by
  induction bs with
  | nil => simp
  | cons b bs ih =>
    have hb : (b != 0) = true := by
      have := h b (by simp)
      simpa using this
    rw [List.cons_append, List.takeWhile_cons, hb]
    simp only [if_true]
    rw [ih (fun c hc => h c (by simp [hc]))]

theorem strscpy_eq (dest : List Nat) (off : Nat) (t : CStr) (count : Nat)
    (h1 : 1 ≤ count) (h2 : count ≤ 2 ^ 31 - 1) :
    (strscpy dest off t count).1 =
      poke dest off ((t.take (count - 1)).map Char.toNat ++ [0]) := by
  unfold strscpy
  rw [if_neg (by omega)]
  by_cases h : t.length < count
  · rw [if_pos h, List.take_of_length_le (by omega)]
  · rw [if_neg h]

theorem strscpy_block (dest : List Nat) (off : Nat) (t : CStr) (count : Nat)
    (h1 : 1 ≤ count) (h2 : count ≤ 2 ^ 31 - 1) (h3 : off + count ≤ dest.length) :
    ∃ rest, rest.length + (min t.length (count - 1) + 1) = count ∧
      ((strscpy dest off t count).1.drop off).take count =
        (t.take (count - 1)).map Char.toNat ++ 0 :: rest ∧
      (strscpy dest off t count).1.drop off =
        (t.take (count - 1)).map Char.toNat ++ 0 ::
          dest.drop (off + (min t.length (count - 1) + 1)) := by
  have hlen : ((t.take (count - 1)).map Char.toNat ++ [0]).length =
      min t.length (count - 1) + 1 := by
    simp [Nat.min_comm]
  have hfit : off + ((t.take (count - 1)).map Char.toNat ++ [0]).length ≤ dest.length := by
    rw [hlen]; omega
  have htake : (dest.take off).length = off := by
    rw [List.length_take]; omega
  have hdrop : (strscpy dest off t count).1.drop off =
      (t.take (count - 1)).map Char.toNat ++ 0 ::
        dest.drop (off + (min t.length (count - 1) + 1)) := by
    rw [strscpy_eq dest off t count h1 h2, poke_eq _ _ _ hfit, hlen, List.append_assoc,
      List.drop_append_eq_append_drop, htake, Nat.sub_self, List.drop_zero,
      List.drop_of_length_le (by omega)]
    simp
  refine ⟨(dest.drop (off + (min t.length (count - 1) + 1))).take
      (count - (min t.length (count - 1) + 1)), ?_, ?_, hdrop⟩
  · rw [List.length_take, List.length_drop]
    omega
  · rw [hdrop, List.take_append_eq_append_take, List.take_of_length_le (by simp)]
    have : count - ((t.take (count - 1)).map Char.toNat).length =
        (count - (min t.length (count - 1) + 1)) + 1 := by
      simp
      omega
    rw [this, List.take_succ_cons]


theorem read_cstr_strscpy (dest : List Nat) (off : Nat) (t : CStr) (count : Nat)
    (h1 : 1 ≤ count) (h2 : count ≤ 2 ^ 31 - 1) (h3 : off + count ≤ dest.length)
    (ht : ∀ c ∈ t, c.toNat ≠ 0) :
    read_cstr (strscpy dest off t count).1 off = (t.take (count - 1)).map Char.toNat := by
  obtain ⟨rest, _, _, hdrop⟩ := strscpy_block dest off t count h1 h2 h3
  unfold read_cstr
  rw [hdrop]
  apply takeWhile_bytes
  intro b hb
  obtain ⟨c, hc, rfl⟩ := List.mem_map.mp hb
  exact ht c (List.mem_of_mem_take hc)

theorem take_min_length (t : CStr) (k : Nat) : t.take (min t.length k) = t.take k := by
  by_cases h : t.length ≤ k
  · rw [Nat.min_eq_left h, List.take_length, List.take_of_length_le h]
  · rw [Nat.min_eq_right (by omega)]

/-- C18: for every scalar field of size 1, 2, 4 or 8, every value `v` and
every prior content of the record, after the switch of the encoders has
stored `v` in the word of the field, `print_synth_event_num_val` gets from
that word (little-endian) the value `v mod 2^(8*size)`; so the three bulk
loops followed by the loop of `print_synth_event` give back the value mod
`2^(8*size)` for the field. -/
theorem scalar_round_trip (cfg : Config) (str_at : Nat → Option CStr) (entry : List Nat)
    (n : Nat) (f : synth_field) (vals : List Nat) (idx : List Nat) (i : Nat)
    (hsz : f.size = 1 ∨ f.size = 2 ∨ f.size = 4 ∨ f.size = 8)
    (hoff : field_addr cfg n + 8 ≤ entry.length) :
    (∀ v, print_synth_event_num_val f.size
        (load_u64 false (write_scalar false entry (field_addr cfg n) f.size v)
          (field_addr cfg n)) = v % 2 ^ (8 * f.size.toNat)) ∧
    (f.is_string = false →
      (synth_event_trace_loop cfg false str_at vals [f] i n entry).map
          (print_synth_event_loop cfg false [f] n) =
        some [(f.name, PrintedVal.num (vals.getD i 0 % 2 ^ (8 * f.size.toNat)))] ∧
      (synth_event_trace_array_loop cfg false str_at vals [f] i n entry).map
          (print_synth_event_loop cfg false [f] n) =
        some [(f.name, PrintedVal.num (vals.getD i 0 % 2 ^ (8 * f.size.toNat)))] ∧
      (trace_event_raw_event_synth_loop cfg false str_at vals idx [f] i n entry).map
          (print_synth_event_loop cfg false [f] n) =
        some [(f.name,
          PrintedVal.num (vals.getD (idx.getD i 0) 0 % 2 ^ (8 * f.size.toNat)))]) := by
  have key := fun v => load_after_write entry (field_addr cfg n) f.size v hoff hsz
  refine ⟨key, ?_⟩
  intro hs
  have hs2 : ¬ f.is_string = true := by simp [hs]
  refine ⟨?_, ?_, ?_⟩
  · unfold synth_event_trace_loop
    dsimp only
    rw [if_neg hs2]
    unfold synth_event_trace_loop
    rw [Option.map_some']
    unfold print_synth_event_loop
    rw [if_neg hs2, key]
    rfl
  · unfold synth_event_trace_array_loop
    dsimp only
    rw [if_neg hs2]
    unfold synth_event_trace_array_loop
    rw [Option.map_some']
    unfold print_synth_event_loop
    rw [if_neg hs2, key]
    rfl
  · unfold trace_event_raw_event_synth_loop
    dsimp only
    rw [if_neg hs2]
    unfold trace_event_raw_event_synth_loop
    rw [Option.map_some']
    unfold print_synth_event_loop
    rw [if_neg hs2, key]
    rfl

theorem scalar_round_trip_witness :
    (synth_event_trace_array_loop linux64 false (fun _ => none) [74565]
        [⟨"u16".toList, "a".toList, 2, 0, false, false⟩] 0 1 (List.replicate 24 170)).map
      (print_synth_event_loop linux64 false
        [⟨"u16".toList, "a".toList, 2, 0, false, false⟩] 1) =
      some [("a".toList, PrintedVal.num ([74565].getD 0 0 % 2 ^ (8 * (2 : Int).toNat)))] :=
  ((scalar_round_trip linux64 (fun _ => none) (List.replicate 24 170) 1
      ⟨"u16".toList, "a".toList, 2, 0, false, false⟩ [74565] [] 0
      (by decide) (by decide)).2 rfl).2.1

/-- C19: for every string field, whose block starts at the word `n` of the
record, and every text `t` (the bytes before the terminator, none of them
NUL), after the copy made by the encoders, `strscpy` with the bound
`STR_VAR_LEN_MAX`, the block of `STR_VAR_LEN_MAX` bytes contains a NUL, the
bytes before its first NUL are the first `min (len t) (STR_VAR_LEN_MAX - 1)`
bytes of `t`, the record has the length it had and no byte outside the block
is changed. -/
theorem string_block_after_copy (cfg : Config) (entry : List Nat) (n : Nat) (t : CStr)
    (h1 : 1 ≤ cfg.STR_VAR_LEN_MAX) (h2 : cfg.STR_VAR_LEN_MAX ≤ 2 ^ 31 - 1)
    (h3 : field_addr cfg n + cfg.STR_VAR_LEN_MAX ≤ entry.length)
    (ht : ∀ c ∈ t, c.toNat ≠ 0) :
    0 ∈ ((strscpy entry (field_addr cfg n) t cfg.STR_VAR_LEN_MAX).1.drop
        (field_addr cfg n)).take cfg.STR_VAR_LEN_MAX ∧
    (((strscpy entry (field_addr cfg n) t cfg.STR_VAR_LEN_MAX).1.drop
        (field_addr cfg n)).take cfg.STR_VAR_LEN_MAX).takeWhile (fun b => b != 0) =
      (t.take (min t.length (cfg.STR_VAR_LEN_MAX - 1))).map Char.toNat ∧
    (strscpy entry (field_addr cfg n) t cfg.STR_VAR_LEN_MAX).1.length = entry.length ∧
    ∀ j, j < field_addr cfg n ∨ field_addr cfg n + cfg.STR_VAR_LEN_MAX ≤ j →
      (strscpy entry (field_addr cfg n) t cfg.STR_VAR_LEN_MAX).1[j]? = entry[j]? := by
  obtain ⟨rest, hrest, hblock, _⟩ :=
    strscpy_block entry (field_addr cfg n) t cfg.STR_VAR_LEN_MAX h1 h2 h3
  have hbytes : ∀ b ∈ (t.take (cfg.STR_VAR_LEN_MAX - 1)).map Char.toNat, b ≠ 0 := by
    intro b hb
    obtain ⟨c, hc, rfl⟩ := List.mem_map.mp hb
    exact ht c (List.mem_of_mem_take hc)
  refine ⟨?_, ?_, ?_, ?_⟩
  · rw [hblock]; simp
  · rw [hblock, take_min_length]
    exact takeWhile_bytes _ _ hbytes
  · rw [strscpy_eq _ _ _ _ h1 h2, poke_length]
  · intro j hj
    rw [strscpy_eq _ _ _ _ h1 h2]
    apply poke_outside
    have : ((t.take (cfg.STR_VAR_LEN_MAX - 1)).map Char.toNat ++ [0]).length ≤
        cfg.STR_VAR_LEN_MAX := by
      simp
      omega
    omega

theorem string_block_after_copy_witness :
    (((strscpy (List.replicate 48 170) (field_addr linux64 1) "hi".toList
        linux64.STR_VAR_LEN_MAX).1.drop (field_addr linux64 1)).take
        linux64.STR_VAR_LEN_MAX).takeWhile (fun b => b != 0) =
      ("hi".toList.take (min "hi".toList.length (linux64.STR_VAR_LEN_MAX - 1))).map
        Char.toNat :=
  (string_block_after_copy linux64 (List.replicate 48 170) 1 "hi".toList (by decide)
    (by decide) (by decide) (by decide)).2.1

/-- C20, amended: a string value is cut to `STR_VAR_LEN_MAX - 1` characters
whatever the declared capacity of the field is: for every string field `f`
(of any size) and every text `t` found at the pointer given as value, the
loops of `synth_event_trace` and `synth_event_trace_array` followed by the
loop of `print_synth_event` give for the field the first
`min (len t) (STR_VAR_LEN_MAX - 1)` characters of `t`. -/
theorem string_capacity (cfg : Config) (be : Bool) (str_at : Nat → Option CStr)
    (entry : List Nat) (n : Nat) (f : synth_field) (vals : List Nat) (i : Nat) (t : CStr)
    (hs : f.is_string = true) (hstr : str_at (to_ptr cfg (vals.getD i 0)) = some t)
    (h1 : 1 ≤ cfg.STR_VAR_LEN_MAX) (h2 : cfg.STR_VAR_LEN_MAX ≤ 2 ^ 31 - 1)
    (h3 : field_addr cfg n + cfg.STR_VAR_LEN_MAX ≤ entry.length)
    (ht : ∀ c ∈ t, c.toNat ≠ 0) :
    (synth_event_trace_loop cfg be str_at vals [f] i n entry).map
        (print_synth_event_loop cfg be [f] n) =
      some [(f.name, PrintedVal.str
        ((t.take (min t.length (cfg.STR_VAR_LEN_MAX - 1))).map Char.toNat))] ∧
    (synth_event_trace_array_loop cfg be str_at vals [f] i n entry).map
        (print_synth_event_loop cfg be [f] n) =
      some [(f.name, PrintedVal.str
        ((t.take (min t.length (cfg.STR_VAR_LEN_MAX - 1))).map Char.toNat))] := by
  have key := read_cstr_strscpy entry (field_addr cfg n) t cfg.STR_VAR_LEN_MAX h1 h2 h3 ht
  rw [take_min_length]
  constructor
  · unfold synth_event_trace_loop
    dsimp only
    rw [if_pos hs, hstr]
    dsimp only
    unfold synth_event_trace_loop
    rw [Option.map_some']
    unfold print_synth_event_loop
    rw [if_pos hs, key]
    rfl
  · unfold synth_event_trace_array_loop
    dsimp only
    rw [if_pos hs, hstr]
    dsimp only
    unfold synth_event_trace_array_loop
    rw [Option.map_some']
    unfold print_synth_event_loop
    rw [if_pos hs, key]
    rfl

theorem string_capacity_witness :
    (synth_event_trace_array_loop linux64 false
        (fun a => if a = 4096 then some "hello".toList else none) [4096]
        [⟨"char[4]".toList, "s".toList, 4, 0, true, true⟩] 0 0 (List.replicate 40 170)).map
      (print_synth_event_loop linux64 false
        [⟨"char[4]".toList, "s".toList, 4, 0, true, true⟩] 0) =
      some [("s".toList, PrintedVal.str
        (("hello".toList.take (min "hello".toList.length
          (linux64.STR_VAR_LEN_MAX - 1))).map Char.toNat))] :=
  (string_capacity linux64 false (fun a => if a = 4096 then some "hello".toList else none)
    (List.replicate 40 170) 0 ⟨"char[4]".toList, "s".toList, 4, 0, true, true⟩ [4096] 0
    "hello".toList rfl rfl (by decide) (by decide) (by decide) (by decide)).2

set_option maxRecDepth 100000 in
/-- C20, as stated, fails: the event "foo" defined with the one field
`char[4] s` has a string field of declared size 4, and when
`synth_event_trace_array` encodes the text "hello" for it, what
`print_synth_event` reads back from the record is "hello", five characters,
not "hel". -/
theorem string_capacity_counterexample :
    (__create_synth_event linux64 Env.fine ⟨[], [], [], 0⟩ 2 "foo".toList
        ["char[4]".toList, "s".toList]).bind
      (fun r => (find_synth_event r.2 "foo".toList).map
        (fun p => p.2.fields.map (fun f => (f.type, f.size, f.is_string)))) =
      some [("char[4]".toList, 4, true)] ∧
    (__create_synth_event linux64 Env.fine ⟨[], [], [], 0⟩ 2 "foo".toList
        ["char[4]".toList, "s".toList]).bind
      (fun r => (find_synth_event r.2 "foo".toList).bind
        (fun p => (synth_event_trace_array linux64 false
            (fun a => if a = 4096 then some "hello".toList else none)
            (fun n => some (List.replicate n.toNat 170))
            ⟨true, false, p.2⟩ ⟨0, [], 0⟩ [4096] 1).bind
          (fun t => t.2.1.map (print_synth_event linux64 false p.2)))) =
      some [("s".toList, PrintedVal.str ("hello".toList.map Char.toNat))] ∧
    "hello".toList.map Char.toNat ≠ "hel".toList.map Char.toNat := by
  decide

/-! ## Theorems: instances of the registry claims -/

/-- C11 on a list holding the event "foo" with one reference. -/
theorem busy_event_stays_witness :
    (synth_event_delete Env.fine
        ⟨[.synth ⟨"foo".toList, [], 0, 1, none, none⟩], ["foo".toList], ["foo".toList], 0⟩
        "foo".toList).1 = -EBUSY ∧
    find_synth_event (synth_event_delete Env.fine
        ⟨[.synth ⟨"foo".toList, [], 0, 1, none, none⟩], ["foo".toList], ["foo".toList], 0⟩
        "foo".toList).2 "foo".toList = some (0, ⟨"foo".toList, [], 0, 1, none, none⟩) :=
  ⟨((busy_event_stays Env.fine
      ⟨[.synth ⟨"foo".toList, [], 0, 1, none, none⟩], ["foo".toList], ["foo".toList], 0⟩
      "foo".toList 0 ⟨"foo".toList, [], 0, 1, none, none⟩ (by decide)).1 (by decide)).2.2.2.1,
   ((busy_event_stays Env.fine
      ⟨[.synth ⟨"foo".toList, [], 0, 1, none, none⟩], ["foo".toList], ["foo".toList], 0⟩
      "foo".toList 0 ⟨"foo".toList, [], 0, 1, none, none⟩ (by decide)).1
      (by decide)).2.2.2.2.2.2.2⟩

set_option maxRecDepth 100000 in
/-- C13 at "s:foo" followed by "s:synthetic/foo", at "s:grp/foo" and at a
token without the marker. -/
theorem create_synth_event_names_witness :
    (∃ w1, create_synth_event linux64 Env.fine ⟨[], [], [], 0⟩ 3
          ["s:foo".toList, "u64".toList, "a".toList] = some (0, w1) ∧
        create_synth_event linux64 Env.fine w1 3
          ["s:synthetic/foo".toList, "u32".toList, "b".toList] = some (-EEXIST, w1)) ∧
    create_synth_event linux64 Env.fine ⟨[], [], [], 0⟩ 3
        ["s:grp/foo".toList, "u64".toList, "a".toList] = some (-EINVAL, ⟨[], [], [], 0⟩) ∧
    create_synth_event linux64 Env.fine ⟨[], [], [], 0⟩ 3
        ["foo".toList, "u64".toList, "a".toList] = some (-ECANCELED, ⟨[], [], [], 0⟩) := by
  refine ⟨?_, ?_, ?_⟩
  · have h0 : (create_synth_event linux64 Env.fine ⟨[], [], [], 0⟩ 3
        ["s:foo".toList, "u64".toList, "a".toList]).map (fun r => r.1) = some 0 := by
      decide
    cases hc : create_synth_event linux64 Env.fine ⟨[], [], [], 0⟩ 3
        ["s:foo".toList, "u64".toList, "a".toList] with
    | none => rw [hc] at h0; cases h0
    | some p =>
      obtain ⟨r, w1⟩ := p
      rw [hc] at h0
      have hr : r = 0 := by
        simpa using h0
      subst hr
      exact ⟨w1, rfl, ((create_synth_event_names linux64 Env.fine ⟨[], [], [], 0⟩ 3).2.1
        "foo".toList ["u64".toList, "a".toList] ["u32".toList, "b".toList] w1 Env.fine 3
        (by decide) (by decide)).1 hc⟩
  · exact (create_synth_event_names linux64 Env.fine ⟨[], [], [], 0⟩ 3).2.2.1
      "grp/foo".toList ["u64".toList, "a".toList] (by decide) (by decide)
  · exact (create_synth_event_names linux64 Env.fine ⟨[], [], [], 0⟩ 3).2.2.2
      ["foo".toList, "u64".toList, "a".toList] (by decide)

/-! ## Theorems: piecewise tracing -/

theorem add_next_val_rejected (cfg : Config) (be : Bool) (str_at : Nat → Option CStr)
    (val : Nat) (st : synth_event_trace_state) (h : st.add_name = true) :
    synth_event_add_next_val cfg be str_at val (some st) = some (-EINVAL, some st) := by
  unfold synth_event_add_next_val __synth_event_add_val
  simp [h]

theorem add_val_rejected (cfg : Config) (be : Bool) (str_at : Nat → Option CStr)
    (name : CStr) (val : Nat) (st : synth_event_trace_state) (h : st.add_next = true) :
    synth_event_add_val cfg be str_at (some name) val (some st) = some (-EINVAL, some st) := by
  unfold synth_event_add_val __synth_event_add_val
  simp [h]

/-- What a call that is not rejected for its mode goes on with. -/
theorem add_val_eq (cfg : Config) (be : Bool) (str_at : Nat → Option CStr)
    (name : CStr) (val : Nat) (st : synth_event_trace_state) (h : st.add_next = false) :
    synth_event_add_val cfg be str_at (some name) val (some st) =
      if st.disabled then some (0, some { st with add_name := true })
      else
        match st.event with
        | none => none
        | some event =>
          match add_val_find_field event.fields name none with
          | none => some (-EINVAL, some { st with add_name := true })
          | some field =>
            if field.is_string then
              if to_ptr cfg val = 0 then some (-EINVAL, some { st with add_name := true })
              else
                match st.entry, str_at (to_ptr cfg val) with
                | some entry, some str_val =>
                  some (0, some
                    { st with
                        add_name := true,
                        entry := some (strscpy entry (field_addr cfg field.offset) str_val
                          cfg.STR_VAR_LEN_MAX).1 })
                | _, _ => none
            else
              match st.entry with
              | none => none
              | some entry =>
                some (0, some
                  { st with
                      add_name := true,
                      entry := some (write_scalar be entry (field_addr cfg field.offset)
                        field.size val) }) := by
  unfold synth_event_add_val __synth_event_add_val
  simp only [Option.isSome_some, Bool.true_and, h, Bool.false_eq_true, if_false,
    Option.isNone_some, Bool.false_and, if_true, Option.getD_some]
  split
  · rfl
  · cases hev : st.event with
    | none => rfl
    | some event =>
      dsimp only
      cases hf : add_val_find_field event.fields name none with
      | none => rfl
      | some field =>
        dsimp only [Option.map_some']

theorem add_next_val_eq (cfg : Config) (be : Bool) (str_at : Nat → Option CStr)
    (val : Nat) (st : synth_event_trace_state) (h : st.add_name = false) :
    synth_event_add_next_val cfg be str_at val (some st) =
      if st.disabled then some (0, some { st with add_next := true })
      else
        match st.event with
        | none => none
        | some event =>
          if st.cur_field ≥ event.fields.length then
            some (-EINVAL, some { st with add_next := true })
          else
            match event.fields[st.cur_field]? with
            | none => some (-EINVAL, some { st with add_next := true })
            | some field =>
              if field.is_string then
                if to_ptr cfg val = 0 then
                  some (-EINVAL, some
                    { st with add_next := true, cur_field := (st.cur_field + 1) % 2 ^ 32 })
                else
                  match st.entry, str_at (to_ptr cfg val) with
                  | some entry, some str_val =>
                    some (0, some
                      { st with
                          add_next := true,
                          cur_field := (st.cur_field + 1) % 2 ^ 32,
                          entry := some (strscpy entry (field_addr cfg field.offset) str_val
                            cfg.STR_VAR_LEN_MAX).1 })
                  | _, _ => none
              else
                match st.entry with
                | none => none
                | some entry =>
                  some (0, some
                    { st with
                        add_next := true,
                        cur_field := (st.cur_field + 1) % 2 ^ 32,
                        entry := some (write_scalar be entry (field_addr cfg field.offset)
                          field.size val) }) := by
  unfold synth_event_add_next_val __synth_event_add_val
  simp only [Option.isSome_none, Bool.false_and, Bool.false_eq_true, if_false,
    Option.isNone_none, Bool.true_and, h]
  split
  · rfl
  · cases hev : st.event with
    | none => rfl
    | some event =>
      dsimp only
      by_cases hc : st.cur_field ≥ event.fields.length
      · rw [if_pos hc, if_pos hc]
      · rw [if_neg hc, if_neg hc]
        cases hf : event.fields[st.cur_field]? with
        | none => rfl
        | some field =>
          dsimp only [Option.map_some']


theorem mem_bytes_length (be : Bool) (n v : Nat) : (mem_bytes be n v).length = n := by
  unfold mem_bytes
  cases be <;> simp

theorem write_scalar_length (be : Bool) (entry : List Nat) (off : Nat) (size : Int)
    (val : Nat) : (write_scalar be entry off size val).length = entry.length := by
  unfold write_scalar
  split_ifs <;> exact poke_length _ _ _

theorem write_scalar_outside (be : Bool) (entry : List Nat) (off : Nat) (size : Int)
    (val : Nat) (j : Nat) (h : j < off ∨ off + 8 ≤ j) :
    (write_scalar be entry off size val)[j]? = entry[j]? := by
  unfold write_scalar
  split_ifs <;> (apply poke_outside; rw [mem_bytes_length]; omega)

theorem strscpy_length (dest : List Nat) (off : Nat) (t : CStr) (count : Nat) :
    (strscpy dest off t count).1.length = dest.length := by
  unfold strscpy
  split_ifs <;> first | rfl | exact poke_length _ _ _

theorem strscpy_outside (dest : List Nat) (off : Nat) (t : CStr) (count : Nat) (j : Nat)
    (h : j < off ∨ off + count ≤ j) :
    (strscpy dest off t count).1[j]? = dest[j]? := by
  unfold strscpy
  split_ifs with h1 h2
  · rfl
  · apply poke_outside
    simp only [List.length_append, List.length_map, List.length_singleton]
    omega
  · apply poke_outside
    simp only [List.length_append, List.length_map, List.length_singleton, List.length_take]
    omega

/-- What a by-name call that is not rejected for its mode leaves behind. -/
theorem add_val_frame (cfg : Config) (be : Bool) (str_at : Nat → Option CStr)
    (name : CStr) (val : Nat) (st : synth_event_trace_state) (r : Int)
    (o : Option synth_event_trace_state) (h : st.add_next = false)
    (hres : synth_event_add_val cfg be str_at (some name) val (some st) = some (r, o)) :
    ∃ st1, o = some st1 ∧ st1 = { st with add_name := true, entry := st1.entry } ∧
      (st1.entry = st.entry ∨
        ∃ ev f e e1, st.event = some ev ∧
          add_val_find_field ev.fields name none = some f ∧
          st.entry = some e ∧ st1.entry = some e1 ∧ r = 0 ∧
          e1 = (if f.is_string then
              (strscpy e (field_addr cfg f.offset) ((str_at (to_ptr cfg val)).getD [])
                cfg.STR_VAR_LEN_MAX).1
            else write_scalar be e (field_addr cfg f.offset) f.size val)) := by
  rw [add_val_eq cfg be str_at name val st h] at hres
  by_cases hd : st.disabled = true
  · rw [if_pos hd] at hres
    injection hres with hres
    injection hres with h1 h2
    subst h2
    exact ⟨_, rfl, rfl, Or.inl rfl⟩
  · rw [if_neg hd] at hres
    cases hev : st.event with
    | none => rw [hev] at hres; cases hres
    | some ev =>
      rw [hev] at hres
      dsimp only at hres
      cases hf : add_val_find_field ev.fields name none with
      | none =>
        rw [hf] at hres
        injection hres with hres
        injection hres with h1 h2
        subst h2
        exact ⟨_, rfl, rfl, Or.inl rfl⟩
      | some f =>
        rw [hf] at hres
        dsimp only at hres
        by_cases hs : f.is_string = true
        · rw [if_pos hs] at hres
          by_cases hp : to_ptr cfg val = 0
          · rw [if_pos hp] at hres
            injection hres with hres
            injection hres with h1 h2
            subst h2
            exact ⟨_, rfl, rfl, Or.inl rfl⟩
          · rw [if_neg hp] at hres
            cases he : st.entry with
            | none => rw [he] at hres; cases hres
            | some e =>
              cases ht : str_at (to_ptr cfg val) with
              | none => rw [he, ht] at hres; cases hres
              | some t =>
                rw [he, ht] at hres
                injection hres with hres
                injection hres with h1 h2
                subst h2
                refine ⟨_, rfl, rfl, Or.inr ⟨ev, f, e, _, rfl, hf, rfl, rfl, h1.symm, ?_⟩⟩
                rw [if_pos hs]
                rfl
        · rw [if_neg hs] at hres
          cases he : st.entry with
          | none => rw [he] at hres; cases hres
          | some e =>
            rw [he] at hres
            injection hres with hres
            injection hres with h1 h2
            subst h2
            refine ⟨_, rfl, rfl, Or.inr ⟨ev, f, e, _, rfl, hf, rfl, rfl, h1.symm, ?_⟩⟩
            rw [if_neg hs]


/-- A positional call that is not rejected for its mode keeps the by-position
mode. -/
theorem add_next_val_mode (cfg : Config) (be : Bool) (str_at : Nat → Option CStr)
    (val : Nat) (st : synth_event_trace_state) (r : Int)
    (o : Option synth_event_trace_state) (h : st.add_name = false)
    (hres : synth_event_add_next_val cfg be str_at val (some st) = some (r, o)) :
    ∃ st1, o = some st1 ∧ st1.add_next = true ∧ st1.add_name = false := by
  rw [add_next_val_eq cfg be str_at val st h] at hres
  by_cases hd : st.disabled = true
  · rw [if_pos hd] at hres
    injection hres with hres
    injection hres with h1 h2
    subst h2
    exact ⟨_, rfl, rfl, h⟩
  · rw [if_neg hd] at hres
    cases hev : st.event with
    | none => rw [hev] at hres; cases hres
    | some ev =>
      rw [hev] at hres
      dsimp only at hres
      by_cases hc : st.cur_field ≥ ev.fields.length
      · rw [if_pos hc] at hres
        injection hres with hres
        injection hres with h1 h2
        subst h2
        exact ⟨_, rfl, rfl, h⟩
      · rw [if_neg hc] at hres
        cases hf : ev.fields[st.cur_field]? with
        | none =>
          rw [hf] at hres
          injection hres with hres
          injection hres with h1 h2
          subst h2
          exact ⟨_, rfl, rfl, h⟩
        | some f =>
          rw [hf] at hres
          dsimp only at hres
          by_cases hs : f.is_string = true
          · rw [if_pos hs] at hres
            by_cases hp : to_ptr cfg val = 0
            · rw [if_pos hp] at hres
              injection hres with hres
              injection hres with h1 h2
              subst h2
              exact ⟨_, rfl, rfl, h⟩
            · rw [if_neg hp] at hres
              cases he : st.entry with
              | none => rw [he] at hres; cases hres
              | some e =>
                cases ht : str_at (to_ptr cfg val) with
                | none => rw [he, ht] at hres; cases hres
                | some t =>
                  rw [he, ht] at hres
                  injection hres with hres
                  injection hres with h1 h2
                  subst h2
                  exact ⟨_, rfl, rfl, h⟩
          · rw [if_neg hs] at hres
            cases he : st.entry with
            | none => rw [he] at hres; cases hres
            | some e =>
              rw [he] at hres
              injection hres with hres
              injection hres with h1 h2
              subst h2
              exact ⟨_, rfl, rfl, h⟩

theorem trace_end_open (st : synth_event_trace_state) (rb : ring_buffer) (e : List Nat)
    (he : st.entry = some e) (hb : st.has_buffer = true) :
    synth_event_trace_end (some st) rb =
      some (0, { nest := rb.nest - 1, reserved := rb.reserved,
                 committed := rb.committed + 1 }) := by
  unfold synth_event_trace_end __synth_event_trace_end trace_event_buffer_commit
  dsimp only
  rw [he]
  dsimp only
  rw [if_pos hb]
  rfl

/-- C21: within one piecewise trace the first mode used stays. In a state in
which a by-name call has been accepted (`add_name` set) every
`synth_event_add_next_val` returns -EINVAL, and in a state in which a
positional call has been accepted (`add_next` set) every `synth_event_add_val`
returns -EINVAL; the rejected call leaves the whole trace state (record
bytes, cursor, mode) as it was. A call that is not rejected sets its own mode
and not the other, so the mode stays for all later calls, and
`synth_event_trace_end` on the open record still returns 0 and commits it. -/
theorem piecewise_mode_conflict (cfg : Config) (be : Bool) (str_at : Nat → Option CStr)
    (st : synth_event_trace_state) (name : CStr) (val : Nat) (rb : ring_buffer) :
    (st.add_name = true →
      synth_event_add_next_val cfg be str_at val (some st) = some (-EINVAL, some st)) ∧
    (st.add_next = true →
      synth_event_add_val cfg be str_at (some name) val (some st) =
        some (-EINVAL, some st)) ∧
    (st.add_next = false → ∀ r o,
      synth_event_add_val cfg be str_at (some name) val (some st) = some (r, o) →
      ∃ st1, o = some st1 ∧ st1.add_name = true ∧ st1.add_next = false) ∧
    (st.add_name = false → ∀ r o,
      synth_event_add_next_val cfg be str_at val (some st) = some (r, o) →
      ∃ st1, o = some st1 ∧ st1.add_next = true ∧ st1.add_name = false) ∧
    (∀ e, st.entry = some e → st.has_buffer = true →
      synth_event_trace_end (some st) rb =
        some (0, { nest := rb.nest - 1, reserved := rb.reserved,
                   committed := rb.committed + 1 })) := by
  refine ⟨add_next_val_rejected cfg be str_at val st, add_val_rejected cfg be str_at name val st,
    ?_, ?_, ?_⟩
  · intro h r o hres
    obtain ⟨st1, ho, hst, _⟩ := add_val_frame cfg be str_at name val st r o h hres
    refine ⟨st1, ho, ?_, ?_⟩
    · rw [hst]
    · rw [hst]; exact h
  · intro h r o hres
    exact add_next_val_mode cfg be str_at val st r o h hres
  · intro e he hb
    exact trace_end_open st rb e he hb


/-- A positional call on an open record whose cursor is at the field `f`. -/
theorem add_next_val_step (cfg : Config) (be : Bool) (str_at : Nat → Option CStr)
    (v : Nat) (st : synth_event_trace_state) (ev : synth_event) (f : synth_field)
    (e : List Nat)
    (hname : st.add_name = false) (hdis : st.disabled = false) (hev : st.event = some ev)
    (he : st.entry = some e) (hf : ev.fields[st.cur_field]? = some f)
    (hlt : ev.fields.length < 2 ^ 32)
    (hstr : f.is_string = true →
      to_ptr cfg v ≠ 0 ∧ (str_at (to_ptr cfg v)).isSome) :
    synth_event_add_next_val cfg be str_at v (some st) =
      some (0, some
        { st with
            add_next := true,
            cur_field := st.cur_field + 1,
            entry := some (if f.is_string then
                (strscpy e (field_addr cfg f.offset) ((str_at (to_ptr cfg v)).getD [])
                  cfg.STR_VAR_LEN_MAX).1
              else write_scalar be e (field_addr cfg f.offset) f.size v) }) := by
  have hc : st.cur_field < ev.fields.length := by
    by_contra hge
    rw [List.getElem?_eq_none (by omega)] at hf
    cases hf
  have hmod : (st.cur_field + 1) % 2 ^ 32 = st.cur_field + 1 :=
    Nat.mod_eq_of_lt (by omega)
  rw [add_next_val_eq cfg be str_at v st hname, if_neg (by simp [hdis]), hev]
  dsimp only
  rw [if_neg (by omega), hf]
  dsimp only
  by_cases hs : f.is_string = true
  · obtain ⟨hp, hr⟩ := hstr hs
    obtain ⟨t, ht⟩ := Option.isSome_iff_exists.mp hr
    rw [if_pos hs, if_neg hp, he, ht, hmod, if_pos hs]
    rfl
  · rw [if_neg hs, he, hmod, if_neg hs]

/-- A run of positional calls on an open record: every call returns 0 and the
cursor advances by one per call. -/
theorem add_next_vals_run (cfg : Config) (be : Bool) (str_at : Nat → Option CStr)
    (ev : synth_event) (hlt : ev.fields.length < 2 ^ 32) :
    ∀ (vals : List Nat) (st : synth_event_trace_state),
      st.add_name = false → st.disabled = false → st.event = some ev →
      st.entry.isSome → st.cur_field + vals.length ≤ ev.fields.length →
      (∀ j g, ev.fields[st.cur_field + j]? = some g → g.is_string = true →
        j < vals.length →
        to_ptr cfg (vals.getD j 0) ≠ 0 ∧ (str_at (to_ptr cfg (vals.getD j 0))).isSome) →
      ∃ st1, add_next_vals cfg be str_at vals (some st) =
          some (List.replicate vals.length 0, some st1) ∧
        st1.cur_field = st.cur_field + vals.length ∧ st1.add_name = false ∧
        st1.disabled = false ∧ st1.event = some ev ∧ st1.entry.isSome ∧
        st1.has_buffer = st.has_buffer := by
  intro vals
  induction vals with
  | nil =>
    intro st hname hdis hev he _ _
    exact ⟨st, rfl, rfl, hname, hdis, hev, he, rfl⟩
  | cons v vs ih =>
    intro st hname hdis hev he hlen hstr
    obtain ⟨e, hentry⟩ := Option.isSome_iff_exists.mp he
    have hc : st.cur_field < ev.fields.length := by
      simp only [List.length_cons] at hlen
      omega
    obtain ⟨f, hf⟩ : ∃ f, ev.fields[st.cur_field]? = some f :=
      ⟨ev.fields[st.cur_field], List.getElem?_eq_getElem hc⟩
    have hstep := add_next_val_step cfg be str_at v st ev f e hname hdis hev hentry hf hlt
      (fun hs => by
        have := hstr 0 f (by rw [Nat.add_zero]; exact hf) hs (by simp)
        simpa using this)
    obtain ⟨st1, hrun, hcur, hn1, hd1, he1, hen1, hb1⟩ := ih
      { st with
          add_next := true,
          cur_field := st.cur_field + 1,
          entry := some (if f.is_string then
              (strscpy e (field_addr cfg f.offset) ((str_at (to_ptr cfg v)).getD [])
                cfg.STR_VAR_LEN_MAX).1
            else write_scalar be e (field_addr cfg f.offset) f.size v) }
      hname hdis hev rfl
      (by simp only [List.length_cons] at hlen; dsimp only; omega)
      (fun j g hg hs hj => by
        dsimp only at hg
        have := hstr (j + 1) g (by rw [← hg]; congr 1; omega) hs
          (by simp only [List.length_cons]; omega)
        simpa using this)
    refine ⟨st1, ?_, ?_, hn1, hd1, he1, hen1, hb1⟩
    · unfold add_next_vals
      rw [hstep]
      dsimp only
      rw [hrun]
      rfl
    · rw [hcur]
      simp only [List.length_cons]
      omega

/-- C22: in an enabled piecewise trace that uses only
`synth_event_add_next_val`, with string values that are not NULL, the first
`k - 1` calls return 0 and leave the cursor at `k - 1`, and the `k`-th call
(`k` at most the number of fields) returns 0, writes its value at the offset
of field `k - 1` and moves the cursor to `k`; a call made with the cursor at
the number of fields returns -EINVAL and changes neither the cursor nor the
record. -/
theorem add_next_val_kth (cfg : Config) (be : Bool) (str_at : Nat → Option CStr)
    (st : synth_event_trace_state) (ev : synth_event) (vals : List Nat) (v : Nat)
    (hname : st.add_name = false) (hdis : st.disabled = false) (hev : st.event = some ev)
    (he : st.entry.isSome) (hcur : st.cur_field = 0) (hlt : ev.fields.length < 2 ^ 32)
    (hstr : ∀ j g, j ≤ vals.length → ev.fields[j]? = some g → g.is_string = true →
      to_ptr cfg ((vals ++ [v]).getD j 0) ≠ 0 ∧
      (str_at (to_ptr cfg ((vals ++ [v]).getD j 0))).isSome) :
    (∀ f, ev.fields[vals.length]? = some f →
      ∃ st1 e1, add_next_vals cfg be str_at vals (some st) =
          some (List.replicate vals.length 0, some st1) ∧
        st1.cur_field = vals.length ∧ st1.entry = some e1 ∧
        synth_event_add_next_val cfg be str_at v (some st1) =
          some (0, some
            { st1 with
                add_next := true,
                cur_field := vals.length + 1,
                entry := some (if f.is_string then
                    (strscpy e1 (field_addr cfg f.offset)
                      ((str_at (to_ptr cfg v)).getD []) cfg.STR_VAR_LEN_MAX).1
                  else write_scalar be e1 (field_addr cfg f.offset) f.size v) })) ∧
    (∀ st2 : synth_event_trace_state, st2.add_name = false → st2.disabled = false →
      st2.event = some ev → st2.cur_field = ev.fields.length →
      synth_event_add_next_val cfg be str_at v (some st2) =
        some (-EINVAL, some { st2 with add_next := true })) := by
  constructor
  · intro f hf
    have hk : vals.length < ev.fields.length := by
      by_contra hge
      rw [List.getElem?_eq_none (by omega)] at hf
      cases hf
    obtain ⟨st1, hrun, hc1, hn1, hd1, he1, hen1, _⟩ :=
      add_next_vals_run cfg be str_at ev hlt vals st hname hdis hev he
        (by rw [hcur]; omega)
        (fun j g hg hs hj => by
          rw [hcur, Nat.zero_add] at hg
          have := hstr j g (by omega) hg hs
          rwa [List.getD_append _ _ _ _ hj] at this)
    rw [hcur, Nat.zero_add] at hc1
    obtain ⟨e1, hentry⟩ := Option.isSome_iff_exists.mp hen1
    refine ⟨st1, e1, hrun, hc1, hentry, ?_⟩
    have hstep := add_next_val_step cfg be str_at v st1 ev f e1 hn1 hd1 he1 hentry
      (by rw [hc1]; exact hf) hlt
      (fun hs => by
        have := hstr vals.length f (Nat.le_refl _) hf hs
        rwa [List.getD_append_right _ _ _ _ (Nat.le_refl _), Nat.sub_self] at this)
    rw [hstep, hc1]
  · intro st2 hn2 hd2 he2 hc2
    rw [add_next_val_eq cfg be str_at v st2 hn2, if_neg (by simp [hd2]), he2]
    dsimp only
    rw [if_pos (by omega)]


/-- C24: a call of `synth_event_add_val` with a name never changes the cursor
`cur_field`, whether it succeeds or fails, and the bytes of the record it
changes lie inside the words of the field it selected: the record keeps its
length and every byte outside the `word_width` words at the offset of that
field is as before. -/
theorem add_val_keeps_cursor (cfg : Config) (be : Bool) (str_at : Nat → Option CStr)
    (name : CStr) (val : Nat) (st : synth_event_trace_state) (r : Int)
    (o : Option synth_event_trace_state) (h8 : 8 ∣ cfg.STR_VAR_LEN_MAX)
    (hres : synth_event_add_val cfg be str_at (some name) val (some st) = some (r, o)) :
    ∃ st1, o = some st1 ∧ st1.cur_field = st.cur_field ∧
      (st1.entry = st.entry ∨
        ∃ ev f e e1, st.event = some ev ∧
          add_val_find_field ev.fields name none = some f ∧
          st.entry = some e ∧ st1.entry = some e1 ∧ e1.length = e.length ∧
          ∀ j, j < field_addr cfg f.offset ∨
              field_addr cfg f.offset + 8 * word_width cfg f ≤ j →
            e1[j]? = e[j]?) := by
  by_cases hn : st.add_next = true
  · rw [add_val_rejected cfg be str_at name val st hn] at hres
    injection hres with hres
    injection hres with h1 h2
    subst h2
    exact ⟨st, rfl, rfl, Or.inl rfl⟩
  · have hn2 : st.add_next = false := by simpa using hn
    obtain ⟨st1, ho, hst, hent⟩ := add_val_frame cfg be str_at name val st r o hn2 hres
    refine ⟨st1, ho, ?_, ?_⟩
    · rw [hst]
    · rcases hent with hsame | ⟨ev, f, e, e1, hev, hf, he, he1, _, hval⟩
      · exact Or.inl hsame
      · refine Or.inr ⟨ev, f, e, e1, hev, hf, he, he1, ?_, ?_⟩
        · rw [hval]
          split
          · exact strscpy_length _ _ _ _
          · exact write_scalar_length _ _ _ _ _
        · intro j hj
          rw [hval]
          unfold word_width at hj
          by_cases hs : f.is_string = true
          · rw [if_pos hs] at hj ⊢
            apply strscpy_outside
            rw [Nat.mul_div_cancel' h8] at hj
            exact hj
          · rw [if_neg hs] at hj ⊢
            apply write_scalar_outside
            omega


/-- C21 on a record in which a by-name call was accepted, and on one in which
a positional call was accepted. -/
theorem piecewise_mode_conflict_witness :
    synth_event_add_next_val linux64 false (fun _ => none) 7
        (some ⟨some ⟨"foo".toList, [⟨"u64".toList, "a".toList, 8, 0, false, false⟩],
          1, 0, none, none⟩, some (List.replicate 16 0), true, 0, 0, false, false, true⟩) =
      some (-EINVAL,
        some ⟨some ⟨"foo".toList, [⟨"u64".toList, "a".toList, 8, 0, false, false⟩],
          1, 0, none, none⟩, some (List.replicate 16 0), true, 0, 0, false, false, true⟩) ∧
    synth_event_add_val linux64 false (fun _ => none) (some "a".toList) 7
        (some ⟨some ⟨"foo".toList, [⟨"u64".toList, "a".toList, 8, 0, false, false⟩],
          1, 0, none, none⟩, some (List.replicate 16 0), true, 1, 0, false, true, false⟩) =
      some (-EINVAL,
        some ⟨some ⟨"foo".toList, [⟨"u64".toList, "a".toList, 8, 0, false, false⟩],
          1, 0, none, none⟩, some (List.replicate 16 0), true, 1, 0, false, true, false⟩) :=
  ⟨(piecewise_mode_conflict linux64 false (fun _ => none)
      ⟨some ⟨"foo".toList, [⟨"u64".toList, "a".toList, 8, 0, false, false⟩],
        1, 0, none, none⟩, some (List.replicate 16 0), true, 0, 0, false, false, true⟩
      "a".toList 7 ⟨0, [], 0⟩).1 rfl,
   (piecewise_mode_conflict linux64 false (fun _ => none)
      ⟨some ⟨"foo".toList, [⟨"u64".toList, "a".toList, 8, 0, false, false⟩],
        1, 0, none, none⟩, some (List.replicate 16 0), true, 1, 0, false, true, false⟩
      "a".toList 7 ⟨0, [], 0⟩).2.1 rfl⟩

/-- C22 on an event with the fields `u64 a` and `u16 b`: the second call. -/
theorem add_next_val_kth_witness :
    ∃ st1 e1, add_next_vals linux64 false (fun _ => none) [7]
        (some ⟨some ⟨"foo".toList, [⟨"u64".toList, "a".toList, 8, 0, false, false⟩,
            ⟨"u16".toList, "b".toList, 2, 1, false, false⟩], 2, 0, none, none⟩,
          some (List.replicate 24 0), true, 0, 0, false, false, false⟩) =
        some (List.replicate [7].length 0, some st1) ∧
      st1.cur_field = [7].length ∧ st1.entry = some e1 ∧
      synth_event_add_next_val linux64 false (fun _ => none) 9 (some st1) =
        some (0, some
          { st1 with
              add_next := true,
              cur_field := [7].length + 1,
              entry := some (if (⟨"u16".toList, "b".toList, 2, 1, false, false⟩ :
                    synth_field).is_string then
                  (strscpy e1 (field_addr linux64 1)
                    (((fun _ => none : Nat → Option CStr) (to_ptr linux64 9)).getD [])
                    linux64.STR_VAR_LEN_MAX).1
                else write_scalar false e1 (field_addr linux64 1) 2 9) }) :=
  (add_next_val_kth linux64 false (fun _ => none)
    ⟨some ⟨"foo".toList, [⟨"u64".toList, "a".toList, 8, 0, false, false⟩,
        ⟨"u16".toList, "b".toList, 2, 1, false, false⟩], 2, 0, none, none⟩,
      some (List.replicate 24 0), true, 0, 0, false, false, false⟩
    ⟨"foo".toList, [⟨"u64".toList, "a".toList, 8, 0, false, false⟩,
        ⟨"u16".toList, "b".toList, 2, 1, false, false⟩], 2, 0, none, none⟩
    [7] 9 rfl rfl rfl rfl rfl (by decide)
    (fun j g hj hg hs => by
      have hj2 : j = 0 ∨ j = 1 := by
        simp only [List.length_singleton] at hj
        omega
      rcases hj2 with rfl | rfl
      · injection hg with hg
        subst hg
        cases hs
      · injection hg with hg
        subst hg
        cases hs)).1
    ⟨"u16".toList, "b".toList, 2, 1, false, false⟩ rfl

/-- C24 on a record of the event with the field `u64 a`: the value 5 by
name. -/
theorem add_val_keeps_cursor_witness :
    ∃ st1, (some
        (⟨some ⟨"foo".toList, [⟨"u64".toList, "a".toList, 8, 0, false, false⟩],
            1, 0, none, none⟩,
          some (write_scalar false (List.replicate 16 0) (field_addr linux64 0) 8 5),
          true, 0, 0, false, false, true⟩ : synth_event_trace_state) = some st1) ∧
      st1.cur_field = 0 :=
  (add_val_keeps_cursor linux64 false (fun _ => none) "a".toList 5
    ⟨some ⟨"foo".toList, [⟨"u64".toList, "a".toList, 8, 0, false, false⟩],
      1, 0, none, none⟩, some (List.replicate 16 0), true, 0, 0, false, false, false⟩
    0 _ (by decide) rfl).imp (fun _ h => ⟨h.1, h.2.1⟩)

/-- C23 fails on the code: on an open record of the event with the one field
`u64 a`, `synth_event_add_val` with the name "nosuch", which matches no
field, returns 0 and stores the value 5 in the word of the field `a`. -/
theorem add_val_unknown_name :
    add_val_find_field [⟨"u64".toList, "a".toList, 8, 0, false, false⟩] "nosuch".toList
        none = some ⟨"u64".toList, "a".toList, 8, 0, false, false⟩ ∧
    (synth_event_add_val linux64 false (fun _ => none) (some "nosuch".toList) 5
        (synth_event_trace_start linux64 (fun _ => some (List.replicate 16 0))
          ⟨true, false, ⟨"foo".toList, [⟨"u64".toList, "a".toList, 8, 0, false, false⟩],
            1, 0, none, none⟩⟩ ⟨0, [], 0⟩ (some synth_event_trace_state.zero)).2.1).map
      (fun p => (p.1, p.2.bind (fun s => s.entry))) =
      some (0, some [0, 0, 0, 0, 0, 0, 0, 0, 5, 0, 0, 0, 0, 0, 0, 0]) := by
  decide

/-- C26 fails on the code: on a file that is not enabled
`synth_event_trace_start` returns 0 with the state marked disabled, no entry
reserved and no buffer set, and `synth_event_trace_end` on that state still
calls `trace_event_buffer_commit` and `ring_buffer_nest_end`, which have no
entry and no buffer to work on; the same on a soft-disabled file. An add
call in between returns 0 and only sets its mode flag. -/
theorem trace_end_disabled :
    (synth_event_trace_start linux64 (fun _ => some (List.replicate 16 0))
        ⟨false, false, ⟨"foo".toList, [⟨"u64".toList, "a".toList, 8, 0, false, false⟩],
          1, 0, none, none⟩⟩ ⟨0, [], 0⟩ (some synth_event_trace_state.zero)) =
      (0, some { synth_event_trace_state.zero with disabled := true }, ⟨0, [], 0⟩) ∧
    synth_event_trace_end (some { synth_event_trace_state.zero with disabled := true })
        ⟨0, [], 0⟩ = none ∧
    synth_event_add_next_val linux64 false (fun _ => none) 7
        (some { synth_event_trace_state.zero with disabled := true }) =
      some (0, some { synth_event_trace_state.zero with disabled := true, add_next := true }) ∧
    synth_event_trace_end
        (some { synth_event_trace_state.zero with disabled := true, add_next := true })
        ⟨0, [], 0⟩ = none ∧
    (synth_event_trace_start linux64 (fun _ => some (List.replicate 16 0))
        ⟨true, true, ⟨"foo".toList, [⟨"u64".toList, "a".toList, 8, 0, false, false⟩],
          1, 0, none, none⟩⟩ ⟨0, [], 0⟩ (some synth_event_trace_state.zero)) =
      (0, some { synth_event_trace_state.zero with disabled := true }, ⟨0, [], 0⟩) := by
  decide

/-! ## Theorems: the channel on every path -/

theorem rb_eta (rb : ring_buffer) :
    ({ nest := rb.nest + 1 - 1, reserved := rb.reserved, committed := rb.committed } :
      ring_buffer) = rb := by
  cases rb
  simp

/-- The paths of `synth_event_trace`. -/
theorem synth_event_trace_cases (cfg : Config) (be : Bool) (str_at : Nat → Option CStr)
    (reserve : Int → Option (List Nat)) (file : trace_event_file) (rb : ring_buffer)
    (n_vals : Nat) (args : List Nat) :
    synth_event_trace cfg be str_at reserve file rb n_vals args =
      if file.enabled = false ∨ file.soft_disabled = true then some (0, none, rb)
      else
        match reserve (trace_entry_size cfg file.event) with
        | none => some (-EINVAL, none, rb)
        | some e =>
          if n_vals ≠ file.event.fields.length then
            some (-EINVAL, some e,
              { nest := rb.nest,
                reserved := rb.reserved ++ [trace_entry_size cfg file.event],
                committed := rb.committed + 1 })
          else
            (synth_event_trace_loop cfg be str_at args file.event.fields 0 0 e).map
              (fun e2 => (0, some e2,
                { nest := rb.nest,
                  reserved := rb.reserved ++ [trace_entry_size cfg file.event],
                  committed := rb.committed + 1 })) := by
  by_cases hoff : file.enabled = false ∨ file.soft_disabled = true
  · rw [if_pos hoff]
    exact synth_event_trace_off cfg be str_at reserve file rb n_vals args hoff
  · rw [if_neg hoff]
    have hen : file.enabled = true := by
      cases h : file.enabled
      · exact absurd (Or.inl h) hoff
      · rfl
    have hsd : file.soft_disabled = false := by
      cases h : file.soft_disabled
      · rfl
      · exact absurd (Or.inr h) hoff
    cases hres : reserve (trace_entry_size cfg file.event) with
    | none =>
      rw [synth_event_trace_refused cfg be str_at reserve file rb n_vals args hen hsd hres,
        rb_eta]
    | some e =>
      dsimp only
      by_cases hn : n_vals ≠ file.event.fields.length
      · rw [if_pos hn,
          synth_event_trace_mismatch cfg be str_at reserve file rb n_vals args e hen hsd
            hres hn, rb_after_record]
      · rw [if_neg hn]
        unfold synth_event_trace
        rw [trace_start_reserved cfg reserve file rb e hen hsd hres]
        dsimp only
        rw [if_neg (by decide), if_neg hn]
        cases synth_event_trace_loop cfg be str_at args file.event.fields 0 0 e with
        | none => rfl
        | some e2 =>
          dsimp only [Option.map_some']
          unfold __synth_event_trace_end trace_event_buffer_commit ring_buffer_nest_end
          dsimp only
          rw [if_pos rfl, Option.map_some', rb_after_record]

/-- The paths of `synth_event_trace_array`. -/
theorem synth_event_trace_array_cases (cfg : Config) (be : Bool) (str_at : Nat → Option CStr)
    (reserve : Int → Option (List Nat)) (file : trace_event_file) (rb : ring_buffer)
    (n_vals : Nat) (vals : List Nat) :
    synth_event_trace_array cfg be str_at reserve file rb vals n_vals =
      if file.enabled = false ∨ file.soft_disabled = true then some (0, none, rb)
      else
        match reserve (trace_entry_size cfg file.event) with
        | none => some (-EINVAL, none, rb)
        | some e =>
          if n_vals ≠ file.event.fields.length then
            some (-EINVAL, some e,
              { nest := rb.nest,
                reserved := rb.reserved ++ [trace_entry_size cfg file.event],
                committed := rb.committed + 1 })
          else
            (synth_event_trace_array_loop cfg be str_at vals file.event.fields 0 0 e).map
              (fun e2 => (0, some e2,
                { nest := rb.nest,
                  reserved := rb.reserved ++ [trace_entry_size cfg file.event],
                  committed := rb.committed + 1 })) := by
  by_cases hoff : file.enabled = false ∨ file.soft_disabled = true
  · rw [if_pos hoff]
    exact synth_event_trace_array_off cfg be str_at reserve file rb n_vals vals hoff
  · rw [if_neg hoff]
    have hen : file.enabled = true := by
      cases h : file.enabled
      · exact absurd (Or.inl h) hoff
      · rfl
    have hsd : file.soft_disabled = false := by
      cases h : file.soft_disabled
      · rfl
      · exact absurd (Or.inr h) hoff
    cases hres : reserve (trace_entry_size cfg file.event) with
    | none =>
      rw [synth_event_trace_array_refused cfg be str_at reserve file rb n_vals vals hen hsd
        hres, rb_eta]
    | some e =>
      dsimp only
      by_cases hn : n_vals ≠ file.event.fields.length
      · rw [if_pos hn,
          synth_event_trace_array_mismatch cfg be str_at reserve file rb n_vals vals e hen
            hsd hres hn, rb_after_record]
      · rw [if_neg hn]
        unfold synth_event_trace_array
        rw [trace_start_reserved cfg reserve file rb e hen hsd hres]
        dsimp only
        rw [if_neg (by decide), if_neg hn]
        cases synth_event_trace_array_loop cfg be str_at vals file.event.fields 0 0 e with
        | none => rfl
        | some e2 =>
          dsimp only [Option.map_some']
          unfold __synth_event_trace_end trace_event_buffer_commit ring_buffer_nest_end
          dsimp only
          rw [if_pos rfl, Option.map_some', rb_after_record]

/-- The paths of `trace_event_raw_event_synth`. -/
theorem trace_event_raw_event_synth_cases (cfg : Config) (be : Bool)
    (str_at : Nat → Option CStr) (reserve : Int → Option (List Nat))
    (file : trace_event_file) (rb : ring_buffer) (vals idx : List Nat) :
    trace_event_raw_event_synth cfg be str_at reserve file rb vals idx =
      if file.soft_disabled = true then some (none, rb)
      else
        match reserve ((cfg.sizeof_entry + wrap_int (file.event.n_u64 * 8)) % 2 ^ 64) with
        | none => some (none, rb)
        | some e =>
          (trace_event_raw_event_synth_loop cfg be str_at vals idx file.event.fields 0 0
              e).map
            (fun e2 => (some e2,
              { nest := rb.nest,
                reserved := rb.reserved ++
                  [(cfg.sizeof_entry + wrap_int (file.event.n_u64 * 8)) % 2 ^ 64],
                committed := rb.committed + 1 })) := by
  unfold trace_event_raw_event_synth
  dsimp only
  by_cases hsd : file.soft_disabled = true
  · rw [if_pos hsd, if_pos hsd]
  · rw [if_neg hsd, if_neg hsd]
    unfold trace_event_buffer_reserve
    cases hres : reserve ((cfg.sizeof_entry + wrap_int (file.event.n_u64 * 8)) % 2 ^ 64) with
    | none =>
      dsimp only
      unfold ring_buffer_nest_end ring_buffer_nest_start
      dsimp only
      rw [rb_eta]
    | some e =>
      dsimp only
      cases trace_event_raw_event_synth_loop cfg be str_at vals idx file.event.fields 0 0
          e with
      | none => rfl
      | some e2 =>
        dsimp only
        unfold trace_event_buffer_commit ring_buffer_nest_end ring_buffer_nest_start
        dsimp only [Option.map_some']
        rw [rb_after_record]


/-- C25: `ring_buffer_nest_start` raises the nesting marker by one and
`ring_buffer_nest_end` lowers it by one, so they are called equally often
when the marker ends where it began. For `synth_event_trace`,
`synth_event_trace_array` and `trace_event_raw_event_synth`, whatever path
the call returns on, the channel is either exactly as before, or its marker
is as before with one more reservation, which succeeded, and one more
committed record; and when the reservation fails on an enabled file the bulk
calls return -EINVAL with the channel as before. -/
theorem channel_balance (cfg : Config) (be : Bool) (str_at : Nat → Option CStr)
    (reserve : Int → Option (List Nat)) (file : trace_event_file) (rb : ring_buffer)
    (n_vals : Nat) (vals idx : List Nat) :
    (∀ r, synth_event_trace cfg be str_at reserve file rb n_vals vals = some r →
      r.2.2 = rb ∨
      ((reserve (trace_entry_size cfg file.event)).isSome ∧
        r.2.2 = { nest := rb.nest,
                  reserved := rb.reserved ++ [trace_entry_size cfg file.event],
                  committed := rb.committed + 1 })) ∧
    (∀ r, synth_event_trace_array cfg be str_at reserve file rb vals n_vals = some r →
      r.2.2 = rb ∨
      ((reserve (trace_entry_size cfg file.event)).isSome ∧
        r.2.2 = { nest := rb.nest,
                  reserved := rb.reserved ++ [trace_entry_size cfg file.event],
                  committed := rb.committed + 1 })) ∧
    (∀ r, trace_event_raw_event_synth cfg be str_at reserve file rb vals idx = some r →
      r.2 = rb ∨
      ((reserve ((cfg.sizeof_entry + wrap_int (file.event.n_u64 * 8)) % 2 ^ 64)).isSome ∧
        r.2 = { nest := rb.nest,
                reserved := rb.reserved ++
                  [(cfg.sizeof_entry + wrap_int (file.event.n_u64 * 8)) % 2 ^ 64],
                committed := rb.committed + 1 })) ∧
    (file.enabled = true → file.soft_disabled = false →
      reserve (trace_entry_size cfg file.event) = none →
      synth_event_trace cfg be str_at reserve file rb n_vals vals =
        some (-EINVAL, none, rb) ∧
      synth_event_trace_array cfg be str_at reserve file rb vals n_vals =
        some (-EINVAL, none, rb)) := by
  refine ⟨?_, ?_, ?_, ?_⟩
  · intro r hr
    rw [synth_event_trace_cases] at hr
    split at hr
    · injection hr with hr; subst hr; exact Or.inl rfl
    · cases hres : reserve (trace_entry_size cfg file.event) with
      | none =>
        rw [hres] at hr
        injection hr with hr; subst hr; exact Or.inl rfl
      | some e =>
        rw [hres] at hr
        dsimp only at hr
        split at hr
        · injection hr with hr; subst hr; exact Or.inr ⟨rfl, rfl⟩
        · cases hl : synth_event_trace_loop cfg be str_at vals file.event.fields 0 0 e with
          | none => rw [hl] at hr; cases hr
          | some e2 =>
            rw [hl] at hr
            injection hr with hr; subst hr; exact Or.inr ⟨rfl, rfl⟩
  · intro r hr
    rw [synth_event_trace_array_cases] at hr
    split at hr
    · injection hr with hr; subst hr; exact Or.inl rfl
    · cases hres : reserve (trace_entry_size cfg file.event) with
      | none =>
        rw [hres] at hr
        injection hr with hr; subst hr; exact Or.inl rfl
      | some e =>
        rw [hres] at hr
        dsimp only at hr
        split at hr
        · injection hr with hr; subst hr; exact Or.inr ⟨rfl, rfl⟩
        · cases hl : synth_event_trace_array_loop cfg be str_at vals file.event.fields 0 0
              e with
          | none => rw [hl] at hr; cases hr
          | some e2 =>
            rw [hl] at hr
            injection hr with hr; subst hr; exact Or.inr ⟨rfl, rfl⟩
  · intro r hr
    rw [trace_event_raw_event_synth_cases] at hr
    split at hr
    · injection hr with hr; subst hr; exact Or.inl rfl
    · cases hres : reserve ((cfg.sizeof_entry + wrap_int (file.event.n_u64 * 8)) % 2 ^ 64) with
      | none =>
        rw [hres] at hr
        injection hr with hr; subst hr; exact Or.inl rfl
      | some e =>
        rw [hres] at hr
        dsimp only at hr
        cases hl : trace_event_raw_event_synth_loop cfg be str_at vals idx
            file.event.fields 0 0 e with
        | none => rw [hl] at hr; cases hr
        | some e2 =>
          rw [hl] at hr
          injection hr with hr; subst hr; exact Or.inr ⟨rfl, rfl⟩
  · intro hen hsd hres
    have hoff : ¬ (file.enabled = false ∨ file.soft_disabled = true) := by simp [hen, hsd]
    constructor
    · rw [synth_event_trace_cases, if_neg hoff, hres]
    · rw [synth_event_trace_array_cases, if_neg hoff, hres]

/-- C25 on the path of a reservation that fails. -/
theorem channel_balance_witness :
    synth_event_trace linux64 false (fun _ => none) (fun _ => none)
        ⟨true, false, ⟨"foo".toList, [⟨"u64".toList, "a".toList, 8, 0, false, false⟩],
          1, 0, none, none⟩⟩ ⟨0, [], 0⟩ 1 [7] = some (-EINVAL, none, ⟨0, [], 0⟩) ∧
    synth_event_trace_array linux64 false (fun _ => none) (fun _ => none)
        ⟨true, false, ⟨"foo".toList, [⟨"u64".toList, "a".toList, 8, 0, false, false⟩],
          1, 0, none, none⟩⟩ ⟨0, [], 0⟩ [7] 1 = some (-EINVAL, none, ⟨0, [], 0⟩) :=
  (channel_balance linux64 false (fun _ => none) (fun _ => none)
    ⟨true, false, ⟨"foo".toList, [⟨"u64".toList, "a".toList, 8, 0, false, false⟩],
      1, 0, none, none⟩⟩ ⟨0, [], 0⟩ 1 [7] [0]).2.2.2 rfl rfl rfl

/-! ## Theorems: the print format -/

theorem write_at_eq (buf : List Char) (pos : Nat) (src : List Char)
    (h : pos + src.length ≤ buf.length) :
    write_at buf pos src = buf.take pos ++ src ++ buf.drop (pos + src.length) := by
  induction buf generalizing pos src with
  | nil =>
    have h1 : src = [] := by
      cases src with
      | nil => rfl
      | cons c cs => simp at h
    subst h1
    cases pos <;> rfl
  | cons b bs ih =>
    cases pos with
    | zero =>
      cases src with
      | nil => simp [write_at]
      | cons c cs =>
        have h2 : 0 + cs.length ≤ bs.length := by simp at h; omega
        have := ih 0 cs h2
        simp [write_at, this]
    | succ p =>
      have h2 : p + src.length ≤ bs.length := by simp at h; omega
      have := ih p src h2
      simp [write_at, this, Nat.add_right_comm]

/-- One `snprintf` of the writing pass when the text fits: the character at
`pos` and the ones after it are replaced by the text and a NUL. -/
theorem snprintf_room (pre : List Char) (c : Char) (rest p : List Char) (len : Nat)
    (hlen : len = (pre ++ c :: rest).length) (hp : p.length ≤ rest.length) :
    snprintf (pre ++ c :: rest) pre.length (LEN_OR_ZERO len pre.length) p =
      (pre ++ p ++ Char.ofNat 0 :: rest.drop p.length, p.length) := by
  have hl : len = pre.length + (rest.length + 1) := by
    rw [hlen]; simp
  have hz : LEN_OR_ZERO len pre.length = rest.length + 1 := by
    unfold LEN_OR_ZERO
    rw [if_pos (by omega), if_pos (by omega)]
    omega
  have hd : List.drop (pre.length + (p ++ [Char.ofNat 0]).length) (pre ++ c :: rest) =
      rest.drop p.length := by
    rw [List.drop_append_eq_append_drop, List.drop_of_length_le (by omega), List.nil_append,
      List.length_append, List.length_singleton,
      show pre.length + (p.length + 1) - pre.length = p.length + 1 by omega,
      List.drop_succ_cons]
  unfold snprintf
  rw [hz, if_neg (by omega), Nat.add_sub_cancel, List.take_of_length_le hp,
    write_at_eq _ _ _ (by simp; omega), List.take_left, hd]
  simp

theorem intercalate_cons_cons (sep x y : List Char) (zs : List (List Char)) :
    List.intercalate sep (x :: y :: zs) = x ++ sep ++ List.intercalate sep (y :: zs) := by
  simp [List.intercalate, List.intersperse]

/-- The first loop of the writing pass, when the items fit. -/
theorem print_fmt_items_room (len : Nat) :
    ∀ (fields : List synth_field) (pre rest : List Char),
      len = (pre ++ Char.ofNat 0 :: rest).length →
      (List.intercalate ", ".toList
        (fields.map (fun f => f.name ++ "=".toList ++ synth_field_fmt f.type))).length ≤
        rest.length →
      print_fmt_items len fields (pre ++ Char.ofNat 0 :: rest) pre.length =
        (pre ++ List.intercalate ", ".toList
            (fields.map (fun f => f.name ++ "=".toList ++ synth_field_fmt f.type)) ++
          Char.ofNat 0 :: rest.drop (List.intercalate ", ".toList
            (fields.map (fun f => f.name ++ "=".toList ++ synth_field_fmt f.type))).length,
         pre.length + (List.intercalate ", ".toList
            (fields.map (fun f => f.name ++ "=".toList ++ synth_field_fmt f.type))).length) := by
  intro fields
  induction fields with
  | nil =>
    intro pre rest _ _
    simp [print_fmt_items, List.intercalate]
  | cons f fs ih =>
    intro pre rest hlen hfit
    cases fs with
    | nil =>
      have hT : List.intercalate ", ".toList
          ([f].map (fun f => f.name ++ "=".toList ++ synth_field_fmt f.type)) =
          f.name ++ "=".toList ++ synth_field_fmt f.type := by
        simp [List.intercalate, List.intersperse]
      rw [hT] at hfit ⊢
      unfold print_fmt_items
      dsimp only
      have := snprintf_room pre (Char.ofNat 0) rest
        (f.name ++ "=".toList ++ synth_field_fmt f.type ++ []) len hlen
        (by rw [List.append_nil]; exact hfit)
      rw [List.append_nil] at this
      simp only [List.isEmpty_nil, if_true, List.append_nil]
      rw [this]
      rfl
    | cons g gs =>
      have hT : List.intercalate ", ".toList
          ((f :: g :: gs).map (fun f => f.name ++ "=".toList ++ synth_field_fmt f.type)) =
          (f.name ++ "=".toList ++ synth_field_fmt f.type ++ ", ".toList) ++
            List.intercalate ", ".toList
              ((g :: gs).map (fun f => f.name ++ "=".toList ++ synth_field_fmt f.type)) := by
        rw [List.map_cons, List.map_cons, intercalate_cons_cons]
      rw [hT] at hfit ⊢
      unfold print_fmt_items
      simp only [List.isEmpty_cons, Bool.false_eq_true, if_false]
      generalize f.name ++ "=".toList ++ synth_field_fmt f.type ++ ", ".toList = P at hfit ⊢
      generalize List.intercalate ", ".toList
        ((g :: gs).map (fun f => f.name ++ "=".toList ++ synth_field_fmt f.type)) = T
        at hfit ih ⊢
      rw [List.length_append] at hfit
      have hs := snprintf_room pre (Char.ofNat 0) rest P len hlen (by omega)
      rw [hs]
      dsimp only
      have h2 := ih (pre ++ P) (rest.drop P.length)
        (by rw [hlen]; simp only [List.length_append, List.length_cons, List.length_drop]; omega)
        (by rw [List.length_drop]; omega)
      rw [List.length_append] at h2
      rw [h2, List.drop_drop, List.length_append]
      simp only [List.append_assoc, Nat.add_assoc, Nat.add_comm]

/-- The second loop of the writing pass, when the arguments fit. -/
theorem print_fmt_args_room (len : Nat) :
    ∀ (fields : List synth_field) (pre rest : List Char),
      len = (pre ++ Char.ofNat 0 :: rest).length →
      (fields.map (fun f => ", REC->".toList ++ f.name)).flatten.length ≤ rest.length →
      print_fmt_args len fields (pre ++ Char.ofNat 0 :: rest) pre.length =
        (pre ++ (fields.map (fun f => ", REC->".toList ++ f.name)).flatten ++
          Char.ofNat 0 ::
            rest.drop (fields.map (fun f => ", REC->".toList ++ f.name)).flatten.length,
         pre.length + (fields.map (fun f => ", REC->".toList ++ f.name)).flatten.length) := by
  intro fields
  induction fields with
  | nil =>
    intro pre rest _ _
    simp [print_fmt_args]
  | cons f fs ih =>
    intro pre rest hlen hfit
    rw [List.map_cons, List.flatten_cons] at hfit ⊢
    unfold print_fmt_args
    generalize ", REC->".toList ++ f.name = P at hfit ⊢
    generalize (fs.map (fun f => ", REC->".toList ++ f.name)).flatten = T at hfit ih ⊢
    rw [List.length_append] at hfit
    have hs := snprintf_room pre (Char.ofNat 0) rest P len hlen (by omega)
    rw [hs]
    dsimp only
    have h2 := ih (pre ++ P) (rest.drop P.length)
      (by rw [hlen]; simp only [List.length_append, List.length_cons, List.length_drop]; omega)
      (by rw [List.length_drop]; omega)
    rw [List.length_append] at h2
    rw [h2, List.drop_drop, List.length_append]
    simp only [List.append_assoc, Nat.add_assoc, Nat.add_comm]

theorem print_fmt_items_size (fields : List synth_field) (buf : List Char) (pos : Nat) :
    print_fmt_items 0 fields buf pos =
      (buf, pos + (List.intercalate ", ".toList
        (fields.map (fun f => f.name ++ "=".toList ++ synth_field_fmt f.type))).length) := by
  induction fields generalizing pos with
  | nil => simp [print_fmt_items, List.intercalate]
  | cons f fs ih =>
    cases fs with
    | nil =>
      unfold print_fmt_items
      simp [snprintf, LEN_OR_ZERO, print_fmt_items, List.intercalate, List.intersperse]
    | cons g gs =>
      have hT : List.intercalate ", ".toList
          ((f :: g :: gs).map (fun f => f.name ++ "=".toList ++ synth_field_fmt f.type)) =
          (f.name ++ "=".toList ++ synth_field_fmt f.type ++ ", ".toList) ++
            List.intercalate ", ".toList
              ((g :: gs).map (fun f => f.name ++ "=".toList ++ synth_field_fmt f.type)) := by
        rw [List.map_cons, List.map_cons, intercalate_cons_cons]
      rw [hT]
      unfold print_fmt_items
      simp only [List.isEmpty_cons, Bool.false_eq_true, if_false, snprintf, LEN_OR_ZERO,
        ne_eq, not_true_eq_false, if_true]
      generalize f.name ++ "=".toList ++ synth_field_fmt f.type ++ ", ".toList = P
      rw [ih, List.length_append, Nat.add_assoc]

theorem print_fmt_args_size (fields : List synth_field) (buf : List Char) (pos : Nat) :
    print_fmt_args 0 fields buf pos =
      (buf, pos + (fields.map (fun f => ", REC->".toList ++ f.name)).flatten.length) := by
  induction fields generalizing pos with
  | nil => simp [print_fmt_args]
  | cons f fs ih =>
    rw [List.map_cons, List.flatten_cons]
    unfold print_fmt_args
    simp only [snprintf, LEN_OR_ZERO, ne_eq, not_true_eq_false, if_false, if_true]
    generalize ", REC->".toList ++ f.name = P
    rw [ih, List.length_append, Nat.add_assoc]

/-- The sizing pass of `__set_synth_event_print_fmt`. -/
theorem print_fmt_size (event : synth_event) :
    __set_synth_event_print_fmt event [] 0 =
      ([], ([Char.ofNat 34] ++ List.intercalate ", ".toList
          (event.fields.map (fun f => f.name ++ "=".toList ++ synth_field_fmt f.type)) ++
        [Char.ofNat 34] ++
        (event.fields.map (fun f => ", REC->".toList ++ f.name)).flatten).length) := by
  unfold __set_synth_event_print_fmt
  simp only [snprintf, LEN_OR_ZERO, ne_eq, not_true_eq_false, if_false, if_true,
    print_fmt_items_size, print_fmt_args_size]
  simp only [List.length_append, List.length_singleton, Nat.zero_add]

/-- The writing pass of `__set_synth_event_print_fmt` into a buffer with room
for the text and its NUL. -/
theorem print_fmt_write (event : synth_event) (c : Char) (rest : List Char)
    (hroom : rest.length = ([Char.ofNat 34] ++ List.intercalate ", ".toList
          (event.fields.map (fun f => f.name ++ "=".toList ++ synth_field_fmt f.type)) ++
        [Char.ofNat 34] ++
        (event.fields.map (fun f => ", REC->".toList ++ f.name)).flatten).length) :
    (__set_synth_event_print_fmt event (c :: rest) (rest.length + 1)).1 =
      [Char.ofNat 34] ++ List.intercalate ", ".toList
          (event.fields.map (fun f => f.name ++ "=".toList ++ synth_field_fmt f.type)) ++
        [Char.ofNat 34] ++
        (event.fields.map (fun f => ", REC->".toList ++ f.name)).flatten ++
        [Char.ofNat 0] := by
  generalize hT : List.intercalate ", ".toList
    (event.fields.map (fun f => f.name ++ "=".toList ++ synth_field_fmt f.type)) = T at hroom ⊢
  generalize hA : (event.fields.map (fun f => ", REC->".toList ++ f.name)).flatten = A
    at hroom ⊢
  simp only [List.length_append, List.length_singleton] at hroom
  unfold __set_synth_event_print_fmt
  dsimp only
  have h1 := snprintf_room [] c rest [Char.ofNat 34] (rest.length + 1) (by simp)
    (by simp; omega)
  simp only [List.length_nil, List.nil_append, List.length_singleton] at h1
  rw [h1]
  dsimp only
  have h2 := print_fmt_items_room (rest.length + 1) event.fields [Char.ofNat 34]
    (rest.drop 1) (by simp; omega) (by rw [hT, List.length_drop]; omega)
  rw [hT] at h2
  simp only [List.length_singleton] at h2
  rw [Nat.zero_add, h2]
  dsimp only
  have h3 := snprintf_room ([Char.ofNat 34] ++ T) (Char.ofNat 0)
    ((rest.drop 1).drop T.length) [Char.ofNat 34] (rest.length + 1)
    (by simp; omega) (by simp; omega)
  simp only [List.length_append, List.length_singleton] at h3
  rw [h3]
  dsimp only
  have h4 := print_fmt_args_room (rest.length + 1) event.fields
    ([Char.ofNat 34] ++ T ++ [Char.ofNat 34]) (((rest.drop 1).drop T.length).drop 1)
    (by simp; omega) (by rw [hA]; simp; omega)
  rw [hA] at h4
  simp only [List.length_append, List.length_singleton] at h4
  rw [h4]
  dsimp only
  rw [List.drop_of_length_le (by simp; omega)]

/-- C27, amended: the text that `__set_synth_event_print_fmt` produces is a
function of the names and types of the fields alone: a double quote, the
items `name=fmt` in declaration order with `fmt` the `synth_field_fmt` of the
type, consecutive items separated by a comma and a space, a closing double
quote right after the last item, and then one `, REC->name` per field. The
sizing pass returns the length of that text, the writing pass into a buffer
of that length plus one stores the text and a NUL, and this is the print
format `set_synth_event_print_fmt` gives the event when the allocation
succeeds. -/
theorem print_fmt_template (env : Env) (event : synth_event) (mem m : List Bool) (c : Char)
    (rest : List Char) :
    (__set_synth_event_print_fmt event [] 0).2 =
      ([Char.ofNat 34] ++ List.intercalate ", ".toList
          (event.fields.map (fun f => f.name ++ "=".toList ++ synth_field_fmt f.type)) ++
        [Char.ofNat 34] ++
        (event.fields.map (fun f => ", REC->".toList ++ f.name)).flatten).length ∧
    (rest.length = ([Char.ofNat 34] ++ List.intercalate ", ".toList
          (event.fields.map (fun f => f.name ++ "=".toList ++ synth_field_fmt f.type)) ++
        [Char.ofNat 34] ++
        (event.fields.map (fun f => ", REC->".toList ++ f.name)).flatten).length →
      (__set_synth_event_print_fmt event (c :: rest) (rest.length + 1)).1 =
        [Char.ofNat 34] ++ List.intercalate ", ".toList
            (event.fields.map (fun f => f.name ++ "=".toList ++ synth_field_fmt f.type)) ++
          [Char.ofNat 34] ++
          (event.fields.map (fun f => ", REC->".toList ++ f.name)).flatten ++
          [Char.ofNat 0]) ∧
    (kalloc mem = (true, m) →
      (set_synth_event_print_fmt env event mem).2.1.print_fmt =
        some ([Char.ofNat 34] ++ List.intercalate ", ".toList
            (event.fields.map (fun f => f.name ++ "=".toList ++ synth_field_fmt f.type)) ++
          [Char.ofNat 34] ++
          (event.fields.map (fun f => ", REC->".toList ++ f.name)).flatten ++
          [Char.ofNat 0])) := by
  refine ⟨?_, ?_, ?_⟩
  · rw [print_fmt_size]
  · intro hroom
    exact print_fmt_write event c rest hroom
  · intro hk
    unfold set_synth_event_print_fmt
    rw [hk]
    dsimp only
    rw [print_fmt_size]
    dsimp only
    rw [List.replicate_succ]
    have := print_fmt_write event env.kmalloc_fill
      (List.replicate ([Char.ofNat 34] ++ List.intercalate ", ".toList
          (event.fields.map (fun f => f.name ++ "=".toList ++ synth_field_fmt f.type)) ++
        [Char.ofNat 34] ++
        (event.fields.map (fun f => ", REC->".toList ++ f.name)).flatten).length
        env.kmalloc_fill) (by rw [List.length_replicate])
    rw [List.length_replicate] at this
    rw [this]

/-- C27 on the event with the fields `u64 a` and `u32 b`. -/
theorem print_fmt_template_witness :
    (set_synth_event_print_fmt Env.fine
        ⟨"foo".toList, [⟨"u64".toList, "a".toList, 8, 0, false, false⟩,
          ⟨"u32".toList, "b".toList, 4, 1, false, false⟩], 2, 0, none, none⟩
        []).2.1.print_fmt =
      some ([Char.ofNat 34] ++ List.intercalate ", ".toList
          ((([⟨"u64".toList, "a".toList, 8, 0, false, false⟩,
            ⟨"u32".toList, "b".toList, 4, 1, false, false⟩] : List synth_field)).map
            (fun f => f.name ++ "=".toList ++ synth_field_fmt f.type)) ++
        [Char.ofNat 34] ++
        ((([⟨"u64".toList, "a".toList, 8, 0, false, false⟩,
            ⟨"u32".toList, "b".toList, 4, 1, false, false⟩] : List synth_field)).map
          (fun f => ", REC->".toList ++ f.name)).flatten ++
        [Char.ofNat 0]) :=
  (print_fmt_template Env.fine
    ⟨"foo".toList, [⟨"u64".toList, "a".toList, 8, 0, false, false⟩,
      ⟨"u32".toList, "b".toList, 4, 1, false, false⟩], 2, 0, none, none⟩
    [] [] 'x' []).2.2 rfl

/-- C27, as stated, fails: for the event with the fields `u64 a` and `u32 b`
the text between the double quotes is `a=%llu, b=%u`, with a comma and a
space between the items, and not `a=%llu b=%u`. -/
theorem print_fmt_counterexample :
    (__set_synth_event_print_fmt
        ⟨"foo".toList, [⟨"u64".toList, "a".toList, 8, 0, false, false⟩,
          ⟨"u32".toList, "b".toList, 4, 1, false, false⟩], 2, 0, none, none⟩
        (List.replicate 31 'x') 31).1 =
      [Char.ofNat 34] ++ "a=%llu, b=%u".toList ++ [Char.ofNat 34] ++
        ", REC->a, REC->b".toList ++ [Char.ofNat 0] ∧
    "a=%llu, b=%u".toList ≠ "a=%llu b=%u".toList := by
  decide

/-! ## Theorems: left-over tokens and separators -/

theorem alloc_synth_event_fine (name : CStr) (fields : List synth_field) (mem : List Bool)
    (h : ∀ b ∈ mem, b = true) :
    alloc_synth_event name fields mem =
      (.ok { name := name, fields := fields, n_u64 := 0, ref := 0, mod := none,
             print_fmt := none }, mem.tail.tail.tail) ∧
    ∀ b ∈ mem.tail.tail.tail, b = true := by
  obtain ⟨h1, h1'⟩ := kalloc_fine mem h
  obtain ⟨h2, h2'⟩ := kalloc_fine _ h1'
  obtain ⟨h3, h3'⟩ := kalloc_fine _ h2'
  refine ⟨?_, h3'⟩
  unfold alloc_synth_event
  rw [h1]
  dsimp only
  rw [h2]
  dsimp only
  rw [h3]

theorem register_synth_event_fine (cfg : Config) (env : Env) (w : World)
    (event : synth_event) (mem : List Bool) (h : ∀ b ∈ mem, b = true)
    (hreg : env.register_trace_event ≠ 0) (hadd : env.trace_add_event_call = 0) :
    (register_synth_event cfg env w event mem).1 = 0 := by
  obtain ⟨h1, h1'⟩ := kalloc_fine mem h
  obtain ⟨h2, h2'⟩ := kalloc_fine _ h1'
  obtain ⟨h3, h3'⟩ := kalloc_fine _ h2'
  obtain ⟨h4, _⟩ := kalloc_fine _ h3'
  unfold register_synth_event
  rw [h1]
  dsimp only
  rw [h2]
  dsimp only
  rw [h3]
  simp [register_trace_event, hreg, trace_add_event_call, hadd, set_synth_event_print_fmt, h4]

/-- The end of `__create_synth_event` when the loop has stopped at index `i`
with nothing left to reject and nothing fails. -/
theorem create_accepts (cfg : Config) (env : Env) (w : World) (argc : Nat) (name : CStr)
    (argv : List CStr) (i : Nat) (fields : List synth_field) (consumed : Nat)
    (mem : List Bool)
    (hname : byteAt name 0 ≠ 0) (hargc : 1 ≤ argc) (hfind : find_synth_event w name = none)
    (hat : LoopAt cfg argc argv env.allocs i fields consumed mem)
    (hend : ¬ i + 1 < argc)
    (hsep : i < argc → argv.getD i [] = ";".toList)
    (hmem : ∀ b ∈ env.allocs, b = true)
    (hreg : env.register_trace_event ≠ 0) (hadd : env.trace_add_event_call = 0) :
    ∃ ev w1, __create_synth_event cfg env w argc name argv = some (0, w1) ∧
      w1.dyn_event_list = w.dyn_event_list ++ [.synth ev] ∧ ev.name = name ∧
      ev.fields.length = fields.length := by
  have hm : ∀ b ∈ mem, b = true := fun b hb => hmem b (hat.mem_sub b hb)
  obtain ⟨ha, ha'⟩ := alloc_synth_event_fine name fields mem hm
  have hr := register_synth_event_fine cfg env w
    { name := name, fields := fields, n_u64 := 0, ref := 0, mod := none, print_fmt := none }
    mem.tail.tail.tail ha' hreg hadd
  have hf := register_synth_event_frame cfg env w
    { name := name, fields := fields, n_u64 := 0, ref := 0, mod := none, print_fmt := none }
    mem.tail.tail.tail
  have hg : (byteAt name 0 = 0 || decide (argc < 1)) = false := by
    have : ¬ argc < 1 := by omega
    simp [hname, this]
  have hlast : ¬ (i < argc ∧ strcmp (argv.getD i []) ";".toList ≠ 0) := by
    rintro ⟨h1, h2⟩
    exact h2 ((strcmp_eq_zero_iff _ _).mpr (hsep h1))
  unfold __create_synth_event
  rw [hg, hfind]
  dsimp only
  rw [hat.loop_eq, field_loop_done _ _ _ _ _ _ _ _ hend]
  dsimp only
  rw [if_neg hlast, ha]
  dsimp only
  rcases hreg2 : register_synth_event cfg env w
    { name := name, fields := fields, n_u64 := 0, ref := 0, mod := none, print_fmt := none }
    mem.tail.tail.tail with ⟨ret, ev, w2, m2⟩
  rw [hreg2] at hr hf
  dsimp only at hr hf ⊢
  rw [if_pos hr, hr]
  refine ⟨ev, _, rfl, ?_, hf.2.1, hf.2.2⟩
  unfold dyn_event_add
  dsimp only
  rw [hf.1]

/-- C30: a definition whose tokens end, after the field descriptors, with one
left-over token that is not ";" fails with -EINVAL and leaves the state
unchanged; a stand-alone ";" between descriptors makes the loop go on with
the fields it has, and a definition whose last token is a stand-alone ";"
(or that has no token left) is registered with exactly the fields parsed from
the descriptors, when no allocation and no registration step fails. -/
theorem create_leftover_and_separators (cfg : Config) (env : Env) (w : World) (argc : Nat)
    (name : CStr) (argv : List CStr) (i : Nat) (fields : List synth_field) (consumed : Nat)
    (mem : List Bool)
    (hname : byteAt name 0 ≠ 0) (hfind : find_synth_event w name = none)
    (hat : LoopAt cfg argc argv env.allocs i fields consumed mem) :
    (i + 1 = argc → argv.getD i [] ≠ ";".toList →
      __create_synth_event cfg env w argc name argv = some (-EINVAL, w)) ∧
    (i + 1 < argc → argv.getD i [] = ";".toList →
      (∀ fuel, field_loop cfg argc argv (fuel + 1) i fields consumed mem =
        field_loop cfg argc argv fuel (i + 1) fields consumed mem) ∧
      LoopAt cfg argc argv env.allocs (i + 1) fields consumed mem) ∧
    (1 ≤ argc → (argc ≤ i ∨ (i + 1 = argc ∧ argv.getD i [] = ";".toList)) →
      (∀ b ∈ env.allocs, b = true) → env.register_trace_event ≠ 0 →
      env.trace_add_event_call = 0 →
      ∃ ev w1, __create_synth_event cfg env w argc name argv = some (0, w1) ∧
        w1.dyn_event_list = w.dyn_event_list ++ [.synth ev] ∧ ev.name = name ∧
        ev.fields.length = fields.length) := by
  refine ⟨?_, ?_, ?_⟩
  · intro hi hsep
    have hg : (byteAt name 0 = 0 || decide (argc < 1)) = false := by
      have : ¬ argc < 1 := by omega
      simp [hname, this]
    have hlast : i < argc ∧ strcmp (argv.getD i []) ";".toList ≠ 0 := by
      refine ⟨by omega, ?_⟩
      rw [Ne, strcmp_eq_zero_iff]
      exact hsep
    unfold __create_synth_event
    rw [hg, hfind]
    dsimp only
    rw [hat.loop_eq, field_loop_done _ _ _ _ _ _ _ _ (by omega)]
    dsimp only
    rw [if_pos hlast]
    rfl
  · intro hi hsep
    have hs : strcmp (argv.getD i []) ";".toList = 0 := (strcmp_eq_zero_iff _ _).mpr hsep
    refine ⟨?_, LoopAt.sep hat hi hs⟩
    intro fuel
    rw [field_loop_step _ _ _ _ _ _ _ _ hi, if_pos hs]
  · intro hargc hend hmem hreg hadd
    apply create_accepts cfg env w argc name argv i fields consumed mem hname hargc hfind hat
      _ _ hmem hreg hadd
    · rcases hend with h | ⟨h, _⟩ <;> omega
    · intro hlt
      rcases hend with h | ⟨_, h⟩
      · omega
      · exact h


/-- C30 at `u64 a u32`, where `u32` is left over, and at `u64 a ;`. -/
theorem create_leftover_and_separators_witness :
    __create_synth_event linux64 Env.fine ⟨[], [], [], 0⟩ 3 "foo".toList
        ["u64".toList, "a".toList, "u32".toList] = some (-EINVAL, ⟨[], [], [], 0⟩) ∧
    ∃ ev w1, __create_synth_event linux64 Env.fine ⟨[], [], [], 0⟩ 3 "foo".toList
          ["u64".toList, "a".toList, ";".toList] = some (0, w1) ∧
        w1.dyn_event_list = (⟨[], [], [], 0⟩ : World).dyn_event_list ++ [.synth ev] ∧
        ev.name = "foo".toList ∧
        ev.fields.length =
          [(⟨"u64".toList, "a".toList, 8, 0, false, false⟩ : synth_field)].length :=
  ⟨(create_leftover_and_separators linux64 Env.fine ⟨[], [], [], 0⟩ 3 "foo".toList
      ["u64".toList, "a".toList, "u32".toList] 2
      [⟨"u64".toList, "a".toList, 8, 0, false, false⟩] 2 []
      (by decide) (by decide)
      (@LoopAt.field linux64 3 ["u64".toList, "a".toList, "u32".toList] []
        0 [] 0 [] ⟨"u64".toList, "a".toList, 8, 0, false, false⟩ 2 []
        LoopAt.start (by decide) (by decide) (by decide) (by decide))).1 rfl (by decide),
   (create_leftover_and_separators linux64 Env.fine ⟨[], [], [], 0⟩ 3 "foo".toList
      ["u64".toList, "a".toList, ";".toList] 2
      [⟨"u64".toList, "a".toList, 8, 0, false, false⟩] 2 []
      (by decide) (by decide)
      (@LoopAt.field linux64 3 ["u64".toList, "a".toList, ";".toList] []
        0 [] 0 [] ⟨"u64".toList, "a".toList, 8, 0, false, false⟩ 2 []
        LoopAt.start (by decide) (by decide) (by decide) (by decide))).2.2
      (by decide) (Or.inr ⟨rfl, rfl⟩) (by decide) (by decide) rfl⟩

/-! ## Theorems: the bulk encoders agree -/

theorem trace_loop_eq_array_loop (cfg : Config) (be : Bool) (str_at : Nat → Option CStr)
    (vals : List Nat) :
    ∀ (fs : List synth_field) (i n : Nat) (e : List Nat),
      synth_event_trace_loop cfg be str_at vals fs i n e =
        synth_event_trace_array_loop cfg be str_at vals fs i n e := by
  intro fs
  induction fs with
  | nil => intro i n e; rfl
  | cons f rest ih =>
    intro i n e
    unfold synth_event_trace_loop synth_event_trace_array_loop
    dsimp only
    by_cases hs : f.is_string = true
    · rw [if_pos hs, if_pos hs]
      cases str_at (to_ptr cfg (vals.getD i 0)) with
      | none => rfl
      | some t => exact ih _ _ _
    · rw [if_neg hs, if_neg hs]
      exact ih _ _ _

/-- The loop of the raw probe stores in field `i` the value
`var_ref_vals[var_ref_idx[i]]`: it is the loop of `synth_event_trace_array` on
the values picked by `var_ref_idx`. -/
theorem raw_loop_eq_array_loop (cfg : Config) (be : Bool) (str_at : Nat → Option CStr)
    (vals idx picked : List Nat) :
    ∀ (fs : List synth_field) (i n : Nat) (e : List Nat),
      (∀ k, i ≤ k → k < i + fs.length → picked.getD k 0 = vals.getD (idx.getD k 0) 0) →
      trace_event_raw_event_synth_loop cfg be str_at vals idx fs i n e =
        synth_event_trace_array_loop cfg be str_at picked fs i n e := by
  intro fs
  induction fs with
  | nil => intro i n e _; rfl
  | cons f rest ih =>
    intro i n e h
    have h0 := h i (le_refl i) (by simp)
    have hrest : ∀ k, i + 1 ≤ k → k < i + 1 + rest.length →
        picked.getD k 0 = vals.getD (idx.getD k 0) 0 := by
      intro k h1 h2
      exact h k (by omega) (by simp only [List.length_cons]; omega)
    unfold trace_event_raw_event_synth_loop synth_event_trace_array_loop
    dsimp only
    rw [h0]
    by_cases hs : f.is_string = true
    · rw [if_pos hs, if_pos hs]
      cases str_at (to_ptr cfg (vals.getD (idx.getD i 0) 0)) with
      | none => rfl
      | some t => exact ih _ _ _ hrest
    · rw [if_neg hs, if_neg hs]
      exact ih _ _ _ hrest

/-- C31: the three bulk encoders agree. The field loops of `synth_event_trace`
and `synth_event_trace_array` give the same record for every schema, every
position, every initial record and every value list, and so the two functions
give the same return value, record and channel on the same arguments. The
loop of `trace_event_raw_event_synth` stores `var_ref_vals[var_ref_idx[i]]` in
field `i`: it is the loop of `synth_event_trace_array` on the list of the
picked values, and with `var_ref_idx` the identity on the fields it is that
loop on `var_ref_vals` itself. On an enabled file for which the reservation
hands both functions the same initial record, the raw probe with the identity
mapping and `synth_event_trace_array` with the matching count leave the same
record. -/
theorem bulk_encoders_agree (cfg : Config) (be : Bool) (str_at : Nat → Option CStr) :
    (∀ (vals : List Nat) (fs : List synth_field) (i n : Nat) (e : List Nat),
      synth_event_trace_loop cfg be str_at vals fs i n e =
        synth_event_trace_array_loop cfg be str_at vals fs i n e) ∧
    (∀ (reserve : Int → Option (List Nat)) (file : trace_event_file) (rb : ring_buffer)
        (n_vals : Nat) (vals : List Nat),
      synth_event_trace cfg be str_at reserve file rb n_vals vals =
        synth_event_trace_array cfg be str_at reserve file rb vals n_vals) ∧
    (∀ (vals idx : List Nat) (fs : List synth_field) (i n : Nat) (e : List Nat),
      i + fs.length ≤ idx.length →
      trace_event_raw_event_synth_loop cfg be str_at vals idx fs i n e =
        synth_event_trace_array_loop cfg be str_at (idx.map (fun j => vals.getD j 0))
          fs i n e) ∧
    (∀ (vals idx : List Nat) (fs : List synth_field) (i n : Nat) (e : List Nat),
      (∀ k, i ≤ k → k < i + fs.length → idx.getD k 0 = k) →
      trace_event_raw_event_synth_loop cfg be str_at vals idx fs i n e =
        synth_event_trace_array_loop cfg be str_at vals fs i n e) ∧
    (∀ (reserve : Int → Option (List Nat)) (file : trace_event_file) (rb : ring_buffer)
        (vals idx : List Nat) (e : List Nat),
      file.enabled = true → file.soft_disabled = false →
      reserve (trace_entry_size cfg file.event) = some e →
      reserve ((cfg.sizeof_entry + wrap_int (file.event.n_u64 * 8)) % 2 ^ 64) = some e →
      (∀ k, k < file.event.fields.length → idx.getD k 0 = k) →
      (trace_event_raw_event_synth cfg be str_at reserve file rb vals idx).map
          (fun r => r.1) =
        (synth_event_trace_array cfg be str_at reserve file rb vals
          file.event.fields.length).map (fun r => r.2.1)) := by
  refine ⟨trace_loop_eq_array_loop cfg be str_at, ?_, ?_, ?_, ?_⟩
  · intro reserve file rb n_vals vals
    rw [synth_event_trace_cases, synth_event_trace_array_cases]
    simp only [trace_loop_eq_array_loop]
  · intro vals idx fs i n e hlen
    apply raw_loop_eq_array_loop
    intro k _ hk
    have hk2 : k < idx.length := by omega
    simp [List.getD_eq_getElem?_getD, List.getElem?_map, List.getElem?_eq_getElem hk2]
  · intro vals idx fs i n e hid
    apply raw_loop_eq_array_loop
    intro k h1 h2
    rw [hid k h1 h2]
  · intro reserve file rb vals idx e hen hsd hres1 hres2 hid
    rw [trace_event_raw_event_synth_cases, synth_event_trace_array_cases]
    rw [if_neg (by simp [hsd]), if_neg (by simp [hen, hsd]), hres1, hres2]
    dsimp only
    rw [if_neg (by simp)]
    rw [raw_loop_eq_array_loop cfg be str_at vals idx vals file.event.fields 0 0 e
      (fun k _ hk => by rw [hid k (by omega)])]
    cases synth_event_trace_array_loop cfg be str_at vals file.event.fields 0 0 e <;> rfl

/-! ## Theorems: piecewise calls and the bulk encoder -/

theorem poke_nil (buf : List Nat) (pos : Nat) : poke buf pos [] = buf := by
  induction buf generalizing pos with
  | nil => cases pos <;> rfl
  | cons b bs ih =>
    cases pos with
    | zero => rfl
    | succ p => simp [poke, ih]

theorem poke_getElem? (buf : List Nat) (pos : Nat) (src : List Nat) (j : Nat) :
    (poke buf pos src)[j]? =
      if pos ≤ j ∧ j < pos + src.length ∧ j < buf.length then src[j - pos]? else buf[j]? := by
  induction buf generalizing pos src j with
  | nil =>
    have : poke [] pos src = [] := by cases pos <;> cases src <;> rfl
    rw [this]
    simp
  | cons b bs ih =>
    cases pos with
    | zero =>
      cases src with
      | nil => simp [poke]
      | cons c cs =>
        cases j with
        | zero => simp [poke]
        | succ j =>
          simp only [poke, List.getElem?_cons_succ, ih, List.length_cons]
          by_cases h : j < 0 + cs.length ∧ j < bs.length
          · rw [if_pos ⟨by omega, h.1, h.2⟩, if_pos ⟨by omega, by omega, by omega⟩]
            simp
          · rw [if_neg (by omega), if_neg (by omega)]
    | succ p =>
      cases j with
      | zero => simp [poke]
      | succ j =>
        simp only [poke, List.getElem?_cons_succ, ih, List.length_cons]
        by_cases h : p ≤ j ∧ j < p + src.length ∧ j < bs.length
        · rw [if_pos h, if_pos ⟨by omega, by omega, by omega⟩]
          congr 1
          omega
        · rw [if_neg h, if_neg (by omega)]

/-- Two stores into blocks that do not overlap can be swapped. -/
theorem poke_comm (buf : List Nat) (p1 p2 : Nat) (s1 s2 : List Nat)
    (h : p1 + s1.length ≤ p2 ∨ p2 + s2.length ≤ p1) :
    poke (poke buf p1 s1) p2 s2 = poke (poke buf p2 s2) p1 s1 := by
  apply List.ext_getElem?
  intro j
  rw [poke_getElem?, poke_getElem?, poke_getElem?, poke_getElem?, poke_length, poke_length]
  by_cases h1 : p1 ≤ j ∧ j < p1 + s1.length ∧ j < buf.length
  · rw [if_pos h1, if_neg (by omega), if_pos h1]
  · rw [if_neg h1, if_neg h1]

/-- What a piecewise call stores is a block of bytes at the address of the
field, no longer than the words of the field. -/
theorem field_store_form (cfg : Config) (be : Bool) (str_at : Nat → Option CStr)
    (h8 : 8 ∣ cfg.STR_VAR_LEN_MAX) (p : synth_field × Nat) :
    ∃ s : List Nat, s.length ≤ 8 * word_width cfg p.1 ∧
      ∀ e, field_store cfg be str_at e p = poke e (field_addr cfg p.1.offset) s := by
  obtain ⟨q, hq⟩ := h8
  by_cases hs : p.1.is_string = true
  · have hw : 8 * word_width cfg p.1 = cfg.STR_VAR_LEN_MAX := by
      unfold word_width
      rw [if_pos hs, hq]
      omega
    by_cases hc : cfg.STR_VAR_LEN_MAX = 0 ∨ cfg.STR_VAR_LEN_MAX > 2 ^ 31 - 1
    · refine ⟨[], by simp, fun e => ?_⟩
      unfold field_store strscpy
      rw [if_pos hs, if_pos hc, poke_nil]
    · refine ⟨(((str_at (to_ptr cfg p.2)).getD []).take (cfg.STR_VAR_LEN_MAX - 1)).map
        Char.toNat ++ [0], ?_, fun e => ?_⟩
      · rw [hw]
        simp only [List.length_append, List.length_map, List.length_take,
          List.length_singleton]
        omega
      · unfold field_store
        rw [if_pos hs, strscpy_eq _ _ _ _ (by omega) (by omega)]
  · have hw : 8 * word_width cfg p.1 = 8 := by
      unfold word_width
      rw [if_neg hs]
    rw [hw]
    by_cases h1 : p.1.size = 1
    · exact ⟨mem_bytes be 1 (p.2 % 2 ^ 8), by rw [mem_bytes_length]; omega, fun e => by
        unfold field_store write_scalar
        rw [if_neg hs, if_pos h1]⟩
    · by_cases h2 : p.1.size = 2
      · exact ⟨mem_bytes be 2 (p.2 % 2 ^ 16), by rw [mem_bytes_length]; omega, fun e => by
          unfold field_store write_scalar
          rw [if_neg hs, if_neg h1, if_pos h2]⟩
      · by_cases h4 : p.1.size = 4
        · exact ⟨mem_bytes be 4 (p.2 % 2 ^ 32), by rw [mem_bytes_length]; omega, fun e => by
            unfold field_store write_scalar
            rw [if_neg hs, if_neg h1, if_neg h2, if_pos h4]⟩
        · exact ⟨mem_bytes be 8 (p.2 % 2 ^ 64), by rw [mem_bytes_length], fun e => by
            unfold field_store write_scalar
            rw [if_neg hs, if_neg h1, if_neg h2, if_neg h4]⟩

/-- The stores of two fields whose words do not overlap can be swapped. -/
theorem field_store_comm (cfg : Config) (be : Bool) (str_at : Nat → Option CStr)
    (h8 : 8 ∣ cfg.STR_VAR_LEN_MAX) (x y : synth_field × Nat)
    (h : x.1.offset + word_width cfg x.1 ≤ y.1.offset ∨
      y.1.offset + word_width cfg y.1 ≤ x.1.offset) (z : List Nat) :
    field_store cfg be str_at (field_store cfg be str_at z x) y =
      field_store cfg be str_at (field_store cfg be str_at z y) x := by
  obtain ⟨sx, hlx, hx⟩ := field_store_form cfg be str_at h8 x
  obtain ⟨sy, hly, hy⟩ := field_store_form cfg be str_at h8 y
  rw [hx, hy, hx, hy]
  apply poke_comm
  unfold field_addr
  omega

theorem word_layout_of_offsets (cfg : Config) :
    ∀ (fs : List synth_field) (n : Nat),
      (∀ (k : Nat) (f : synth_field), fs[k]? = some f →
        f.offset = n + ((fs.take k).map (word_width cfg)).sum) →
      word_layout cfg fs n := by
  intro fs
  induction fs with
  | nil => intro n _; trivial
  | cons f rest ih =>
    intro n h
    refine ⟨?_, ih _ ?_⟩
    · have := h 0 f (by simp)
      simpa using this
    · intro k g hg
      have := h (k + 1) g (by simpa using hg)
      rw [this]
      simp only [List.take_succ_cons, List.map_cons, List.sum_cons]
      omega

/-- The fields after a successful `synth_event_define_fields` are laid out
from word 0 on. -/
theorem define_fields_word_layout (cfg : Config) (tdf : Nat → DefineCall → Int)
    (event : synth_event)
    (hfit : (event.fields.map (word_width cfg)).sum < 2 ^ 32)
    (hok : (synth_event_define_fields cfg tdf event).1 = 0) :
    word_layout cfg (synth_event_define_fields cfg tdf event).2.1.fields 0 ∧
    ((synth_event_define_fields cfg tdf event).2.1.fields.map (word_width cfg)).sum < 2 ^ 32 := by
  unfold synth_event_define_fields at hok ⊢
  dsimp only at hok ⊢
  have hfit0 : 0 + (event.fields.map (word_width cfg)).sum < 2 ^ 32 := by omega
  obtain ⟨_, _, h3⟩ := define_fields_loop_spec cfg tdf event.fields 0 cfg.offsetof_fields 0
    hok hfit0
  have hw := define_fields_loop_widths cfg tdf event.fields 0 cfg.offsetof_fields 0 hok hfit0
  refine ⟨word_layout_of_offsets cfg _ 0 ?_, by rw [hw]; exact hfit⟩
  intro k f hf
  obtain ⟨f0, _, hf0⟩ := h3 k f hf
  rw [hf0]
  dsimp only
  rw [List.map_take, List.map_take, hw]

/-- The words of the fields of a layout do not overlap. -/
theorem word_layout_pairwise (cfg : Config) :
    ∀ (fs : List synth_field) (n : Nat), word_layout cfg fs n →
      (∀ f ∈ fs, n ≤ f.offset) ∧
      fs.Pairwise (fun f g => f.offset + word_width cfg f ≤ g.offset) := by
  intro fs
  induction fs with
  | nil => intro n _; exact ⟨fun f hf => (by cases hf), List.Pairwise.nil⟩
  | cons f rest ih =>
    intro n h
    obtain ⟨h1, h2⟩ := ih _ h.2
    constructor
    · intro g hg
      rcases List.mem_cons.mp hg with rfl | hg
      · exact le_of_eq h.1.symm
      · have := h1 g hg
        omega
    · rw [List.pairwise_cons]
      refine ⟨fun g hg => ?_, h2⟩
      have := h1 g hg
      rw [h.1]
      exact this

/-- The field loop of `synth_event_trace_array` on a layout: it stores field
after field what the piecewise call stores for it. -/
theorem array_loop_fold (cfg : Config) (be : Bool) (str_at : Nat → Option CStr)
    (vals : List Nat) :
    ∀ (fs : List synth_field) (i n : Nat) (e : List Nat),
      word_layout cfg fs n → n + (fs.map (word_width cfg)).sum < 2 ^ 32 →
      i + fs.length ≤ vals.length →
      (∀ (j : Nat) (f : synth_field), fs[j]? = some f → f.is_string = true →
        (str_at (to_ptr cfg (vals.getD (i + j) 0))).isSome) →
      synth_event_trace_array_loop cfg be str_at vals fs i n e =
        some ((fs.zip (vals.drop i)).foldl (field_store cfg be str_at) e) := by
  intro fs
  induction fs with
  | nil => intro i n e _ _ _ _; rfl
  | cons f rest ih =>
    intro i n e hlay hfit hlen hstr
    simp only [List.length_cons] at hlen
    simp only [List.map_cons, List.sum_cons] at hfit
    have hi : i < vals.length := by omega
    have hget : vals.getD i 0 = vals[i] := by
      rw [List.getD_eq_getElem?_getD, List.getElem?_eq_getElem hi]
      rfl
    have hrest : ∀ (j : Nat) (g : synth_field), rest[j]? = some g → g.is_string = true →
        (str_at (to_ptr cfg (vals.getD (i + 1 + j) 0))).isSome := by
      intro j g hg hs
      have := hstr (j + 1) g (by simpa using hg) hs
      rwa [show i + (j + 1) = i + 1 + j by omega] at this
    rw [List.drop_eq_getElem_cons hi, List.zip_cons_cons, List.foldl_cons]
    unfold synth_event_trace_array_loop
    dsimp only
    by_cases hs : f.is_string = true
    · have hw : word_width cfg f = cfg.STR_VAR_LEN_MAX / 8 := by
        unfold word_width; rw [if_pos hs]
      have h0 := hstr 0 f (by simp) hs
      rw [Nat.add_zero] at h0
      obtain ⟨t, ht⟩ := Option.isSome_iff_exists.mp h0
      rw [if_pos hs, ht]
      dsimp only
      rw [hw] at hfit
      rw [Nat.mod_eq_of_lt (by omega)]
      have hst : field_store cfg be str_at e (f, vals[i]) =
          (strscpy e (field_addr cfg n) t cfg.STR_VAR_LEN_MAX).1 := by
        unfold field_store
        dsimp only
        rw [if_pos hs, ← hget, ht, hlay.1]
        rfl
      rw [hst]
      have := ih (i + 1) (n + cfg.STR_VAR_LEN_MAX / 8)
        (strscpy e (field_addr cfg n) t cfg.STR_VAR_LEN_MAX).1
        (by rw [← hw]; exact hlay.2) (by omega) (by omega) hrest
      exact this
    · have hw : word_width cfg f = 1 := by
        unfold word_width; rw [if_neg hs]
      rw [if_neg hs]
      rw [hw] at hfit
      rw [Nat.mod_eq_of_lt (by omega)]
      have hst : field_store cfg be str_at e (f, vals[i]) =
          write_scalar be e (field_addr cfg n) f.size (vals.getD i 0) := by
        unfold field_store
        dsimp only
        rw [if_neg hs, ← hget, hlay.1]
      rw [hst]
      exact ih (i + 1) (n + 1) _ (by rw [← hw]; exact hlay.2) (by omega) (by omega) hrest

/-- A run of positional calls from the cursor on stores field after field. -/
theorem add_next_vals_fold (cfg : Config) (be : Bool) (str_at : Nat → Option CStr)
    (ev : synth_event) (hlt : ev.fields.length < 2 ^ 32) :
    ∀ (vs : List Nat) (st : synth_event_trace_state) (e : List Nat),
      st.add_name = false → st.disabled = false → st.event = some ev →
      st.entry = some e → st.cur_field + vs.length ≤ ev.fields.length →
      (∀ (j : Nat) (g : synth_field), ev.fields[st.cur_field + j]? = some g →
        g.is_string = true → j < vs.length →
        to_ptr cfg (vs.getD j 0) ≠ 0 ∧ (str_at (to_ptr cfg (vs.getD j 0))).isSome) →
      ∃ st1, add_next_vals cfg be str_at vs (some st) =
          some (List.replicate vs.length 0, some st1) ∧
        st1.entry = some (((ev.fields.drop st.cur_field).zip vs).foldl
          (field_store cfg be str_at) e) := by
  intro vs
  induction vs with
  | nil =>
    intro st e _ _ _ he _ _
    exact ⟨st, rfl, by rw [he]; simp⟩
  | cons v vs ih =>
    intro st e hname hdis hev he hlen hstr
    simp only [List.length_cons] at hlen
    have hc : st.cur_field < ev.fields.length := by omega
    have hf : ev.fields[st.cur_field]? = some ev.fields[st.cur_field] :=
      List.getElem?_eq_getElem hc
    have hstep := add_next_val_step cfg be str_at v st ev _ e hname hdis hev he hf hlt
      (fun hs => by
        have := hstr 0 _ (by rw [Nat.add_zero]; exact hf) hs (by simp)
        simpa using this)
    obtain ⟨st1, hrun, hentry⟩ := ih
      { st with
          add_next := true,
          cur_field := st.cur_field + 1,
          entry := some (field_store cfg be str_at e (ev.fields[st.cur_field], v)) }
      (field_store cfg be str_at e (ev.fields[st.cur_field], v))
      hname hdis hev rfl (by dsimp only; omega)
      (fun j g hg hs hj => by
        dsimp only at hg
        have := hstr (j + 1) g
          (by rw [show st.cur_field + (j + 1) = st.cur_field + 1 + j by omega]; exact hg) hs
          (by simp only [List.length_cons]; omega)
        simpa using this)
    refine ⟨st1, ?_, ?_⟩
    · unfold add_next_vals
      rw [hstep]
      dsimp only
      have hrun2 : add_next_vals cfg be str_at vs (some
          { st with
              add_next := true,
              cur_field := st.cur_field + 1,
              entry := some (if ev.fields[st.cur_field].is_string then
                  (strscpy e (field_addr cfg ev.fields[st.cur_field].offset)
                    ((str_at (to_ptr cfg v)).getD []) cfg.STR_VAR_LEN_MAX).1
                else write_scalar be e (field_addr cfg ev.fields[st.cur_field].offset)
                  ev.fields[st.cur_field].size v) }) =
          some (List.replicate vs.length 0, some st1) := hrun
      rw [hrun2]
      rfl
    · rw [hentry]
      dsimp only
      rw [List.drop_eq_getElem_cons hc, List.zip_cons_cons, List.foldl_cons]

/-- With pairwise distinct names the lookup by name finds the field. -/
theorem add_val_find_field_nodup :
    ∀ (fields : List synth_field) (acc : Option synth_field) (f : synth_field),
      (fields.map (fun g => g.name)).Nodup → f ∈ fields →
      add_val_find_field fields f.name acc = some f := by
  intro fields
  induction fields with
  | nil => intro acc f _ hf; cases hf
  | cons g rest ih =>
    intro acc f hnd hf
    rw [List.map_cons, List.nodup_cons] at hnd
    unfold add_val_find_field
    by_cases hn : g.name = f.name
    · rw [if_pos ((strcmp_eq_zero_iff _ _).mpr hn)]
      rcases List.mem_cons.mp hf with heq | hin
      · rw [heq]
      · exfalso
        apply hnd.1
        rw [hn]
        exact List.mem_map_of_mem (fun g => g.name) hin
    · rw [if_neg (fun h => hn ((strcmp_eq_zero_iff _ _).mp h))]
      rcases List.mem_cons.mp hf with heq | hin
      · exact absurd (congrArg synth_field.name heq).symm hn
      · exact ih _ f hnd.2 hin

/-- A run of calls by name stores call after call. -/
theorem add_vals_fold (cfg : Config) (be : Bool) (str_at : Nat → Option CStr)
    (ev : synth_event) (hnd : (ev.fields.map (fun g => g.name)).Nodup) :
    ∀ (calls : List (synth_field × Nat)) (st : synth_event_trace_state) (e : List Nat),
      st.add_next = false → st.disabled = false → st.event = some ev →
      st.entry = some e →
      (∀ p ∈ calls, p.1 ∈ ev.fields ∧ (p.1.is_string = true →
        to_ptr cfg p.2 ≠ 0 ∧ (str_at (to_ptr cfg p.2)).isSome)) →
      ∃ st1, add_vals cfg be str_at (calls.map (fun p => (p.1.name, p.2))) (some st) =
          some (List.replicate calls.length 0, some st1) ∧
        st1.entry = some (calls.foldl (field_store cfg be str_at) e) := by
  intro calls
  induction calls with
  | nil =>
    intro st e _ _ _ he _
    exact ⟨st, rfl, by rw [he]; rfl⟩
  | cons p ps ih =>
    intro st e hnext hdis hev he hcalls
    obtain ⟨hmem, hstr⟩ := hcalls p (by simp)
    have hfind := add_val_find_field_nodup ev.fields none p.1 hnd hmem
    have hstep : synth_event_add_val cfg be str_at (some p.1.name) p.2 (some st) =
        some (0, some { st with add_name := true,
                                entry := some (field_store cfg be str_at e p) }) := by
      rw [add_val_eq cfg be str_at p.1.name p.2 st hnext, if_neg (by simp [hdis]), hev]
      dsimp only
      rw [hfind]
      dsimp only
      unfold field_store
      by_cases hs : p.1.is_string = true
      · obtain ⟨hp, hr⟩ := hstr hs
        obtain ⟨t, ht⟩ := Option.isSome_iff_exists.mp hr
        rw [if_pos hs, if_neg hp, he, ht, if_pos hs]
        rfl
      · rw [if_neg hs, he, if_neg hs]
    obtain ⟨st1, hrun, hentry⟩ := ih
      { st with add_name := true, entry := some (field_store cfg be str_at e p) }
      (field_store cfg be str_at e p) hnext hdis hev rfl
      (fun q hq => hcalls q (by simp [hq]))
    refine ⟨st1, ?_, ?_⟩
    · rw [List.map_cons]
      unfold add_vals
      dsimp only
      rw [hstep]
      dsimp only
      rw [hrun]
      rfl
    · rw [hentry, List.foldl_cons]

theorem length_le_words (cfg : Config) (hstr : 8 ≤ cfg.STR_VAR_LEN_MAX) :
    ∀ fs : List synth_field, fs.length ≤ (fs.map (word_width cfg)).sum := by
  intro fs
  induction fs with
  | nil => simp
  | cons f rest ih =>
    have := word_width_pos cfg hstr f
    simp only [List.length_cons, List.map_cons, List.sum_cons]
    omega

/-- On a layout the stores of a run of calls, one per field, can be made in
any order. -/
theorem field_store_perm (cfg : Config) (be : Bool) (str_at : Nat → Option CStr)
    (h8 : 8 ∣ cfg.STR_VAR_LEN_MAX) (fs : List synth_field) (n : Nat) (vals : List Nat)
    (hlay : word_layout cfg fs n) (hlen : vals.length = fs.length)
    (calls : List (synth_field × Nat)) (hperm : calls.Perm (fs.zip vals)) (e : List Nat) :
    calls.foldl (field_store cfg be str_at) e =
      (fs.zip vals).foldl (field_store cfg be str_at) e := by
  have hpw := (word_layout_pairwise cfg fs n hlay).2
  have hzip : (fs.zip vals).Pairwise (fun x y =>
      x.1.offset + word_width cfg x.1 ≤ y.1.offset ∨
        y.1.offset + word_width cfg y.1 ≤ x.1.offset) := by
    have h1 : ((fs.zip vals).map Prod.fst).Pairwise
        (fun f g => f.offset + word_width cfg f ≤ g.offset) := by
      rw [List.map_fst_zip _ _ (by omega)]
      exact hpw
    rw [List.pairwise_map] at h1
    exact h1.imp (fun h => Or.inl h)
  have hsymm : Symmetric (fun x y : synth_field × Nat =>
      x.1.offset + word_width cfg x.1 ≤ y.1.offset ∨
        y.1.offset + word_width cfg y.1 ≤ x.1.offset) := fun x y h => h.symm
  symm
  apply List.Perm.foldl_eq' hperm.symm
  intro x hx y hy z
  by_cases hxy : x = y
  · rw [hxy]
  · exact field_store_comm cfg be str_at h8 x y (hzip.forall hsymm hx hy hxy) z

/-- C32: on a schema whose layout was compiled by `synth_event_define_fields`
the piecewise calls leave the record that `synth_event_trace_array` leaves.
The file is enabled, the reservation hands out the record `e`, the value list
has one value per field, and the value of every string field is a non-NULL
pointer to a readable text. Then `synth_event_trace_array` returns 0 with a
record `e1`; `synth_event_trace_start` returns 0 with a state on the record
`e`; from that state one `synth_event_add_next_val` per value in declaration
order returns 0 every time and leaves the record `e1`; and when the field
names are pairwise distinct, one `synth_event_add_val` per field, in any
order, returns 0 every time and leaves the record `e1` too. The string
capacity, a constant of a header outside the sources, is taken to be a
multiple of 8 and at least 8, and the word count is taken not to wrap. -/
theorem piecewise_matches_bulk (cfg : Config) (be : Bool) (str_at : Nat → Option CStr)
    (tdf : Nat → DefineCall → Int) (event0 : synth_event)
    (reserve : Int → Option (List Nat)) (file : trace_event_file) (rb : ring_buffer)
    (vals : List Nat) (e : List Nat) (ts0 : synth_event_trace_state)
    (hstr : 8 ≤ cfg.STR_VAR_LEN_MAX) (h8 : 8 ∣ cfg.STR_VAR_LEN_MAX)
    (hfit : (event0.fields.map (word_width cfg)).sum < 2 ^ 32)
    (hok : (synth_event_define_fields cfg tdf event0).1 = 0)
    (hfile : file.event = (synth_event_define_fields cfg tdf event0).2.1)
    (hen : file.enabled = true) (hsd : file.soft_disabled = false)
    (hres : reserve (trace_entry_size cfg file.event) = some e)
    (hlen : vals.length = file.event.fields.length)
    (hval : ∀ (j : Nat) (f : synth_field), file.event.fields[j]? = some f →
      f.is_string = true →
      to_ptr cfg (vals.getD j 0) ≠ 0 ∧ (str_at (to_ptr cfg (vals.getD j 0))).isSome) :
    ∃ (e1 : List Nat) (st : synth_event_trace_state),
      (synth_event_trace_array cfg be str_at reserve file rb vals vals.length).map
          (fun r => (r.1, r.2.1)) = some (0, some e1) ∧
      (synth_event_trace_start cfg reserve file rb (some ts0)).1 = 0 ∧
      (synth_event_trace_start cfg reserve file rb (some ts0)).2.1 = some st ∧
      st.entry = some e ∧
      (∃ st1, add_next_vals cfg be str_at vals (some st) =
          some (List.replicate vals.length 0, some st1) ∧ st1.entry = some e1) ∧
      ((file.event.fields.map (fun g => g.name)).Nodup →
        ∀ calls : List (synth_field × Nat), calls.Perm (file.event.fields.zip vals) →
        ∃ st1, add_vals cfg be str_at (calls.map (fun p => (p.1.name, p.2))) (some st) =
            some (List.replicate calls.length 0, some st1) ∧ st1.entry = some e1) := by
  obtain ⟨hlay, hfit2⟩ := define_fields_word_layout cfg tdf event0 hfit hok
  rw [← hfile] at hlay hfit2
  have hlt : file.event.fields.length < 2 ^ 32 :=
    lt_of_le_of_lt (length_le_words cfg hstr _) hfit2
  have hloop := array_loop_fold cfg be str_at vals file.event.fields 0 0 e hlay
    (by omega) (by omega)
    (fun j f hf hs => by rw [Nat.zero_add]; exact (hval j f hf hs).2)
  rw [List.drop_zero] at hloop
  refine ⟨(file.event.fields.zip vals).foldl (field_store cfg be str_at) e,
    { synth_event_trace_state.zero with
        event := some file.event, has_buffer := true, entry := some e }, ?_, ?_, ?_, rfl, ?_, ?_⟩
  · rw [synth_event_trace_array_cases, if_neg (by simp [hen, hsd]), hres]
    dsimp only
    rw [if_neg (by simp [hlen]), hloop]
    rfl
  · unfold synth_event_trace_start
    dsimp only
    rw [trace_start_reserved cfg reserve file rb e hen hsd hres]
    rfl
  · unfold synth_event_trace_start
    dsimp only
    rw [trace_start_reserved cfg reserve file rb e hen hsd hres]
  · have := add_next_vals_fold cfg be str_at file.event hlt vals
      { synth_event_trace_state.zero with
        event := some file.event, has_buffer := true, entry := some e } e
      rfl rfl rfl rfl
      (by show 0 + vals.length ≤ file.event.fields.length; omega)
      (fun j g hg hs _ => by
        have hg2 : file.event.fields[j]? = some g := by
          have : file.event.fields[0 + j]? = some g := hg
          rwa [Nat.zero_add] at this
        exact hval j g hg2 hs)
    obtain ⟨st1, hrun, hentry⟩ := this
    refine ⟨st1, hrun, ?_⟩
    rw [hentry]
    show some (((file.event.fields.drop 0).zip vals).foldl _ e) = _
    rw [List.drop_zero]
  · intro hnd calls hperm
    have hcalls : ∀ p ∈ calls, p.1 ∈ file.event.fields ∧ (p.1.is_string = true →
        to_ptr cfg p.2 ≠ 0 ∧ (str_at (to_ptr cfg p.2)).isSome) := by
      intro p hp
      have hpz : p ∈ file.event.fields.zip vals := hperm.mem_iff.mp hp
      obtain ⟨j, hj, hpj⟩ := List.getElem_of_mem hpz
      rw [List.length_zip] at hj
      have hj1 : j < file.event.fields.length := by omega
      have hj2 : j < vals.length := by omega
      rw [List.getElem_zip] at hpj
      have hp1 : p.1 = file.event.fields[j] := by rw [← hpj]
      have hp2 : p.2 = vals[j] := by rw [← hpj]
      refine ⟨by rw [hp1]; exact List.getElem_mem _, fun hs => ?_⟩
      have := hval j p.1 (by rw [hp1]; exact List.getElem?_eq_getElem hj1) hs
      have hget : vals.getD j 0 = p.2 := by
        rw [hp2, List.getD_eq_getElem?_getD, List.getElem?_eq_getElem hj2]
        rfl
      rw [hget] at this
      exact this
    obtain ⟨st1, hrun, hentry⟩ := add_vals_fold cfg be str_at file.event hnd calls
      { synth_event_trace_state.zero with
        event := some file.event, has_buffer := true, entry := some e } e
      rfl rfl rfl rfl hcalls
    refine ⟨st1, hrun, ?_⟩
    rw [hentry, field_store_perm cfg be str_at h8 file.event.fields 0 vals hlay hlen calls
      hperm e]

/-- C32 on the event with the fields `u64 a` and `char s[8]`, the values 7
and a pointer to the text "hi", on a record of 48 bytes. -/
theorem piecewise_matches_bulk_witness :
    ∃ (e1 : List Nat) (st : synth_event_trace_state),
      (synth_event_trace_array linux64 false
          (fun a => if a = 1000 then some "hi".toList else none)
          (fun _ => some (List.replicate 48 0)) layout_file ⟨0, [], 0⟩ [7, 1000]
          [7, 1000].length).map (fun r => (r.1, r.2.1)) = some (0, some e1) ∧
      (synth_event_trace_start linux64 (fun _ => some (List.replicate 48 0)) layout_file
        ⟨0, [], 0⟩ (some cursor_state)).1 = 0 ∧
      (synth_event_trace_start linux64 (fun _ => some (List.replicate 48 0)) layout_file
        ⟨0, [], 0⟩ (some cursor_state)).2.1 = some st ∧
      st.entry = some (List.replicate 48 0) ∧
      (∃ st1, add_next_vals linux64 false
            (fun a => if a = 1000 then some "hi".toList else none) [7, 1000] (some st) =
          some (List.replicate [7, 1000].length 0, some st1) ∧ st1.entry = some e1) ∧
      ((layout_file.event.fields.map (fun g => g.name)).Nodup →
        ∀ calls : List (synth_field × Nat), calls.Perm (layout_file.event.fields.zip [7, 1000]) →
        ∃ st1, add_vals linux64 false
              (fun a => if a = 1000 then some "hi".toList else none)
              (calls.map (fun p => (p.1.name, p.2))) (some st) =
            some (List.replicate calls.length 0, some st1) ∧ st1.entry = some e1) :=
  piecewise_matches_bulk linux64 false (fun a => if a = 1000 then some "hi".toList else none)
    (fun _ _ => 0) layout_event (fun _ => some (List.replicate 48 0)) layout_file ⟨0, [], 0⟩
    [7, 1000] (List.replicate 48 0) cursor_state (by decide) (by decide) (by decide)
    (by decide) rfl rfl rfl rfl (by decide)
    (fun j f hf hs => by
      have hfields : layout_file.event.fields =
          [⟨"u64".toList, "a".toList, 8, 0, false, false⟩,
            ⟨"char[8]".toList, "s".toList, 8, 1, true, true⟩] := by decide
      rw [hfields] at hf
      match j, hf with
      | 0, hf =>
        simp only [List.getElem?_cons_zero, Option.some.injEq] at hf
        rw [← hf] at hs
        cases hs
      | 1, _ => exact ⟨by decide, by decide⟩
      | j + 2, hf => simp at hf)

/-! ## Theorems: piecewise calls that return an error -/

/-- What a positional call that is not rejected for its mode leaves behind:
it returns 0, or it returns -EINVAL with the entry as it was and the cursor
either as it was or, for a NULL string value, advanced past the string field
it was at. -/
theorem add_next_val_frame (cfg : Config) (be : Bool) (str_at : Nat → Option CStr)
    (val : Nat) (st : synth_event_trace_state) (r : Int)
    (o : Option synth_event_trace_state) (h : st.add_name = false)
    (hres : synth_event_add_next_val cfg be str_at val (some st) = some (r, o)) :
    ∃ st1, o = some st1 ∧
      (r = 0 ∨
        (r = -EINVAL ∧ st1.entry = st.entry ∧
          (st1.cur_field = st.cur_field ∨
            ∃ ev f, st.event = some ev ∧ ev.fields[st.cur_field]? = some f ∧
              f.is_string = true ∧ to_ptr cfg val = 0 ∧
              st1.cur_field = (st.cur_field + 1) % 2 ^ 32))) := by
  rw [add_next_val_eq cfg be str_at val st h] at hres
  by_cases hd : st.disabled = true
  · rw [if_pos hd] at hres
    injection hres with hres
    injection hres with h1 h2
    subst h2
    exact ⟨_, rfl, Or.inl h1.symm⟩
  · rw [if_neg hd] at hres
    cases hev : st.event with
    | none => rw [hev] at hres; cases hres
    | some ev =>
      rw [hev] at hres
      dsimp only at hres
      by_cases hc : st.cur_field ≥ ev.fields.length
      · rw [if_pos hc] at hres
        injection hres with hres
        injection hres with h1 h2
        subst h2
        exact ⟨_, rfl, Or.inr ⟨h1.symm, rfl, Or.inl rfl⟩⟩
      · rw [if_neg hc] at hres
        cases hf : ev.fields[st.cur_field]? with
        | none =>
          rw [hf] at hres
          injection hres with hres
          injection hres with h1 h2
          subst h2
          exact ⟨_, rfl, Or.inr ⟨h1.symm, rfl, Or.inl rfl⟩⟩
        | some f =>
          rw [hf] at hres
          dsimp only at hres
          by_cases hs : f.is_string = true
          · rw [if_pos hs] at hres
            by_cases hp : to_ptr cfg val = 0
            · rw [if_pos hp] at hres
              injection hres with hres
              injection hres with h1 h2
              subst h2
              exact ⟨_, rfl, Or.inr ⟨h1.symm, rfl, Or.inr ⟨ev, f, rfl, hf, hs, hp, rfl⟩⟩⟩
            · rw [if_neg hp] at hres
              cases he : st.entry with
              | none => rw [he] at hres; cases hres
              | some e =>
                cases ht : str_at (to_ptr cfg val) with
                | none => rw [he, ht] at hres; cases hres
                | some t =>
                  rw [he, ht] at hres
                  injection hres with hres
                  injection hres with h1 h2
                  subst h2
                  exact ⟨_, rfl, Or.inl h1.symm⟩
          · rw [if_neg hs] at hres
            cases he : st.entry with
            | none => rw [he] at hres; cases hres
            | some e =>
              rw [he] at hres
              injection hres with hres
              injection hres with h1 h2
              subst h2
              exact ⟨_, rfl, Or.inl h1.symm⟩

/-- C33: a call of `synth_event_add_next_val` or `synth_event_add_val` that
returns an error leaves every byte of the reserved record as it was: called
with a NULL trace state it returns -EINVAL and there is no state to change,
and called with a trace state it hands back a state whose entry is the entry
it was given. The errors named by the claim are errors of the code: a NULL
state, a call in the other mode, a positional call with the cursor at or past
the number of fields (in particular on an event without fields) and a NULL
string value for the string field at the cursor all return -EINVAL. -/
theorem add_val_error_keeps_record (cfg : Config) (be : Bool) (str_at : Nat → Option CStr) :
    (∀ (val : Nat) (st : synth_event_trace_state) (r : Int)
        (o : Option synth_event_trace_state),
      synth_event_add_next_val cfg be str_at val (some st) = some (r, o) → r ≠ 0 →
      ∃ st1, o = some st1 ∧ st1.entry = st.entry) ∧
    (∀ (field_name : Option CStr) (val : Nat) (st : synth_event_trace_state) (r : Int)
        (o : Option synth_event_trace_state),
      synth_event_add_val cfg be str_at field_name val (some st) = some (r, o) → r ≠ 0 →
      ∃ st1, o = some st1 ∧ st1.entry = st.entry) ∧
    (∀ (field_name : Option CStr) (val : Nat),
      synth_event_add_next_val cfg be str_at val none = some (-EINVAL, none) ∧
      synth_event_add_val cfg be str_at field_name val none = some (-EINVAL, none)) ∧
    (∀ (name : CStr) (val : Nat) (st : synth_event_trace_state),
      (st.add_name = true →
        synth_event_add_next_val cfg be str_at val (some st) = some (-EINVAL, some st)) ∧
      (st.add_next = true →
        synth_event_add_val cfg be str_at (some name) val (some st) =
          some (-EINVAL, some st))) ∧
    (∀ (val : Nat) (st : synth_event_trace_state) (ev : synth_event),
      st.add_name = false → st.disabled = false → st.event = some ev →
      (ev.fields.length ≤ st.cur_field →
        synth_event_add_next_val cfg be str_at val (some st) =
          some (-EINVAL, some { st with add_next := true })) ∧
      (∀ f, ev.fields[st.cur_field]? = some f → f.is_string = true → to_ptr cfg val = 0 →
        ∃ st1, synth_event_add_next_val cfg be str_at val (some st) =
          some (-EINVAL, some st1) ∧ st1.entry = st.entry)) := by
  have hnext : ∀ (val : Nat) (st : synth_event_trace_state) (r : Int)
      (o : Option synth_event_trace_state),
      synth_event_add_next_val cfg be str_at val (some st) = some (r, o) → r ≠ 0 →
      ∃ st1, o = some st1 ∧ st1.entry = st.entry := by
    intro val st r o hres hr
    cases hn : st.add_name with
    | true =>
      rw [add_next_val_rejected cfg be str_at val st hn] at hres
      injection hres with hres
      injection hres with h1 h2
      exact ⟨st, h2.symm, rfl⟩
    | false =>
      obtain ⟨st1, ho, hcase⟩ := add_next_val_frame cfg be str_at val st r o hn hres
      rcases hcase with h0 | ⟨_, he, _⟩
      · exact absurd h0 hr
      · exact ⟨st1, ho, he⟩
  refine ⟨hnext, ?_, ?_, ?_, ?_⟩
  · intro field_name val st r o hres hr
    cases field_name with
    | none => exact hnext val st r o hres hr
    | some name =>
      cases hn : st.add_next with
      | true =>
        rw [add_val_rejected cfg be str_at name val st hn] at hres
        injection hres with hres
        injection hres with h1 h2
        exact ⟨st, h2.symm, rfl⟩
      | false =>
        obtain ⟨st1, ho, hst, hcase⟩ := add_val_frame cfg be str_at name val st r o hn hres
        rcases hcase with he | ⟨_, _, _, _, _, _, _, _, h0, _⟩
        · exact ⟨st1, ho, he⟩
        · exact absurd h0 hr
  · intro field_name val
    exact ⟨rfl, rfl⟩
  · intro name val st
    exact ⟨add_next_val_rejected cfg be str_at val st, add_val_rejected cfg be str_at name val st⟩
  · intro val st ev hn hd hev
    constructor
    · intro hc
      rw [add_next_val_eq cfg be str_at val st hn, if_neg (by simp [hd]), hev]
      dsimp only
      rw [if_pos hc]
    · intro f hf hs hp
      have hc : ¬ st.cur_field ≥ ev.fields.length := by
        intro hge
        rw [List.getElem?_eq_none (by omega)] at hf
        cases hf
      rw [add_next_val_eq cfg be str_at val st hn, if_neg (by simp [hd]), hev]
      dsimp only
      rw [if_neg hc, hf]
      dsimp only
      rw [if_pos hs, if_pos hp]
      exact ⟨_, rfl, rfl⟩

theorem add_next_val_cursor_counterexample :
    synth_event_add_next_val linux64 false (fun _ => none) 0 (some cursor_state) =
      some (-EINVAL, some { cursor_state with add_next := true, cur_field := 1 }) ∧
    cursor_state.cur_field = 0 := by
  decide

/-- C34 (amended): a call of `synth_event_add_next_val` that returns an error
leaves the cursor `cur_field` as it was, except when the error is a NULL
string value for the string field at the cursor: then the call has already
advanced the cursor past that field (`cur_field++` comes before the test of
the value), so a retry writes the next field. -/
theorem add_next_val_error_cursor (cfg : Config) (be : Bool) (str_at : Nat → Option CStr)
    (val : Nat) (st : synth_event_trace_state) (r : Int)
    (o : Option synth_event_trace_state)
    (hres : synth_event_add_next_val cfg be str_at val (some st) = some (r, o))
    (hr : r ≠ 0) :
    ∃ st1, o = some st1 ∧
      (st1.cur_field = st.cur_field ∨
        ∃ ev f, st.event = some ev ∧ ev.fields[st.cur_field]? = some f ∧
          f.is_string = true ∧ to_ptr cfg val = 0 ∧
          st1.cur_field = (st.cur_field + 1) % 2 ^ 32) := by
  cases hn : st.add_name with
  | true =>
    rw [add_next_val_rejected cfg be str_at val st hn] at hres
    injection hres with hres
    injection hres with h1 h2
    exact ⟨st, h2.symm, Or.inl rfl⟩
  | false =>
    obtain ⟨st1, ho, hcase⟩ := add_next_val_frame cfg be str_at val st r o hn hres
    rcases hcase with h0 | ⟨_, _, hc⟩
    · exact absurd h0 hr
    · exact ⟨st1, ho, hc⟩

theorem add_next_val_error_cursor_witness :
    ∃ st1, some { cursor_state with cur_field := 1, add_next := true } = some st1 ∧
      (st1.cur_field = 1 ∨
        ∃ ev f, cursor_state.event = some ev ∧ ev.fields[1]? = some f ∧
          f.is_string = true ∧ to_ptr linux64 7 = 0 ∧
          st1.cur_field = (1 + 1) % 2 ^ 32) :=
  add_next_val_error_cursor linux64 false (fun _ => none) 7
    { cursor_state with cur_field := 1 } (-EINVAL) _ (by decide) (by decide)

/-- C36: the type string stored by `parse_synth_field` for a name token with
an array suffix followed by ';' keeps the ';'. The test
`field->type[len - 1] == ';'` looks at index `len - 1` of a string of length
`len - 1` (`len` counts the terminator), which is the terminator itself, so
nothing is removed: the stored type is the type token, then the whole suffix
from '[' on. For `char s[8];` the stored type is "char[8];". -/
theorem parse_synth_field_array_semicolon (cfg : Config) :
    (∀ (argc : Nat) (argv : List CStr) (consumed : Nat) (mem : List Bool)
        (field : synth_field) (base N : CStr),
      (parse_synth_field cfg argc argv consumed mem).ret = .ok field →
      name_token argv = base ++ '[' :: N ++ "];".toList → '[' ∉ base →
      field.type = type_part argv ++ '[' :: N ++ "];".toList ∧
      field.type.getLast? = some ';') ∧
    parse_synth_field linux64 2 ["char".toList, "s[8];".toList] 0 [] =
      ⟨.ok { type := "char[8];".toList, name := "s".toList, size := 8, offset := 0,
             is_signed := true, is_string := true }, 2, []⟩ := by
  constructor
  · intro argc argv consumed mem field base N h hn hb
    have h1 := (parse_synth_field_ok cfg argc argv consumed mem field h).1
    have ht : field.type = assembled_type argv := by rw [h1]
    rw [ht, assembled_type, array_suffix, hn]
    have h3 := (takeWhile_dropWhile_bracket base (N ++ "];".toList) hb).2
    simp only [List.cons_append, List.append_assoc] at h3 ⊢
    rw [h3]
    refine ⟨rfl, ?_⟩
    rw [show type_part argv ++ '[' :: (N ++ "];".toList) =
      (type_part argv ++ '[' :: (N ++ "]".toList)) ++ [';'] by simp]
    exact List.getLast?_concat _
  · decide

/-! ## Theorems: counting the fields of a command -/

theorem seq_buf_printf_frame (cmd : dynevent_cmd) (text : List Char) :
    (seq_buf_printf cmd text).2.n_fields = cmd.n_fields ∧
    (seq_buf_printf cmd text).2.is_synth = cmd.is_synth := by
  unfold seq_buf_printf
  split <;> exact ⟨rfl, rfl⟩

theorem arg_pair_add_frame (cmd : dynevent_cmd) (lhs rhs : CStr) (o s : Char)
    (check_arg : CStr → Int) :
    (dynevent_arg_pair_add cmd lhs rhs o s check_arg).2.n_fields = cmd.n_fields ∧
    (dynevent_arg_pair_add cmd lhs rhs o s check_arg).2.is_synth = cmd.is_synth := by
  unfold dynevent_arg_pair_add
  dsimp only
  split
  · exact ⟨rfl, rfl⟩
  · have := seq_buf_printf_frame cmd (' ' :: lhs ++ o :: rhs ++ [s])
    rcases hq : seq_buf_printf cmd (' ' :: lhs ++ o :: rhs ++ [s]) with ⟨r, c⟩
    rw [hq] at this
    dsimp only
    split <;> exact this

theorem arg_add_frame (cmd : dynevent_cmd) (str : CStr) (s : Char) :
    (dynevent_arg_add cmd str s).2.n_fields = cmd.n_fields ∧
    (dynevent_arg_add cmd str s).2.is_synth = cmd.is_synth := by
  unfold dynevent_arg_add
  have := seq_buf_printf_frame cmd (' ' :: str ++ [s])
  rcases hq : seq_buf_printf cmd (' ' :: str ++ [s]) with ⟨r, c⟩
  rw [hq] at this
  dsimp only
  split <;> exact this

/-- A successful `synth_event_add_field` counts one field. -/
theorem add_field_count (cfg : Config) (cmd cmd1 : dynevent_cmd) (type name : Option CStr)
    (h : synth_event_add_field cfg cmd type name = (0, cmd1)) :
    cmd1.n_fields = (cmd.n_fields + 1) % 2 ^ 32 ∧ cmd1.is_synth = cmd.is_synth ∧
    cmd1.n_fields ≤ cfg.SYNTH_FIELDS_MAX := by
  unfold synth_event_add_field at h
  split at h
  · injection h with h1 h2
    revert h1; unfold EINVAL; omega
  · split at h
    · rename_i t n
      have hf := arg_pair_add_frame cmd t n (Char.ofNat 0) ';' (synth_event_check_arg_fn cfg)
      rcases hp : dynevent_arg_pair_add cmd t n (Char.ofNat 0) ';'
        (synth_event_check_arg_fn cfg) with ⟨r, c⟩
      rw [hp] at h hf
      dsimp only at h hf
      split at h
      · rename_i hr
        injection h with h1 h2
        exact absurd h1 hr
      · split at h
        · injection h with h1 h2
          revert h1; unfold EINVAL; omega
        · rename_i hle
          injection h with h1 h2
          subst h2
          dsimp only at hle ⊢
          rw [hf.1] at hle ⊢
          exact ⟨rfl, hf.2, by omega⟩
    · injection h with h1 h2
      revert h1; unfold EINVAL; omega

/-- On success the loop of `__synth_event_gen_cmd_start` has counted every
pair twice. -/
theorem gen_cmd_start_loop_count (cfg : Config) :
    ∀ (pairs : List (CStr × CStr)) (cmd cmd1 : dynevent_cmd),
      gen_cmd_start_loop cfg (pair_args pairs) cmd = some (0, cmd1) →
      cmd.n_fields + 2 * pairs.length < 2 ^ 32 →
      cmd1.n_fields = cmd.n_fields + 2 * pairs.length ∧
      (pairs ≠ [] → cmd.n_fields + 2 * pairs.length ≤ cfg.SYNTH_FIELDS_MAX) := by
  intro pairs
  induction pairs with
  | nil =>
    intro cmd cmd1 h _
    simp only [pair_args, List.flatMap_nil, List.nil_append, gen_cmd_start_loop] at h
    injection h with h
    injection h with h1 h2
    subst h2
    exact ⟨rfl, fun h => absurd rfl h⟩
  | cons p rest ih =>
    intro cmd cmd1 h hfit
    simp only [List.length_cons] at hfit ⊢
    have hargs : pair_args (p :: rest) = some p.1 :: some p.2 :: pair_args rest := by
      simp [pair_args]
    rw [hargs] at h
    unfold gen_cmd_start_loop at h
    dsimp only at h
    have hm1 : (cmd.n_fields + 1) % 2 ^ 32 = cmd.n_fields + 1 := Nat.mod_eq_of_lt (by omega)
    rw [hm1] at h
    split at h
    · injection h with h
      injection h with h1 h2
      revert h1; unfold EINVAL; omega
    · rcases ha : synth_event_add_field cfg
        { cmd with n_fields := cmd.n_fields + 1 } (some p.1) (some p.2) with ⟨r, c⟩
      rw [ha] at h
      dsimp only at h
      split at h
      · rename_i hr
        injection h with h
        injection h with h1 h2
        exact absurd h1 hr
      · rename_i hr
        have hr0 : r = 0 := by
          by_contra hne
          exact hr hne
        subst hr0
        obtain ⟨hc1, _, hc3⟩ := add_field_count cfg _ c _ _ ha
        dsimp only at hc1
        have hm2 : (cmd.n_fields + 1 + 1) % 2 ^ 32 = cmd.n_fields + 1 + 1 :=
          Nat.mod_eq_of_lt (by omega)
        rw [hm2] at hc1
        obtain ⟨h3, h4⟩ := ih c cmd1 h (by omega)
        refine ⟨by omega, fun _ => ?_⟩
        by_cases hrest : rest = []
        · subst hrest
          simp only [List.length_nil] at h3 ⊢
          omega
        · have := h4 hrest
          omega

/-- C35: `__synth_event_gen_cmd_start` counts every field twice. Its loop
increments `cmd->n_fields` and then calls `synth_event_add_field`, which
increments it again, so a call on a freshly initialised command with k valid
(type, name) pairs that succeeds leaves `n_fields` at 2k, not k, and can only
succeed when 2k is at most `SYNTH_FIELDS_MAX`. For one pair `u64 a` the count
is 2, where `synth_event_gen_cmd_array_start` and `synth_event_add_fields`
count 1, and with `SYNTH_FIELDS_MAX` 32 a call with 17 pairs returns
-EINVAL. -/
theorem gen_cmd_start_counts_twice (cfg : Config) :
    (∀ (size : Nat) (name : CStr) (mod : Option Nat) (pairs : List (CStr × CStr))
        (cmd1 : dynevent_cmd),
      __synth_event_gen_cmd_start cfg (fresh_cmd size) name mod (pair_args pairs) =
        some (0, cmd1) →
      2 * pairs.length < 2 ^ 32 →
      cmd1.n_fields = 2 * pairs.length ∧
      (pairs ≠ [] → 2 * pairs.length ≤ cfg.SYNTH_FIELDS_MAX)) ∧
    (__synth_event_gen_cmd_start linux64 (fresh_cmd 2048) "e".toList none
        (pair_args [("u64".toList, "a".toList)])).map (fun r => (r.1, r.2.n_fields)) =
      some (0, 2) ∧
    ((synth_event_gen_cmd_array_start linux64 (fresh_cmd 2048) "e".toList none
        [⟨some "u64".toList, some "a".toList⟩] 1).1,
      (synth_event_gen_cmd_array_start linux64 (fresh_cmd 2048) "e".toList none
        [⟨some "u64".toList, some "a".toList⟩] 1).2.n_fields) = (0, 1) ∧
    ((synth_event_add_fields linux64 (fresh_cmd 2048)
        [⟨some "u64".toList, some "a".toList⟩] 1).1,
      (synth_event_add_fields linux64 (fresh_cmd 2048)
        [⟨some "u64".toList, some "a".toList⟩] 1).2.n_fields) = (0, 1) ∧
    linux64.SYNTH_FIELDS_MAX = 32 ∧
    (__synth_event_gen_cmd_start linux64 (fresh_cmd 2048) "e".toList none
        (pair_args (List.replicate 17 ("u64".toList, "a".toList)))).map (fun r => r.1) =
      some (-EINVAL) := by
  refine ⟨?_, by decide, by decide, by decide, rfl, by decide⟩
  intro size name mod pairs cmd1 h hfit
  unfold __synth_event_gen_cmd_start at h
  dsimp only at h
  rw [if_neg (by simp [fresh_cmd])] at h
  have hf := arg_add_frame { fresh_cmd size with event_name := name, private_data := mod }
    name (Char.ofNat 0)
  rcases ha : dynevent_arg_add { fresh_cmd size with event_name := name, private_data := mod }
    name (Char.ofNat 0) with ⟨r, c⟩
  rw [ha] at h hf
  dsimp only at h hf
  split at h
  · rename_i hr
    injection h with h
    injection h with h1 h2
    exact absurd h1 hr
  · have hc0 : c.n_fields = 0 := hf.1
    have := gen_cmd_start_loop_count cfg pairs c cmd1 h (by omega)
    rw [hc0] at this
    simpa using this

/-! ## Theorems: the listing round trip -/

theorem split_ws_from_cons (c : Char) (cs cur : List Char) :
    split_ws_from (c :: cs) cur =
      if isspace c then
        if cur.isEmpty then split_ws_from cs [] else cur :: split_ws_from cs []
      else split_ws_from cs (cur ++ [c]) := rfl

theorem split_ws_from_word (w : List Char) (hw : ∀ c ∈ w, isspace c = false) :
    ∀ (rest cur : List Char), split_ws_from (w ++ rest) cur = split_ws_from rest (cur ++ w) := by
  induction w with
  | nil => intro rest cur; simp
  | cons c cs ih =>
    intro rest cur
    have hc : isspace c = false := hw c (by simp)
    rw [List.cons_append, split_ws_from_cons, hc, if_neg (by simp),
      ih (fun x hx => hw x (by simp [hx])), List.append_assoc]
    rfl

theorem split_ws_word (w : List Char) (hw : ∀ c ∈ w, isspace c = false) (hne : w ≠ [])
    (c : Char) (hc : isspace c = true) (rest : List Char) :
    split_ws (w ++ c :: rest) = w :: split_ws rest := by
  have : w.isEmpty = false := by
    cases w with
    | nil => exact absurd rfl hne
    | cons _ _ => rfl
  unfold split_ws
  rw [split_ws_from_word w hw, List.nil_append, split_ws_from_cons, hc, if_pos rfl, this,
    if_neg (by simp)]

theorem split_ws_space (c : Char) (hc : isspace c = true) (rest : List Char) :
    split_ws (c :: rest) = split_ws rest := by
  unfold split_ws
  rw [split_ws_from_cons, hc, if_pos rfl]
  rfl

theorem split_ws_nil : split_ws [] = [] := rfl

theorem unsigned_prefix_space (t : CStr) (h : "unsigned ".toList.isPrefixOf t = true) :
    ∃ c ∈ t, isspace c = true := by
  obtain ⟨X, hX⟩ := List.isPrefixOf_iff_prefix.mp h
  refine ⟨' ', ?_, by decide⟩
  rw [← hX]
  simp

theorem unsigned_prefix_drop (X : CStr) :
    "unsigned ".toList.isPrefixOf ("unsigned ".toList ++ X) = true ∧
    ("unsigned ".toList ++ X).drop 9 = X :=
  ⟨List.isPrefixOf_iff_prefix.mpr (List.prefix_append _ _), rfl⟩

/-- The split of the listing of a type followed by a space. -/
theorem split_type (f : synth_field)
    (htype : (∃ X, f.type = "unsigned ".toList ++ X ∧ X ≠ [] ∧ ∀ c ∈ X, isspace c = false) ∨
      (f.type ≠ [] ∧ ∀ c ∈ f.type, isspace c = false))
    (R : List Char) :
    split_ws (f.type ++ ' ' :: R) =
      (if "unsigned ".toList.isPrefixOf f.type then ["unsigned".toList, f.type.drop 9]
        else [f.type]) ++ split_ws R := by
  rcases htype with ⟨X, hX, hne, hws⟩ | ⟨hne, hws⟩
  · rw [hX, (unsigned_prefix_drop X).1, (unsigned_prefix_drop X).2, if_pos rfl]
    have e : "unsigned ".toList ++ X ++ ' ' :: R =
        "unsigned".toList ++ ' ' :: (X ++ ' ' :: R) := by simp
    rw [e, split_ws_word "unsigned".toList (by decide) (by decide) ' ' (by decide),
      split_ws_word X hws hne ' ' (by decide)]
    rfl
  · have hnp : ¬ "unsigned ".toList.isPrefixOf f.type = true := by
      intro h
      obtain ⟨c, hc, hsp⟩ := unsigned_prefix_space f.type h
      rw [hws c hc] at hsp
      cases hsp
    rw [if_neg hnp, split_ws_word f.type hws hne ' ' (by decide)]
    rfl

/-- The split of the listing of the fields is the list of their tokens. -/
theorem split_show_fields :
    ∀ fs : List synth_field,
      (∀ f ∈ fs,
        ((∃ X, f.type = "unsigned ".toList ++ X ∧ X ≠ [] ∧ ∀ c ∈ X, isspace c = false) ∨
          (f.type ≠ [] ∧ ∀ c ∈ f.type, isspace c = false)) ∧
        ∀ c ∈ f.name, isspace c = false) →
      (∀ f, fs.getLast? = some f → f.name ≠ []) →
      split_ws (show_fields fs ++ [Char.ofNat 10]) = fields_tokens fs := by
  intro fs
  induction fs with
  | nil =>
    intro _ _
    exact split_ws_space (Char.ofNat 10) (by decide) []
  | cons f rest ih =>
    intro hwf hlast
    obtain ⟨htype, hname⟩ := hwf f (by simp)
    have hrest := ih (fun g hg => hwf g (by simp [hg]))
    cases rest with
    | nil =>
      have hne : f.name ≠ [] := hlast f rfl
      have e : show_fields [f] ++ [Char.ofNat 10] =
          f.type ++ ' ' :: (f.name ++ Char.ofNat 10 :: []) := by
        simp [show_fields]
      rw [e, split_type f htype, split_ws_word f.name hname hne (Char.ofNat 10) (by decide)]
      simp [fields_tokens, field_tokens, split_ws_nil]
    | cons g gs =>
      have hlast2 : ∀ f2, (g :: gs).getLast? = some f2 → f2.name ≠ [] := by
        intro f2 h2
        apply hlast f2
        rw [List.getLast?_cons_cons]
        exact h2
      have e : show_fields (f :: g :: gs) ++ [Char.ofNat 10] =
          f.type ++ ' ' :: ((f.name ++ ";".toList) ++
            ' ' :: (show_fields (g :: gs) ++ [Char.ofNat 10])) := by
        conv_lhs => unfold show_fields
        simp
      have hn2 : ∀ c ∈ f.name ++ ";".toList, isspace c = false := by
        intro c hc
        rcases List.mem_append.mp hc with h | h
        · exact hname c h
        · have : c = ';' := by simpa using h
          rw [this]
          decide
      rw [e, split_type f htype, split_ws_word (f.name ++ ";".toList) hn2 (by simp) ' '
        (by decide), hrest hlast2]
      conv_rhs => unfold fields_tokens
      simp [field_tokens]

theorem skip_semi_id (s : CStr) (h : s.head? ≠ some ';') : skip_semi s = s := by
  unfold skip_semi
  split
  · exact absurd rfl h
  · rfl

theorem field_tokens_length (f : synth_field) (last : Bool) :
    (field_tokens f last).length =
      if "unsigned ".toList.isPrefixOf f.type then 3 else 2 := by
  unfold field_tokens
  split <;> rfl

/-- The name token of the listing gives the name back. -/
theorem field_name_of_listed (name : CStr) (last : Bool) (hb : '[' ∉ name)
    (hl : last = true → name.getLast? ≠ some ';') :
    field_name_of (name ++ (if last then [] else ";".toList)) = name ∧
    array_suffix (name ++ (if last then [] else ";".toList)) = [] := by
  cases last with
  | true =>
    simp only [if_true, List.append_nil]
    refine ⟨?_, dropWhile_of_not_mem '[' name hb⟩
    unfold field_name_of
    rw [if_neg hb, if_neg (hl rfl)]
  | false =>
    have hb2 : '[' ∉ name ++ [';'] := by
      intro h
      rcases List.mem_append.mp h with h | h
      · exact hb h
      · simp at h
    simp only [Bool.false_eq_true, if_false]
    exact ⟨field_name_of_semi name hb2, dropWhile_of_not_mem '[' _ hb2⟩

/-- The parser on the tokens of the listing of a field gives the field
back. -/
theorem parse_listed (cfg : Config) (f : synth_field) (last : Bool) (R : List CStr)
    (argc consumed : Nat) (mem : List Bool) (hmem : ∀ b ∈ mem, b = true)
    (hargc : (field_tokens f last).length ≤ argc)
    (hsz : f.size = synth_field_size cfg f.type ∧ f.size ≠ 0 ∧
      f.is_signed = synth_field_signed f.type ∧ f.is_string = synth_field_is_string f.type ∧
      f.offset = 0)
    (hname : '[' ∉ f.name ∧ (last = true → f.name.getLast? ≠ some ';'))
    (htype : (∃ X, f.type = "unsigned ".toList ++ X ∧ X.head? ≠ some ';') ∨
      ("unsigned ".toList.isPrefixOf f.type = false ∧ f.type.head? ≠ some ';' ∧
        f.type ≠ "unsigned".toList)) :
    parse_synth_field cfg argc (field_tokens f last ++ R) consumed mem =
      ⟨.ok f, (field_tokens f last).length, mem.tail.tail.tail⟩ := by
  obtain ⟨hn1, hn2⟩ := field_name_of_listed f.name last hname.1 hname.2
  obtain ⟨h1, h2, h3, h4, h5⟩ := hsz
  have hf : f =
      { type := f.type, name := f.name, size := synth_field_size cfg f.type, offset := 0,
        is_signed := synth_field_signed f.type,
        is_string := synth_field_is_string f.type } := by
    cases f
    simp only at h1 h3 h4 h5 ⊢
    rw [h1, h3, h4, h5]
  rw [field_tokens_length] at hargc ⊢
  rw [parse_synth_field_fine cfg argc _ consumed mem hmem]
  rcases htype with ⟨X, hX, hXh⟩ | ⟨hnp, hth, htu⟩
  · have hp := (unsigned_prefix_drop X).1
    rw [← hX] at hp
    rw [if_pos hp] at hargc
    have htok : field_tokens f last ++ R =
        "unsigned".toList :: X :: (f.name ++ (if last then [] else ";".toList)) :: R := by
      unfold field_tokens
      rw [if_pos hp, hX, (unsigned_prefix_drop X).2]
      rfl
    have hu : skip_semi ((field_tokens f last ++ R).getD 0 []) = "unsigned".toList := by
      rw [htok]
      rfl
    have hty : assembled_type (field_tokens f last ++ R) = f.type := by
      unfold assembled_type type_part name_token
      rw [if_pos hu, if_pos hu, htok]
      show "unsigned ".toList ++ skip_semi X ++
        array_suffix (f.name ++ (if last then [] else ";".toList)) = f.type
      rw [skip_semi_id X hXh, hn2, List.append_nil, hX]
    have hnm : field_name_of (name_token (field_tokens f last ++ R)) = f.name := by
      unfold name_token
      rw [if_pos hu, htok]
      exact hn1
    rw [if_neg (by omega), hty, hnm, ← h1, if_neg h2, if_pos hu, if_pos hp, h1]
    rw [← hf]
  · have hp : ¬ "unsigned ".toList.isPrefixOf f.type = true := by
      rw [hnp]; simp
    have htok : field_tokens f last ++ R =
        f.type :: (f.name ++ (if last then [] else ";".toList)) :: R := by
      unfold field_tokens
      rw [if_neg hp]
      rfl
    have hu : ¬ skip_semi ((field_tokens f last ++ R).getD 0 []) = "unsigned".toList := by
      rw [htok]
      show ¬ skip_semi f.type = "unsigned".toList
      rw [skip_semi_id f.type hth]
      exact htu
    have hty : assembled_type (field_tokens f last ++ R) = f.type := by
      unfold assembled_type type_part name_token
      rw [if_neg hu, if_neg hu, htok]
      show skip_semi (skip_semi f.type) ++
        array_suffix (f.name ++ (if last then [] else ";".toList)) = f.type
      rw [skip_semi_id f.type hth, skip_semi_id f.type hth, hn2, List.append_nil]
    have hnm : field_name_of (name_token (field_tokens f last ++ R)) = f.name := by
      unfold name_token
      rw [if_neg hu, htok]
      exact hn1
    rw [if_neg (fun h => hu h.1), hty, hnm, ← h1, if_neg h2, if_neg hu, if_neg hp, h1]
    rw [← hf]

/-- The field loop on the tokens of a listing gives the listed fields
back. -/
theorem field_loop_listed (cfg : Config) (T : List CStr) :
    ∀ (fs : List synth_field) (fuel i : Nat) (acc : List synth_field) (consumed : Nat)
      (mem : List Bool),
      T.drop i = fields_tokens fs → i ≤ T.length → T.length ≤ i + fuel →
      acc.length + fs.length ≤ cfg.SYNTH_FIELDS_MAX →
      (∀ b ∈ mem, b = true) →
      (∀ f ∈ fs,
        (f.size = synth_field_size cfg f.type ∧ f.size ≠ 0 ∧
          f.is_signed = synth_field_signed f.type ∧
          f.is_string = synth_field_is_string f.type ∧ f.offset = 0) ∧
        '[' ∉ f.name ∧
        ((∃ X, f.type = "unsigned ".toList ++ X ∧ X.head? ≠ some ';') ∨
          ("unsigned ".toList.isPrefixOf f.type = false ∧ f.type.head? ≠ some ';' ∧
            f.type ≠ "unsigned".toList))) →
      (∀ f, fs.getLast? = some f → f.name.getLast? ≠ some ';') →
      ∃ m, field_loop cfg T.length T fuel i acc consumed mem =
        some (.ok (T.length, acc ++ fs), m) := by
  intro fs
  induction fs with
  | nil =>
    intro fuel i acc consumed mem hdrop hi _ _ _ _ _
    have hlen : T.length ≤ i := by
      have := congrArg List.length hdrop
      simp only [List.length_drop, fields_tokens, List.length_nil] at this
      omega
    have hiT : i = T.length := by omega
    refine ⟨mem, ?_⟩
    rw [field_loop_done _ _ _ _ _ _ _ _ (by omega), hiT, List.append_nil]
  | cons f rest ih =>
    intro fuel i acc consumed mem hdrop hi hfuel hmax hmem hwf hlast
    obtain ⟨hsz, hbr, htype⟩ := hwf f (by simp)
    have hdrop2 : T.drop i = field_tokens f rest.isEmpty ++ fields_tokens rest := hdrop
    have hL := field_tokens_length f rest.isEmpty
    have hL2 : 2 ≤ (field_tokens f rest.isEmpty).length := by
      rw [hL]; split <;> omega
    have hL3 : (field_tokens f rest.isEmpty).length ≤ 3 := by
      rw [hL]; split <;> omega
    have hlenT : T.length - i =
        (field_tokens f rest.isEmpty).length + (fields_tokens rest).length := by
      have := congrArg List.length hdrop2
      simpa using this
    have hlt : i + 1 < T.length := by omega
    obtain ⟨fuel1, hfuel1⟩ : ∃ fuel1, fuel = fuel1 + 1 := ⟨fuel - 1, by omega⟩
    have hlastf : rest.isEmpty = true → f.name.getLast? ≠ some ';' := by
      intro he
      have : rest = [] := by simpa using he
      subst this
      exact hlast f rfl
    have htok0 : T.getD i [] = (field_tokens f rest.isEmpty).getD 0 [] := by
      have h1 : T.getD i [] = (T.drop i).getD 0 [] := by
        rw [List.getD_eq_getElem?_getD, List.getD_eq_getElem?_getD, List.getElem?_drop,
          Nat.add_zero]
      rw [h1, hdrop2, List.getD_eq_getElem?_getD, List.getD_eq_getElem?_getD,
        List.getElem?_append_left (by omega)]
    have hsep : ¬ strcmp (T.getD i []) ";".toList = 0 := by
      rw [strcmp_eq_zero_iff, htok0]
      unfold field_tokens
      rcases htype with ⟨X, hX, _⟩ | ⟨hnp, hth, _⟩
      · have hp := (unsigned_prefix_drop X).1
        rw [← hX] at hp
        rw [if_pos hp]
        show ¬ "unsigned".toList = ";".toList
        decide
      · rw [if_neg (by rw [hnp]; simp)]
        show ¬ f.type = ";".toList
        intro h
        rw [h] at hth
        exact hth rfl
    have hparse := parse_listed cfg f rest.isEmpty (fields_tokens rest) (T.length - i)
      consumed mem hmem (by omega) hsz ⟨hbr, hlastf⟩ htype
    rw [← hdrop2] at hparse
    have hmem2 : ∀ b ∈ mem.tail.tail.tail, b = true := fun b hb =>
      hmem b (List.mem_of_mem_tail (List.mem_of_mem_tail (List.mem_of_mem_tail hb)))
    have hdrop3 : T.drop (i + (field_tokens f rest.isEmpty).length) = fields_tokens rest := by
      rw [← List.drop_drop, hdrop2, List.drop_left]
    have hlast2 : ∀ g, rest.getLast? = some g → g.name.getLast? ≠ some ';' := by
      intro g hg
      apply hlast g
      cases rest with
      | nil => cases hg
      | cons r rs => rw [List.getLast?_cons_cons]; exact hg
    simp only [List.length_cons] at hmax
    obtain ⟨m, hm⟩ := ih fuel1 (i + (field_tokens f rest.isEmpty).length) (acc ++ [f])
      (field_tokens f rest.isEmpty).length mem.tail.tail.tail hdrop3 (by omega) (by omega)
      (by simp only [List.length_append, List.length_singleton]; omega) hmem2
      (fun g hg => hwf g (by simp [hg])) hlast2
    refine ⟨m, ?_⟩
    rw [hfuel1, field_loop_step _ _ _ _ _ _ _ _ hlt, if_neg hsep, if_neg (by omega), hparse]
    dsimp only
    rw [show i + ((field_tokens f rest.isEmpty).length - 1) + 1 =
      i + (field_tokens f rest.isEmpty).length by omega, hm]
    simp

/-- Every field the loop returns was returned by the parser on the tokens
from some index on, or was there at the start. -/
theorem field_loop_parsed (cfg : Config) (argc : Nat) (argv : List CStr)
    (P : synth_field → Prop)
    (hP : ∀ (argc1 n consumed : Nat) (mem : List Bool) (f : synth_field),
      (parse_synth_field cfg argc1 (argv.drop n) consumed mem).ret = .ok f → P f) :
    ∀ (fuel i : Nat) (fields : List synth_field) (consumed : Nat) (mem : List Bool)
      (i2 : Nat) (fs : List synth_field) (m : List Bool),
      (∀ f ∈ fields, P f) →
      field_loop cfg argc argv fuel i fields consumed mem = some (.ok (i2, fs), m) →
      ∀ f ∈ fs, P f := by
  intro fuel
  induction fuel with
  | zero =>
    intro i fields consumed mem i2 fs m hl h
    by_cases hlt : i + 1 < argc
    · unfold field_loop at h
      rw [if_pos hlt] at h
      cases h
    · rw [field_loop_done _ _ _ _ _ _ _ _ hlt] at h
      injection h with h
      injection h with h1 h2
      injection h1 with h1
      injection h1 with h3 h4
      rw [← h4]; exact hl
  | succ n ih =>
    intro i fields consumed mem i2 fs m hl h
    by_cases hlt : i + 1 < argc
    · rw [field_loop_step _ _ _ _ _ _ _ _ hlt] at h
      split at h
      · exact ih _ _ _ _ _ _ _ hl h
      · split at h
        · cases h
        · rcases hp : parse_synth_field cfg (argc - i) (argv.drop i) consumed mem with
            ⟨ret, c, m1⟩
          rw [hp] at h
          cases ret with
          | err e => cases h
          | ok f =>
            dsimp only at h
            have hf : P f := hP (argc - i) i consumed mem f (by rw [hp])
            refine ih _ _ _ _ _ _ _ ?_ h
            intro g hg
            rcases List.mem_append.mp hg with hg | hg
            · exact hl g hg
            · rw [List.mem_singleton] at hg
              rw [hg]; exact hf
    · rw [field_loop_done _ _ _ _ _ _ _ _ hlt] at h
      injection h with h
      injection h with h1 h2
      injection h1 with h1
      injection h1 with h3 h4
      rw [← h4]; exact hl

theorem skip_semi_subset (s : CStr) (c : Char) (h : c ∈ skip_semi s) : c ∈ s := by
  unfold skip_semi at h
  split at h
  · exact List.mem_cons_of_mem _ h
  · exact h

theorem field_name_of_subset (t : CStr) (c : Char) (h : c ∈ field_name_of t) : c ∈ t := by
  unfold field_name_of at h
  split at h
  · exact (List.takeWhile_sublist _).subset h
  · split at h
    · exact (List.dropLast_sublist _).subset h
    · exact h

theorem field_name_of_no_bracket (t : CStr) : '[' ∉ field_name_of t := by
  unfold field_name_of
  split
  · intro h
    have := List.mem_takeWhile_imp h
    simp at this
  · rename_i hb
    split
    · exact fun h => hb ((List.dropLast_sublist _).subset h)
    · exact hb

theorem getD_drop_ws (argv : List CStr) (hws : ∀ t ∈ argv, ∀ c ∈ t, isspace c = false)
    (n k : Nat) : ∀ c ∈ (argv.drop n).getD k [], isspace c = false := by
  intro c hc
  rw [List.getD_eq_getElem?_getD] at hc
  cases hk : (argv.drop n)[k]? with
  | none => rw [hk] at hc; cases hc
  | some t =>
    rw [hk] at hc
    have ht : t ∈ argv.drop n := List.getElem?_mem hk
    exact hws t (List.mem_of_mem_drop ht) c hc

theorem size_of_odd_types (cfg : Config) :
    synth_field_size cfg [] = 0 ∧ synth_field_size cfg "unsigned".toList = 0 ∧
    synth_field_size cfg "unsigned ".toList = 0 := by
  refine ⟨?_, ?_, ?_⟩ <;>
    exact synth_field_size_other cfg _ (by decide) (by decide)

/-- What the parser returns on tokens without white space. -/
theorem parsed_shape (cfg : Config) (argv : List CStr)
    (hws : ∀ t ∈ argv, ∀ c ∈ t, isspace c = false)
    (argc1 n consumed : Nat) (mem : List Bool) (f : synth_field)
    (h : (parse_synth_field cfg argc1 (argv.drop n) consumed mem).ret = .ok f) :
    (f.size = synth_field_size cfg f.type ∧ f.size ≠ 0 ∧
      f.is_signed = synth_field_signed f.type ∧
      f.is_string = synth_field_is_string f.type ∧ f.offset = 0) ∧
    '[' ∉ f.name ∧ (∀ c ∈ f.name, isspace c = false) ∧
    ((∃ X, f.type = "unsigned ".toList ++ X ∧ X ≠ [] ∧ ∀ c ∈ X, isspace c = false) ∨
      (f.type ≠ [] ∧ (∀ c ∈ f.type, isspace c = false) ∧ f.type ≠ "unsigned".toList)) := by
  obtain ⟨hf, hsize, _, _, _⟩ := parse_synth_field_ok cfg argc1 (argv.drop n) consumed mem f h
  obtain ⟨z1, z2, z3⟩ := size_of_odd_types cfg
  have htype : f.type = assembled_type (argv.drop n) := by rw [hf]
  have hname : f.name = field_name_of (name_token (argv.drop n)) := by rw [hf]
  have hnt : ∀ c ∈ name_token (argv.drop n), isspace c = false := by
    unfold name_token
    split
    · exact getD_drop_ws argv hws n 2
    · exact getD_drop_ws argv hws n 1
  have hsuf : ∀ c ∈ array_suffix (name_token (argv.drop n)), isspace c = false := by
    intro c hc
    exact hnt c ((List.dropWhile_sublist _).subset hc)
  refine ⟨⟨by rw [hf], by rw [hf]; exact hsize, by rw [hf], by rw [hf], by rw [hf]⟩, ?_, ?_, ?_⟩
  · rw [hname]; exact field_name_of_no_bracket _
  · intro c hc
    rw [hname] at hc
    exact hnt c (field_name_of_subset _ c hc)
  · rw [← htype] at hsize
    by_cases hu : skip_semi ((argv.drop n).getD 0 []) = "unsigned".toList
    · left
      refine ⟨skip_semi ((argv.drop n).getD 1 []) ++ array_suffix (name_token (argv.drop n)),
        ?_, ?_, ?_⟩
      · rw [htype]
        unfold assembled_type type_part
        rw [if_pos hu, List.append_assoc]
      · intro hX
        apply hsize
        rw [htype]
        unfold assembled_type type_part
        rw [if_pos hu, List.append_assoc, hX, List.append_nil]
        exact z3
      · intro c hc
        rcases List.mem_append.mp hc with hc | hc
        · exact getD_drop_ws argv hws n 1 c (skip_semi_subset _ c hc)
        · exact hsuf c hc
    · right
      have hty2 : f.type = skip_semi (skip_semi ((argv.drop n).getD 0 [])) ++
          array_suffix (name_token (argv.drop n)) := by
        rw [htype]
        unfold assembled_type type_part
        rw [if_neg hu]
      refine ⟨?_, ?_, ?_⟩
      · intro h0
        apply hsize
        rw [h0]
        exact z1
      · intro c hc
        rw [hty2] at hc
        rcases List.mem_append.mp hc with hc | hc
        · exact getD_drop_ws argv hws n 0 c (skip_semi_subset _ c (skip_semi_subset _ c hc))
        · exact hsuf c hc
      · intro h0
        apply hsize
        rw [h0]
        exact z2

theorem define_fields_loop_keys (cfg : Config) (tdf : Nat → DefineCall → Int) :
    ∀ (fields : List synth_field) (i : Nat) (off : Int) (n : Nat),
      (define_fields_loop cfg tdf fields i off n).fields.map (fun f => { f with offset := 0 }) =
        fields.map (fun f => { f with offset := 0 }) := by
  intro fields
  induction fields with
  | nil => intro i off n; rfl
  | cons f rest ih =>
    intro i off n
    unfold define_fields_loop
    dsimp only
    split
    · rfl
    · split
      · simp only [List.map_cons, ih]
      · simp only [List.map_cons, ih]

theorem register_synth_event_keys (cfg : Config) (env : Env) (w : World)
    (event : synth_event) (mem : List Bool) :
    (register_synth_event cfg env w event mem).2.1.fields.map
        (fun f => { f with offset := 0 }) =
      event.fields.map (fun f => { f with offset := 0 }) := by
  have h2 : (trace_add_event_call cfg env (register_trace_event env w event).2
      event).2.1.fields.map (fun f => { f with offset := 0 }) =
      event.fields.map (fun f => { f with offset := 0 }) := by
    unfold trace_add_event_call
    split
    · rfl
    · unfold synth_event_define_fields
      exact define_fields_loop_keys _ _ _ _ _ _
  have h3 := set_synth_event_print_fmt_frame env
    (trace_add_event_call cfg env (register_trace_event env w event).2 event).2.1
  unfold register_synth_event
  rcases kalloc mem with ⟨b1, m1⟩
  cases b1 with
  | false => rfl
  | true =>
    dsimp only
    rcases kalloc m1 with ⟨b2, m2⟩
    cases b2 with
    | false => rfl
    | true =>
      dsimp only
      rcases kalloc m2 with ⟨b3, m3⟩
      cases b3 with
      | false => rfl
      | true =>
        dsimp only
        have h3' := (h3 m3).2
        split_ifs
        · rfl
        · exact h2
        · rw [h3', h2]
        · rw [h3', h2]

/-- The event that `__create_synth_event` registers has the fields its field
loop returned, with the offsets that the registration has set. -/
theorem create_fields (cfg : Config) (env : Env) (w w1 : World) (argc : Nat) (name : CStr)
    (argv : List CStr)
    (h : __create_synth_event cfg env w argc name argv = some (0, w1)) :
    ∃ (ev : synth_event) (i : Nat) (fields : List synth_field) (m : List Bool),
      w1.dyn_event_list = w.dyn_event_list ++ [.synth ev] ∧
      field_loop cfg argc argv argc 0 [] 0 env.allocs = some (.ok (i, fields), m) ∧
      ev.fields.map (fun f => { f with offset := 0 }) =
        fields.map (fun f => { f with offset := 0 }) := by
  have hE : (-EINVAL : Int) ≠ 0 := by decide
  have hM : (-ENOMEM : Int) ≠ 0 := by decide
  have hX : (-EEXIST : Int) ≠ 0 := by decide
  unfold __create_synth_event at h
  by_cases hg : (byteAt name 0 = 0 || decide (argc < 1)) = true
  · rw [if_pos hg] at h
    injection h with h
    injection h with h1 h2
    exact absurd h1 hE
  · rw [if_neg hg] at h
    cases hf : find_synth_event w name with
    | some p =>
      rw [hf] at h
      injection h with h
      injection h with h1 h2
      exact absurd h1 hX
    | none =>
      rw [hf] at h
      dsimp only at h
      cases hl : field_loop cfg argc argv argc 0 [] 0 env.allocs with
      | none => rw [hl] at h; cases h
      | some r =>
        rcases r with ⟨res, m⟩
        rw [hl] at h
        cases res with
        | err e =>
          dsimp only at h
          have he := field_loop_err cfg argc argv _ _ _ _ _ e m hl
          injection h with h
          injection h with h1 h2
          rcases he with he | he
          · rw [he] at h1; exact absurd h1 hE
          · rw [he] at h1; exact absurd h1 hM
        | ok p =>
          rcases p with ⟨i, fields⟩
          dsimp only at h
          by_cases hs : i < argc ∧ strcmp (argv.getD i []) ";".toList ≠ 0
          · rw [if_pos hs] at h
            injection h with h
            injection h with h1 h2
            exact absurd h1 hE
          · rw [if_neg hs] at h
            rcases alloc_synth_event_cases name fields m with ⟨m2, ha⟩ | ⟨m2, ha⟩
            · rw [ha] at h
              injection h with h
              injection h with h1 h2
              exact absurd h1 hM
            · rw [ha] at h
              dsimp only at h
              have hfr := register_synth_event_frame cfg env w
                { name := name, fields := fields, n_u64 := 0, ref := 0, mod := none,
                  print_fmt := none } m2
              have hk := register_synth_event_keys cfg env w
                { name := name, fields := fields, n_u64 := 0, ref := 0, mod := none,
                  print_fmt := none } m2
              by_cases hr : (register_synth_event cfg env w
                { name := name, fields := fields, n_u64 := 0, ref := 0, mod := none,
                  print_fmt := none } m2).1 = 0
              · rw [if_pos hr] at h
                injection h with h
                injection h with h1 h2
                refine ⟨_, i, fields, m, ?_, rfl, hk⟩
                rw [← h2]
                unfold dyn_event_add
                dsimp only
                rw [hfr.1]
              · rw [if_neg hr] at h
                injection h with h
                injection h with h1 h2
                exact absurd h1 hr

theorem show_fields_keys :
    ∀ fs : List synth_field,
      show_fields (fs.map (fun f => { f with offset := 0 })) = show_fields fs := by
  intro fs
  induction fs with
  | nil => rfl
  | cons f rest ih =>
    rw [List.map_cons]
    unfold show_fields
    rw [ih]
    cases rest <;> rfl

theorem listing_tokens_eq (event : synth_event) :
    listing_tokens event = split_ws (show_fields event.fields ++ [Char.ofNat 10]) := by
  unfold listing_tokens __synth_event_show
  dsimp only
  have e : event.name ++ [Char.ofNat 9] ++ show_fields event.fields ++ [Char.ofNat 10] =
      (event.name ++ [Char.ofNat 9]) ++ (show_fields event.fields ++ [Char.ofNat 10]) := by
    simp
  have hl : event.name.length + 1 = (event.name ++ [Char.ofNat 9]).length := by simp
  rw [e, hl, List.drop_left]

/-- C37 (amended): the listing round trip holds for the events whose stored
types do not begin with ';' (nor with "unsigned ;") and whose last field has
a name that is not empty and does not end in ';'. For an event that
`__create_synth_event` has registered from tokens without white space, the
field text that `__synth_event_show` prints after the event name, split on
white space and fed to the field loop (with allocations that succeed), makes
the loop run to the end of the tokens and return the fields of the event:
the same type strings, names, sizes, `is_string` and `is_signed`, the offsets
being those of freshly parsed fields. -/
theorem listing_round_trip (cfg : Config) (env : Env) (w w1 : World) (argc : Nat)
    (name : CStr) (argv : List CStr) (mem2 : List Bool)
    (hcreate : __create_synth_event cfg env w argc name argv = some (0, w1))
    (hws : ∀ t ∈ argv, ∀ c ∈ t, isspace c = false)
    (hmem2 : ∀ b ∈ mem2, b = true) :
    ∃ ev : synth_event, w1.dyn_event_list = w.dyn_event_list ++ [.synth ev] ∧
      ((∀ f ∈ ev.fields, f.type.head? ≠ some ';' ∧ ¬ "unsigned ;".toList <+: f.type) →
        (∀ f, ev.fields.getLast? = some f → f.name ≠ [] ∧ f.name.getLast? ≠ some ';') →
        ∃ m, field_loop cfg (listing_tokens ev).length (listing_tokens ev)
            (listing_tokens ev).length 0 [] 0 mem2 =
          some (.ok ((listing_tokens ev).length,
            ev.fields.map (fun f => { f with offset := 0 })), m)) := by
  obtain ⟨ev, i, fields, m, hlist, hloop, hkeys⟩ := create_fields cfg env w w1 argc name argv
    hcreate
  have hshape := field_loop_parsed cfg argc argv _
    (parsed_shape cfg argv hws) argc 0 [] 0 env.allocs i fields m
    (fun f hf => by cases hf) hloop
  have hlen := field_loop_len cfg argc argv _ _ _ _ _ i fields m (Nat.zero_le _) hloop
  have hfk : fields.map (fun f => { f with offset := 0 }) = fields := by
    conv_rhs => rw [← List.map_id fields]
    apply List.map_congr_left
    intro f hf
    have h0 := (hshape f hf).1.2.2.2.2
    cases f
    simp only at h0
    simp [h0]
  rw [hfk] at hkeys
  refine ⟨ev, hlist, fun htype hlast => ?_⟩
  rw [hkeys]
  have htype2 : ∀ f ∈ fields,
      f.type.head? ≠ some ';' ∧ ¬ "unsigned ;".toList <+: f.type := by
    intro f hf
    rw [← hkeys] at hf
    obtain ⟨g, hg, hgf⟩ := List.mem_map.mp hf
    rw [← hgf]
    exact htype g hg
  have hlast2 : ∀ f, fields.getLast? = some f →
      f.name ≠ [] ∧ f.name.getLast? ≠ some ';' := by
    intro f hf
    rw [← hkeys, List.getLast?_map] at hf
    cases hg : ev.fields.getLast? with
    | none => rw [hg] at hf; cases hf
    | some g =>
      rw [hg] at hf
      injection hf with hf
      rw [← hf]
      exact hlast g hg
  have htok : listing_tokens ev = fields_tokens fields := by
    rw [listing_tokens_eq, ← show_fields_keys ev.fields, hkeys]
    apply split_show_fields
    · intro f hf
      obtain ⟨_, _, hn, ht⟩ := hshape f hf
      refine ⟨?_, hn⟩
      rcases ht with ht | ⟨h1, h2, _⟩
      · exact Or.inl ht
      · exact Or.inr ⟨h1, h2⟩
    · intro f hf
      exact (hlast2 f hf).1
  have hrewf : ∀ f ∈ fields,
      (f.size = synth_field_size cfg f.type ∧ f.size ≠ 0 ∧
        f.is_signed = synth_field_signed f.type ∧
        f.is_string = synth_field_is_string f.type ∧ f.offset = 0) ∧
      '[' ∉ f.name ∧
      ((∃ X, f.type = "unsigned ".toList ++ X ∧ X.head? ≠ some ';') ∨
        ("unsigned ".toList.isPrefixOf f.type = false ∧ f.type.head? ≠ some ';' ∧
          f.type ≠ "unsigned".toList)) := by
    intro f hf
    obtain ⟨h1, h2, _, ht⟩ := hshape f hf
    obtain ⟨hh, hnp⟩ := htype2 f hf
    refine ⟨h1, h2, ?_⟩
    rcases ht with ⟨X, hX, _, _⟩ | ⟨_, hws2, hnu⟩
    · left
      refine ⟨X, hX, ?_⟩
      intro hhead
      apply hnp
      cases X with
      | nil => cases hhead
      | cons c X1 =>
        simp only [List.head?_cons, Option.some.injEq] at hhead
        rw [hX, hhead]
        exact ⟨X1, by simp⟩
    · right
      refine ⟨?_, hh, hnu⟩
      cases hp : "unsigned ".toList.isPrefixOf f.type with
      | false => rfl
      | true =>
        obtain ⟨c, hc, hsp⟩ := unsigned_prefix_space f.type hp
        rw [hws2 c hc] at hsp
        cases hsp
  rw [htok]
  obtain ⟨m2, hm2⟩ := field_loop_listed cfg (fields_tokens fields) fields
    (fields_tokens fields).length 0 [] 0 mem2 (by simp) (Nat.zero_le _) (by omega)
    (by simpa using hlen) hmem2 hrewf (fun f hf => (hlast2 f hf).2)
  exact ⟨m2, by simpa using hm2⟩

/-- C37 on the event `e` with the fields `u64 a` and `unsigned int b`. -/
theorem listing_round_trip_witness :
    ∃ w1, __create_synth_event linux64 Env.fine ⟨[], [], [], 0⟩ 5 "e".toList
        ["u64".toList, "a;".toList, "unsigned".toList, "int".toList, "b".toList] =
        some (0, w1) ∧
      ∃ ev : synth_event, w1.dyn_event_list = [] ++ [.synth ev] ∧
        ((∀ f ∈ ev.fields, f.type.head? ≠ some ';' ∧ ¬ "unsigned ;".toList <+: f.type) →
          (∀ f, ev.fields.getLast? = some f → f.name ≠ [] ∧ f.name.getLast? ≠ some ';') →
          ∃ m, field_loop linux64 (listing_tokens ev).length (listing_tokens ev)
              (listing_tokens ev).length 0 [] 0 [] =
            some (.ok ((listing_tokens ev).length,
              ev.fields.map (fun f => { f with offset := 0 })), m)) := by
  have h : (__create_synth_event linux64 Env.fine ⟨[], [], [], 0⟩ 5 "e".toList
      ["u64".toList, "a;".toList, "unsigned".toList, "int".toList, "b".toList]).map
      (fun r => r.1) = some 0 := by decide
  cases hc : __create_synth_event linux64 Env.fine ⟨[], [], [], 0⟩ 5 "e".toList
      ["u64".toList, "a;".toList, "unsigned".toList, "int".toList, "b".toList] with
  | none => rw [hc] at h; cases h
  | some r =>
    obtain ⟨ret, w1⟩ := r
    rw [hc] at h
    injection h with h
    dsimp only at h
    subst h
    exact ⟨w1, rfl, listing_round_trip linux64 Env.fine ⟨[], [], [], 0⟩ w1 5 "e".toList
      ["u64".toList, "a;".toList, "unsigned".toList, "int".toList, "b".toList] [] hc
      (by decide) (by simp)⟩

/-- C37, as stated, fails: `__create_synth_event` accepts the tokens `u64 a;;`
and registers an event whose field is named "a;"; the listing prints
`u64 a;`, and the field loop on the tokens `u64`, `a;` returns a field named
"a". -/
theorem listing_round_trip_counterexample :
    (__create_synth_event linux64 Env.fine ⟨[], [], [], 0⟩ 2 "e".toList
      ["u64".toList, "a;;".toList]).map
        (fun r => (r.1, r.2.dyn_event_list)) =
      some (0, [.synth ⟨"e".toList, [⟨"u64".toList, "a;".toList, 8, 0, false, false⟩], 1, 0,
        none, some ([Char.ofNat 34] ++ "a;=%llu".toList ++ [Char.ofNat 34] ++
          ", REC->a;".toList ++ [Char.ofNat 0])⟩]) ∧
    listing_tokens ⟨"e".toList, [⟨"u64".toList, "a;".toList, 8, 0, false, false⟩], 1, 0,
        none, some ([Char.ofNat 34] ++ "a;=%llu".toList ++ [Char.ofNat 34] ++
          ", REC->a;".toList ++ [Char.ofNat 0])⟩ =
      ["u64".toList, "a;".toList] ∧
    field_loop linux64 2 ["u64".toList, "a;".toList] 2 0 [] 0 [] =
      some (.ok (2, [⟨"u64".toList, "a".toList, 8, 0, false, false⟩]), []) ∧
    "a".toList ≠ "a;".toList := by
  decide

/-! ## Theorems: the length of the print format -/

/-- The writing pass of `__set_synth_event_print_fmt` into a buffer with room
for the text and its NUL: the buffer and the returned length. -/
theorem print_fmt_write_pair (event : synth_event) (c : Char) (rest : List Char)
    (hroom : rest.length = (print_fmt_text event).length) :
    __set_synth_event_print_fmt event (c :: rest) (rest.length + 1) =
      (print_fmt_text event ++ [Char.ofNat 0], (print_fmt_text event).length) := by
  unfold print_fmt_text at hroom ⊢
  generalize hT : List.intercalate ", ".toList
    (event.fields.map (fun f => f.name ++ "=".toList ++ synth_field_fmt f.type)) = T at hroom ⊢
  generalize hA : (event.fields.map (fun f => ", REC->".toList ++ f.name)).flatten = A
    at hroom ⊢
  simp only [List.length_append, List.length_singleton] at hroom
  unfold __set_synth_event_print_fmt
  dsimp only
  have h1 := snprintf_room [] c rest [Char.ofNat 34] (rest.length + 1) (by simp)
    (by simp; omega)
  simp only [List.length_nil, List.nil_append, List.length_singleton] at h1
  rw [h1]
  dsimp only
  have h2 := print_fmt_items_room (rest.length + 1) event.fields [Char.ofNat 34]
    (rest.drop 1) (by simp; omega) (by rw [hT, List.length_drop]; omega)
  rw [hT] at h2
  simp only [List.length_singleton] at h2
  rw [Nat.zero_add, h2]
  dsimp only
  have h3 := snprintf_room ([Char.ofNat 34] ++ T) (Char.ofNat 0)
    ((rest.drop 1).drop T.length) [Char.ofNat 34] (rest.length + 1)
    (by simp; omega) (by simp; omega)
  simp only [List.length_append, List.length_singleton] at h3
  rw [h3]
  dsimp only
  have h4 := print_fmt_args_room (rest.length + 1) event.fields
    ([Char.ofNat 34] ++ T ++ [Char.ofNat 34]) (((rest.drop 1).drop T.length).drop 1)
    (by simp; omega) (by rw [hA]; simp; omega)
  rw [hA] at h4
  simp only [List.length_append, List.length_singleton] at h4
  rw [h4]
  rw [List.drop_of_length_le (by simp; omega)]
  simp only [List.length_append, List.length_singleton]

/-- C38: the sizing pass `__set_synth_event_print_fmt(event, NULL, 0)` returns
the length of the text of the print format; the writing pass into any buffer
of that length plus one stores the whole text followed by a NUL and returns
the same length; so the print format stored by `set_synth_event_print_fmt`
(when its allocation succeeds) is the whole text, with its NUL at the index
the sizing pass computed and nothing after it. -/
theorem print_fmt_not_truncated (env : Env) (event : synth_event) :
    (__set_synth_event_print_fmt event [] 0).2 = (print_fmt_text event).length ∧
    (∀ buf : List Char, buf.length = (__set_synth_event_print_fmt event [] 0).2 + 1 →
      __set_synth_event_print_fmt event buf
          ((__set_synth_event_print_fmt event [] 0).2 + 1) =
        (print_fmt_text event ++ [Char.ofNat 0],
          (__set_synth_event_print_fmt event [] 0).2)) ∧
    (∀ mem m : List Bool, kalloc mem = (true, m) →
      (set_synth_event_print_fmt env event mem).1 = 0 ∧
      (set_synth_event_print_fmt env event mem).2.1.print_fmt =
        some (print_fmt_text event ++ [Char.ofNat 0]) ∧
      (print_fmt_text event ++ [Char.ofNat 0]).length =
        (__set_synth_event_print_fmt event [] 0).2 + 1 ∧
      (print_fmt_text event ++ [Char.ofNat 0])[(__set_synth_event_print_fmt event [] 0).2]? =
        some (Char.ofNat 0)) := by
  have hsize : (__set_synth_event_print_fmt event [] 0).2 = (print_fmt_text event).length := by
    rw [print_fmt_size]
    rfl
  have hwrite : ∀ buf : List Char, buf.length = (print_fmt_text event).length + 1 →
      __set_synth_event_print_fmt event buf ((print_fmt_text event).length + 1) =
        (print_fmt_text event ++ [Char.ofNat 0], (print_fmt_text event).length) := by
    intro buf hbuf
    cases buf with
    | nil => simp at hbuf
    | cons c rest =>
      have hr : rest.length = (print_fmt_text event).length := by
        simpa using hbuf
      have := print_fmt_write_pair event c rest hr
      rw [hr] at this
      exact this
  refine ⟨hsize, ?_, ?_⟩
  · intro buf hbuf
    rw [hsize] at hbuf ⊢
    exact hwrite buf hbuf
  · intro mem m hk
    have hst : set_synth_event_print_fmt env event mem =
        (0, { event with print_fmt := some (print_fmt_text event ++ [Char.ofNat 0]) }, m) := by
      unfold set_synth_event_print_fmt
      rw [hk]
      dsimp only
      rw [hsize, hwrite _ (by rw [List.length_replicate])]
    rw [hst, hsize]
    refine ⟨rfl, rfl, ?_, ?_⟩
    · simp
    · simp

end SynthEvents

namespace DmaDirect

/-! ## Theorems: DMA address translation -/

/-- The loop of `translate_phys_to_dma` on a map in which no region before
the entry of size 0 holds the address. -/
theorem translate_phys_to_dma_loop_miss (a : Arch) (paddr : Nat) :
    ∀ (pre : List bus_dma_region) (t : bus_dma_region) (post : List bus_dma_region),
      (∀ m ∈ pre, m.size ≠ 0 ∧ ¬ (paddr ≥ m.cpu_start ∧ paddr - m.cpu_start < m.size)) →
      t.size = 0 →
      translate_phys_to_dma_loop a paddr (pre ++ t :: post) = some a.DMA_MAPPING_ERROR := by
  intro pre
  induction pre with
  | nil =>
    intro t post _ ht
    simp [translate_phys_to_dma_loop, ht]
  | cons m ms ih =>
    intro t post h ht
    have hm := h m (by simp)
    rw [List.cons_append]
    unfold translate_phys_to_dma_loop
    rw [if_neg hm.1, if_neg hm.2]
    exact ih t post (fun x hx => h x (by simp [hx])) ht

/-- C28: for every device with a range map that ends with an entry of size 0,
and every physical address that lies in none of the regions before that
entry, `translate_phys_to_dma` returns `DMA_MAPPING_ERROR`; `dma_capable`
returns false for the address `DMA_MAPPING_ERROR` whatever the device, the
size and `is_ram` are; so `dma_capable` fails on what `phys_to_dma` gives for
such an address, `__sme_set` leaving `DMA_MAPPING_ERROR` as it is. -/
theorem no_translation_not_capable (a : Arch) (dev : device) (paddr : Nat)
    (pre : List bus_dma_region) (t : bus_dma_region) (post : List bus_dma_region)
    (hmap : dev.dma_range_map = some (pre ++ t :: post))
    (hpre : ∀ m ∈ pre, m.size ≠ 0 ∧
      ¬ (paddr ≥ m.cpu_start ∧ paddr - m.cpu_start < m.size))
    (ht : t.size = 0) :
    translate_phys_to_dma a dev paddr = some a.DMA_MAPPING_ERROR ∧
    (∀ (dev2 : device) (size : Nat) (is_ram : Bool),
      dma_capable a dev2 a.DMA_MAPPING_ERROR size is_ram = some false) ∧
    (a.__sme_set a.DMA_MAPPING_ERROR = a.DMA_MAPPING_ERROR →
      ∀ (size : Nat) (is_ram : Bool),
        (phys_to_dma a dev paddr).bind (fun addr => dma_capable a dev addr size is_ram) =
          some false) := by
  have h1 : translate_phys_to_dma a dev paddr = some a.DMA_MAPPING_ERROR := by
    unfold translate_phys_to_dma
    rw [hmap]
    exact translate_phys_to_dma_loop_miss a paddr pre t post hpre ht
  have h2 : ∀ (dev2 : device) (size : Nat) (is_ram : Bool),
      dma_capable a dev2 a.DMA_MAPPING_ERROR size is_ram = some false := by
    intro dev2 size is_ram
    unfold dma_capable
    dsimp only
    rw [if_pos rfl]
  refine ⟨h1, h2, ?_⟩
  intro hsme size is_ram
  unfold phys_to_dma phys_to_dma_unencrypted
  rw [hmap]
  simp only [Option.isSome_some, if_true]
  rw [h1, Option.map_some', hsme]
  exact h2 dev size is_ram

/-- C28 on a map with one region of 4096 bytes at 0x1000 and the address
0x3000. -/
theorem no_translation_not_capable_witness :
    translate_phys_to_dma arch64 ⟨some [⟨4096, 0, 4096, 4096⟩, ⟨0, 0, 0, 0⟩], some 4095, 0⟩
      12288 = some arch64.DMA_MAPPING_ERROR :=
  (no_translation_not_capable arch64 ⟨some [⟨4096, 0, 4096, 4096⟩, ⟨0, 0, 0, 0⟩], some 4095, 0⟩
    12288 [⟨4096, 0, 4096, 4096⟩] ⟨0, 0, 0, 0⟩ [] rfl
    (fun m hm => by
      rw [List.mem_singleton] at hm
      subst hm
      decide)
    rfl).1

/-! ## Theorems: the translation round trip -/

/-- The value `(dma_addr_t)paddr - m->offset` for an address inside a region
whose offset is the difference of its starts. -/
theorem phys_to_dma_value (a : Arch) (m : bus_dma_region) (p : Nat)
    (hd : a.dma_bits ≤ 64)
    (hoff : m.offset = (m.cpu_start + 2 ^ 64 - m.dma_start) % 2 ^ 64)
    (hdma : m.dma_start + m.size ≤ 2 ^ a.dma_bits)
    (hlo : m.cpu_start ≤ p) (hhi : p - m.cpu_start < m.size) :
    (p % 2 ^ a.dma_bits + 2 ^ 64 - m.offset % 2 ^ 64) % 2 ^ 64 % 2 ^ a.dma_bits =
      m.dma_start + (p - m.cpu_start) := by
  have hDW : 2 ^ a.dma_bits ∣ 2 ^ 64 := pow_dvd_pow 2 hd
  have hDle : 2 ^ a.dma_bits ≤ 2 ^ 64 := Nat.pow_le_pow_right (by norm_num) hd
  generalize hD : 2 ^ a.dma_bits = D at *
  generalize hW : 2 ^ 64 = W at *
  have hWpos : 0 < W := by rw [← hW]; positivity
  rw [Nat.mod_mod_of_dvd _ hDW]
  have ho : m.offset % W < W := Nat.mod_lt _ hWpos
  have hT : m.dma_start + (p - m.cpu_start) < D := by omega
  rw [← Nat.mod_eq_of_lt hT]
  apply Nat.ModEq.add_right_cancel' (m.offset % W)
  have e1 : p % D + W - m.offset % W + m.offset % W = p % D + W := by omega
  rw [e1]
  have c1 : p % D + W ≡ p [MOD D] := by
    have h1 : p % D ≡ p [MOD D] := Nat.mod_modEq p D
    have h2 : W ≡ 0 [MOD D] := (Nat.modEq_zero_iff_dvd).mpr hDW
    simpa using h1.add h2
  have c2 : m.dma_start + (p - m.cpu_start) + m.offset % W ≡ p [MOD D] := by
    have h3 : m.offset % W ≡ m.cpu_start + W - m.dma_start [MOD D] := by
      rw [hoff, Nat.mod_mod]
      exact (Nat.mod_modEq _ W).of_dvd hDW
    have h4 : m.dma_start + (p - m.cpu_start) + (m.cpu_start + W - m.dma_start) = p + W := by
      omega
    have h5 : p + W ≡ p [MOD D] := by
      have h2 : W ≡ 0 [MOD D] := (Nat.modEq_zero_iff_dvd).mpr hDW
      simpa using (Nat.ModEq.refl p).add h2
    have h6 := (Nat.ModEq.refl (m.dma_start + (p - m.cpu_start))).add h3
    rw [h4] at h6
    exact h6.trans h5
  exact c1.trans c2.symm

/-- The value `(phys_addr_t)dma_addr + m->offset` for an address inside a
region whose offset is the difference of its starts. -/
theorem dma_to_phys_value (a : Arch) (m : bus_dma_region) (d : Nat)
    (hp : a.phys_bits ≤ 64)
    (hoff : m.offset = (m.cpu_start + 2 ^ 64 - m.dma_start) % 2 ^ 64)
    (hdma : m.dma_start ≤ 2 ^ 64)
    (hcpu : m.cpu_start + m.size ≤ 2 ^ a.phys_bits)
    (hlo : m.dma_start ≤ d) (hhi : d - m.dma_start < m.size) :
    (d % 2 ^ a.phys_bits + m.offset % 2 ^ 64) % 2 ^ 64 % 2 ^ a.phys_bits =
      m.cpu_start + (d - m.dma_start) := by
  have hPW : 2 ^ a.phys_bits ∣ 2 ^ 64 := pow_dvd_pow 2 hp
  generalize hP : 2 ^ a.phys_bits = P at *
  generalize hW : 2 ^ 64 = W at *
  rw [Nat.mod_mod_of_dvd _ hPW]
  have hT : m.cpu_start + (d - m.dma_start) < P := by omega
  rw [← Nat.mod_eq_of_lt hT]
  have h1 : d % P ≡ d [MOD P] := Nat.mod_modEq d P
  have h3 : m.offset % W ≡ m.cpu_start + W - m.dma_start [MOD P] := by
    rw [hoff, Nat.mod_mod]
    exact (Nat.mod_modEq _ W).of_dvd hPW
  have h4 : d + (m.cpu_start + W - m.dma_start) = m.cpu_start + (d - m.dma_start) + W := by
    omega
  have h5 : m.cpu_start + (d - m.dma_start) + W ≡ m.cpu_start + (d - m.dma_start) [MOD P] := by
    have h2 : W ≡ 0 [MOD P] := (Nat.modEq_zero_iff_dvd).mpr hPW
    simpa using (Nat.ModEq.refl (m.cpu_start + (d - m.dma_start))).add h2
  have h6 := h1.add h3
  rw [h4] at h6
  exact h6.trans h5

/-- The loop of `translate_phys_to_dma` stops at the one region that holds
the address. -/
theorem translate_phys_to_dma_loop_hit (a : Arch) (p : Nat) (m : bus_dma_region)
    (hlo : m.cpu_start ≤ p) (hhi : p - m.cpu_start < m.size) :
    ∀ (regions rest : List bus_dma_region),
      (∀ r ∈ regions, r.size ≠ 0) →
      regions.Pairwise (fun r s =>
        r.cpu_start + r.size ≤ s.cpu_start ∨ s.cpu_start + s.size ≤ r.cpu_start) →
      m ∈ regions →
      translate_phys_to_dma_loop a p (regions ++ rest) =
        some ((p % 2 ^ a.dma_bits + 2 ^ 64 - m.offset % 2 ^ 64) % 2 ^ 64 % 2 ^ a.dma_bits) := by
  intro regions
  induction regions with
  | nil => intro rest _ _ hm; cases hm
  | cons r rs ih =>
    intro rest hsz hpw hm
    rw [List.pairwise_cons] at hpw
    rw [List.cons_append]
    unfold translate_phys_to_dma_loop
    rw [if_neg (hsz r (by simp))]
    rcases List.mem_cons.mp hm with heq | hin
    · subst heq
      rw [if_pos ⟨hlo, hhi⟩]
    · have hdis := hpw.1 m hin
      rw [if_neg (by omega)]
      exact ih rest (fun x hx => hsz x (by simp [hx])) hpw.2 hin

/-- The loop of `translate_dma_to_phys` stops at the one region that holds
the address. -/
theorem translate_dma_to_phys_loop_hit (a : Arch) (d : Nat) (m : bus_dma_region)
    (hlo : m.dma_start ≤ d) (hhi : d - m.dma_start < m.size) :
    ∀ (regions rest : List bus_dma_region),
      (∀ r ∈ regions, r.size ≠ 0) →
      regions.Pairwise (fun r s =>
        r.dma_start + r.size ≤ s.dma_start ∨ s.dma_start + s.size ≤ r.dma_start) →
      m ∈ regions →
      translate_dma_to_phys_loop a d (regions ++ rest) =
        some ((d % 2 ^ a.phys_bits + m.offset % 2 ^ 64) % 2 ^ 64 % 2 ^ a.phys_bits) := by
  intro regions
  induction regions with
  | nil => intro rest _ _ hm; cases hm
  | cons r rs ih =>
    intro rest hsz hpw hm
    rw [List.pairwise_cons] at hpw
    rw [List.cons_append]
    unfold translate_dma_to_phys_loop
    rw [if_neg (hsz r (by simp))]
    rcases List.mem_cons.mp hm with heq | hin
    · subst heq
      rw [if_pos ⟨hlo, hhi⟩]
    · have hdis := hpw.1 m hin
      rw [if_neg (by omega)]
      exact ih rest (fun x hx => hsz x (by simp [hx])) hpw.2 hin

/-- C39: the two translations are inverse to each other on the regions of a
range map. The map starts with the regions `regions`, each of non-zero size,
and goes on with `rest` (the entry of size 0 that ends it, and whatever
follows in memory); each region has `offset = cpu_start - dma_start` modulo
2^64 and does not wrap (its CPU range ends within `phys_addr_t`, its DMA range
within `dma_addr_t`); the CPU ranges are pairwise disjoint and so are the DMA
ranges; the two address types have at most 64 bits. Then for every physical
address `p` inside a region, `translate_phys_to_dma` returns the DMA address
at the same distance from the start of that region and `translate_dma_to_phys`
takes it back to `p`; and for every DMA address `d` inside a region,
`translate_dma_to_phys` returns the physical address at the same distance and
`translate_phys_to_dma` takes it back to `d`. -/
theorem translate_round_trip (a : Arch) (dev : device)
    (regions rest : List bus_dma_region)
    (hp : a.phys_bits ≤ 64) (hd : a.dma_bits ≤ 64)
    (hmap : dev.dma_range_map = some (regions ++ rest))
    (hreg : ∀ r ∈ regions, r.size ≠ 0 ∧
      r.offset = (r.cpu_start + 2 ^ 64 - r.dma_start) % 2 ^ 64 ∧
      r.cpu_start + r.size ≤ 2 ^ a.phys_bits ∧ r.dma_start + r.size ≤ 2 ^ a.dma_bits)
    (hcpu : regions.Pairwise (fun r s =>
      r.cpu_start + r.size ≤ s.cpu_start ∨ s.cpu_start + s.size ≤ r.cpu_start))
    (hdma : regions.Pairwise (fun r s =>
      r.dma_start + r.size ≤ s.dma_start ∨ s.dma_start + s.size ≤ r.dma_start)) :
    (∀ (m : bus_dma_region) (p : Nat), m ∈ regions →
      m.cpu_start ≤ p → p < m.cpu_start + m.size →
      translate_phys_to_dma a dev p = some (m.dma_start + (p - m.cpu_start)) ∧
      translate_dma_to_phys a dev (m.dma_start + (p - m.cpu_start)) = some p) ∧
    (∀ (m : bus_dma_region) (d : Nat), m ∈ regions →
      m.dma_start ≤ d → d < m.dma_start + m.size →
      translate_dma_to_phys a dev d = some (m.cpu_start + (d - m.dma_start)) ∧
      translate_phys_to_dma a dev (m.cpu_start + (d - m.dma_start)) = some d) := by
  have hsz : ∀ r ∈ regions, r.size ≠ 0 := fun r hr => (hreg r hr).1
  have hDle : 2 ^ a.dma_bits ≤ 2 ^ 64 := Nat.pow_le_pow_right (by norm_num) hd
  have fwd : ∀ (m : bus_dma_region) (p : Nat), m ∈ regions →
      m.cpu_start ≤ p → p - m.cpu_start < m.size →
      translate_phys_to_dma a dev p = some (m.dma_start + (p - m.cpu_start)) := by
    intro m p hm hlo hhi
    obtain ⟨_, hoff, _, hdm⟩ := hreg m hm
    unfold translate_phys_to_dma
    rw [hmap]
    dsimp only
    rw [translate_phys_to_dma_loop_hit a p m hlo hhi regions rest hsz hcpu hm,
      phys_to_dma_value a m p hd hoff hdm hlo hhi]
  have bwd : ∀ (m : bus_dma_region) (d : Nat), m ∈ regions →
      m.dma_start ≤ d → d - m.dma_start < m.size →
      translate_dma_to_phys a dev d = some (m.cpu_start + (d - m.dma_start)) := by
    intro m d hm hlo hhi
    obtain ⟨_, hoff, hcp, hdm⟩ := hreg m hm
    unfold translate_dma_to_phys
    rw [hmap]
    dsimp only
    rw [translate_dma_to_phys_loop_hit a d m hlo hhi regions rest hsz hdma hm,
      dma_to_phys_value a m d hp hoff (by omega) hcp hlo hhi]
  constructor
  · intro m p hm hlo hhi
    refine ⟨fwd m p hm hlo (by omega), ?_⟩
    have := bwd m (m.dma_start + (p - m.cpu_start)) hm (by omega) (by omega)
    rw [this]
    congr 1
    omega
  · intro m d hm hlo hhi
    refine ⟨bwd m d hm hlo (by omega), ?_⟩
    have := fwd m (m.cpu_start + (d - m.dma_start)) hm (by omega) (by omega)
    rw [this]
    congr 1
    omega

/-- C39 on a map with two regions of 4096 bytes, the second with a DMA
address below its CPU address, on a 64-bit build. -/
theorem translate_round_trip_witness :
    translate_phys_to_dma arch64
        ⟨some [⟨4096, 0, 4096, 4096⟩, ⟨0, 8192, 4096, 2 ^ 64 - 8192⟩, ⟨0, 0, 0, 0⟩],
          some 4095, 0⟩ 100 = some (8192 + (100 - 0)) ∧
    translate_dma_to_phys arch64
        ⟨some [⟨4096, 0, 4096, 4096⟩, ⟨0, 8192, 4096, 2 ^ 64 - 8192⟩, ⟨0, 0, 0, 0⟩],
          some 4095, 0⟩ (8192 + (100 - 0)) = some 100 :=
  (translate_round_trip arch64
    ⟨some [⟨4096, 0, 4096, 4096⟩, ⟨0, 8192, 4096, 2 ^ 64 - 8192⟩, ⟨0, 0, 0, 0⟩],
      some 4095, 0⟩
    [⟨4096, 0, 4096, 4096⟩, ⟨0, 8192, 4096, 2 ^ 64 - 8192⟩] [⟨0, 0, 0, 0⟩]
    (by decide) (by decide) rfl (by decide) (by decide) (by decide)).1
    ⟨0, 8192, 4096, 2 ^ 64 - 8192⟩ 100 (by decide) (by decide) (by decide)

end DmaDirect

namespace MtkNor

/-! ## Theorems: read sizes of the NOR controller -/

theorem match_read_nbytes (op : spi_mem_op) (n : Nat) :
    mtk_nor_match_read { op with data_nbytes := n } = mtk_nor_match_read op := rfl

/-- The op after `mtk_nor_adjust_op_size` for a read that the controller
does by itself. -/
theorem adjust_read (p : Platform) (op : spi_mem_op)
    (haddr : op.addr_nbytes = 3 ∨ op.addr_nbytes = 4)
    (hdir : op.data_dir = .SPI_MEM_DATA_IN) (hmatch : mtk_nor_match_read op = true)
    (hlen : op.data_nbytes ≠ 0) (hpage : 16 ≤ p.PAGE_SIZE) :
    ∃ N, mtk_nor_adjust_op_size p op = (0, { op with data_nbytes := N }) ∧
      N ≤ 0x400000 ∧ N ≠ 0 ∧ N ≤ op.data_nbytes ∧
      (N = 1 ∨
        (op.addr_val % 16 = 0 ∧ 16 ≤ N ∧
          ((op.data_buf % 16 = 0 ∧ N % 16 = 0) ∨
           (op.data_buf % 16 ≠ 0 ∧ N ≤ MTK_NOR_BOUNCE_BUF_SIZE p)))) := by
  unfold mtk_nor_adjust_op_size
  rw [if_neg hlen, if_pos ⟨haddr, hdir, hmatch⟩]
  simp only [MTK_NOR_DMA_ALIGN, MTK_NOR_BOUNCE_BUF_SIZE]
  by_cases hbig : op.data_nbytes > 0x400000
  · rw [if_pos hbig]
    dsimp only
    by_cases h1 : op.addr_val % 16 ≠ 0 ∨ 0x400000 < 16
    · rw [if_pos h1]
      exact ⟨1, rfl, by omega, by omega, by omega, Or.inl rfl⟩
    · rw [if_neg h1]
      have ha : op.addr_val % 16 = 0 := by omega
      by_cases h2 : op.data_buf % 16 = 0
      · rw [if_pos h2]
        refine ⟨_, rfl, by omega, by omega, by omega, Or.inr ⟨ha, by omega, Or.inl ⟨h2, by omega⟩⟩⟩
      · rw [if_neg h2]
        by_cases h3 : 0x400000 > p.PAGE_SIZE
        · rw [if_pos h3]
          have hm : p.PAGE_SIZE % 2 ^ 32 = p.PAGE_SIZE := Nat.mod_eq_of_lt (by omega)
          rw [hm]
          exact ⟨p.PAGE_SIZE, rfl, by omega, by omega, by omega,
            Or.inr ⟨ha, by omega, Or.inr ⟨h2, by omega⟩⟩⟩
        · rw [if_neg h3]
          exact ⟨0x400000, rfl, by omega, by omega, by omega,
            Or.inr ⟨ha, by omega, Or.inr ⟨h2, by omega⟩⟩⟩
  · rw [if_neg hbig]
    by_cases h1 : op.addr_val % 16 ≠ 0 ∨ op.data_nbytes < 16
    · rw [if_pos h1]
      exact ⟨1, rfl, by omega, by omega, by omega, Or.inl rfl⟩
    · rw [if_neg h1]
      have ha : op.addr_val % 16 = 0 := by omega
      by_cases h2 : op.data_buf % 16 = 0
      · rw [if_pos h2]
        refine ⟨_, rfl, by omega, by omega, by omega, Or.inr ⟨ha, by omega, Or.inl ⟨h2, by omega⟩⟩⟩
      · rw [if_neg h2]
        by_cases h3 : op.data_nbytes > p.PAGE_SIZE
        · rw [if_pos h3]
          have hm : p.PAGE_SIZE % 2 ^ 32 = p.PAGE_SIZE := Nat.mod_eq_of_lt (by omega)
          rw [hm]
          exact ⟨p.PAGE_SIZE, rfl, by omega, by omega, by omega,
            Or.inr ⟨ha, by omega, Or.inr ⟨h2, by omega⟩⟩⟩
        · rw [if_neg h3]
          refine ⟨op.data_nbytes, ?_, by omega, by omega, by omega,
            Or.inr ⟨ha, by omega, Or.inr ⟨h2, by omega⟩⟩⟩
          cases op
          rfl


theorem bounce_rdlen_aligned (length : Nat) : mtk_nor_read_bounce_rdlen length % 16 = 0 := by
  unfold mtk_nor_read_bounce_rdlen
  simp only [MTK_NOR_DMA_ALIGN]
  split
  · omega
  · omega

/-- C29: for every read op with a 3- or 4-byte address that matches
`mtk_nor_match_read` and has a non-zero data length,
`mtk_nor_adjust_op_size` returns 0 and leaves a length of at most 0x400000
that is 1, or else the flash address is 16-byte aligned, the length is at
least 16, and either the buffer is 16-byte aligned and the length is a
multiple of 16, or the buffer is not aligned and the length is at most
`MTK_NOR_BOUNCE_BUF_SIZE`; and every length with which `mtk_nor_exec_op`, run
on the adjusted op, has `mtk_nor_read_dma` called, directly or through the
rounding of `mtk_nor_read_bounce`, is a multiple of 16. -/
theorem read_sizes_aligned (p : Platform) (op : spi_mem_op) (wbuf_ret : Int)
    (haddr : op.addr_nbytes = 3 ∨ op.addr_nbytes = 4)
    (hdir : op.data_dir = .SPI_MEM_DATA_IN) (hmatch : mtk_nor_match_read op = true)
    (hlen : op.data_nbytes ≠ 0) (hpage : 16 ≤ p.PAGE_SIZE) :
    (mtk_nor_adjust_op_size p op).1 = 0 ∧
    (mtk_nor_adjust_op_size p op).2.data_nbytes ≤ 0x400000 ∧
    ((mtk_nor_adjust_op_size p op).2.data_nbytes = 1 ∨
      (op.addr_val % 16 = 0 ∧ 16 ≤ (mtk_nor_adjust_op_size p op).2.data_nbytes ∧
        ((op.data_buf % 16 = 0 ∧ (mtk_nor_adjust_op_size p op).2.data_nbytes % 16 = 0) ∨
         (op.data_buf % 16 ≠ 0 ∧
          (mtk_nor_adjust_op_size p op).2.data_nbytes ≤ MTK_NOR_BOUNCE_BUF_SIZE p)))) ∧
    (∀ len, (mtk_nor_exec_op wbuf_ret (mtk_nor_adjust_op_size p op).2).dma_length = some len →
      len % 16 = 0) := by
  obtain ⟨N, hN, h1, h2, _, h3⟩ := adjust_read p op haddr hdir hmatch hlen hpage
  rw [hN]
  refine ⟨rfl, h1, h3, ?_⟩
  intro len hl
  dsimp only at hl
  unfold mtk_nor_exec_op at hl
  dsimp only at hl
  have hg : ¬ (N = 0 ∨ (op.addr_nbytes ≠ 3 ∧ op.addr_nbytes ≠ 4)) := by
    rintro (h | h)
    · exact h2 h
    · omega
  have hout : ¬ op.data_dir = .SPI_MEM_DATA_OUT := by rw [hdir]; decide
  rw [if_neg hg, if_neg hout, match_read_nbytes, if_pos ⟨hdir, hmatch⟩] at hl
  by_cases hw : wbuf_ret < 0
  · rw [if_pos hw] at hl
    cases hl
  · rw [if_neg hw] at hl
    by_cases hone : N = 1
    · rw [if_pos hone] at hl
      cases hl
    · rw [if_neg hone] at hl
      simp only [MTK_NOR_DMA_ALIGN] at hl
      by_cases hb : op.data_buf % 16 ≠ 0
      · rw [if_pos hb] at hl
        injection hl with hl
        rw [← hl]
        exact bounce_rdlen_aligned N
      · rw [if_neg hb] at hl
        injection hl with hl
        rw [← hl]
        rcases h3 with h | ⟨_, _, ⟨_, h⟩ | ⟨h, _⟩⟩
        · exact absurd h hone
        · exact h
        · exact absurd h hb

/-- C29 on a fast read of 100 bytes at the flash address 0x1000 into an
aligned buffer: the length becomes 96. -/
theorem read_sizes_aligned_witness :
    (mtk_nor_adjust_op_size platform64
        ⟨1, 1, 0x0b, 3, 1, 0x1000, 1, 1, 1, .SPI_MEM_DATA_IN, 100, 0x8000⟩).2.data_nbytes ≤
      0x400000 ∧
    (mtk_nor_exec_op 0 (mtk_nor_adjust_op_size platform64
        ⟨1, 1, 0x0b, 3, 1, 0x1000, 1, 1, 1, .SPI_MEM_DATA_IN, 100, 0x8000⟩).2).dma_length =
      some 96 :=
  ⟨(read_sizes_aligned platform64
      ⟨1, 1, 0x0b, 3, 1, 0x1000, 1, 1, 1, .SPI_MEM_DATA_IN, 100, 0x8000⟩ 0
      (by decide) rfl (by decide) (by decide) (by decide)).2.1, by decide⟩

/-! ## Theorems: progress of the size adjustment -/

theorem adjust_returns_zero (p : Platform) (op : spi_mem_op) :
    (mtk_nor_adjust_op_size p op).1 = 0 := by
  unfold mtk_nor_adjust_op_size
  dsimp only
  split_ifs <;> rfl

theorem adjust_not_larger (p : Platform) (op : spi_mem_op) :
    (mtk_nor_adjust_op_size p op).2.data_nbytes ≤ op.data_nbytes := by
  unfold mtk_nor_adjust_op_size MTK_NOR_BOUNCE_BUF_SIZE MTK_NOR_PP_SIZE MTK_NOR_DMA_ALIGN
  dsimp only
  split_ifs <;> dsimp only at * <;> omega

/-- The value `len` of `mtk_nor_adjust_op_size` when the sum of the lengths,
as `mtk_nor_supports_op` computes it, is below the limit. -/
theorem adjust_len (p : Platform) (op : spi_mem_op) (hbits : 3 ≤ p.size_t_bits)
    (hsum : (op.cmd_nbytes + op.addr_nbytes + op.dummy_nbytes) % 2 ^ p.size_t_bits <
      MTK_NOR_PRG_MAX_SIZE) :
    Int.toNat
      (((MTK_NOR_PRG_MAX_SIZE : Int) - op.cmd_nbytes - op.addr_nbytes - op.dummy_nbytes) %
        2 ^ p.size_t_bits) =
      MTK_NOR_PRG_MAX_SIZE -
        (op.cmd_nbytes + op.addr_nbytes + op.dummy_nbytes) % 2 ^ p.size_t_bits := by
  have hM : 8 ≤ 2 ^ p.size_t_bits := by
    calc 8 = 2 ^ 3 := by norm_num
      _ ≤ 2 ^ p.size_t_bits := Nat.pow_le_pow_right (by norm_num) hbits
  generalize hMd : 2 ^ p.size_t_bits = M at hM hsum ⊢
  have hMi : ((2 : Int) ^ p.size_t_bits) = (M : Int) := by
    rw [← hMd]; push_cast; rfl
  rw [hMi]
  unfold MTK_NOR_PRG_MAX_SIZE at hsum ⊢
  generalize hS : op.cmd_nbytes + op.addr_nbytes + op.dummy_nbytes = S at hsum ⊢
  have hS2 : ((6 : Nat) : Int) - op.cmd_nbytes - op.addr_nbytes - op.dummy_nbytes =
      (6 : Int) - (S : Int) := by
    rw [← hS]; push_cast; ring
  rw [hS2]
  have hdm := Nat.div_add_mod S M
  have h1 : (6 : Int) - (S : Int) = ((6 : Int) - ((S % M : Nat) : Int)) + (M : Int) * (-((S / M : Nat) : Int)) := by
    have : (S : Int) = (M : Int) * ((S / M : Nat) : Int) + ((S % M : Nat) : Int) := by
      exact_mod_cast hdm.symm
    linarith
  rw [h1, Int.add_mul_emod_self_left, Int.emod_eq_of_lt (by omega) (by omega)]
  omega

/-- With the length checks of `mtk_nor_supports_op` passed, a transfer with
data keeps data after the adjustment. -/
theorem adjust_positive (p : Platform) (op : spi_mem_op) (hbits : 3 ≤ p.size_t_bits)
    (hpage : 0 < p.PAGE_SIZE % 2 ^ 32)
    (hsum : (op.cmd_nbytes + op.addr_nbytes + op.dummy_nbytes) % 2 ^ p.size_t_bits <
      MTK_NOR_PRG_MAX_SIZE)
    (hdata : 0 < op.data_nbytes) :
    0 < (mtk_nor_adjust_op_size p op).2.data_nbytes := by
  have hlen := adjust_len p op hbits hsum
  unfold mtk_nor_adjust_op_size
  dsimp only
  rw [hlen]
  unfold MTK_NOR_BOUNCE_BUF_SIZE MTK_NOR_PP_SIZE MTK_NOR_DMA_ALIGN MTK_NOR_PRG_MAX_SIZE at *
  split_ifs <;> dsimp only at * <;> omega

/-- An op that `mtk_nor_supports_op` accepts has passed its length checks. -/
theorem supports_op_len (dflt : spi_mem_op → Bool) (p : Platform) (op : spi_mem_op)
    (h : mtk_nor_supports_op dflt p op = true) :
    (op.cmd_nbytes + op.addr_nbytes + op.dummy_nbytes) % 2 ^ p.size_t_bits ≤
      MTK_NOR_PRG_MAX_SIZE ∧
    (op.data_nbytes ≠ 0 →
      (op.cmd_nbytes + op.addr_nbytes + op.dummy_nbytes) % 2 ^ p.size_t_bits <
        MTK_NOR_PRG_MAX_SIZE) := by
  unfold mtk_nor_supports_op at h
  dsimp only at h
  split_ifs at h with h1 h2 h3 h4
  rw [not_or, not_and_or] at h4
  constructor
  · omega
  · intro hd
    rcases h4.2 with h5 | h5
    · exact absurd hd h5
    · omega

/-- C40: `mtk_nor_adjust_op_size` always returns 0 and never increases
`data.nbytes`; and for an op whose command, address and dummy bytes sum to
less than `MTK_NOR_PRG_MAX_SIZE` as `mtk_nor_supports_op` computes the sum
(which that function requires of an op with data) and with `data.nbytes > 0`,
`data.nbytes` is still positive after the call. In particular this holds for
every op with data that `mtk_nor_supports_op` accepts. `PAGE_SIZE`, a constant
of a header outside the sources, is taken to be a non-zero `unsigned int`
value, and `size_t` to have three bits or more. -/
theorem adjust_op_size_progress (p : Platform) (hbits : 3 ≤ p.size_t_bits)
    (hpage : 0 < p.PAGE_SIZE % 2 ^ 32) :
    (∀ op : spi_mem_op, (mtk_nor_adjust_op_size p op).1 = 0 ∧
      (mtk_nor_adjust_op_size p op).2.data_nbytes ≤ op.data_nbytes) ∧
    (∀ op : spi_mem_op,
      (op.cmd_nbytes + op.addr_nbytes + op.dummy_nbytes) % 2 ^ p.size_t_bits <
        MTK_NOR_PRG_MAX_SIZE →
      0 < op.data_nbytes → 0 < (mtk_nor_adjust_op_size p op).2.data_nbytes) ∧
    (∀ (dflt : spi_mem_op → Bool) (op : spi_mem_op),
      mtk_nor_supports_op dflt p op = true → 0 < op.data_nbytes →
      0 < (mtk_nor_adjust_op_size p op).2.data_nbytes) := by
  refine ⟨fun op => ⟨adjust_returns_zero p op, adjust_not_larger p op⟩, ?_, ?_⟩
  · intro op hsum hdata
    exact adjust_positive p op hbits hpage hsum hdata
  · intro dflt op hs hdata
    exact adjust_positive p op hbits hpage
      ((supports_op_len dflt p op hs).2 (by omega)) hdata

/-- C40 on a 64-bit build with pages of 4096 bytes: a read of 5000 bytes to
an unaligned buffer is cut to one page. -/
theorem adjust_op_size_progress_witness :
    (3 ≤ platform64.size_t_bits ∧ 0 < platform64.PAGE_SIZE % 2 ^ 32) ∧
    0 < (mtk_nor_adjust_op_size platform64
      ⟨1, 1, 0x03, 3, 1, 0, 0, 0, 1, .SPI_MEM_DATA_IN, 5000, 1⟩).2.data_nbytes :=
  ⟨by decide,
   (adjust_op_size_progress platform64 (by decide) (by decide)).2.1
     ⟨1, 1, 0x03, 3, 1, 0, 0, 0, 1, .SPI_MEM_DATA_IN, 5000, 1⟩ (by decide) (by decide)⟩

end MtkNor
